import Mathlib

/-!
# Snowball decision primitive and DAG bootstrapper

A shallow embedding of the consensus core of the node:

* `snowball`: the `Flat` multi-choice snowball instance (`snow/consensus/snowball/flat.go`);
* `bootstrap`: the avalanche bootstrapper (`snow/engine/avalanche/bootstrap/bootstrapper.go`);
* `chains`: the two linearization shims (`chains/linearizable_vm.go`);
* `beacon`: the beacon set behind the test `utils/beacon/set_test.go`.

Go methods that mutate their receiver become functions returning the new
receiver next to the Go result.  Identifiers are natural numbers, with `0`
standing for the all-zero identifier.  Logging and metrics are not modelled.
-/

set_option maxRecDepth 100000

/-- Identifier of a vertex, a transaction or a snowball choice (`ids.ID`). -/
abbrev ID := Nat

/-- Identifier of a peer (`ids.NodeID`). -/
abbrev NodeID := Nat

namespace snowball

/-- Modelled from the spec: `bag.Bag[ids.ID]` (package `utils/bag`) is not part of
the sources at hand.  A bag of votes is a multiset of choices, kept as the list of
the votes cast. -/
abbrev Bag := List ID

/-- Modelled from the spec: `Bag.Mode`, "`(mode, count) = argmax(votes)` by vote
count, ties broken by lexicographic choice id".  The empty bag yields the zero
identifier with count `0`. -/
def Bag.Mode (votes : Bag) : ID × Nat :=
  votes.foldl
    (fun acc x =>
      if acc.2 < votes.count x ∨ (votes.count x = acc.2 ∧ x < acc.1) then (x, votes.count x)
      else acc)
    (0, 0)

/-- Modelled from the spec: the `Parameters` of a snowball instance, sample size `K`,
quorum `Alpha` and the two confidence thresholds. -/
structure Parameters where
  K : Nat
  Alpha : Nat
  BetaVirtuous : Nat
  BetaRogue : Nat
deriving DecidableEq, Repr

/-- Modelled from the spec: the embedded `nnarySnowball` state is not part of the
sources at hand.  Section 3 gives `preference`, `confidence : u32`, `finalized` and
the two thresholds; `rogue` records whether the slot is contested. -/
structure nnarySnowball where
  betaVirtuous : Nat
  betaRogue : Nat
  rogue : Bool
  preference : ID
  confidence : Nat
  finalized : Bool
deriving DecidableEq, Repr

/-- Modelled from the spec: `nnarySnowball.Initialize`, "constructs with
`preference=initialChoice`, `confidence=0`, `finalized=false`"; the slot starts
uncontested. -/
def nnarySnowball.Initialize (betaVirtuous betaRogue : Nat) (choice : ID) : nnarySnowball :=
  { betaVirtuous := betaVirtuous, betaRogue := betaRogue, rogue := false,
    preference := choice, confidence := 0, finalized := false }

/-- Modelled from the spec: `record_successful_poll(mode)`.  "If `mode == preference`:
`confidence += 1`; else: `preference ← mode`, `confidence ← 1`.  If `confidence ≥
β_virtuous` (or `β_rogue` for contested slots): `finalized ← true`."  The counter is a
`u32`.  Section 3 adds that `finalized`, "once true", locks the preference, so a
finalized instance is left as it is. -/
def nnarySnowball.RecordSuccessfulPoll (sb : nnarySnowball) (choice : ID) : nnarySnowball :=
  if sb.finalized then sb
  else
    let sb1 : nnarySnowball :=
      if choice = sb.preference then { sb with confidence := (sb.confidence + 1) % 2 ^ 32 }
      else { sb with preference := choice, confidence := 1 }
    if (if sb1.rogue then sb1.betaRogue else sb1.betaVirtuous) ≤ sb1.confidence then
      { sb1 with finalized := true }
    else sb1

/-- Modelled from the spec: `record_unsuccessful_poll`, "confidence ← 0". -/
def nnarySnowball.RecordUnsuccessfulPoll (sb : nnarySnowball) : nnarySnowball :=
  { sb with confidence := 0 }

/-- Flat is a naive implementation of a multi-choice snowball instance: it wraps the
n-nary snowball logic and keeps the parameters. -/
structure Flat where
  nnarySnowball : nnarySnowball
  params : Parameters
deriving DecidableEq, Repr

/-- `NewFlat(params, choice)`. -/
def NewFlat (params : Parameters) (choice : ID) : Flat :=
  { params := params,
    nnarySnowball := nnarySnowball.Initialize params.BetaVirtuous params.BetaRogue choice }

/-- `Flat.RecordSuccessfulPoll`, promoted from the embedded snowball. -/
def Flat.RecordSuccessfulPoll (f : Flat) (choice : ID) : Flat :=
  { f with nnarySnowball := f.nnarySnowball.RecordSuccessfulPoll choice }

/-- `Flat.RecordUnsuccessfulPoll`, promoted from the embedded snowball. -/
def Flat.RecordUnsuccessfulPoll (f : Flat) : Flat :=
  { f with nnarySnowball := f.nnarySnowball.RecordUnsuccessfulPoll }

/-- `Flat.Preference`, promoted from the embedded snowball. -/
def Flat.Preference (f : Flat) : ID := f.nnarySnowball.preference

/-- `Flat.Finalized`, promoted from the embedded snowball. -/
def Flat.Finalized (f : Flat) : Bool := f.nnarySnowball.finalized

/-- `Flat.RecordPoll(votes)`: the new instance and the returned boolean. -/
def Flat.RecordPoll (f : Flat) (votes : Bag) : Flat × Bool :=
  if f.params.Alpha ≤ (Bag.Mode votes).2 then
    (f.RecordSuccessfulPoll (Bag.Mode votes).1, true)
  else
    (f.RecordUnsuccessfulPoll, false)

/-- The instance after a sequence of `RecordPoll` calls, oldest first. -/
def Flat.RecordPolls (f : Flat) (polls : List Bag) : Flat :=
  polls.foldl (fun g votes => (g.RecordPoll votes).1) f

/-- The parameters of the finalization scenario of the spec: `K = 20`, `α = 15`,
`β_virtuous = 15`; the spec gives no `β_rogue`, a greater threshold is taken. -/
def scenarioParams : Parameters :=
  { K := 20, Alpha := 15, BetaVirtuous := 15, BetaRogue := 20 }

/-- The bag with `n` votes for `x` and `m` votes for `y`. -/
def votesFor (x : ID) (n : Nat) (y : ID) (m : Nat) : Bag :=
  List.replicate n x ++ List.replicate m y

end snowball

namespace bootstrap

/-! ### Constants -/

/-- Distance between two stripes of cached heights. -/
def stripeDistance : Nat := 2000

/-- Number of consecutive heights in a stripe. -/
def stripeWidth : Nat := 5

/-- Size of the processed cache. -/
def cacheSize : Nat := 100000

/-- The delay `bootstrappingDelay`, in seconds. -/
def bootstrappingDelay : Nat := 10

/-- Modelled from the spec: the constant `common.MaxOutstandingGetAncestorsRequests`
is declared outside the sources at hand; the spec gives `MaxOutstanding = 50`. -/
def MaxOutstandingGetAncestorsRequests : Nat := 50

/-- The constant `math.MaxInt32`. -/
def MaxInt32 : Nat := 2147483647

/-! ### Errors and observable effects -/

/-- The errors a handler can return.  `runtimePanic` stands for a Go run-time panic
(index or slice bound out of range), which is not a returned error but ends the handler
all the same. -/
inductive Err where
  | errUnexpectedTimeout
  | noValidators (vtxID : ID)
  | previouslyRejected (vtxID : ID)
  | vertexUnavailable (vtxID : ID)
  | external (code : Nat)
  | runtimePanic
deriving DecidableEq, Repr

/-- Calls made to the collaborators that have no return value of interest, in the order
they are made. -/
inductive Event where
  | SendGetAncestors (nodeID : NodeID) (requestID : Nat) (vtxID : ID)
  | TxBlockedCommit
  | VtxBlockedCommit
  | TxBlockedExecuteAll
  | VtxBlockedExecuteAll
  | Restart (reset : Bool)
  | Startup
  | OnFinished (lastReqID : Nat)
  | SubnetBootstrapped
  | RegisterTimeout (seconds : Nat)
  | CtxSetState
  | VMSetState
  | VMConnected (nodeID : NodeID)
  | TrackerConnected (nodeID : NodeID)
  | VMDisconnected (nodeID : NodeID)
  | TrackerDisconnected (nodeID : NodeID)
  | VMShutdown
deriving DecidableEq, Repr

/-! ### Vertices and the vertex manager -/

/-- Modelled from the spec: `choices.Status`, the status of a vertex,
`status ∈ {Unknown, Processing, Accepted, Rejected}`. -/
inductive Status where
  | Unknown
  | Processing
  | Accepted
  | Rejected
deriving DecidableEq, Repr

/-- Modelled from the spec: a vertex of the DAG, with the attributes of section 3.
Vertices are referred to by their id; their attributes live in the manager. -/
structure Vertex where
  id : ID
  parents : List ID
  height : Nat
  txs : List ID
  status : Status
deriving DecidableEq, Repr

/-- Modelled from the spec: `vertex.Manager`, the vertex store and parser, is an
interface implemented outside the sources at hand.  The store is the list of the
persisted vertices, most recently persisted first. -/
structure Manager where
  vtxs : List Vertex
deriving DecidableEq, Repr

/-- Modelled from the spec: the stored record of a vertex id in the `Manager`, if
any. -/
def Manager.lookup (m : Manager) (vtxID : ID) : Option Vertex :=
  m.vtxs.find? (fun v => v.id == vtxID)

/-- Modelled from the spec: the result of `Vertex.Status()` on the vertex with the
given id; a vertex that is not stored is Unknown. -/
def Manager.Status (m : Manager) (vtxID : ID) : Status :=
  match m.lookup vtxID with
  | some v => v.status
  | none => Status.Unknown

/-- Modelled from the spec: `GetVtx(id) -> Vertex | NotFound`. -/
def Manager.GetVtx (m : Manager) (vtxID : ID) : Option Vertex :=
  match m.lookup vtxID with
  | some v => if v.status = Status.Unknown then none else some v
  | none => none

/-- Modelled from the spec: the result of `Vertex.Parents()` on the vertex with the
given id; `none` is an error, returned for a vertex that is not stored. -/
def Manager.Parents (m : Manager) (vtxID : ID) : Option (List ID) :=
  (m.GetVtx vtxID).map (fun v => v.parents)

/-- Modelled from the spec: `ParseVtx(bytes) -> Vertex | ParseError`, "persisting a
parsed vertex is a side effect of `ParseVtx`".  The parser itself is a parameter; a
vertex that was unknown is persisted with status Processing.  Returns the new store
and the id of the parsed vertex. -/
def Manager.ParseVtx (parser : List Nat → Option Vertex) (m : Manager) (vtxBytes : List Nat) :
    Manager × Option ID :=
  match parser vtxBytes with
  | none => (m, none)
  | some v =>
    if m.Status v.id = Status.Unknown then
      ({ vtxs := { v with status := Status.Processing } :: m.vtxs }, some v.id)
    else (m, some v.id)

/-- Modelled from the spec: the `Manager` after the jobs of the vertices with the given
ids were executed, which accepts these vertices. -/
def Manager.Accept (m : Manager) (vtxIDs : List ID) : Manager :=
  { vtxs := m.vtxs.map (fun v => if v.id ∈ vtxIDs then { v with status := Status.Accepted } else v) }

/-! ### Sets of ids -/

/-- Modelled from the spec: `ids.Set`, a set of ids, kept as a list. -/
abbrev IDSet := List ID

/-- Modelled from the spec: `ids.Set.Add` for one id. -/
def IDSet.Add (s : IDSet) (x : ID) : IDSet := if x ∈ s then s else s ++ [x]

/-- Modelled from the spec: `ids.Set.Add` for several ids. -/
def IDSet.AddAll (s : IDSet) (xs : List ID) : IDSet := xs.foldl IDSet.Add s

/-- Modelled from the spec: `ids.Set.Remove`. -/
def IDSet.Remove (s : IDSet) (x : ID) : IDSet := s.filter (fun y => y != x)

/-- Modelled from the spec: `ids.Set.Contains`. -/
def IDSet.Contains (s : IDSet) (x : ID) : Bool := decide (x ∈ s)

/-- Modelled from the spec: `ids.Set.Len`. -/
def IDSet.Len (s : IDSet) : Nat := s.length

/-! ### Outstanding requests -/

/-- Modelled from the spec: `common.Requests`, the outstanding-requests table of
section 4.3: the in-flight requests as triples of peer, request id and vertex id. -/
structure Requests where
  reqs : List (NodeID × Nat × ID)
deriving DecidableEq, Repr

/-- Modelled from the spec: `len()`. -/
def Requests.Len (r : Requests) : Nat := r.reqs.length

/-- Modelled from the spec: `contains(vtxID)`. -/
def Requests.Contains (r : Requests) (vtxID : ID) : Bool :=
  r.reqs.any (fun e => e.2.2 == vtxID)

/-- Modelled from the spec: whether `(peer, reqID)` is in the table of
`common.Requests`. -/
def Requests.Has (r : Requests) (nodeID : NodeID) (requestID : Nat) : Bool :=
  r.reqs.any (fun e => e.1 == nodeID && e.2.1 == requestID)

/-- Modelled from the spec: `add(peer, reqID, vtxID)` "fails with `DuplicateRequest`
if `(peer,reqID)` exists or if `vtxID` already has an in-flight entry"; a failed add
leaves the table as it is. -/
def Requests.Add (r : Requests) (nodeID : NodeID) (requestID : Nat) (vtxID : ID) : Requests :=
  if r.Has nodeID requestID || r.Contains vtxID then r
  else { reqs := r.reqs ++ [(nodeID, requestID, vtxID)] }

/-- Modelled from the spec: `remove(peer, reqID) -> (VertexID, bool)`, "atomic pop;
returns `(_, false)` if unknown". -/
def Requests.Remove (r : Requests) (nodeID : NodeID) (requestID : Nat) : Requests × ID × Bool :=
  match r.reqs.find? (fun e => e.1 == nodeID && e.2.1 == requestID) with
  | some e => ({ reqs := r.reqs.erase e }, e.2.2, true)
  | none => (r, 0, false)

/-! ### Processed cache -/

/-- Modelled from the spec: `cache.LRU`, the bounded LRU of vertex ids, most recently
used first. -/
structure LRU where
  Size : Nat
  entries : List ID
deriving DecidableEq, Repr

/-- Modelled from the spec: `Get`, a hit makes the entry the most recently used. -/
def LRU.Get (c : LRU) (key : ID) : LRU × Bool :=
  if key ∈ c.entries then
    ({ c with entries := key :: c.entries.filter (fun y => y != key) }, true)
  else (c, false)

/-- Modelled from the spec: `Put`, the least recently used entries beyond the size are
evicted. -/
def LRU.Put (c : LRU) (key : ID) : LRU :=
  { c with entries := (key :: c.entries.filter (fun y => y != key)).take c.Size }

/-- Modelled from the spec: `Flush`. -/
def LRU.Flush (c : LRU) : LRU := { c with entries := [] }

/-! ### Blocked-job queues -/

/-- Modelled from the spec: `queue.Jobs`, the durable deduplicating queue of section 3,
as the list of the ids of the pending jobs, oldest first. -/
structure Jobs where
  jobs : List ID
deriving DecidableEq, Repr

/-- Modelled from the spec: `Push`, with the flag that tells whether the job was new. -/
def Jobs.Push (q : Jobs) (jobID : ID) : Jobs × Bool :=
  if jobID ∈ q.jobs then (q, false) else ({ jobs := q.jobs ++ [jobID] }, true)

/-- Modelled from the spec: `ExecuteAll`.  The environment decides how many of the
pending jobs run (a halt or a failure stops the run early); returns the queue without
the jobs that ran, and their ids. -/
def Jobs.ExecuteAll (q : Jobs) (n : Nat) : Jobs × List ID :=
  ({ jobs := q.jobs.drop n }, q.jobs.take n)

/-- Modelled from the spec: `queue.JobsWithMissing`, the queue together with its set of
`MissingID` markers. -/
structure JobsWithMissing where
  jobs : List ID
  missing : IDSet
deriving DecidableEq, Repr

/-- Modelled from the spec: `MissingIDs`. -/
def JobsWithMissing.MissingIDs (q : JobsWithMissing) : List ID := q.missing

/-- Modelled from the spec: `AddMissingID`. -/
def JobsWithMissing.AddMissingID (q : JobsWithMissing) (vtxID : ID) : JobsWithMissing :=
  { q with missing := IDSet.Add q.missing vtxID }

/-- Modelled from the spec: `RemoveMissingID`. -/
def JobsWithMissing.RemoveMissingID (q : JobsWithMissing) (vtxID : ID) : JobsWithMissing :=
  { q with missing := IDSet.Remove q.missing vtxID }

/-- Modelled from the spec: `Push`, with the flag that tells whether the job was new. -/
def JobsWithMissing.Push (q : JobsWithMissing) (jobID : ID) : JobsWithMissing × Bool :=
  if jobID ∈ q.jobs then (q, false) else ({ q with jobs := q.jobs ++ [jobID] }, true)

/-- Modelled from the spec: `ExecuteAll`, as for `Jobs.ExecuteAll`. -/
def JobsWithMissing.ExecuteAll (q : JobsWithMissing) (n : Nat) : JobsWithMissing × List ID :=
  ({ q with jobs := q.jobs.drop n }, q.jobs.take n)

/-- Modelled from the spec: `Clear`. -/
def JobsWithMissing.Clear (q : JobsWithMissing) : JobsWithMissing :=
  { q with jobs := [], missing := [] }

/-! ### Vertex heap -/

/-- Modelled from the spec: the order of the vertex heap of section 4.2, "ordered by
`(–height, id)`", whether `a` pops before `b`.  A vertex of unknown status has no
height; it pops before the others ("Get an unknown vertex or one furthest down the
DAG"). -/
def heapBefore (m : Manager) (a b : ID) : Bool :=
  match m.GetVtx a, m.GetVtx b with
  | none, none => decide (a < b)
  | none, some _ => true
  | some _, none => false
  | some va, some vb => decide (vb.height < va.height ∨ (va.height = vb.height ∧ a < b))

/-- Modelled from the spec: `Heap.Push`, "idempotent on `id`". -/
def heapPush (h : List ID) (vtxID : ID) : List ID := IDSet.Add h vtxID

/-- Modelled from the spec: `Heap.Pop`, removes and returns the first entry in the
order of the heap. -/
def heapPop (m : Manager) (h : List ID) : Option (ID × List ID) :=
  match h with
  | [] => none
  | x :: xs =>
    let best := xs.foldl (fun acc y => if heapBefore m y acc then y else acc) x
    some (best, IDSet.Remove h best)

/-! ### The environment and the state of the bootstrapper -/

/-- The collaborators of the bootstrapper whose answers it cannot influence.  Each
answer but the parser's is indexed by the number of answers given so far (`tick`), so
that an environment describes any sequence of answers. -/
structure Env where
  /-- The parser behind `Manager.ParseVtx`. -/
  ParseVtx : List Nat → Option Vertex
  /-- Which element of the set `CappedList(1)` yields (the order of a Go map). -/
  pick : Nat → Nat
  /-- `Beacons.Sample(1)`: the sampled validator, or `none` for an error. -/
  Sample : Nat → Option NodeID
  /-- The probe `Halted()`. -/
  Halted : Nat → Bool
  /-- The probe `IsBootstrapped()` of the chain. -/
  IsBootstrapped : Nat → Bool
  /-- The probe `Subnet.IsBootstrapped()`. -/
  SubnetIsBootstrapped : Nat → Bool
  /-- The probe `StartupTracker.ShouldStart()`. -/
  ShouldStart : Nat → Bool
  /-- `ExecuteAll`: how many pending jobs run, and the error returned. -/
  ExecuteAll : Nat → Nat × Option Err
  /-- The error, if any, of a write to a blocked queue (`Push`, `Commit`, `Clear`). -/
  dbErr : Nat → Option Err
  /-- The error, if any, of a call to the VM or to the startup tracker. -/
  vmErr : Nat → Option Err
  /-- The result of `Startup()`. -/
  Startup : Nat → Option Err
  /-- The result of `Restart(reset)`. -/
  Restart : Nat → Option Err
  /-- The result of the callback `OnFinished(lastReqID)`. -/
  OnFinished : Nat → Nat → Option Err

/-- The part of `Config` the handlers use. -/
structure Config where
  AncestorsMaxContainersReceived : Int
  RetryBootstrap : Bool
  RequestID : Nat
  Manager : Manager
  VtxBlocked : JobsWithMissing
  TxBlocked : Jobs
deriving DecidableEq, Repr

/-- The state of the bootstrapper: the fields of `bootstrapper` and of the embedded
`Config` and `Fetcher` that the handlers read or write, the number `tick` of answers
the environment has given, and the `trace` of the calls made to the collaborators. -/
structure bootstrapper where
  AncestorsMaxContainersReceived : Int
  RetryBootstrap : Bool
  RequestID : Nat
  Manager : Manager
  VtxBlocked : JobsWithMissing
  TxBlocked : Jobs
  OutstandingRequests : Requests
  started : Bool
  needToFetch : IDSet
  processedCache : LRU
  executedStateTransitions : Nat
  awaitingTimeout : Bool
  tick : Nat
  trace : List Event
deriving DecidableEq, Repr

/-- `New(config, onFinished)`, on the path where registering the metrics and setting
the parsers succeed. -/
def New (config : Config) : bootstrapper :=
  { AncestorsMaxContainersReceived := config.AncestorsMaxContainersReceived
    RetryBootstrap := config.RetryBootstrap
    RequestID := config.RequestID
    Manager := config.Manager
    VtxBlocked := config.VtxBlocked
    TxBlocked := config.TxBlocked
    OutstandingRequests := { reqs := [] }
    started := false
    needToFetch := []
    processedCache := { Size := cacheSize, entries := [] }
    executedStateTransitions := MaxInt32
    awaitingTimeout := false
    tick := 0
    trace := [] }

/-- The state after the environment gave one more answer. -/
def bootstrapper.next (b : bootstrapper) : bootstrapper := { b with tick := b.tick + 1 }

/-- The state after a call to a collaborator was recorded. -/
def bootstrapper.emit (b : bootstrapper) (e : Event) : bootstrapper :=
  { b with trace := b.trace ++ [e] }

/-- Modelled from the spec: `Restart(reset)` of the embedded `common.Bootstrapper` is
outside the sources at hand; the spec names it only "restart".  The call is recorded
and its result is the environment's. -/
def Restart (env : Env) (b : bootstrapper) (reset : Bool) : bootstrapper × Option Err :=
  ((b.emit (Event.Restart reset)).next, env.Restart b.tick)

/-- Modelled from the spec: `Startup()` of the embedded `common.Bootstrapper` is
outside the sources at hand.  The call is recorded and its result is the
environment's. -/
def Startup (env : Env) (b : bootstrapper) : bootstrapper × Option Err :=
  ((b.emit Event.Startup).next, env.Startup b.tick)

/-- The callback `OnFinished(lastReqID)` given to `New`: the call is recorded and its
result is the environment's. -/
def OnFinished (env : Env) (b : bootstrapper) (lastReqID : Nat) : bootstrapper × Option Err :=
  ((b.emit (Event.OnFinished lastReqID)).next, env.OnFinished b.tick lastReqID)

/-! ### checkFinish and fetch -/

/-- The end of `checkFinish` (from "Notify the subnet that this chain is synced" on):
the subnet is notified and the processed cache flushed; then either a timeout is
registered or `OnFinished` is called. -/
def checkFinishNotify (env : Env) (b : bootstrapper) : bootstrapper × Option Err :=
  let b := b.emit Event.SubnetBootstrapped
  let b := { b with processedCache := b.processedCache.Flush }
  let subnetBootstrapped := env.SubnetIsBootstrapped b.tick
  let b := b.next
  if !subnetBootstrapped then
    let b := b.emit (Event.RegisterTimeout bootstrappingDelay)
    ({ b with awaitingTimeout := true }, none)
  else
    OnFinished env b b.RequestID

/-- The part of `checkFinish` that follows the execution of the vertices: the executed
count is stored, and bootstrapping restarts when the count is positive and less than
half of the previous one and `RetryBootstrap` is set. -/
def checkFinishRetry (env : Env) (b : bootstrapper) (executedVts : Nat) :
    bootstrapper × Option Err :=
  let previouslyExecuted := b.executedStateTransitions
  let b := { b with executedStateTransitions := executedVts }
  if decide (executedVts > 0) && decide (executedVts < previouslyExecuted / 2)
      && b.RetryBootstrap then
    Restart env b true
  else
    checkFinishNotify env b

/-- The part of `checkFinish` that executes the blocked vertices
(`VtxBlocked.ExecuteAll`) and goes on unless that failed or the engine was halted. -/
def checkFinishVertices (env : Env) (b : bootstrapper) : bootstrapper × Option Err :=
  let vtxRun := env.ExecuteAll b.tick
  let executed := (b.VtxBlocked.ExecuteAll vtxRun.1).2
  let b := ({ b with VtxBlocked := (b.VtxBlocked.ExecuteAll vtxRun.1).1,
                     Manager := b.Manager.Accept executed }.emit
    Event.VtxBlockedExecuteAll).next
  match vtxRun.2 with
  | some err => (b, some err)
  | none =>
    let halted := env.Halted b.tick
    let b := b.next
    if halted then (b, none)
    else checkFinishRetry env b executed.length

/-- The part of `checkFinish` that executes the blocked transactions
(`TxBlocked.ExecuteAll`) and goes on unless that failed or the engine was halted. -/
def checkFinishTxs (env : Env) (b : bootstrapper) : bootstrapper × Option Err :=
  let txRun := env.ExecuteAll b.tick
  let b := ({ b with TxBlocked := (b.TxBlocked.ExecuteAll txRun.1).1 }.emit
    Event.TxBlockedExecuteAll).next
  match txRun.2 with
  | some err => (b, some err)
  | none =>
    let halted := env.Halted b.tick
    let b := b.next
    if halted then (b, none)
    else checkFinishVertices env b

/-- `bootstrapper.checkFinish`: nothing is done when the chain is bootstrapped, a
vertex is missing or a timeout is awaited; otherwise the queues are executed
(`checkFinishTxs`, `checkFinishVertices`), the retry criterion is evaluated
(`checkFinishRetry`) and bootstrapping finishes (`checkFinishNotify`). -/
def checkFinish (env : Env) (b : bootstrapper) : bootstrapper × Option Err :=
  let pendingJobs := b.VtxBlocked.MissingIDs
  let isBootstrapped := env.IsBootstrapped b.tick
  let b := b.next
  if isBootstrapped || decide (pendingJobs.length > 0) || b.awaitingTimeout then (b, none)
  else checkFinishTxs env b

/-- One iteration of the loop of `bootstrapper.fetch`: an id is taken out of
`needToFetch` and, unless it has an outstanding request or is in the local store, a
validator is sampled and the request is sent.  The second component is the error that
ends `fetch`, if any. -/
def fetchStep (env : Env) (b : bootstrapper) : bootstrapper × Option Err :=
  let vtxID := b.needToFetch.getD (env.pick b.tick % b.needToFetch.length) 0
  let b := { b.next with needToFetch := IDSet.Remove b.needToFetch vtxID }
  -- Make sure we haven't already requested this vertex
  if b.OutstandingRequests.Contains vtxID then (b, none)
  -- Make sure we don't already have this vertex
  else if (b.Manager.GetVtx vtxID).isSome then (b, none)
  else
    match env.Sample b.tick with
    | none => (b.next, some (Err.noValidators vtxID))
    | some validatorID =>
      let b := { b.next with RequestID := (b.RequestID + 1) % 2 ^ 32 }
      let b := { b with OutstandingRequests :=
        b.OutstandingRequests.Add validatorID b.RequestID vtxID }
      (b.emit (Event.SendGetAncestors validatorID b.RequestID vtxID), none)

/-- The loop of `bootstrapper.fetch`.  Every iteration takes an id out of `needToFetch`,
so as many iterations as `needToFetch` has ids are enough (`fuel`). -/
def fetchLoop (env : Env) : Nat → bootstrapper → bootstrapper × Option Err
  | 0, b => (b, none)
  | fuel + 1, b =>
    if decide (b.needToFetch.Len > 0) &&
        decide (b.OutstandingRequests.Len < MaxOutstandingGetAncestorsRequests) then
      match fetchStep env b with
      | (b, some err) => (b, some err)
      | (b, none) => fetchLoop env fuel b
    else (b, none)

/-- `bootstrapper.fetch(vtxIDs...)`. -/
def fetch (env : Env) (b : bootstrapper) (vtxIDs : List ID) : bootstrapper × Option Err :=
  let b := { b with needToFetch := IDSet.AddAll b.needToFetch vtxIDs }
  match fetchLoop env b.needToFetch.length b with
  | (b, some err) => (b, some err)
  | (b, none) => checkFinish env b

/-! ### process -/

/-- How the traversal loop of `process` ends: the heap is empty, the halt probe was
true, or an error is returned. -/
inductive LoopExit where
  | drained
  | halted
  | failed (err : Err)
deriving DecidableEq, Repr

/-- The variables of the traversal loop of `process`: the heap, the ids seen at the
current height, that height, and the bootstrapper. -/
structure Traversal where
  toProcess : List ID
  vtxHeightSet : IDSet
  prevHeight : Nat
  b : bootstrapper
deriving DecidableEq, Repr

/-- The first loop of `process`: the vertices that are not in the processed cache go
to the heap, the others lose their `MissingID` marker. -/
def processSeed : List ID → bootstrapper → List ID → bootstrapper × List ID
  | [], b, toProcess => (b, toProcess)
  | vtxID :: vtxs, b, toProcess =>
    let got := b.processedCache.Get vtxID
    let b := { b with processedCache := got.1 }
    if !got.2 then processSeed vtxs b (heapPush toProcess vtxID)
    else processSeed vtxs { b with VtxBlocked := b.VtxBlocked.RemoveMissingID vtxID } toProcess

/-- The loop of `process` over the transactions of a vertex: each is pushed into
`TxBlocked`; the first failing push ends the loop. -/
def processTxs (env : Env) : List ID → bootstrapper → bootstrapper × Option Err
  | [], b => (b, none)
  | tx :: txs, b =>
    match env.dbErr b.tick with
    | some err => (b.next, some err)
    | none => processTxs env txs { b.next with TxBlocked := (b.TxBlocked.Push tx).1 }

/-- The loop of `process` over the parents of a vertex: a parent goes to the heap
unless it is in the processed cache or was seen at the current height. -/
def processParents (vtxHeightSet : IDSet) : List ID → LRU → List ID → LRU × List ID
  | [], cache, toProcess => (cache, toProcess)
  | parentID :: parents, cache, toProcess =>
    let got := cache.Get parentID
    if !got.2 then
      if !IDSet.Contains vtxHeightSet parentID then
        processParents vtxHeightSet parents got.1 (heapPush toProcess parentID)
      else processParents vtxHeightSet parents got.1 toProcess
    else processParents vtxHeightSet parents got.1 toProcess

/-- The case `choices.Processing` of the traversal loop, for the popped vertex `vtxID`
and the heap `toProcess` left by the pop: the loop variables for the next iteration, or
the way the loop ends. -/
def processVertex (env : Env) (vtxID : ID) (toProcess : List ID) (vtxHeightSet : IDSet)
    (prevHeight : Nat) (b : bootstrapper) : Traversal ⊕ (bootstrapper × LoopExit) :=
  let b := { b with needToFetch := IDSet.Remove b.needToFetch vtxID,
                    VtxBlocked := b.VtxBlocked.RemoveMissingID vtxID }
  -- Add to queue of vertices to execute when bootstrapping finishes.
  match env.dbErr b.tick with
  | some err => Sum.inr (b.next, LoopExit.failed err)
  | none =>
    let pushed := (b.VtxBlocked.Push vtxID).2
    let b := { b.next with VtxBlocked := (b.VtxBlocked.Push vtxID).1 }
    if !pushed then Sum.inl ⟨toProcess, vtxHeightSet, prevHeight, b⟩
    else
      match b.Manager.GetVtx vtxID with
      | none => Sum.inr (b, LoopExit.failed (Err.vertexUnavailable vtxID))
      | some vtx =>
        match processTxs env vtx.txs b with
        | (b, some err) => Sum.inr (b, LoopExit.failed err)
        | (b, none) =>
          let walked := processParents vtxHeightSet vtx.parents b.processedCache toProcess
          let b := { b with processedCache :=
            if vtx.height % stripeDistance < stripeWidth then walked.1.Put vtxID else walked.1 }
          if vtx.height = prevHeight then
            Sum.inl ⟨walked.2, IDSet.Add vtxHeightSet vtxID, prevHeight, b⟩
          else
            Sum.inl ⟨walked.2, [vtxID], vtx.height, b⟩

/-- One iteration of the traversal loop of `process`, entered with a heap that is not
empty: the halt probe, the pop and the switch on the status of the popped vertex. -/
def processStep (env : Env) (t : Traversal) : Traversal ⊕ (bootstrapper × LoopExit) :=
  let halted := env.Halted t.b.tick
  let b := t.b.next
  if halted then Sum.inr (b, LoopExit.halted)
  else
    match heapPop b.Manager t.toProcess with
    | none => Sum.inr (b, LoopExit.drained)
    | some (vtxID, toProcess) =>
      match b.Manager.Status vtxID with
      | Status.Unknown =>
        Sum.inl ⟨toProcess, t.vtxHeightSet, t.prevHeight,
          { b with VtxBlocked := b.VtxBlocked.AddMissingID vtxID,
                   needToFetch := IDSet.Add b.needToFetch vtxID }⟩
      | Status.Rejected => Sum.inr (b, LoopExit.failed (Err.previouslyRejected vtxID))
      | Status.Accepted => Sum.inl ⟨toProcess, t.vtxHeightSet, t.prevHeight, b⟩
      | Status.Processing => processVertex env vtxID toProcess t.vtxHeightSet t.prevHeight b

/-- The traversal loop of `process`, `for toProcess.Len() > 0`.  `none` means that
`fuel` iterations were not enough. -/
def processLoop (env : Env) : Nat → Traversal → Option (bootstrapper × LoopExit)
  | 0, t => if t.toProcess.length > 0 then none else some (t.b, LoopExit.drained)
  | fuel + 1, t =>
    if t.toProcess.length > 0 then
      match processStep env t with
      | Sum.inr exit => some exit
      | Sum.inl t => processLoop env fuel t
    else some (t.b, LoopExit.drained)

/-- A number of iterations that is enough for the traversal loop: every iteration pops
a vertex, and only a vertex that is pushed into `VtxBlocked` for the first time puts
vertices, its parents, on the heap. -/
def processFuel (b : bootstrapper) (toProcess : List ID) : Nat :=
  toProcess.length + (b.Manager.vtxs.map (fun v => v.parents.length)).sum + 1

/-- The end of `process`, after the traversal loop drained the heap: both queues are
committed and `fetch()` is called. -/
def processCommit (env : Env) (b : bootstrapper) : bootstrapper × Option Err :=
  match env.dbErr b.tick with
  | some err => (b.next, some err)
  | none =>
    let b := b.next.emit Event.TxBlockedCommit
    match env.dbErr b.tick with
    | some err => (b.next, some err)
    | none => fetch env (b.next.emit Event.VtxBlockedCommit) []

/-- `bootstrapper.process(vtxs...)`.  `none` would mean that the traversal ran out of
fuel; `process_returns` shows that it does not. -/
def process (env : Env) (b : bootstrapper) (vtxs : List ID) :
    Option (bootstrapper × Option Err) :=
  let seeded := processSeed vtxs b []
  match processLoop env (processFuel seeded.1 seeded.2) ⟨seeded.2, [], 0, seeded.1⟩ with
  | none => none
  | some (b, LoopExit.halted) => some (b, none)
  | some (b, LoopExit.failed err) => some (b, some err)
  | some (b, LoopExit.drained) => some (processCommit env b)

/-! ### The handlers -/

/-- The loop of `ForceAccepted` over the pending container ids. -/
def forceAcceptedLoop : List ID → bootstrapper → List ID → bootstrapper × List ID
  | [], b, toProcess => (b, toProcess)
  | vtxID :: pending, b, toProcess =>
    match b.Manager.GetVtx vtxID with
    | some vtx =>
      if vtx.status = Status.Accepted then
        forceAcceptedLoop pending
          { b with VtxBlocked := b.VtxBlocked.RemoveMissingID vtxID } toProcess
      else forceAcceptedLoop pending b (toProcess ++ [vtxID])
    | none =>
      forceAcceptedLoop pending
        { b with VtxBlocked := b.VtxBlocked.AddMissingID vtxID,
                 needToFetch := IDSet.Add b.needToFetch vtxID } toProcess

/-- `bootstrapper.ForceAccepted(acceptedContainerIDs)`.  `none` would mean that the
traversal of `process` ran out of fuel; `ForceAccepted_returns` shows that it does
not. -/
def ForceAccepted (env : Env) (b : bootstrapper) (acceptedContainerIDs : List ID) :
    Option (bootstrapper × Option Err) :=
  let pendingContainerIDs := b.VtxBlocked.MissingIDs ++ acceptedContainerIDs
  let looped := forceAcceptedLoop pendingContainerIDs b []
  process env looped.1 looped.2

/-- `bootstrapper.GetAncestorsFailed(nodeID, requestID)`. -/
def GetAncestorsFailed (env : Env) (b : bootstrapper) (nodeID : NodeID) (requestID : Nat) :
    bootstrapper × Option Err :=
  let removed := b.OutstandingRequests.Remove nodeID requestID
  let b := { b with OutstandingRequests := removed.1 }
  if !removed.2.2 then (b, none)
  else fetch env b [removed.2.1]

/-- The loop of `Ancestors` over `vtxs[1:]`: returns the state, the vertices to
process and the error that ends the handler, if any. -/
def ancestorsLoop (env : Env) :
    List (List Nat) → IDSet → List ID → bootstrapper → bootstrapper × List ID × Option Err
  | [], _, processVertices, b => (b, processVertices, none)
  | vtxBytes :: rest, eligibleVertices, processVertices, b =>
    match b.Manager.ParseVtx env.ParseVtx vtxBytes with
    | (_, none) => (b, processVertices, none)
    | (manager, some vtxID) =>
      let b := { b with Manager := manager }
      if !IDSet.Contains eligibleVertices vtxID then (b, processVertices, none)
      else
        let eligibleVertices := IDSet.Remove eligibleVertices vtxID
        match b.Manager.Parents vtxID with
        | none => (b, processVertices, some (Err.vertexUnavailable vtxID))
        | some parents =>
          ancestorsLoop env rest (IDSet.AddAll eligibleVertices parents)
            (processVertices ++ [vtxID])
            { b with needToFetch := IDSet.Remove b.needToFetch vtxID }

/-- The containers of an `Ancestors` message after the truncation to
`AncestorsMaxContainersReceived`; `none` when the slice expression panics. -/
def truncateContainers (limit : Int) (vtxs : List (List Nat)) : Option (List (List Nat)) :=
  if (vtxs.length : Int) > limit then
    if limit < 0 then none else some (vtxs.take limit.toNat)
  else some vtxs

/-- The part of `Ancestors` that handles an accepted message (from
`b.needToFetch.Remove(vtxID)` on): `vtxID` is the id of the first vertex, `rest` are the
containers that follow the first. -/
def ancestorsAccepted (env : Env) (b : bootstrapper) (vtxID : ID) (rest : List (List Nat)) :
    Option (bootstrapper × Option Err) :=
  let b := { b with needToFetch := IDSet.Remove b.needToFetch vtxID }
  match b.Manager.Parents vtxID with
  | none => some (b, some (Err.vertexUnavailable vtxID))
  | some parents =>
    match ancestorsLoop env rest (IDSet.AddAll [] parents) [vtxID] b with
    | (b, _, some err) => some (b, some err)
    | (b, processVertices, none) => process env b processVertices

/-- The part of `Ancestors` that follows the truncation: the request is removed from
the outstanding requests, the first container is parsed and the message is dropped,
answered by a new fetch, or accepted. -/
def ancestorsFirst (env : Env) (b : bootstrapper) (nodeID : NodeID) (requestID : Nat)
    (vtxs : List (List Nat)) : Option (bootstrapper × Option Err) :=
  let removed := b.OutstandingRequests.Remove nodeID requestID
  let requestedVtxID := removed.2.1
  let requested := removed.2.2
  let b := { b with OutstandingRequests := removed.1 }
  match vtxs with
  | [] => some (b, some Err.runtimePanic)
  | first :: rest =>
    match b.Manager.ParseVtx env.ParseVtx first with
    | (_, none) =>
      if !requested then some (b, none)
      else some (fetch env b [requestedVtxID])
    | (manager, some vtxID) =>
      let b := { b with Manager := manager }
      if requested && requestedVtxID != vtxID then some (fetch env b [requestedVtxID])
      else if !requested && !b.OutstandingRequests.Contains vtxID
          && !IDSet.Contains b.needToFetch vtxID then some (b, none)
      else ancestorsAccepted env b vtxID rest

/-- `bootstrapper.Ancestors(nodeID, requestID, vtxs)`.  `none` would mean that the
traversal of `process` ran out of fuel; `Ancestors_returns` shows that it does not. -/
def Ancestors (env : Env) (b : bootstrapper) (nodeID : NodeID) (requestID : Nat)
    (vtxs : List (List Nat)) : Option (bootstrapper × Option Err) :=
  if vtxs.length = 0 then some (GetAncestorsFailed env b nodeID requestID)
  else
    match truncateContainers b.AncestorsMaxContainersReceived vtxs with
    | none => some (b, some Err.runtimePanic)
    | some vtxs => ancestorsFirst env b nodeID requestID vtxs

/-- `bootstrapper.Connected(nodeID, nodeVersion)`. -/
def Connected (env : Env) (b : bootstrapper) (nodeID : NodeID) : bootstrapper × Option Err :=
  match env.vmErr b.tick with
  | some err => ((b.emit (Event.VMConnected nodeID)).next, some err)
  | none =>
    let b := (b.emit (Event.VMConnected nodeID)).next
    match env.vmErr b.tick with
    | some err => ((b.emit (Event.TrackerConnected nodeID)).next, some err)
    | none =>
      let b := (b.emit (Event.TrackerConnected nodeID)).next
      if b.started then (b, none)
      else
        let shouldStart := env.ShouldStart b.tick
        let b := b.next
        if !shouldStart then (b, none)
        else Startup env { b with started := true }

/-- `bootstrapper.Disconnected(nodeID)`. -/
def Disconnected (env : Env) (b : bootstrapper) (nodeID : NodeID) : bootstrapper × Option Err :=
  match env.vmErr b.tick with
  | some err => ((b.emit (Event.VMDisconnected nodeID)).next, some err)
  | none =>
    let b := (b.emit (Event.VMDisconnected nodeID)).next
    ((b.emit (Event.TrackerDisconnected nodeID)).next, env.vmErr b.tick)

/-- `bootstrapper.Timeout()`. -/
def Timeout (env : Env) (b : bootstrapper) : bootstrapper × Option Err :=
  if !b.awaitingTimeout then (b, some Err.errUnexpectedTimeout)
  else
    let b := { b with awaitingTimeout := false }
    let subnetBootstrapped := env.SubnetIsBootstrapped b.tick
    let b := b.next
    if !subnetBootstrapped then Restart env b true
    else OnFinished env b b.RequestID

/-- `bootstrapper.Start(startReqID)`. -/
def Start (env : Env) (b : bootstrapper) (startReqID : Nat) : bootstrapper × Option Err :=
  let b := b.emit Event.CtxSetState
  match env.vmErr b.tick with
  | some err => ((b.emit Event.VMSetState).next, some err)
  | none =>
    let b := (b.emit Event.VMSetState).next
    let b := { b with RequestID := startReqID }
    let shouldStart := env.ShouldStart b.tick
    let b := b.next
    if !shouldStart then (b, none)
    else Startup env { b with started := true }

/-- `bootstrapper.Clear()`. -/
def Clear (env : Env) (b : bootstrapper) : bootstrapper × Option Err :=
  match env.dbErr b.tick with
  | some err => (b.next, some err)
  | none =>
    let b := { b.next with VtxBlocked := b.VtxBlocked.Clear }
    match env.dbErr b.tick with
    | some err => (b.next, some err)
    | none =>
      let b := { b.next with TxBlocked := { jobs := [] } }
      match env.dbErr b.tick with
      | some err => (b.next, some err)
      | none =>
        let b := b.next.emit Event.VtxBlockedCommit
        match env.dbErr b.tick with
        | some err => (b.next, some err)
        | none => (b.next.emit Event.TxBlockedCommit, none)

/-- `bootstrapper.Shutdown()`. -/
def Shutdown (env : Env) (b : bootstrapper) : bootstrapper × Option Err :=
  ((b.emit Event.VMShutdown).next, env.vmErr b.tick)

/-- `bootstrapper.Gossip()`. -/
def Gossip (b : bootstrapper) : bootstrapper × Option Err := (b, none)

/-- `bootstrapper.Notify(msg)`. -/
def Notify (b : bootstrapper) : bootstrapper × Option Err := (b, none)

/-- The states the bootstrapper can be in: the state `New` builds, and every state a
handler leaves behind when called in such a state, whatever it returns. -/
inductive Reachable (env : Env) : bootstrapper → Prop where
  | New (config : Config) : Reachable env (New config)
  | Start {b : bootstrapper} (startReqID : Nat) :
      Reachable env b → Reachable env (Start env b startReqID).1
  | Clear {b : bootstrapper} : Reachable env b → Reachable env (Clear env b).1
  | ForceAccepted {b b1 : bootstrapper} {r : Option Err} (acceptedContainerIDs : List ID) :
      Reachable env b → ForceAccepted env b acceptedContainerIDs = some (b1, r) →
      Reachable env b1
  | Ancestors {b b1 : bootstrapper} {r : Option Err} (nodeID : NodeID) (requestID : Nat)
      (vtxs : List (List Nat)) :
      Reachable env b → Ancestors env b nodeID requestID vtxs = some (b1, r) →
      Reachable env b1
  | GetAncestorsFailed {b : bootstrapper} (nodeID : NodeID) (requestID : Nat) :
      Reachable env b → Reachable env (GetAncestorsFailed env b nodeID requestID).1
  | Connected {b : bootstrapper} (nodeID : NodeID) :
      Reachable env b → Reachable env (Connected env b nodeID).1
  | Disconnected {b : bootstrapper} (nodeID : NodeID) :
      Reachable env b → Reachable env (Disconnected env b nodeID).1
  | Timeout {b : bootstrapper} : Reachable env b → Reachable env (Timeout env b).1
  | Shutdown {b : bootstrapper} : Reachable env b → Reachable env (Shutdown env b).1

/-! ### Observations on traces and frames -/

/-- Whether an event is a `SendGetAncestors`. -/
def isSend : Event → Bool
  | Event.SendGetAncestors _ _ _ => true
  | _ => false

/-- The `SendGetAncestors` calls of a trace, oldest first. -/
def sends (trace : List Event) : List Event := trace.filter isSend

/-- What the end of bootstrapping leaves alone: the outstanding requests, `needToFetch`
and the request counter are the same in `b1` as in `b`, and the trace of `b1` is that
of `b` followed by calls among which there is no `SendGetAncestors`. -/
def NoRequestChange (b b1 : bootstrapper) : Prop :=
  b1.OutstandingRequests = b.OutstandingRequests ∧ b1.needToFetch = b.needToFetch ∧
  b1.RequestID = b.RequestID ∧ ∃ added, b1.trace = b.trace ++ added ∧ sends added = []

/-- What the traversal of `process` leaves alone: the outstanding requests, the vertex
store, the request counter and the trace are the same in `b1` as in `b`. -/
def TraversalFrame (b b1 : bootstrapper) : Prop :=
  b1.OutstandingRequests = b.OutstandingRequests ∧ b1.Manager = b.Manager ∧
  b1.RequestID = b.RequestID ∧ b1.trace = b.trace

/-- The trace of `b1` is that of `b` followed by calls among which every
`SendGetAncestors` is for a vertex that is not in the store of `b`. -/
def SendsOnlyMissing (b b1 : bootstrapper) : Prop :=
  ∃ added, b1.trace = b.trace ++ added ∧
    ∀ n r v, Event.SendGetAncestors n r v ∈ added → b.Manager.GetVtx v = none

/-- The bootstrapper a step of the traversal hands on, whether the loop goes on or
ends. -/
def stepState : Traversal ⊕ (bootstrapper × LoopExit) → bootstrapper
  | Sum.inl t => t.b
  | Sum.inr exit => exit.1

/-- What the loop of `fetch` guarantees between the state `b` it starts in and the
state `b1` it ends in: the vertex store is the same, no id enters `needToFetch`, an id
left in `needToFetch` has an outstanding request only if it had one before, and every
request sent is for a vertex that is not in the store. -/
def FetchFrame (b b1 : bootstrapper) : Prop :=
  b1.Manager = b.Manager ∧ (∀ v, v ∈ b1.needToFetch → v ∈ b.needToFetch) ∧
  (∀ v, v ∈ b1.needToFetch → b1.OutstandingRequests.Contains v = true →
    b.OutstandingRequests.Contains v = true) ∧
  SendsOnlyMissing b b1

/-- The bound on the number of outstanding requests. -/
def RequestsBounded (b : bootstrapper) : Prop :=
  b.OutstandingRequests.Len ≤ MaxOutstandingGetAncestorsRequests

/-- The state `fetch` reaches before `checkFinish` when it requests the single vertex
`vtxID` from `validatorID`. -/
def requested (b : bootstrapper) (validatorID : NodeID) (vtxID : ID) : bootstrapper :=
  { b with
    needToFetch := []
    tick := b.tick + 2
    RequestID := (b.RequestID + 1) % 2 ^ 32
    OutstandingRequests :=
      { reqs := b.OutstandingRequests.reqs ++ [(validatorID, (b.RequestID + 1) % 2 ^ 32, vtxID)] }
    trace := b.trace ++ [Event.SendGetAncestors validatorID ((b.RequestID + 1) % 2 ^ 32) vtxID] }

/-- The number of parents of the stored vertices that have no job in `jobs`: the
vertices the traversal of `process` can still put on the heap are parents of these. -/
def parentsWeight (m : Manager) (jobs : List ID) : Nat :=
  ((m.vtxs.filter (fun v => decide (v.id ∉ jobs))).map (fun v => v.parents.length)).sum

/-- The measure that every iteration of the traversal loop of `process` decreases. -/
def traversalMeasure (t : Traversal) : Nat :=
  t.toProcess.length + parentsWeight t.b.Manager t.b.VtxBlocked.jobs

/-! ### Sequences of handler calls -/

/-- A call of a handler of the bootstrapper, with its arguments. -/
inductive Call where
  | Start (startReqID : Nat)
  | Clear
  | ForceAccepted (acceptedContainerIDs : List ID)
  | Ancestors (nodeID : NodeID) (requestID : Nat) (vtxs : List (List Nat))
  | GetAncestorsFailed (nodeID : NodeID) (requestID : Nat)
  | Connected (nodeID : NodeID)
  | Disconnected (nodeID : NodeID)
  | Timeout
  | Shutdown
deriving DecidableEq, Repr

/-- The state a call leaves behind and the error it returns (`none` as for `process`). -/
def Call.run (env : Env) (b : bootstrapper) : Call → Option (bootstrapper × Option Err)
  | Call.Start startReqID => some (bootstrap.Start env b startReqID)
  | Call.Clear => some (bootstrap.Clear env b)
  | Call.ForceAccepted acceptedContainerIDs => bootstrap.ForceAccepted env b acceptedContainerIDs
  | Call.Ancestors nodeID requestID vtxs => bootstrap.Ancestors env b nodeID requestID vtxs
  | Call.GetAncestorsFailed nodeID requestID =>
    some (bootstrap.GetAncestorsFailed env b nodeID requestID)
  | Call.Connected nodeID => some (bootstrap.Connected env b nodeID)
  | Call.Disconnected nodeID => some (bootstrap.Disconnected env b nodeID)
  | Call.Timeout => some (bootstrap.Timeout env b)
  | Call.Shutdown => some (bootstrap.Shutdown env b)

/-- The state after a sequence of calls, oldest first. -/
def runCalls (env : Env) : bootstrapper → List Call → Option bootstrapper
  | b, [] => some b
  | b, call :: calls =>
    match call.run env b with
    | none => none
    | some (b1, _) => runCalls env b1 calls

/-! ### The followers of an Ancestors message, after the spec -/

/-- The followers an `Ancestors` message contributes, as section 4.4, step 7 words it:
"For each subsequent byte-blob: parse; if its id is not in the eligible set, break;
otherwise remove its id from the eligible set, union its parents in, append it to
`processVertices`".  `parentsOf` gives the parents of a parsed vertex. -/
def eligibleFollowers (parser : List Nat → Option Vertex) (parentsOf : ID → List ID) :
    List (List Nat) → IDSet → List ID
  | [], _ => []
  | vtxBytes :: rest, eligible =>
    match parser vtxBytes with
    | none => []
    | some v =>
      if v.id ∈ eligible then
        v.id :: eligibleFollowers parser parentsOf rest
          (IDSet.AddAll (IDSet.Remove eligible v.id) (parentsOf v.id))
      else []

/-- The parents the store gives for a vertex id, none when the vertex is not stored. -/
def Manager.parentsOf (m : Manager) (vtxID : ID) : List ID := (m.Parents vtxID).getD []

/-- An environment for the examples.  A container `[id, height]` parses to a vertex
without parents, `[id, height, p]` to a vertex with the parent `p` and
`[id, height, p, q]` to one with the parents `p` and `q`; any other container does not
parse.  Validator `77` is always sampled, `CappedList(1)` yields the oldest id, the
engine is never halted, nothing fails, every pending job runs, and chain and subnet are
not bootstrapped. -/
def exampleEnv : Env :=
  { ParseVtx := fun vtxBytes =>
      match vtxBytes with
      | [id, height] => some ⟨id, [], height, [], Status.Processing⟩
      | [id, height, p] => some ⟨id, [p], height, [], Status.Processing⟩
      | [id, height, p, q] => some ⟨id, [p, q], height, [], Status.Processing⟩
      | _ => none
    pick := fun _ => 0
    Sample := fun _ => some 77
    Halted := fun _ => false
    IsBootstrapped := fun _ => false
    SubnetIsBootstrapped := fun _ => false
    ShouldStart := fun _ => true
    ExecuteAll := fun _ => (1000, none)
    dbErr := fun _ => none
    vmErr := fun _ => none
    Startup := fun _ => none
    Restart := fun _ => none
    OnFinished := fun _ _ => none }

/-- A configuration for the examples: the store holds the accepted genesis vertex `1`,
the queues are empty, at most ten containers are read from a message. -/
def exampleConfig : Config :=
  { AncestorsMaxContainersReceived := 10
    RetryBootstrap := true
    RequestID := 0
    Manager := { vtxs := [⟨1, [], 0, [], Status.Accepted⟩] }
    VtxBlocked := { jobs := [], missing := [] }
    TxBlocked := { jobs := [] } }

/-- The state of the examples after `ForceAccepted` was called with the fifty-one
unknown vertex ids `2, ..., 52`: fifty requests are outstanding and `52` waits in
`needToFetch`. -/
def exampleFullTable : bootstrapper :=
  { AncestorsMaxContainersReceived := 10
    RetryBootstrap := true
    RequestID := 50
    Manager := { vtxs := [⟨1, [], 0, [], Status.Accepted⟩] }
    VtxBlocked := { jobs := [], missing := List.range' 2 51 }
    TxBlocked := { jobs := [] }
    OutstandingRequests := { reqs := (List.range' 1 50).map (fun i => (77, i, i + 1)) }
    started := false
    needToFetch := [52]
    processedCache := { Size := cacheSize, entries := [] }
    executedStateTransitions := MaxInt32
    awaitingTimeout := false
    tick := 103
    trace := [Event.TxBlockedCommit, Event.VtxBlockedCommit] ++
      (List.range' 1 50).map (fun i => Event.SendGetAncestors 77 i (i + 1)) }

/-- The state of the examples after `ForceAccepted` was called with the unknown vertex
id `3`: the request `(77, 1)` for vertex `3` is outstanding. -/
def exampleOneRequest : bootstrapper :=
  { AncestorsMaxContainersReceived := 10
    RetryBootstrap := true
    RequestID := 1
    Manager := { vtxs := [⟨1, [], 0, [], Status.Accepted⟩] }
    VtxBlocked := { jobs := [], missing := [3] }
    TxBlocked := { jobs := [] }
    OutstandingRequests := { reqs := [(77, 1, 3)] }
    started := false
    needToFetch := []
    processedCache := { Size := cacheSize, entries := [] }
    executedStateTransitions := MaxInt32
    awaitingTimeout := false
    tick := 5
    trace := [Event.TxBlockedCommit, Event.VtxBlockedCommit, Event.SendGetAncestors 77 1 3] }

/-- The state of the examples in which the table is full and the ids with an
outstanding request are in `needToFetch` again: `exampleFullTable` after a second call
of `ForceAccepted`, with no ids. -/
def exampleOverlap : bootstrapper :=
  { exampleFullTable with
    VtxBlocked := { jobs := [], missing := List.range' 2 51 }
    needToFetch := 52 :: List.range' 2 50
    tick := 106
    trace := exampleFullTable.trace ++ [Event.TxBlockedCommit, Event.VtxBlockedCommit] }

/-! ### Rounds of checkFinish -/

/-- The state of the examples after `ForceAccepted` was called with no ids on the fresh
bootstrapper: nothing is missing, the empty queues were executed and, the subnet not
being bootstrapped, a timeout is awaited. -/
def exampleAwaiting : bootstrapper :=
  { New exampleConfig with
    executedStateTransitions := 0
    awaitingTimeout := true
    tick := 8
    trace := [Event.TxBlockedCommit, Event.VtxBlockedCommit, Event.TxBlockedExecuteAll,
      Event.VtxBlockedExecuteAll, Event.SubnetBootstrapped,
      Event.RegisterTimeout bootstrappingDelay] }

/-- A configuration with a backlog: the store holds the accepted genesis vertex `1` and
the chain of the `n` vertices `2, ..., n + 1` above it, each with a job in the blocked
vertex queue; nothing is missing. -/
def backlogConfig (n : Nat) : Config :=
  { exampleConfig with
    Manager := { vtxs := (List.range' 2 n).map (fun i => ⟨i, [i - 1], i - 1, [], Status.Processing⟩)
                  ++ [⟨1, [], 0, [], Status.Accepted⟩] }
    VtxBlocked := { jobs := List.range' 2 n, missing := [] } }

/-- The environment of the examples in which at most `first` jobs run in an execution
of a queue before tick `6` (the first round of `checkFinish`) and at most `later` jobs
in an execution after that. -/
def roundsEnv (first later : Nat) : Env :=
  { exampleEnv with ExecuteAll := fun tick => if tick < 6 then (first, none) else (later, none) }

/-- The events a round of `checkFinish` adds when it executes both queues and restarts
bootstrapping. -/
def restartRound : List Event :=
  [Event.TxBlockedExecuteAll, Event.VtxBlockedExecuteAll, Event.Restart true]

/-- The number of vertices a round of `checkFinish` entered in the state `b` executes:
the pending jobs of the blocked vertex queue, up to the number the environment lets
run. -/
def executedVts (env : Env) (b : bootstrapper) : Nat :=
  (b.VtxBlocked.ExecuteAll (env.ExecuteAll (b.tick + 3)).1).2.length

/-- Successive rounds of `checkFinish`, as far as the retry criterion goes: round after
round, `checkFinishRetry` is given the number of vertices the round executed.  Between
two rounds nothing else writes `executedStateTransitions`. -/
def retryRounds (env : Env) : bootstrapper → List Nat → bootstrapper
  | b, [] => b
  | b, executedVts :: later => retryRounds env (checkFinishRetry env b executedVts).1 later

/-- The number of calls of `Restart(true)` in a trace. -/
def restarts (trace : List Event) : Nat := trace.count (Event.Restart true)

/-- The number of rounds, among those that execute the given counts, at which the retry
criterion of `checkFinish` holds, `previouslyExecuted` being the count stored before the
first of them. -/
def criterionRestarts (retryBootstrap : Bool) : Nat → List Nat → Nat
  | _, [] => 0
  | previouslyExecuted, executedVts :: later =>
    (if decide (executedVts > 0) && decide (executedVts < previouslyExecuted / 2)
        && retryBootstrap then 1 else 0) + criterionRestarts retryBootstrap executedVts later

/-! ### Iterations of the traversal of process -/

/-- The variables of the traversal loop of `process` when the loop is entered: the heap
seeded by the first loop, no id seen yet, height `0`. -/
def processStart (b : bootstrapper) (vtxs : List ID) : Traversal :=
  ⟨(processSeed vtxs b []).2, [], 0, (processSeed vtxs b []).1⟩

/-- The variables of the traversal loop of `process` after `n` iterations, none of
which ended the loop; `none` when the loop ends earlier. -/
def traversalAfter (env : Env) : Nat → Traversal → Option Traversal
  | 0, t => some t
  | n + 1, t =>
    if t.toProcess.length > 0 then
      match processStep env t with
      | Sum.inl t1 => traversalAfter env n t1
      | Sum.inr _ => none
    else none

/-- A store for the examples in which vertex `5` was rejected: its child `6` is being
processed, the genesis vertex `1` is accepted. -/
def rejectedConfig : Config :=
  { exampleConfig with
    Manager := { vtxs := [⟨6, [5], 2, [], Status.Processing⟩, ⟨5, [1], 1, [], Status.Rejected⟩,
                          ⟨1, [], 0, [], Status.Accepted⟩] } }

/-! ### The clean bootstrap of three vertices -/

/-- The environment of the examples with a bootstrapped subnet: as `exampleEnv`, but
`Subnet.IsBootstrapped()` is true. -/
def finishingEnv : Env := { exampleEnv with SubnetIsBootstrapped := fun _ => true }

/-- The configuration of the examples with `RetryBootstrap` as given. -/
def cleanConfig (retryBootstrap : Bool) : Config :=
  { exampleConfig with RetryBootstrap := retryBootstrap }

/-- The calls of the clean bootstrap of three vertices: above the accepted genesis
vertex `1` are the vertex `2` (A) and, above that, the vertex `3` (B).  `Start` is given
the request id `r`, `ForceAccepted` the id of B, and the one `GetAncestors` request,
which has the request id `r + 1`, is answered by the validator with B and A. -/
def cleanCalls (r : Nat) : List Call :=
  [Call.Start r, Call.ForceAccepted [3],
   Call.Ancestors 77 ((r + 1) % 2 ^ 32) [[3, 2, 2], [2, 1, 1]]]

/-- The state of the clean bootstrap when the request for B is outstanding, after
`Start(r)` and `ForceAccepted([B])`; `q` is the request counter. -/
def cleanRequested (retryBootstrap : Bool) (q : Nat) : bootstrapper :=
  { AncestorsMaxContainersReceived := 10
    RetryBootstrap := retryBootstrap
    RequestID := q
    Manager := { vtxs := [⟨1, [], 0, [], Status.Accepted⟩] }
    VtxBlocked := { jobs := [], missing := [3] }
    TxBlocked := { jobs := [] }
    OutstandingRequests := { reqs := [(77, q, 3)] }
    started := true
    needToFetch := []
    processedCache := { Size := cacheSize, entries := [] }
    executedStateTransitions := MaxInt32
    awaitingTimeout := false
    tick := 8
    trace := [Event.CtxSetState, Event.VMSetState, Event.Startup, Event.TxBlockedCommit,
      Event.VtxBlockedCommit, Event.SendGetAncestors 77 q 3] }

/-- The state of the clean bootstrap when the traversal of `process` has drained its
heap: B and A are stored and have their jobs in the blocked vertex queue, nothing is
missing, no request is outstanding. -/
def cleanTraversed (retryBootstrap : Bool) (q : Nat) : bootstrapper :=
  { AncestorsMaxContainersReceived := 10
    RetryBootstrap := retryBootstrap
    RequestID := q
    Manager := { vtxs := [⟨2, [1], 1, [], Status.Processing⟩, ⟨3, [2], 2, [], Status.Processing⟩,
                          ⟨1, [], 0, [], Status.Accepted⟩] }
    VtxBlocked := { jobs := [3, 2], missing := [] }
    TxBlocked := { jobs := [] }
    OutstandingRequests := { reqs := [] }
    started := true
    needToFetch := []
    processedCache := { Size := cacheSize, entries := [2, 3] }
    executedStateTransitions := MaxInt32
    awaitingTimeout := false
    tick := 13
    trace := [Event.CtxSetState, Event.VMSetState, Event.Startup, Event.TxBlockedCommit,
      Event.VtxBlockedCommit, Event.SendGetAncestors 77 q 3] }

/-- The calls the answer with B and A adds to the trace up to the execution of the
queues. -/
def cleanExecuted : List Event :=
  [Event.TxBlockedCommit, Event.VtxBlockedCommit, Event.TxBlockedExecuteAll,
   Event.VtxBlockedExecuteAll]

/-! ### The request counter -/

/-- The bound on the request ids of the outstanding requests: none is greater than the
request counter. -/
def RequestIDsBounded (b : bootstrapper) : Prop :=
  ∀ e ∈ b.OutstandingRequests.reqs, e.2.1 ≤ b.RequestID

/-- What a handler other than `Start` does to the request counter between the state `b`
it is called in and the state `b1` it leaves: as long as the 32-bit counter does not
wrap, it has grown by the number of requests sent, and an outstanding request is either
an older one or has a request id above the old and up to the new counter. -/
def CounterFrame (b b1 : bootstrapper) : Prop :=
  ∃ added, b1.trace = b.trace ++ added ∧
    (b.RequestID + (sends added).length < 2 ^ 32 →
      b1.RequestID = b.RequestID + (sends added).length ∧
      ∀ e ∈ b1.OutstandingRequests.reqs,
        e ∈ b.OutstandingRequests.reqs ∨ (b.RequestID < e.2.1 ∧ e.2.1 ≤ b1.RequestID))

/-- Whether a call is a call of `Start`. -/
def Call.isStart : Call → Bool
  | Call.Start _ => true
  | _ => false

/-! ### What the traversal of process does to the queues -/

/-- What an iteration of the traversal loop of `process` that pops `v` and does not end
the loop does between the loop variables `t` it is entered with and the loop variables
`t1` it leaves: the store is the same and `v` is not Rejected; the heap keeps its other
entries; the blocked vertex queue keeps its jobs and gains at most the job of `v`, which
it holds if `v` is Processing; `needToFetch` gains at most `v`, and that only if `v` is
Unknown, and loses `v` if `v` is Processing; an Unknown `v` is marked missing, a
Processing `v` loses its marker, no other marker is set and the other markers stay;
when `v` is pushed, each of its parents is in the processed cache, was seen at the
current height or is on the heap afterwards; and what joins the ids seen at this height
or the processed cache is `v`, with its job in the queue. -/
def TraversalStep (t t1 : Traversal) (v : ID) : Prop :=
  t1.b.Manager = t.b.Manager ∧
  t.b.Manager.Status v ≠ Status.Rejected ∧
  (∀ x ∈ t.toProcess, x ≠ v → x ∈ t1.toProcess) ∧
  (∀ x ∈ t.b.VtxBlocked.jobs, x ∈ t1.b.VtxBlocked.jobs) ∧
  (∀ x ∈ t1.b.VtxBlocked.jobs, x ∈ t.b.VtxBlocked.jobs ∨ x = v) ∧
  (∀ x ∈ t1.b.needToFetch,
    x ∈ t.b.needToFetch ∨ (x = v ∧ t.b.Manager.Status v = Status.Unknown)) ∧
  (t.b.Manager.Status v = Status.Processing →
    v ∈ t1.b.VtxBlocked.jobs ∧ v ∉ t1.b.needToFetch) ∧
  (t.b.Manager.Status v = Status.Unknown → v ∈ t1.b.VtxBlocked.missing) ∧
  (∀ x ∈ t.b.VtxBlocked.missing, x ≠ v → x ∈ t1.b.VtxBlocked.missing) ∧
  (v ∉ t.b.VtxBlocked.jobs → v ∈ t1.b.VtxBlocked.jobs →
    ∀ vtx, t.b.Manager.GetVtx v = some vtx → ∀ p ∈ vtx.parents,
      p ∈ t.b.processedCache.entries ∨ p ∈ t.vtxHeightSet ∨ p ∈ t1.toProcess) ∧
  (∀ x ∈ t1.vtxHeightSet, x ∈ t.vtxHeightSet ∨ (x = v ∧ v ∈ t1.b.VtxBlocked.jobs)) ∧
  (∀ x ∈ t1.b.processedCache.entries,
    x ∈ t.b.processedCache.entries ∨ (x = v ∧ v ∈ t1.b.VtxBlocked.jobs)) ∧
  (∀ x ∈ t1.b.VtxBlocked.missing,
    x ∈ t.b.VtxBlocked.missing ∨ (x = v ∧ t.b.Manager.Status v = Status.Unknown)) ∧
  (t.b.Manager.Status v = Status.Processing → v ∉ t1.b.VtxBlocked.missing)

/-- The state of the examples after the request for vertex `3` was answered with the
container of `3`, whose parent `2` is not in the store: the job of `3` is in the blocked
vertex queue, `2` is missing and requested. -/
def exampleAnswered : bootstrapper :=
  { exampleOneRequest with
    RequestID := 2
    Manager := { vtxs := [⟨3, [2], 2, [], Status.Processing⟩, ⟨1, [], 0, [], Status.Accepted⟩] }
    VtxBlocked := { jobs := [3], missing := [2] }
    OutstandingRequests := { reqs := [(77, 2, 2)] }
    processedCache := { Size := cacheSize, entries := [3] }
    tick := 13
    trace := exampleOneRequest.trace ++
      [Event.TxBlockedCommit, Event.VtxBlockedCommit, Event.SendGetAncestors 77 2 2] }

/-- A configuration for the examples with a chain in the store: vertex `3` with the
parent `2`, vertex `2` with the parents `1` and `9`, both Processing, and the accepted
genesis vertex `1`; vertex `9` is not in the store. -/
def chainConfig : Config :=
  { exampleConfig with
    Manager := { vtxs := [⟨3, [2], 2, [], Status.Processing⟩,
                          ⟨2, [1, 9], 1, [], Status.Processing⟩,
                          ⟨1, [], 0, [], Status.Accepted⟩] } }

/-- Whether the job of `p` was pushed into a queue before the job of `v`; the jobs of a
queue are listed oldest first. -/
def pushedBefore (jobs : List ID) (p v : ID) : Bool :=
  decide (p ∈ jobs.takeWhile (fun x => x != v))

/-- A configuration for the examples with one vertex to process: vertex `3`, Processing,
with the accepted genesis vertex `1` as its parent. -/
def singleConfig : Config :=
  { exampleConfig with
    Manager := { vtxs := [⟨3, [1], 2, [], Status.Processing⟩, ⟨1, [], 0, [], Status.Accepted⟩] } }

/-- The parts of the state the idempotence of `process` is about: both job queues with
the missing ids, `needToFetch`, the outstanding requests and the ids in the processed
cache. -/
def queuesView (b : bootstrapper) : JobsWithMissing × Jobs × IDSet × Requests × List ID :=
  (b.VtxBlocked, b.TxBlocked, b.needToFetch, b.OutstandingRequests, b.processedCache.entries)

/-- The state of the examples after `process` was called for vertex `3` of the chain:
the jobs of `3` and `2` are in the blocked vertex queue, `9` is missing and requested. -/
def exampleChained : bootstrapper :=
  { New chainConfig with
    RequestID := 1
    VtxBlocked := { jobs := [3, 2], missing := [9] }
    OutstandingRequests := { reqs := [(77, 1, 9)] }
    processedCache := { Size := cacheSize, entries := [2, 3] }
    tick := 11
    trace := [Event.TxBlockedCommit, Event.VtxBlockedCommit, Event.SendGetAncestors 77 1 9] }

/-- A vertex that `process` has nothing left to do for: it is not marked missing, it is
not in `needToFetch`, and it is Accepted or is Processing with its job in the blocked
vertex queue. -/
def Settled (b : bootstrapper) (v : ID) : Prop :=
  v ∉ b.VtxBlocked.missing ∧ v ∉ b.needToFetch ∧
  (b.Manager.Status v = Status.Accepted ∨
    (b.Manager.Status v = Status.Processing ∧ v ∈ b.VtxBlocked.jobs))

/-- The parts of the state the idempotence of `process` is about are the same in `b1`
as in `b`: both job queues with the missing ids, `needToFetch`, the outstanding
requests, the store, and the ids in the processed cache. -/
def SameQueues (b b1 : bootstrapper) : Prop :=
  b1.VtxBlocked = b.VtxBlocked ∧ b1.TxBlocked = b.TxBlocked ∧
  b1.needToFetch = b.needToFetch ∧ b1.OutstandingRequests = b.OutstandingRequests ∧
  b1.Manager = b.Manager ∧
  ∀ x, x ∈ b1.processedCache.entries ↔ x ∈ b.processedCache.entries

/-! ### Iterations of the loop of fetch -/

/-- The state `bootstrapper.fetch(vtxIDs...)` enters its loop in: the ids were added to
`needToFetch`. -/
def fetchStart (b : bootstrapper) (vtxIDs : List ID) : bootstrapper :=
  { b with needToFetch := IDSet.AddAll b.needToFetch vtxIDs }

/-- The id an iteration of the loop of `fetch` entered in the state `b` takes out of
`needToFetch`. -/
def fetchPick (env : Env) (b : bootstrapper) : ID :=
  b.needToFetch.getD (env.pick b.tick % b.needToFetch.length) 0

/-- The state of the loop of `fetch` after `n` iterations, none of which ended the loop;
`none` when the loop ends earlier. -/
def fetchAfter (env : Env) : Nat → bootstrapper → Option bootstrapper
  | 0, b => some b
  | n + 1, b =>
    if decide (b.needToFetch.Len > 0) &&
        decide (b.OutstandingRequests.Len < MaxOutstandingGetAncestorsRequests) then
      match fetchStep env b with
      | (b1, none) => fetchAfter env n b1
      | (_, some _) => none
    else none

/-- The environment of the examples with an empty beacon set: as `exampleEnv`, but
`Beacons.Sample(1)` fails. -/
def noBeaconsEnv : Env := { exampleEnv with Sample := fun _ => none }

/-! ### The truncation of an Ancestors message -/

/-- The first `AncestorsMaxContainersReceived` containers of a message. -/
def firstContainers (b : bootstrapper) (vtxs : List (List Nat)) : List (List Nat) :=
  vtxs.take b.AncestorsMaxContainersReceived.toNat

/-- The fresh bootstrapper of the examples with `AncestorsMaxContainersReceived` set to
`0`. -/
def zeroLimit : bootstrapper :=
  New { exampleConfig with AncestorsMaxContainersReceived := 0 }

/-! ### The pending ids of ForceAccepted -/

/-- Whether the vertex with the given id is in the local store (`Manager.GetVtx`
succeeds) with a status other than Accepted. -/
def Manager.presentUnaccepted (m : Manager) (vtxID : ID) : Bool :=
  match m.GetVtx vtxID with
  | some vtx => !decide (vtx.status = Status.Accepted)
  | none => false

/-- Whether the vertex with the given id is in the local store with the status
Accepted. -/
def Manager.presentAccepted (m : Manager) (vtxID : ID) : Bool :=
  match m.GetVtx vtxID with
  | some vtx => decide (vtx.status = Status.Accepted)
  | none => false

/-- The environment of the examples with a halted engine: as `exampleEnv`, but the probe
`Halted()` is true. -/
def haltedEnv : Env := { exampleEnv with Halted := fun _ => true }

/-! ### Calls of Startup -/

/-- The number of calls of `Startup` in a trace. -/
def startups (trace : List Event) : Nat := trace.count Event.Startup

/-- Whether a call is a call of `Connected`. -/
def Call.isConnected : Call → Bool
  | Call.Connected _ => true
  | _ => false

/-- The number of calls of `Startup` that the calls of `Connected` make in a sequence of
handler calls, oldest first, run from the state `b`: for every call of `Connected`, the
number of calls of `Startup` it adds to the trace. -/
def startupsByConnected (env : Env) : bootstrapper → List Call → Nat
  | _, [] => 0
  | b, call :: calls =>
    match call.run env b with
    | none => 0
    | some (b1, _) =>
      (if call.isConnected then startups b1.trace - startups b.trace else 0)
        + startupsByConnected env b1 calls

/-! ### Environments that change their answers -/

/-- The environment of the examples in which the engine is halted from the answer
number `k` on: as `exampleEnv`, but the probe `Halted()` is true from then on. -/
def haltingEnv (k : Nat) : Env := { exampleEnv with Halted := fun tick => decide (k ≤ tick) }

/-- The environment of the examples in which the beacon set can be sampled up to the
answer number `k` and no more after it: as `exampleEnv`, but `Beacons.Sample(1)` fails
from then on. -/
def beaconsUntilEnv (k : Nat) : Env :=
  { exampleEnv with Sample := fun tick => if tick < k then some 77 else none }

/-! ### Parents and ancestors in the store -/

/-- The collaborators whose errors `Ancestors` can return never answer with the value
that stands for a run-time panic of the handler: `Err.runtimePanic` is then returned
only where the handler itself indexes or slices out of range. -/
def Env.quiet (env : Env) : Prop :=
  ∀ tick, env.dbErr tick ≠ some Err.runtimePanic ∧
    (env.ExecuteAll tick).2 ≠ some Err.runtimePanic ∧
    env.Restart tick ≠ some Err.runtimePanic ∧
    ∀ lastReqID, env.OnFinished tick lastReqID ≠ some Err.runtimePanic

/-! ### The stripes of the processed cache -/

/-- The condition `height%stripeDistance < stripeWidth` under which `process` puts a
vertex into the processed cache. -/
def onStripe (height : Nat) : Prop := height % stripeDistance < stripeWidth

/-- What an iteration of the traversal loop of `process` that pops `v` and does not end
the loop does to the processed cache between the loop variables `t` and `t1`: unless `v`
is Processing and its job is new in the blocked vertex queue, the cache is left as it
is; otherwise the cache is first read for the parents of `v`, which changes the order of
its entries only (`walked`), and then `v` is put into it if the height of `v` is on a
stripe. -/
def CacheStep (t t1 : Traversal) (v : ID) : Prop :=
  ((t.b.Manager.Status v ≠ Status.Processing ∨ v ∈ t.b.VtxBlocked.jobs) →
    t1.b.processedCache = t.b.processedCache) ∧
  (t.b.Manager.Status v = Status.Processing → v ∉ t.b.VtxBlocked.jobs →
    ∃ vtx walked, t.b.Manager.GetVtx v = some vtx ∧
      (∀ x, x ∈ walked.entries ↔ x ∈ t.b.processedCache.entries) ∧
      walked.Size = t.b.processedCache.Size ∧
      t1.b.processedCache =
        if vtx.height % stripeDistance < stripeWidth then walked.Put v else walked)

/-- Where an entry `x` of the processed cache can come from when `process` was called
in the state `b`: it was in the cache then, or its vertex was Processing then, had no
job in the blocked vertex queue and has a height on a stripe. -/
def CacheOrigin (b : bootstrapper) (x : ID) : Prop :=
  x ∈ b.processedCache.entries ∨
    (b.Manager.Status x = Status.Processing ∧ x ∉ b.VtxBlocked.jobs ∧
      ∃ vtx, b.Manager.GetVtx x = some vtx ∧ onStripe vtx.height)

/-- What the traversal of `process` called in the state `b` keeps true of its loop
variables: the store is that of `b`, the jobs of `b` are in the queue, and every entry
of the processed cache has an origin. -/
def CacheInvariant (b : bootstrapper) (t : Traversal) : Prop :=
  t.b.Manager = b.Manager ∧ (∀ x ∈ b.VtxBlocked.jobs, x ∈ t.b.VtxBlocked.jobs) ∧
  ∀ x ∈ t.b.processedCache.entries, CacheOrigin b x

/-- A configuration for the examples with a vertex that carries a transaction: vertex
`3`, Processing, at height `2`, with the transaction `7` and the accepted genesis
vertex `1` as its parent. -/
def txConfig : Config :=
  { exampleConfig with
    Manager := { vtxs := [⟨3, [1], 2, [7], Status.Processing⟩, ⟨1, [], 0, [], Status.Accepted⟩] } }

/-- A configuration for the examples with a vertex off the stripes: vertex `3`,
Processing, at height `7`, with the accepted genesis vertex `1` as its parent. -/
def offStripeConfig : Config :=
  { exampleConfig with
    Manager := { vtxs := [⟨3, [1], 7, [], Status.Processing⟩, ⟨1, [], 0, [], Status.Accepted⟩] } }

/-- The environment of the examples in which the write to a blocked queue that is the
answer number `k` fails: as `exampleEnv`, but that `Push` or `Commit` returns an
error. -/
def failingWriteEnv (k : Nat) : Env :=
  { exampleEnv with dbErr := fun tick => if tick = k then some (Err.external 1) else none }

end bootstrap

/-! ## Definitions: linearization shims -/

namespace chains

/-! ### Values passed through the shims -/

/-- The errors the shims and the VMs they wrap return: `ErrHeightIndexedVMNotImplemented`
stands for `block.ErrHeightIndexedVMNotImplemented`, every other error is told by a
code. -/
inductive Err where
  | ErrHeightIndexedVMNotImplemented
  | external (code : Nat)
deriving DecidableEq, Repr

/-- The `snow.Context` a shim holds a pointer to, as far as the shims go: the field
`Metrics`, a gatherer told by a number, and a number that stands for the other
fields. -/
structure Context where
  others : Nat
  Metrics : Nat
deriving DecidableEq, Repr

/-- The arguments of `Initialize` of a `common.VM`, in the order of its parameters.
Contexts of calls, database managers, channels and senders are told by numbers. -/
structure InitializeArgs where
  ctx : Nat
  chainCtx : Context
  dbManager : Nat
  genesisBytes : List Nat
  upgradeBytes : List Nat
  configBytes : List Nat
  toEngine : Nat
  fxs : List Nat
  appSender : Nat
deriving DecidableEq, Repr

/-- The calls the shims make to the VMs they wrap. -/
inductive VMCall where
  | Initialize (args : InitializeArgs)
  | Linearize (ctx : Nat) (stopVertexID : ID) (toEngine : Nat)
  | VerifyHeightIndex (ctx : Nat)
  | GetBlockIDAtHeight (ctx : Nat) (height : Nat)
deriving DecidableEq, Repr

/-! ### The wrapped VMs -/

/-- The methods of `block.HeightIndexedChainVM`, an interface implemented outside the
sources at hand.  What a method returns depends on its arguments and on the number of
calls the VM has received before, so that a VM may answer every call differently. -/
structure HeightIndexedChainVM where
  VerifyHeightIndex : Nat → Nat → Option Err
  GetBlockIDAtHeight : Nat → Nat → Nat → ID × Option Err

/-- A VM behind the interface `vertex.LinearizableVMWithEngine`, implemented outside the
sources at hand: its method `Linearize(ctx, stopVertexID, toEngine)` and, when its type
implements `block.HeightIndexedChainVM` as well, the methods of that interface (the
outcome of the type assertion `vm.(block.HeightIndexedChainVM)`). -/
structure LinearizableVMWithEngine where
  Linearize : Nat → Nat → ID → Nat → Option Err
  heightIndexed : Option HeightIndexedChainVM

/-- A VM behind the interface `common.VM`, implemented outside the sources at hand, as
far as its method `Initialize` goes. -/
structure VM where
  Initialize : Nat → InitializeArgs → Option Err

/-! ### The shims -/

/-- The struct `linearizeOnInitializeVM`: the embedded VM, the same VM seen as a
`block.HeightIndexedChainVM` (`none` for nil) and the stop vertex, together with the
calls the shim has made to the VM, oldest first. -/
structure linearizeOnInitializeVM where
  LinearizableVMWithEngine : LinearizableVMWithEngine
  hVM : Option HeightIndexedChainVM
  stopVertexID : ID
  calls : List VMCall

/-- `NewLinearizeOnInitializeVM(vm)`.  The stop vertex has the zero value `ids.Empty`. -/
def NewLinearizeOnInitializeVM (vm : LinearizableVMWithEngine) : linearizeOnInitializeVM :=
  { LinearizableVMWithEngine := vm
    hVM := vm.heightIndexed
    stopVertexID := 0
    calls := [] }

/-- `linearizeOnInitializeVM.Initialize`, with the nine parameters of the method; the
seven that the source leaves unnamed are unnamed here.  Returns the shim, which has
recorded the call it made, and the error. -/
def linearizeOnInitializeVM.Initialize (vm : linearizeOnInitializeVM) (ctx : Nat)
    (_ : Context) (_ : Nat) (_ : List Nat) (_ : List Nat) (_ : List Nat) (toEngine : Nat)
    (_ : List Nat) (_ : Nat) : linearizeOnInitializeVM × Option Err :=
  ({ vm with calls := vm.calls ++ [VMCall.Linearize ctx vm.stopVertexID toEngine] },
    vm.LinearizableVMWithEngine.Linearize vm.calls.length ctx vm.stopVertexID toEngine)

/-- `linearizeOnInitializeVM.VerifyHeightIndex`. -/
def linearizeOnInitializeVM.VerifyHeightIndex (vm : linearizeOnInitializeVM) (ctx : Nat) :
    linearizeOnInitializeVM × Option Err :=
  match vm.hVM with
  | none => (vm, some Err.ErrHeightIndexedVMNotImplemented)
  | some hVM =>
    ({ vm with calls := vm.calls ++ [VMCall.VerifyHeightIndex ctx] },
      hVM.VerifyHeightIndex vm.calls.length ctx)

/-- `linearizeOnInitializeVM.GetBlockIDAtHeight`; `ids.Empty` is `0`. -/
def linearizeOnInitializeVM.GetBlockIDAtHeight (vm : linearizeOnInitializeVM) (ctx : Nat)
    (height : Nat) : linearizeOnInitializeVM × ID × Option Err :=
  match vm.hVM with
  | none => (vm, 0, some Err.ErrHeightIndexedVMNotImplemented)
  | some hVM =>
    ({ vm with calls := vm.calls ++ [VMCall.GetBlockIDAtHeight ctx height] },
      hVM.GetBlockIDAtHeight vm.calls.length ctx height)

/-- The struct `initializeOnLinearizeVM`: the VM to initialize, the paired shim
(`vmToLinearize`, a pointer in the source, kept here as the state of that shim), the
captured parameters of `Initialize`, and the calls the shim has made to the VM to
initialize, oldest first.  The embedded `vertex.DAGVM` plays no part in `Linearize` and
is left out. -/
structure initializeOnLinearizeVM where
  vmToInitialize : VM
  vmToLinearize : linearizeOnInitializeVM
  registerer : Nat
  ctx : Context
  dbManager : Nat
  genesisBytes : List Nat
  upgradeBytes : List Nat
  configBytes : List Nat
  toEngine : Nat
  fxs : List Nat
  appSender : Nat
  calls : List VMCall

/-- `initializeOnLinearizeVM.Linearize(ctx, stopVertexID)`.  Returns the shim, with the
paired shim and the `snow.Context` as the two assignments leave them and the call of
`Initialize` recorded, and the error. -/
def initializeOnLinearizeVM.Linearize (vm : initializeOnLinearizeVM) (ctx : Nat)
    (stopVertexID : ID) : initializeOnLinearizeVM × Option Err :=
  let vm := { vm with vmToLinearize := { vm.vmToLinearize with stopVertexID := stopVertexID } }
  let vm := { vm with ctx := { vm.ctx with Metrics := vm.registerer } }
  let args : InitializeArgs :=
    { ctx := ctx
      chainCtx := vm.ctx
      dbManager := vm.dbManager
      genesisBytes := vm.genesisBytes
      upgradeBytes := vm.upgradeBytes
      configBytes := vm.configBytes
      toEngine := vm.toEngine
      fxs := vm.fxs
      appSender := vm.appSender }
  ({ vm with calls := vm.calls ++ [VMCall.Initialize args] },
    vm.vmToInitialize.Initialize vm.calls.length args)

/-- A call of a method of `linearizeOnInitializeVM`, or of `Linearize` of the paired
`initializeOnLinearizeVM` as far as the shim is concerned: the assignment of the stop
vertex. -/
inductive ShimCall where
  | Initialize (args : InitializeArgs)
  | VerifyHeightIndex (ctx : Nat)
  | GetBlockIDAtHeight (ctx : Nat) (height : Nat)
  | stop (stopVertexID : ID)
deriving DecidableEq, Repr

/-- The shim after a call. -/
def ShimCall.run (vm : linearizeOnInitializeVM) : ShimCall → linearizeOnInitializeVM
  | ShimCall.Initialize args =>
    (vm.Initialize args.ctx args.chainCtx args.dbManager args.genesisBytes args.upgradeBytes
      args.configBytes args.toEngine args.fxs args.appSender).1
  | ShimCall.VerifyHeightIndex ctx => (vm.VerifyHeightIndex ctx).1
  | ShimCall.GetBlockIDAtHeight ctx height => (vm.GetBlockIDAtHeight ctx height).1
  | ShimCall.stop stopVertexID => { vm with stopVertexID := stopVertexID }

/-- The shim after a sequence of calls, oldest first. -/
def runShim (vm : linearizeOnInitializeVM) (calls : List ShimCall) : linearizeOnInitializeVM :=
  calls.foldl ShimCall.run vm

/-! ### Examples -/

/-- A linearizable VM for the examples that implements the height index: `Linearize`
succeeds, `VerifyHeightIndex` fails with the code of the context, and the block at a
height has the id `height + 100`. -/
def exampleIndexedVM : LinearizableVMWithEngine :=
  { Linearize := fun _ _ _ _ => none
    heightIndexed := some
      { VerifyHeightIndex := fun _ ctx => some (Err.external ctx)
        GetBlockIDAtHeight := fun _ _ height => (height + 100, none) } }

/-- A linearizable VM for the examples that does not implement the height index; its
`Linearize` fails with the stop vertex as the code. -/
def examplePlainVM : LinearizableVMWithEngine :=
  { Linearize := fun _ _ stopVertexID _ => some (Err.external stopVertexID)
    heightIndexed := none }

/-- A pair of shims for the examples, around `examplePlainVM` and a VM whose
`Initialize` fails with the number of the `Metrics` gatherer it finds in the context. -/
def exampleShims : initializeOnLinearizeVM :=
  { vmToInitialize := { Initialize := fun _ args => some (Err.external args.chainCtx.Metrics) }
    vmToLinearize := NewLinearizeOnInitializeVM examplePlainVM
    registerer := 8
    ctx := { others := 1, Metrics := 0 }
    dbManager := 2
    genesisBytes := [3]
    upgradeBytes := [4]
    configBytes := [5]
    toEngine := 6
    fxs := [7]
    appSender := 9
    calls := [] }

end chains

/-! ## Definitions: beacon set -/

namespace beacon

/-- Modelled from the spec: `ips.IPPort`, an address and a port; the type is declared
outside the sources at hand. -/
structure IPPort where
  IP : List Nat
  Port : Nat
deriving DecidableEq, Repr

/-- Modelled from the spec: the text of an `ips.IPPort`, as the test `TestSet` shows it:
the bytes of the address joined by dots, a colon and the port. -/
def IPPort.String (ip : IPPort) : String :=
  String.intercalate "." (ip.IP.map toString) ++ ":" ++ toString ip.Port

/-- Modelled from the spec: a beacon, what `New(id, ip)` builds; the type is declared
outside the sources at hand, the test `TestSet` uses its `ID()` and `IP()`. -/
structure Beacon where
  ID : NodeID
  IP : IPPort
deriving DecidableEq, Repr

/-- Modelled from the spec: `New(id, ip)`. -/
def New (id : NodeID) (ip : IPPort) : Beacon := { ID := id, IP := ip }

/-- Modelled from the spec: the errors of the set that the test `TestSet` and its
removals can meet. -/
inductive Err where
  | errDuplicateID
  | errUnknownID
  | errUnknownIP
deriving DecidableEq, Repr

/-- Modelled from the spec: the beacon set, which is not part of the sources at hand;
only its test `TestSet` is.  The set is kept as the list of its beacons in the order in
which `IDsArg` and `IPsArg` list them. -/
structure Set where
  beacons : List Beacon
deriving DecidableEq, Repr

/-- Modelled from the spec: `NewSet()`, the empty set. -/
def NewSet : Set := { beacons := [] }

/-- Modelled from the spec: `Set.Add`.  Adding a beacon whose node id is in the set
fails with `errDuplicateID` and leaves the set as it is; otherwise the beacon is listed
last (the test `TestSet`). -/
def Set.Add (s : Set) (b : Beacon) : Set × Option Err :=
  if s.beacons.any (fun x => x.ID == b.ID) then (s, some Err.errDuplicateID)
  else ({ beacons := s.beacons ++ [b] }, none)

/-- Modelled from the spec: the list without the beacon at place `i`, whose place the
last beacon takes (the order the test `TestSet` shows after a removal). -/
def removeAt (beacons : List Beacon) (i : Nat) : List Beacon :=
  match beacons.getLast? with
  | none => []
  | some last => (beacons.set i last).dropLast

/-- Modelled from the spec: `Set.RemoveByID`. -/
def Set.RemoveByID (s : Set) (id : NodeID) : Set × Option Err :=
  match s.beacons.findIdx? (fun x => x.ID == id) with
  | none => (s, some Err.errUnknownID)
  | some i => ({ beacons := removeAt s.beacons i }, none)

/-- Modelled from the spec: `Set.RemoveByIP`. -/
def Set.RemoveByIP (s : Set) (ip : IPPort) : Set × Option Err :=
  match s.beacons.findIdx? (fun x => x.IP == ip) with
  | none => (s, some Err.errUnknownIP)
  | some i => ({ beacons := removeAt s.beacons i }, none)

/-- Modelled from the spec: `Set.Len`. -/
def Set.Len (s : Set) : Nat := s.beacons.length

/-- Modelled from the spec: `Set.IDsArg`, the node ids of the beacons separated by
commas.  The text of a node id is computed outside the sources at hand and is a
parameter. -/
def Set.IDsArg (idString : NodeID → String) (s : Set) : String :=
  String.intercalate "," (s.beacons.map (fun b => idString b.ID))

/-- Modelled from the spec: `Set.IPsArg`, the addresses of the beacons separated by
commas. -/
def Set.IPsArg (s : Set) : String :=
  String.intercalate "," (s.beacons.map (fun b => b.IP.String))

/-- The texts of the three node ids of the test `TestSet`, as the test expects them;
the node id built from the byte `i` is `i`. -/
def testIDString (id : NodeID) : String :=
  match id with
  | 0 => "NodeID-111111111111111111116DBWJs"
  | 1 => "NodeID-6HgC8KRBEhXYbF4riJyJFLSHt37UNuRt"
  | _ => "NodeID-BaMPFdqMUQ46BV8iRcwbVfsam55kMqcp"

/-- The beacon `New(id_i, ip_i)` of the test `TestSet`: node id `i`, address
`0.0.0.0`, port `i`. -/
def testBeacon (i : Nat) : Beacon := New i { IP := [0, 0, 0, 0], Port := i }

/-- The set of the test `TestSet` after its first call, `Add(b0)`. -/
def testSet1 : Set := (NewSet.Add (testBeacon 0)).1

/-- The set of the test `TestSet` after its second call, `Add(b0)` again. -/
def testSet2 : Set := (testSet1.Add (testBeacon 0)).1

/-- The set of the test `TestSet` after its third call, `Add(b1)`. -/
def testSet3 : Set := (testSet2.Add (testBeacon 1)).1

/-- The set of the test `TestSet` after its fourth call, `Add(b2)`. -/
def testSet4 : Set := (testSet3.Add (testBeacon 2)).1

/-- The set of the test `TestSet` after its fifth call, `RemoveByID(b0.ID())`. -/
def testSet5 : Set := (testSet4.RemoveByID (testBeacon 0).ID).1

/-- The set of the test `TestSet` after its sixth call, `RemoveByIP(b1.IP())`. -/
def testSet6 : Set := (testSet5.RemoveByIP (testBeacon 1).IP).1

end beacon

/-! ## Theorems: snowball -/

namespace snowball

/-- One step of the fold computing `Bag.Mode`. -/
theorem Bag.Mode_fold_spec (votes : Bag) (l : List ID) (acc : ID × Nat)
    (hacc : acc.2 = votes.count acc.1) :
    let r := l.foldl
      (fun acc x =>
        if acc.2 < votes.count x ∨ (votes.count x = acc.2 ∧ x < acc.1) then (x, votes.count x)
        else acc) acc
    r.2 = votes.count r.1 ∧ acc.2 ≤ r.2 ∧ ∀ x ∈ l, votes.count x ≤ r.2 := by
  induction l generalizing acc with
  | nil => simp [hacc]
  | cons y ys ih =>
    simp only [List.foldl_cons, List.mem_cons]
    by_cases hc : acc.2 < votes.count y ∨ (votes.count y = acc.2 ∧ y < acc.1)
    · rw [if_pos hc]
      obtain ⟨h1, h2, h3⟩ := ih (y, votes.count y) rfl
      refine ⟨h1, ?_, ?_⟩
      · rcases hc with hc | hc
        · exact le_trans (le_of_lt hc) h2
        · exact le_trans (le_of_eq hc.1.symm) h2
      · intro x hx
        rcases hx with rfl | hx
        · exact h2
        · exact h3 x hx
    · rw [if_neg hc]
      obtain ⟨h1, h2, h3⟩ := ih acc hacc
      refine ⟨h1, h2, ?_⟩
      intro x hx
      rcases hx with rfl | hx
      · have : votes.count x ≤ acc.2 := by
          by_contra hlt
          exact hc (Or.inl (not_le.mp hlt))
        exact le_trans this h2
      · exact h3 x hx

/-- The count returned by `Bag.Mode` is the number of votes of the returned choice,
and no choice has more votes. -/
theorem Bag.Mode_spec (votes : Bag) :
    (Bag.Mode votes).2 = votes.count (Bag.Mode votes).1 ∧
    ∀ x, votes.count x ≤ (Bag.Mode votes).2 := by
  rcases hv : votes with _ | ⟨y, ys⟩
  · simp [Bag.Mode]
  · have hy : 0 < votes.count y := by
      rw [hv]; simp
    have h := Bag.Mode_fold_spec votes ys (y, votes.count y) rfl
    have hm : Bag.Mode votes = ys.foldl
        (fun acc x =>
          if acc.2 < votes.count x ∨ (votes.count x = acc.2 ∧ x < acc.1) then
            (x, votes.count x)
          else acc) (y, votes.count y) := by
      conv_lhs => unfold Bag.Mode
      conv_lhs => arg 3; rw [hv]
      rw [List.foldl_cons, if_pos (Or.inl hy)]
    rw [← hv, hm]
    obtain ⟨h1, h2, h3⟩ := h
    refine ⟨h1, ?_⟩
    intro x
    by_cases hx : x ∈ votes
    · rw [hv] at hx
      rcases List.mem_cons.mp hx with rfl | hx
      · exact h2
      · exact h3 x hx
    · rw [List.count_eq_zero_of_not_mem hx]
      exact Nat.zero_le _

/-- C1: for every Flat instance and every bag of votes, RecordPoll returns true
exactly when the mode of the bag has at least Alpha votes (the mode being a choice with
the greatest number of votes); in that case the new instance is the one obtained by
recording a successful poll for the mode, otherwise it is the one obtained by recording
an unsuccessful poll, which resets the confidence and leaves preference and finalized
flag untouched. -/
theorem C1_RecordPoll_quorum (f : Flat) (votes : Bag) :
    ((f.RecordPoll votes).2 = true ↔ f.params.Alpha ≤ (Bag.Mode votes).2) ∧
    (f.RecordPoll votes).1 =
      (if f.params.Alpha ≤ (Bag.Mode votes).2 then f.RecordSuccessfulPoll (Bag.Mode votes).1
       else f.RecordUnsuccessfulPoll) ∧
    ((f.RecordPoll votes).2 = false ↔ (f.RecordPoll votes).1 = f.RecordUnsuccessfulPoll ∧
      ¬ f.params.Alpha ≤ (Bag.Mode votes).2) ∧
    f.RecordUnsuccessfulPoll.nnarySnowball.confidence = 0 ∧
    f.RecordUnsuccessfulPoll.Preference = f.Preference ∧
    f.RecordUnsuccessfulPoll.Finalized = f.Finalized ∧
    (Bag.Mode votes).2 = votes.count (Bag.Mode votes).1 ∧
    ∀ x, votes.count x ≤ (Bag.Mode votes).2 := by
  refine ⟨?_, ?_, ?_, rfl, rfl, rfl, Bag.Mode_spec votes⟩
  · unfold Flat.RecordPoll
    by_cases h : f.params.Alpha ≤ (Bag.Mode votes).2 <;> simp [h]
  · unfold Flat.RecordPoll
    by_cases h : f.params.Alpha ≤ (Bag.Mode votes).2 <;> simp [h]
  · unfold Flat.RecordPoll
    by_cases h : f.params.Alpha ≤ (Bag.Mode votes).2 <;> simp [h]

/-- A finalized instance is left as it is by a successful poll. -/
theorem RecordSuccessfulPoll_of_finalized (sb : nnarySnowball) (choice : ID)
    (h : sb.finalized = true) : sb.RecordSuccessfulPoll choice = sb := by
  simp [nnarySnowball.RecordSuccessfulPoll, h]

/-- One poll keeps a finalized instance finalized, with the same preference. -/
theorem RecordPoll_of_finalized (f : Flat) (votes : Bag) (h : f.Finalized = true) :
    (f.RecordPoll votes).1.Finalized = true ∧
    (f.RecordPoll votes).1.Preference = f.Preference := by
  unfold Flat.Finalized at h
  unfold Flat.RecordPoll
  by_cases hq : f.params.Alpha ≤ (Bag.Mode votes).2
  · simp [hq, Flat.RecordSuccessfulPoll, Flat.Finalized, Flat.Preference,
      RecordSuccessfulPoll_of_finalized _ _ h, h]
  · simp [hq, Flat.RecordUnsuccessfulPoll, Flat.Finalized, Flat.Preference,
      nnarySnowball.RecordUnsuccessfulPoll, h]

/-- C3: finalization is absorbing.  Once Finalized() is true, after any sequence of
later RecordPoll calls, whatever their votes, Preference() is what it was and
Finalized() is still true. -/
theorem C3_finalized_absorbing (f : Flat) (polls : List Bag) (h : f.Finalized = true) :
    (f.RecordPolls polls).Preference = f.Preference ∧
    (f.RecordPolls polls).Finalized = true := by
  induction polls generalizing f with
  | nil => exact ⟨rfl, h⟩
  | cons votes rest ih =>
    have h1 := RecordPoll_of_finalized f votes h
    have h2 := ih (f.RecordPoll votes).1 h1.1
    simp only [Flat.RecordPolls, List.foldl_cons] at h2 ⊢
    exact ⟨h2.1.trans h1.2, h2.2⟩

/-- What a successful poll does to an instance that is not finalized and uncontested. -/
theorem RecordSuccessfulPoll_step (sb : nnarySnowball) (X : ID)
    (hr : sb.rogue = false) (hf : sb.finalized = false) (h32 : sb.confidence + 1 < 2 ^ 32) :
    (sb.RecordSuccessfulPoll X).preference = X ∧
    (sb.RecordSuccessfulPoll X).confidence = (if X = sb.preference then sb.confidence + 1 else 1) ∧
    (sb.RecordSuccessfulPoll X).rogue = false ∧
    (sb.RecordSuccessfulPoll X).betaVirtuous = sb.betaVirtuous ∧
    ((sb.RecordSuccessfulPoll X).finalized = true ↔
      sb.betaVirtuous ≤ (if X = sb.preference then sb.confidence + 1 else 1)) := by
  have hmod : (sb.confidence + 1) % 2 ^ 32 = sb.confidence + 1 := Nat.mod_eq_of_lt h32
  unfold nnarySnowball.RecordSuccessfulPoll
  rw [hf]
  simp only [Bool.false_eq_true, if_false, hmod]
  by_cases hX : X = sb.preference
  · simp only [hX, if_true, hr, Bool.false_eq_true, if_false]
    by_cases hb : sb.betaVirtuous ≤ sb.confidence + 1
    · simp [hb]
    · simp [hb, hf]
  · simp only [hX, if_false, hr, Bool.false_eq_true]
    by_cases hb : sb.betaVirtuous ≤ 1
    · simp [hb]
    · simp [hb, hf]

/-- Polls that all have a quorum for the current preference `X` of an instance that is
not finalized and uncontested raise the confidence by one each, and finalize the
instance exactly when the confidence reaches the threshold. -/
theorem RecordPolls_same_mode (X : ID) (polls : List Bag) (f : Flat)
    (hr : f.nnarySnowball.rogue = false)
    (hf : f.nnarySnowball.finalized = false) (hp : f.nnarySnowball.preference = X)
    (hlen : f.nnarySnowball.confidence + polls.length ≤ f.nnarySnowball.betaVirtuous)
    (h32 : f.nnarySnowball.betaVirtuous < 2 ^ 32)
    (hmode : ∀ votes ∈ polls, (Bag.Mode votes).1 = X ∧ f.params.Alpha ≤ (Bag.Mode votes).2) :
    (f.RecordPolls polls).Preference = X ∧
    ((f.RecordPolls polls).Finalized = true ↔
      0 < polls.length ∧
        f.nnarySnowball.confidence + polls.length = f.nnarySnowball.betaVirtuous) := by
  induction polls generalizing f with
  | nil =>
    simp [Flat.RecordPolls, Flat.Preference, Flat.Finalized, hp, hf]
  | cons votes rest ih =>
    have hm := hmode votes (List.mem_cons_self _ _)
    simp only [List.length_cons] at hlen
    have hlt : f.nnarySnowball.confidence + 1 < 2 ^ 32 := by omega
    obtain ⟨s1, s2, s3, s4, s5⟩ := RecordSuccessfulPoll_step f.nnarySnowball X hr hf hlt
    rw [if_pos hp.symm] at s2 s5
    have hstep : (f.RecordPoll votes).1 = f.RecordSuccessfulPoll X := by
      simp [Flat.RecordPoll, hm.1, hm.2]
    have hpar : (f.RecordSuccessfulPoll X).params = f.params := rfl
    have hsb : (f.RecordSuccessfulPoll X).nnarySnowball =
        f.nnarySnowball.RecordSuccessfulPoll X := rfl
    simp only [Flat.RecordPolls, List.foldl_cons, hstep, List.length_cons]
    by_cases hlast : f.nnarySnowball.confidence + 1 = f.nnarySnowball.betaVirtuous
    · have hfin : (f.RecordSuccessfulPoll X).Finalized = true := by
        unfold Flat.Finalized; rw [hsb, s5]; omega
      have hrest : rest = [] := by
        cases rest with
        | nil => rfl
        | cons a as => simp only [List.length_cons] at hlen; omega
      subst hrest
      simp only [List.foldl_nil, List.length_nil]
      refine ⟨by unfold Flat.Preference; rw [hsb, s1], ?_⟩
      rw [hfin]
      simp only [true_iff]
      omega
    · have hnf : (f.RecordSuccessfulPoll X).nnarySnowball.finalized = false := by
        rw [hsb]
        cases hfin : (f.nnarySnowball.RecordSuccessfulPoll X).finalized with
        | false => rfl
        | true => exact absurd (s5.mp hfin) (by omega)
      have := ih (f.RecordSuccessfulPoll X) (by rw [hsb, s3]) hnf (by rw [hsb, s1])
        (by rw [hsb, s2, s4]; omega) (by rw [hsb, s4]; exact h32)
        (fun v hv2 => by rw [hpar]; exact hmode v (List.mem_cons_of_mem _ hv2))
      simp only [Flat.RecordPolls] at this
      refine ⟨this.1, ?_⟩
      rw [this.2, hsb, s2, s4]
      constructor
      · intro hh; omega
      · intro hh; omega

/-- C2: a fresh instance built by NewFlat with BetaVirtuous = β, 1 ≤ β (β a value of
the 32-bit counter type), is uncontested; after β consecutive RecordPoll calls whose
mode is the same choice X with at least Alpha votes, Preference() = X and
Finalized() = true. -/
theorem C2_finalizes_after_beta_polls (params : Parameters) (choice X : ID)
    (polls : List Bag) (hβ : 1 ≤ params.BetaVirtuous) (h32 : params.BetaVirtuous < 2 ^ 32)
    (hlen : polls.length = params.BetaVirtuous)
    (hmode : ∀ votes ∈ polls, (Bag.Mode votes).1 = X ∧ params.Alpha ≤ (Bag.Mode votes).2) :
    (NewFlat params choice).nnarySnowball.rogue = false ∧
    ((NewFlat params choice).RecordPolls polls).Preference = X ∧
    ((NewFlat params choice).RecordPolls polls).Finalized = true := by
  refine ⟨rfl, ?_⟩
  cases polls with
  | nil => simp only [List.length_nil] at hlen; omega
  | cons votes rest =>
    have hm := hmode votes (List.mem_cons_self _ _)
    simp only [List.length_cons] at hlen
    have hstep : ((NewFlat params choice).RecordPoll votes).1 =
        (NewFlat params choice).RecordSuccessfulPoll X := by
      have : (NewFlat params choice).params = params := rfl
      simp [Flat.RecordPoll, hm.1, hm.2, this]
    obtain ⟨s1, s2, s3, s4, s5⟩ := RecordSuccessfulPoll_step
      (NewFlat params choice).nnarySnowball X rfl rfl (by
        show 0 + 1 < 2 ^ 32
        norm_num)
    have hc0 : (NewFlat params choice).nnarySnowball.confidence = 0 := rfl
    have hb0 : (NewFlat params choice).nnarySnowball.betaVirtuous = params.BetaVirtuous := rfl
    have hsb : ((NewFlat params choice).RecordSuccessfulPoll X).nnarySnowball =
        (NewFlat params choice).nnarySnowball.RecordSuccessfulPoll X := rfl
    have hc1 : ((NewFlat params choice).nnarySnowball.RecordSuccessfulPoll X).confidence = 1 := by
      rw [s2, hc0]; split <;> rfl
    rw [hc0, hb0] at s5
    have hone : (if X = (NewFlat params choice).nnarySnowball.preference then 0 + 1 else 1) = 1 := by
      split <;> rfl
    rw [hone] at s5
    simp only [Flat.RecordPolls, List.foldl_cons, hstep]
    by_cases hlast : params.BetaVirtuous = 1
    · have hrest : rest = [] := by
        cases rest with
        | nil => rfl
        | cons a as => simp only [List.length_cons] at hlen; omega
      subst hrest
      simp only [List.foldl_nil]
      refine ⟨by unfold Flat.Preference; rw [hsb, s1], ?_⟩
      unfold Flat.Finalized
      rw [hsb, s5]
      omega
    · have hnf : ((NewFlat params choice).RecordSuccessfulPoll X).nnarySnowball.finalized
          = false := by
        rw [hsb]
        cases hfin : ((NewFlat params choice).nnarySnowball.RecordSuccessfulPoll X).finalized with
        | false => rfl
        | true => exact absurd (s5.mp hfin) (by omega)
      have := RecordPolls_same_mode X rest ((NewFlat params choice).RecordSuccessfulPoll X)
        (by rw [hsb, s3]) hnf (by rw [hsb, s1]) (by rw [hsb, hc1, s4, hb0]; omega)
        (by rw [hsb, s4, hb0]; exact h32)
        (fun v hv2 => hmode v (List.mem_cons_of_mem _ hv2))
      simp only [Flat.RecordPolls] at this
      refine ⟨this.1, ?_⟩
      rw [this.2, hsb, hc1, s4, hb0]
      omega

/-- Witness of C2: the scenario of the spec, α = 15, β_virtuous = 15; a fresh instance
that prefers choice 9 sees fifteen polls with 18 votes for choice 5 and 2 votes for
choice 6. -/
theorem C2_witness :
    (NewFlat scenarioParams 9).nnarySnowball.rogue = false ∧
    ((NewFlat scenarioParams 9).RecordPolls
      (List.replicate 15 (votesFor 5 18 6 2))).Preference = 5 ∧
    ((NewFlat scenarioParams 9).RecordPolls
      (List.replicate 15 (votesFor 5 18 6 2))).Finalized = true :=
  C2_finalizes_after_beta_polls scenarioParams 9 5 (List.replicate 15 (votesFor 5 18 6 2))
    (by decide) (by decide) (by decide) (by decide)

/-- Witness of C3: the instance finalized on choice 5 by the scenario of the spec keeps
its preference after a poll with 19 votes for choice 6. -/
theorem C3_witness :
    (((NewFlat scenarioParams 9).RecordPolls
        (List.replicate 15 (votesFor 5 18 6 2))).RecordPolls [votesFor 6 19 5 1]).Preference =
      ((NewFlat scenarioParams 9).RecordPolls
        (List.replicate 15 (votesFor 5 18 6 2))).Preference ∧
    (((NewFlat scenarioParams 9).RecordPolls
        (List.replicate 15 (votesFor 5 18 6 2))).RecordPolls [votesFor 6 19 5 1]).Finalized =
      true :=
  C3_finalized_absorbing
    ((NewFlat scenarioParams 9).RecordPolls (List.replicate 15 (votesFor 5 18 6 2)))
    [votesFor 6 19 5 1] (by decide)

end snowball

/-! ## Theorems: bootstrapper -/

namespace bootstrap

theorem IDSet.mem_Remove (s : IDSet) (x y : ID) : y ∈ IDSet.Remove s x ↔ y ∈ s ∧ y ≠ x := by
  simp [IDSet.Remove, List.mem_filter]

theorem IDSet.mem_Add (s : IDSet) (x y : ID) : y ∈ IDSet.Add s x ↔ y ∈ s ∨ y = x := by
  unfold IDSet.Add
  split
  · constructor
    · intro h; exact Or.inl h
    · rintro (h | rfl)
      · exact h
      · assumption
  · simp

theorem IDSet.mem_AddAll (xs : List ID) (s : IDSet) (y : ID) :
    y ∈ IDSet.AddAll s xs ↔ y ∈ s ∨ y ∈ xs := by
  induction xs generalizing s with
  | nil => simp [IDSet.AddAll]
  | cons x xs ih =>
    have := ih (IDSet.Add s x)
    simp only [IDSet.AddAll, List.foldl_cons] at this ⊢
    rw [this, IDSet.mem_Add]
    simp only [List.mem_cons]
    tauto

theorem IDSet.length_Remove_lt (s : IDSet) (x : ID) (h : x ∈ s) :
    (IDSet.Remove s x).length < s.length := by
  unfold IDSet.Remove
  induction s with
  | nil => simp at h
  | cons a as ih =>
    by_cases ha : a = x
    · subst ha
      simp only [List.filter_cons, bne_self_eq_false, Bool.false_eq_true, if_false, List.length_cons]
      exact Nat.lt_succ_of_le (List.length_filter_le _ _)
    · have hx : x ∈ as := by
        rcases List.mem_cons.mp h with h | h
        · exact absurd h.symm ha
        · exact h
      have := ih hx
      simp only [List.filter_cons, List.length_cons]
      have hb : (a != x) = true := by simp [ha]
      rw [hb]
      simp only [if_true, List.length_cons]
      omega

theorem IDSet.getD_mem (s : IDSet) (i : Nat) (h : 0 < s.length) :
    s.getD (i % s.length) 0 ∈ s := by
  have hlt : i % s.length < s.length := Nat.mod_lt _ h
  rw [List.getD_eq_getElem _ _ hlt]
  exact List.getElem_mem _

theorem Requests.Remove_of_not_Has (r : Requests) (n : NodeID) (q : Nat) (h : r.Has n q = false) :
    r.Remove n q = (r, 0, false) := by
  unfold Requests.Remove
  unfold Requests.Has at h
  have : r.reqs.find? (fun e => e.1 == n && e.2.1 == q) = none := by
    rw [List.find?_eq_none]
    intro x hx
    rw [List.any_eq_false] at h
    exact h x hx
  rw [this]

theorem Requests.Remove_Len (r : Requests) (n : NodeID) (q : Nat) :
    (r.Remove n q).1.Len ≤ r.Len := by
  unfold Requests.Remove
  split
  · simp only [Requests.Len]
    rw [List.length_erase]
    split <;> omega
  · exact le_refl _

theorem Requests.Add_Len (r : Requests) (n : NodeID) (q : Nat) (v : ID) :
    (r.Add n q v).Len ≤ r.Len + 1 := by
  unfold Requests.Add
  split
  · omega
  · simp [Requests.Len]

/-! ### fetch -/

theorem fetchStep_Len (env : Env) (b : bootstrapper) :
    (fetchStep env b).1.OutstandingRequests.Len ≤ b.OutstandingRequests.Len + 1 := by
  unfold fetchStep
  simp only []
  split
  · simp [bootstrapper.next]
  · split
    · simp [bootstrapper.next]
    · split
      · simp [bootstrapper.next]
      · simp only [bootstrapper.next, bootstrapper.emit]
        exact Requests.Add_Len _ _ _ _

theorem fetchLoop_Len (env : Env) (fuel : Nat) (b : bootstrapper)
    (h : b.OutstandingRequests.Len ≤ MaxOutstandingGetAncestorsRequests) :
    (fetchLoop env fuel b).1.OutstandingRequests.Len ≤ MaxOutstandingGetAncestorsRequests := by
  induction fuel generalizing b with
  | zero => exact h
  | succ fuel ih =>
    unfold fetchLoop
    split
    · rename_i hc
      simp only [Bool.and_eq_true, decide_eq_true_eq] at hc
      have hs := fetchStep_Len env b
      split
      · rename_i b1 err heq
        have : b1 = (fetchStep env b).1 := by rw [heq]
        show b1.OutstandingRequests.Len ≤ _
        rw [this]; omega
      · rename_i b1 heq
        have : b1 = (fetchStep env b).1 := by rw [heq]
        apply ih
        rw [this]; omega
    · exact h

theorem sends_append (l1 l2 : List Event) : sends (l1 ++ l2) = sends l1 ++ sends l2 := by
  simp [sends, List.filter_append]

theorem NoRequestChange_refl (b : bootstrapper) : NoRequestChange b b :=
  ⟨rfl, rfl, rfl, [], by simp, rfl⟩

theorem NoRequestChange_trans {a b c : bootstrapper} (h1 : NoRequestChange a b)
    (h2 : NoRequestChange b c) : NoRequestChange a c := by
  obtain ⟨a1, a2, a3, l1, a4, a5⟩ := h1
  obtain ⟨b1, b2, b3, l2, b4, b5⟩ := h2
  refine ⟨b1.trans a1, b2.trans a2, b3.trans a3, l1 ++ l2, ?_, ?_⟩
  · rw [b4, a4, List.append_assoc]
  · rw [sends_append, a5, b5]; rfl

theorem NoRequestChange_of_eq {b b1 : bootstrapper} (added : List Event)
    (h1 : b1.OutstandingRequests = b.OutstandingRequests) (h2 : b1.needToFetch = b.needToFetch)
    (h3 : b1.RequestID = b.RequestID) (h4 : b1.trace = b.trace ++ added)
    (h5 : sends added = []) : NoRequestChange b b1 :=
  ⟨h1, h2, h3, added, h4, h5⟩

theorem checkFinishNotify_frame (env : Env) (b : bootstrapper) :
    NoRequestChange b (checkFinishNotify env b).1 := by
  unfold checkFinishNotify
  simp only [OnFinished, bootstrapper.next, bootstrapper.emit]
  split
  · exact NoRequestChange_of_eq [Event.SubnetBootstrapped, Event.RegisterTimeout bootstrappingDelay]
      rfl rfl rfl (by simp) rfl
  · exact NoRequestChange_of_eq [Event.SubnetBootstrapped, Event.OnFinished b.RequestID]
      rfl rfl rfl (by simp) rfl

theorem checkFinishRetry_frame (env : Env) (b : bootstrapper) (n : Nat) :
    NoRequestChange b (checkFinishRetry env b n).1 := by
  unfold checkFinishRetry
  simp only []
  split
  · exact NoRequestChange_of_eq [Event.Restart true] rfl rfl rfl rfl rfl
  · exact NoRequestChange_trans (NoRequestChange_of_eq [] rfl rfl rfl (by simp) rfl)
      (checkFinishNotify_frame env _)

theorem checkFinishVertices_frame (env : Env) (b : bootstrapper) :
    NoRequestChange b (checkFinishVertices env b).1 := by
  unfold checkFinishVertices
  simp only []
  split
  · exact NoRequestChange_of_eq [Event.VtxBlockedExecuteAll] rfl rfl rfl rfl rfl
  · split
    · exact NoRequestChange_of_eq [Event.VtxBlockedExecuteAll] rfl rfl rfl rfl rfl
    · refine NoRequestChange_trans ?_ (checkFinishRetry_frame env _ _)
      exact NoRequestChange_of_eq [Event.VtxBlockedExecuteAll] rfl rfl rfl rfl rfl

theorem checkFinishTxs_frame (env : Env) (b : bootstrapper) :
    NoRequestChange b (checkFinishTxs env b).1 := by
  unfold checkFinishTxs
  simp only []
  split
  · exact NoRequestChange_of_eq [Event.TxBlockedExecuteAll] rfl rfl rfl rfl rfl
  · split
    · exact NoRequestChange_of_eq [Event.TxBlockedExecuteAll] rfl rfl rfl rfl rfl
    · refine NoRequestChange_trans ?_ (checkFinishVertices_frame env _)
      exact NoRequestChange_of_eq [Event.TxBlockedExecuteAll] rfl rfl rfl rfl rfl

theorem checkFinish_frame (env : Env) (b : bootstrapper) :
    NoRequestChange b (checkFinish env b).1 := by
  unfold checkFinish
  simp only []
  split
  · exact NoRequestChange_of_eq [] rfl rfl rfl (by simp [bootstrapper.next]) rfl
  · exact NoRequestChange_trans (NoRequestChange_of_eq [] rfl rfl rfl (by simp [bootstrapper.next]) rfl)
      (checkFinishTxs_frame env _)

/-! ### The traversal of process -/

theorem TraversalFrame_refl (b : bootstrapper) : TraversalFrame b b := ⟨rfl, rfl, rfl, rfl⟩

theorem TraversalFrame_trans {a b c : bootstrapper} (h1 : TraversalFrame a b)
    (h2 : TraversalFrame b c) : TraversalFrame a c :=
  ⟨h2.1.trans h1.1, h2.2.1.trans h1.2.1, h2.2.2.1.trans h1.2.2.1, h2.2.2.2.trans h1.2.2.2⟩

theorem processSeed_frame (vtxs : List ID) (b : bootstrapper) (toProcess : List ID) :
    TraversalFrame b (processSeed vtxs b toProcess).1 := by
  induction vtxs generalizing b toProcess with
  | nil => exact TraversalFrame_refl b
  | cons v vs ih =>
    unfold processSeed
    simp only []
    split
    · exact TraversalFrame_trans ⟨rfl, rfl, rfl, rfl⟩ (ih _ _)
    · exact TraversalFrame_trans ⟨rfl, rfl, rfl, rfl⟩ (ih _ _)

theorem processTxs_frame (env : Env) (txs : List ID) (b : bootstrapper) :
    TraversalFrame b (processTxs env txs b).1 := by
  induction txs generalizing b with
  | nil => exact TraversalFrame_refl b
  | cons v vs ih =>
    unfold processTxs
    split
    · exact ⟨rfl, rfl, rfl, rfl⟩
    · exact TraversalFrame_trans ⟨rfl, rfl, rfl, rfl⟩ (ih _)

theorem processVertex_frame (env : Env) (vtxID : ID) (toProcess : List ID) (vtxHeightSet : IDSet)
    (prevHeight : Nat) (b : bootstrapper) :
    TraversalFrame b (stepState (processVertex env vtxID toProcess vtxHeightSet prevHeight b)) := by
  unfold processVertex
  simp only []
  split
  · exact ⟨rfl, rfl, rfl, rfl⟩
  · split
    · exact ⟨rfl, rfl, rfl, rfl⟩
    · split
      · exact ⟨rfl, rfl, rfl, rfl⟩
      · rename_i vtx hvtx
        split
        · rename_i b1 err heq
          have h := processTxs_frame env vtx.txs
            { b.next with needToFetch := IDSet.Remove b.needToFetch vtxID,
                          VtxBlocked := ((b.VtxBlocked.RemoveMissingID vtxID).Push vtxID).1 }
          simp only [bootstrapper.next] at h heq
          rw [heq] at h
          exact TraversalFrame_trans ⟨rfl, rfl, rfl, rfl⟩ h
        · rename_i b1 heq
          have h := processTxs_frame env vtx.txs
            { b.next with needToFetch := IDSet.Remove b.needToFetch vtxID,
                          VtxBlocked := ((b.VtxBlocked.RemoveMissingID vtxID).Push vtxID).1 }
          simp only [bootstrapper.next] at h heq
          rw [heq] at h
          split
          · exact TraversalFrame_trans (TraversalFrame_trans ⟨rfl, rfl, rfl, rfl⟩ h) ⟨rfl, rfl, rfl, rfl⟩
          · exact TraversalFrame_trans (TraversalFrame_trans ⟨rfl, rfl, rfl, rfl⟩ h) ⟨rfl, rfl, rfl, rfl⟩

theorem processStep_frame (env : Env) (t : Traversal) :
    TraversalFrame t.b (stepState (processStep env t)) := by
  unfold processStep
  simp only []
  split
  · exact ⟨rfl, rfl, rfl, rfl⟩
  · split
    · exact ⟨rfl, rfl, rfl, rfl⟩
    · split
      · exact ⟨rfl, rfl, rfl, rfl⟩
      · exact ⟨rfl, rfl, rfl, rfl⟩
      · exact ⟨rfl, rfl, rfl, rfl⟩
      · exact TraversalFrame_trans ⟨rfl, rfl, rfl, rfl⟩ (processVertex_frame env _ _ _ _ _)

theorem processLoop_frame (env : Env) (fuel : Nat) (t : Traversal) (b1 : bootstrapper)
    (e : LoopExit) (h : processLoop env fuel t = some (b1, e)) : TraversalFrame t.b b1 := by
  induction fuel generalizing t with
  | zero =>
    unfold processLoop at h
    split at h
    · exact absurd h (by simp)
    · simp only [Option.some.injEq, Prod.mk.injEq] at h
      rw [← h.1]; exact TraversalFrame_refl _
  | succ fuel ih =>
    unfold processLoop at h
    split at h
    · have hs := processStep_frame env t
      split at h
      · rename_i exit heq
        rw [heq] at hs
        simp only [Option.some.injEq] at h
        rw [h] at hs
        exact hs
      · rename_i t1 heq
        rw [heq] at hs
        exact TraversalFrame_trans hs (ih t1 h)
    · simp only [Option.some.injEq, Prod.mk.injEq] at h
      rw [← h.1]; exact TraversalFrame_refl _

/-! ### More on fetch -/

theorem Requests.Contains_Add (r : Requests) (n : NodeID) (q : Nat) (v x : ID)
    (h : (r.Add n q v).Contains x = true) : r.Contains x = true ∨ x = v := by
  unfold Requests.Add at h
  split at h
  · exact Or.inl h
  · simp only [Requests.Contains, List.any_append, List.any_cons, List.any_nil, Bool.or_false,
      Bool.or_eq_true, beq_iff_eq] at h ⊢
    rcases h with h | h
    · exact Or.inl h
    · exact Or.inr h.symm

theorem SendsOnlyMissing_refl (b : bootstrapper) : SendsOnlyMissing b b :=
  ⟨[], by simp, by simp⟩

theorem SendsOnlyMissing_trans {a b c : bootstrapper} (hm : b.Manager = a.Manager)
    (h1 : SendsOnlyMissing a b) (h2 : SendsOnlyMissing b c) : SendsOnlyMissing a c := by
  obtain ⟨l1, e1, p1⟩ := h1
  obtain ⟨l2, e2, p2⟩ := h2
  refine ⟨l1 ++ l2, by rw [e2, e1, List.append_assoc], ?_⟩
  intro n r v hv
  rcases List.mem_append.mp hv with hv | hv
  · exact p1 n r v hv
  · rw [← hm]; exact p2 n r v hv

theorem FetchFrame_refl (b : bootstrapper) : FetchFrame b b :=
  ⟨rfl, fun _ h => h, fun _ _ h => h, SendsOnlyMissing_refl b⟩

theorem FetchFrame_trans {a b c : bootstrapper} (h1 : FetchFrame a b) (h2 : FetchFrame b c) :
    FetchFrame a c := by
  obtain ⟨m1, n1, o1, s1⟩ := h1
  obtain ⟨m2, n2, o2, s2⟩ := h2
  exact ⟨m2.trans m1, fun v hv => n1 v (n2 v hv),
    fun v hv hc => o1 v (n2 v hv) (o2 v hv hc), SendsOnlyMissing_trans m1 s1 s2⟩

theorem fetchStep_frame (env : Env) (b : bootstrapper) : FetchFrame b (fetchStep env b).1 := by
  unfold fetchStep
  simp only []
  split
  · refine ⟨rfl, ?_, ?_, ⟨[], by simp [bootstrapper.next], by simp⟩⟩
    · intro v hv; exact ((IDSet.mem_Remove _ _ _).mp hv).1
    · intro v _ hc; exact hc
  · split
    · refine ⟨rfl, ?_, ?_, ⟨[], by simp [bootstrapper.next], by simp⟩⟩
      · intro v hv; exact ((IDSet.mem_Remove _ _ _).mp hv).1
      · intro v _ hc; exact hc
    · rename_i hnc hstore
      split
      · refine ⟨rfl, ?_, ?_, ⟨[], by simp [bootstrapper.next], by simp⟩⟩
        · intro v hv; exact ((IDSet.mem_Remove _ _ _).mp hv).1
        · intro v _ hc; exact hc
      · refine ⟨rfl, ?_, ?_, ⟨[_], rfl, ?_⟩⟩
        · intro v hv; exact ((IDSet.mem_Remove _ _ _).mp hv).1
        · intro v hv hc
          rcases Requests.Contains_Add _ _ _ _ _ hc with hc | hc
          · exact hc
          · exact absurd hc ((IDSet.mem_Remove _ _ _).mp hv).2
        · intro n r v hv
          simp only [List.mem_singleton, Event.SendGetAncestors.injEq] at hv
          rw [hv.2.2]
          simp only [bootstrapper.next] at hstore
          cases hg : b.Manager.GetVtx
              (b.needToFetch.getD (env.pick b.tick % b.needToFetch.length) 0) with
          | none => rfl
          | some x => rw [hg] at hstore; simp at hstore

theorem fetchStep_needToFetch (env : Env) (b : bootstrapper) (h : 0 < b.needToFetch.length) :
    (fetchStep env b).1.needToFetch.length < b.needToFetch.length := by
  have hlt := IDSet.length_Remove_lt b.needToFetch _ (IDSet.getD_mem b.needToFetch (env.pick b.tick) h)
  unfold fetchStep
  simp only []
  split
  · exact hlt
  · split
    · exact hlt
    · split
      · exact hlt
      · exact hlt

theorem fetchStep_error (env : Env) (b : bootstrapper) (e : Err)
    (h : (fetchStep env b).2 = some e) : ∃ v, e = Err.noValidators v := by
  unfold fetchStep at h
  simp only [] at h
  split at h
  · simp at h
  · split at h
    · simp at h
    · split at h
      · simp only [Option.some.injEq] at h
        exact ⟨_, h.symm⟩
      · simp at h

theorem fetchLoop_frame (env : Env) (fuel : Nat) (b : bootstrapper) :
    FetchFrame b (fetchLoop env fuel b).1 := by
  induction fuel generalizing b with
  | zero => exact FetchFrame_refl b
  | succ fuel ih =>
    unfold fetchLoop
    split
    · have hs := fetchStep_frame env b
      split
      · rename_i b1 err heq
        rw [heq] at hs
        exact hs
      · rename_i b1 heq
        rw [heq] at hs
        exact FetchFrame_trans hs (ih b1)
    · exact FetchFrame_refl b

theorem fetchLoop_error (env : Env) (fuel : Nat) (b : bootstrapper) (e : Err)
    (h : (fetchLoop env fuel b).2 = some e) : ∃ v, e = Err.noValidators v := by
  induction fuel generalizing b with
  | zero => simp [fetchLoop] at h
  | succ fuel ih =>
    unfold fetchLoop at h
    split at h
    · split at h
      · rename_i b1 err heq
        apply fetchStep_error env b
        rw [heq]; exact h
      · rename_i b1 heq
        exact ih b1 h
    · simp at h

/-- The loop of `fetch` ends by itself: when it ends without an error and had enough
fuel, `needToFetch` is empty or the table is full. -/
theorem fetchLoop_complete (env : Env) (fuel : Nat) (b : bootstrapper)
    (hfuel : b.needToFetch.length ≤ fuel) (h : (fetchLoop env fuel b).2 = none) :
    (fetchLoop env fuel b).1.needToFetch = [] ∨
    MaxOutstandingGetAncestorsRequests ≤ (fetchLoop env fuel b).1.OutstandingRequests.Len := by
  induction fuel generalizing b with
  | zero =>
    left
    show b.needToFetch = []
    exact List.eq_nil_of_length_eq_zero (by omega)
  | succ fuel ih =>
    unfold fetchLoop at h ⊢
    split
    · rename_i hc
      rw [if_pos hc] at h
      simp only [Bool.and_eq_true, decide_eq_true_eq, IDSet.Len] at hc
      have hlt := fetchStep_needToFetch env b hc.1
      split
      · rename_i b1 err heq
        rw [heq] at h
        simp at h
      · rename_i b1 heq
        rw [heq] at h hlt
        exact ih b1 (by simp only [] at hlt; omega) h
    · rename_i hc
      simp only [Bool.and_eq_true, decide_eq_true_eq, IDSet.Len, not_and_or, not_lt] at hc
      rcases hc with hc | hc
      · left
        show b.needToFetch = []
        exact List.eq_nil_of_length_eq_zero (by omega)
      · right; exact hc

theorem fetch_bounded (env : Env) (b : bootstrapper) (vtxIDs : List ID)
    (h : RequestsBounded b) : RequestsBounded (fetch env b vtxIDs).1 := by
  unfold fetch
  simp only []
  have hl := fetchLoop_Len env (IDSet.AddAll b.needToFetch vtxIDs).length
    { b with needToFetch := IDSet.AddAll b.needToFetch vtxIDs } h
  split
  · rename_i b1 err heq
    rw [heq] at hl
    exact hl
  · rename_i b1 heq
    rw [heq] at hl
    unfold RequestsBounded
    rw [(checkFinish_frame env b1).1]
    exact hl

theorem processCommit_bounded (env : Env) (b : bootstrapper) (h : RequestsBounded b) :
    RequestsBounded (processCommit env b).1 := by
  unfold processCommit
  split
  · exact h
  · simp only []
    split
    · exact h
    · exact fetch_bounded env _ [] h

/-- The ways `process` returns: the traversal, which leaves requests, store and trace
alone, was halted or failed, or it drained the heap and the queues are committed. -/
theorem process_cases (env : Env) (b b1 : bootstrapper) (vtxs : List ID) (r : Option Err)
    (hp : process env b vtxs = some (b1, r)) :
    ∃ b2, TraversalFrame b b2 ∧
      ((b1 = b2 ∧ r = none) ∨ (∃ err, b1 = b2 ∧ r = some err) ∨ (b1, r) = processCommit env b2) := by
  unfold process at hp
  simp only [] at hp
  have hseed := processSeed_frame vtxs b []
  split at hp
  · simp at hp
  · rename_i b2 heq
    have hloop := processLoop_frame env _ _ _ _ heq
    simp only [Option.some.injEq, Prod.mk.injEq] at hp
    exact ⟨b2, TraversalFrame_trans hseed hloop, Or.inl ⟨hp.1.symm, hp.2.symm⟩⟩
  · rename_i b2 err heq
    have hloop := processLoop_frame env _ _ _ _ heq
    simp only [Option.some.injEq, Prod.mk.injEq] at hp
    exact ⟨b2, TraversalFrame_trans hseed hloop, Or.inr (Or.inl ⟨err, hp.1.symm, hp.2.symm⟩)⟩
  · rename_i b2 heq
    have hloop := processLoop_frame env _ _ _ _ heq
    simp only [Option.some.injEq] at hp
    exact ⟨b2, TraversalFrame_trans hseed hloop, Or.inr (Or.inr hp.symm)⟩

theorem process_bounded (env : Env) (b b1 : bootstrapper) (vtxs : List ID) (r : Option Err)
    (hp : process env b vtxs = some (b1, r)) (h : RequestsBounded b) : RequestsBounded b1 := by
  obtain ⟨b2, hf, hc⟩ := process_cases env b b1 vtxs r hp
  have hb2 : RequestsBounded b2 := by
    unfold RequestsBounded
    rw [hf.1]; exact h
  rcases hc with ⟨h1, _⟩ | ⟨_, h1, _⟩ | h1
  · rw [h1]; exact hb2
  · rw [h1]; exact hb2
  · have := processCommit_bounded env b2 hb2
    rw [← h1] at this
    exact this

/-! ### Projections of the state after an answer or a recorded call -/

@[simp] theorem next_AncestorsMaxContainersReceived (b : bootstrapper) : b.next.AncestorsMaxContainersReceived = b.AncestorsMaxContainersReceived := rfl

@[simp] theorem next_RetryBootstrap (b : bootstrapper) : b.next.RetryBootstrap = b.RetryBootstrap := rfl

@[simp] theorem next_RequestID (b : bootstrapper) : b.next.RequestID = b.RequestID := rfl

@[simp] theorem next_Manager (b : bootstrapper) : b.next.Manager = b.Manager := rfl

@[simp] theorem next_VtxBlocked (b : bootstrapper) : b.next.VtxBlocked = b.VtxBlocked := rfl

@[simp] theorem next_TxBlocked (b : bootstrapper) : b.next.TxBlocked = b.TxBlocked := rfl

@[simp] theorem next_OutstandingRequests (b : bootstrapper) : b.next.OutstandingRequests = b.OutstandingRequests := rfl

@[simp] theorem next_started (b : bootstrapper) : b.next.started = b.started := rfl

@[simp] theorem next_needToFetch (b : bootstrapper) : b.next.needToFetch = b.needToFetch := rfl

@[simp] theorem next_processedCache (b : bootstrapper) : b.next.processedCache = b.processedCache := rfl

@[simp] theorem next_executedStateTransitions (b : bootstrapper) : b.next.executedStateTransitions = b.executedStateTransitions := rfl

@[simp] theorem next_awaitingTimeout (b : bootstrapper) : b.next.awaitingTimeout = b.awaitingTimeout := rfl

@[simp] theorem next_tick (b : bootstrapper) : b.next.tick = b.tick + 1 := rfl

@[simp] theorem next_trace (b : bootstrapper) : b.next.trace = b.trace := rfl

@[simp] theorem emit_AncestorsMaxContainersReceived (b : bootstrapper) (e : Event) : (b.emit e).AncestorsMaxContainersReceived = b.AncestorsMaxContainersReceived := rfl

@[simp] theorem emit_RetryBootstrap (b : bootstrapper) (e : Event) : (b.emit e).RetryBootstrap = b.RetryBootstrap := rfl

@[simp] theorem emit_RequestID (b : bootstrapper) (e : Event) : (b.emit e).RequestID = b.RequestID := rfl

@[simp] theorem emit_Manager (b : bootstrapper) (e : Event) : (b.emit e).Manager = b.Manager := rfl

@[simp] theorem emit_VtxBlocked (b : bootstrapper) (e : Event) : (b.emit e).VtxBlocked = b.VtxBlocked := rfl

@[simp] theorem emit_TxBlocked (b : bootstrapper) (e : Event) : (b.emit e).TxBlocked = b.TxBlocked := rfl

@[simp] theorem emit_OutstandingRequests (b : bootstrapper) (e : Event) : (b.emit e).OutstandingRequests = b.OutstandingRequests := rfl

@[simp] theorem emit_started (b : bootstrapper) (e : Event) : (b.emit e).started = b.started := rfl

@[simp] theorem emit_needToFetch (b : bootstrapper) (e : Event) : (b.emit e).needToFetch = b.needToFetch := rfl

@[simp] theorem emit_processedCache (b : bootstrapper) (e : Event) : (b.emit e).processedCache = b.processedCache := rfl

@[simp] theorem emit_executedStateTransitions (b : bootstrapper) (e : Event) : (b.emit e).executedStateTransitions = b.executedStateTransitions := rfl

@[simp] theorem emit_awaitingTimeout (b : bootstrapper) (e : Event) : (b.emit e).awaitingTimeout = b.awaitingTimeout := rfl

@[simp] theorem emit_tick (b : bootstrapper) (e : Event) : (b.emit e).tick = b.tick := rfl

@[simp] theorem emit_trace (b : bootstrapper) (e : Event) : (b.emit e).trace = b.trace ++ [e] := rfl

/-! ### The handlers and the bound on the outstanding requests -/

theorem forceAcceptedLoop_frame (pending : List ID) (b : bootstrapper) (toProcess : List ID) :
    TraversalFrame b (forceAcceptedLoop pending b toProcess).1 := by
  induction pending generalizing b toProcess with
  | nil => exact TraversalFrame_refl b
  | cons v vs ih =>
    unfold forceAcceptedLoop
    split
    · split
      · exact TraversalFrame_trans ⟨rfl, rfl, rfl, rfl⟩ (ih _ _)
      · exact ih _ _
    · exact TraversalFrame_trans ⟨rfl, rfl, rfl, rfl⟩ (ih _ _)

/-- The loop of `Ancestors` over the followers leaves requests, request counter and
trace alone. -/
theorem ancestorsLoop_frame (env : Env) (rest : List (List Nat)) (eligible : IDSet)
    (processVertices : List ID) (b : bootstrapper) :
    (ancestorsLoop env rest eligible processVertices b).1.OutstandingRequests
      = b.OutstandingRequests ∧
    (ancestorsLoop env rest eligible processVertices b).1.RequestID = b.RequestID ∧
    (ancestorsLoop env rest eligible processVertices b).1.trace = b.trace := by
  induction rest generalizing eligible processVertices b with
  | nil => exact ⟨rfl, rfl, rfl⟩
  | cons v vs ih =>
    unfold ancestorsLoop
    split
    · exact ⟨rfl, rfl, rfl⟩
    · simp only []
      split
      · exact ⟨rfl, rfl, rfl⟩
      · split
        · exact ⟨rfl, rfl, rfl⟩
        · rename_i parents _
          exact ih _ _ _

theorem ForceAccepted_bounded (env : Env) (b b1 : bootstrapper) (ids : List ID)
    (r : Option Err) (hp : ForceAccepted env b ids = some (b1, r)) (h : RequestsBounded b) :
    RequestsBounded b1 := by
  unfold ForceAccepted at hp
  simp only [] at hp
  apply process_bounded env _ b1 _ r hp
  unfold RequestsBounded
  rw [(forceAcceptedLoop_frame _ b []).1]
  exact h

theorem removed_bounded (b : bootstrapper) (nodeID : NodeID) (requestID : Nat)
    (h : RequestsBounded b) :
    RequestsBounded
      { b with OutstandingRequests := (b.OutstandingRequests.Remove nodeID requestID).1 } :=
  le_trans (Requests.Remove_Len _ _ _) h

theorem GetAncestorsFailed_bounded (env : Env) (b : bootstrapper) (nodeID : NodeID)
    (requestID : Nat) (h : RequestsBounded b) :
    RequestsBounded (GetAncestorsFailed env b nodeID requestID).1 := by
  unfold GetAncestorsFailed
  simp only []
  split
  · exact removed_bounded b nodeID requestID h
  · exact fetch_bounded env _ _ (removed_bounded b nodeID requestID h)

theorem ancestorsAccepted_bounded (env : Env) (b b1 : bootstrapper) (vtxID : ID)
    (rest : List (List Nat)) (r : Option Err)
    (hp : ancestorsAccepted env b vtxID rest = some (b1, r)) (h : RequestsBounded b) :
    RequestsBounded b1 := by
  unfold ancestorsAccepted at hp
  simp only [] at hp
  split at hp
  · simp only [Option.some.injEq, Prod.mk.injEq] at hp
    rw [← hp.1]; exact h
  · rename_i parents _
    have hl := ancestorsLoop_frame env rest (IDSet.AddAll [] parents) [vtxID]
      { b with needToFetch := IDSet.Remove b.needToFetch vtxID }
    split at hp
    · rename_i b2 pv err heq
      rw [heq] at hl
      simp only [Option.some.injEq, Prod.mk.injEq] at hp
      rw [← hp.1]
      unfold RequestsBounded
      rw [hl.1]; exact h
    · rename_i b2 pv heq
      rw [heq] at hl
      apply process_bounded env b2 b1 pv r hp
      unfold RequestsBounded
      rw [hl.1]; exact h

theorem ancestorsFirst_bounded (env : Env) (b b1 : bootstrapper) (nodeID : NodeID)
    (requestID : Nat) (vtxs : List (List Nat)) (r : Option Err)
    (hp : ancestorsFirst env b nodeID requestID vtxs = some (b1, r)) (h : RequestsBounded b) :
    RequestsBounded b1 := by
  have hr := removed_bounded b nodeID requestID h
  unfold ancestorsFirst at hp
  simp only [] at hp
  split at hp
  · simp only [Option.some.injEq, Prod.mk.injEq] at hp
    rw [← hp.1]; exact hr
  · split at hp
    · split at hp
      · simp only [Option.some.injEq, Prod.mk.injEq] at hp
        rw [← hp.1]; exact hr
      · simp only [Option.some.injEq] at hp
        have := fetch_bounded env _ [(b.OutstandingRequests.Remove nodeID requestID).2.1] hr
        rw [hp] at this
        exact this
    · rename_i manager vtxID hparse
      split at hp
      · simp only [Option.some.injEq] at hp
        have := fetch_bounded env
          { b with OutstandingRequests := (b.OutstandingRequests.Remove nodeID requestID).1,
                   Manager := manager }
          [(b.OutstandingRequests.Remove nodeID requestID).2.1] hr
        rw [hp] at this
        exact this
      · split at hp
        · simp only [Option.some.injEq, Prod.mk.injEq] at hp
          rw [← hp.1]; exact hr
        · exact ancestorsAccepted_bounded env _ b1 _ _ r hp hr

theorem Ancestors_bounded (env : Env) (b b1 : bootstrapper) (nodeID : NodeID)
    (requestID : Nat) (vtxs : List (List Nat)) (r : Option Err)
    (hp : Ancestors env b nodeID requestID vtxs = some (b1, r)) (h : RequestsBounded b) :
    RequestsBounded b1 := by
  unfold Ancestors at hp
  split at hp
  · simp only [Option.some.injEq] at hp
    have := GetAncestorsFailed_bounded env b nodeID requestID h
    rw [hp] at this
    exact this
  · split at hp
    · simp only [Option.some.injEq, Prod.mk.injEq] at hp
      rw [← hp.1]; exact h
    · exact ancestorsFirst_bounded env b b1 nodeID requestID _ r hp h

theorem Startup_fst (env : Env) (b : bootstrapper) :
    (Startup env b).1 = (b.emit Event.Startup).next := rfl

theorem Restart_fst (env : Env) (b : bootstrapper) (reset : Bool) :
    (Restart env b reset).1 = (b.emit (Event.Restart reset)).next := rfl

theorem OnFinished_fst (env : Env) (b : bootstrapper) (lastReqID : Nat) :
    (OnFinished env b lastReqID).1 = (b.emit (Event.OnFinished lastReqID)).next := rfl

theorem Start_requests (env : Env) (b : bootstrapper) (startReqID : Nat) :
    (Start env b startReqID).1.OutstandingRequests = b.OutstandingRequests ∧
    (Start env b startReqID).1.needToFetch = b.needToFetch := by
  unfold Start
  simp only []
  split
  · simp
  · split
    · simp
    · simp [Startup_fst]

theorem Clear_requests (env : Env) (b : bootstrapper) :
    (Clear env b).1.OutstandingRequests = b.OutstandingRequests ∧
    (Clear env b).1.needToFetch = b.needToFetch := by
  unfold Clear
  split
  · simp
  · simp only []
    split
    · simp
    · split
      · simp
      · split <;> simp

theorem Connected_requests (env : Env) (b : bootstrapper) (nodeID : NodeID) :
    (Connected env b nodeID).1.OutstandingRequests = b.OutstandingRequests ∧
    (Connected env b nodeID).1.needToFetch = b.needToFetch := by
  unfold Connected
  split
  · simp
  · simp only []
    split
    · simp
    · split
      · simp
      · split
        · simp
        · simp [Startup_fst]

theorem Disconnected_requests (env : Env) (b : bootstrapper) (nodeID : NodeID) :
    (Disconnected env b nodeID).1.OutstandingRequests = b.OutstandingRequests ∧
    (Disconnected env b nodeID).1.needToFetch = b.needToFetch := by
  unfold Disconnected
  split <;> simp

theorem Timeout_requests (env : Env) (b : bootstrapper) :
    (Timeout env b).1.OutstandingRequests = b.OutstandingRequests ∧
    (Timeout env b).1.needToFetch = b.needToFetch := by
  unfold Timeout
  split
  · simp
  · simp only []
    split
    · simp [Restart_fst]
    · simp [OnFinished_fst]

/-- C7: for every bootstrapper state, peer and request id, Ancestors with an empty
container list returns what GetAncestorsFailed returns for the same peer and request
id, and leaves the same state behind, the trace of outbound messages included. -/
theorem C7_empty_Ancestors_is_GetAncestorsFailed (env : Env) (b : bootstrapper)
    (nodeID : NodeID) (requestID : Nat) :
    Ancestors env b nodeID requestID [] = some (GetAncestorsFailed env b nodeID requestID) := by
  rfl

/-- C9: in every state reachable from a fresh bootstrapper through its handlers, the
number of outstanding GetAncestors requests is at most MaxOutstanding, which is 50. -/
theorem C9_outstanding_requests_bounded (env : Env) (b : bootstrapper)
    (h : Reachable env b) :
    b.OutstandingRequests.Len ≤ MaxOutstandingGetAncestorsRequests ∧
    MaxOutstandingGetAncestorsRequests = 50 := by
  refine ⟨?_, rfl⟩
  induction h with
  | New config => exact Nat.zero_le _
  | Start startReqID _ ih => rw [(Start_requests env _ startReqID).1]; exact ih
  | Clear _ ih => rw [(Clear_requests env _).1]; exact ih
  | ForceAccepted ids _ hstep ih => exact ForceAccepted_bounded env _ _ ids _ hstep ih
  | Ancestors nodeID requestID vtxs _ hstep ih =>
    exact Ancestors_bounded env _ _ nodeID requestID vtxs _ hstep ih
  | GetAncestorsFailed nodeID requestID _ ih =>
    exact GetAncestorsFailed_bounded env _ nodeID requestID ih
  | Connected nodeID _ ih => rw [(Connected_requests env _ nodeID).1]; exact ih
  | Disconnected nodeID _ ih => rw [(Disconnected_requests env _ nodeID).1]; exact ih
  | Timeout _ ih => rw [(Timeout_requests env _).1]; exact ih
  | Shutdown _ ih => exact ih

/-! ### Parsing, truncation and removal of a request -/

theorem Manager.ParseVtx_snd (parser : List Nat → Option Vertex) (m : Manager)
    (vtxBytes : List Nat) :
    (m.ParseVtx parser vtxBytes).2 = (parser vtxBytes).map (fun v => v.id) := by
  unfold Manager.ParseVtx
  split
  · rename_i h; rw [h]; rfl
  · rename_i v h
    rw [h]
    split <;> rfl

theorem Manager.lookup_cons (m : Manager) (w : Vertex) (x : ID) :
    Manager.lookup { vtxs := w :: m.vtxs } x = if w.id = x then some w else m.lookup x := by
  unfold Manager.lookup
  simp only [List.find?_cons]
  by_cases h : w.id = x
  · have hb : (w.id == x) = true := by simp [h]
    rw [hb, if_pos h]
  · have hb : (w.id == x) = false := by simp [h]
    rw [hb, if_neg h]

/-- Parsing leaves the stored record of every known vertex, and of every vertex other
than the parsed one, as it is. -/
theorem Manager.ParseVtx_GetVtx (parser : List Nat → Option Vertex) (m : Manager)
    (vtxBytes : List Nat) (x : ID)
    (h : m.GetVtx x ≠ none ∨ ∀ v, parser vtxBytes = some v → v.id ≠ x) :
    (m.ParseVtx parser vtxBytes).1.GetVtx x = m.GetVtx x := by
  unfold Manager.ParseVtx
  split
  · rfl
  · rename_i v hv
    split
    · rename_i hs
      by_cases hx : v.id = x
      · rcases h with h | h
        · exfalso
          apply h
          unfold Manager.Status at hs
          unfold Manager.GetVtx
          rw [← hx]
          cases hl : m.lookup v.id with
          | none => rfl
          | some w =>
            rw [hl] at hs
            simp only [] at hs
            simp [hs]
        · exact absurd hx (h v hv)
      · unfold Manager.GetVtx
        rw [Manager.lookup_cons]
        simp only []
        rw [if_neg hx]
    · rfl

/-- A vertex that was parsed is in the store. -/
theorem Manager.ParseVtx_stored (parser : List Nat → Option Vertex) (m : Manager)
    (vtxBytes : List Nat) (v : Vertex) (h : parser vtxBytes = some v) :
    (m.ParseVtx parser vtxBytes).1.GetVtx v.id ≠ none := by
  unfold Manager.ParseVtx
  rw [h]
  simp only []
  split
  · unfold Manager.GetVtx
    rw [Manager.lookup_cons]
    simp
  · rename_i hs
    unfold Manager.Status at hs
    unfold Manager.GetVtx
    cases hl : m.lookup v.id with
    | none => rw [hl] at hs; exact absurd rfl hs
    | some w =>
      rw [hl] at hs
      simp only [] at hs ⊢
      rw [if_neg hs]
      simp

theorem truncateContainers_cons (limit : Int) (first : List Nat) (rest : List (List Nat))
    (h : 1 ≤ limit) :
    truncateContainers limit (first :: rest) = some (first :: rest.take (limit.toNat - 1)) := by
  unfold truncateContainers
  have h1 : 1 ≤ limit.toNat := by omega
  split
  · rw [if_neg (by omega)]
    obtain ⟨k, hk⟩ : ∃ k, limit.toNat = k + 1 := ⟨limit.toNat - 1, by omega⟩
    rw [hk]
    simp
  · rename_i hle
    simp only [List.length_cons, Nat.cast_add, Nat.cast_one, gt_iff_lt, not_lt] at hle
    rw [List.take_of_length_le (by omega)]

theorem Ancestors_cons (env : Env) (b : bootstrapper) (nodeID : NodeID) (requestID : Nat)
    (first : List Nat) (rest : List (List Nat)) (h : 1 ≤ b.AncestorsMaxContainersReceived) :
    Ancestors env b nodeID requestID (first :: rest) =
      ancestorsFirst env b nodeID requestID
        (first :: rest.take (b.AncestorsMaxContainersReceived.toNat - 1)) := by
  unfold Ancestors
  rw [if_neg (by simp), truncateContainers_cons _ _ _ h]

theorem Requests.Remove_of_find (r : Requests) (n : NodeID) (q : Nat) (e : NodeID × Nat × ID)
    (h : r.reqs.find? (fun e => e.1 == n && e.2.1 == q) = some e) :
    r.Remove n q = ({ reqs := r.reqs.erase e }, e.2.2, true) ∧
    (r.Remove n q).1.Len + 1 = r.Len := by
  unfold Requests.Remove
  rw [h]
  refine ⟨rfl, ?_⟩
  simp only [Requests.Len]
  have hm : e ∈ r.reqs := List.mem_of_find?_eq_some h
  rw [List.length_erase_of_mem hm]
  have : 0 < r.reqs.length := List.length_pos_of_mem hm
  omega

theorem Requests.Add_of_fresh (r : Requests) (n : NodeID) (q : Nat) (v : ID)
    (h1 : r.Has n q = false) (h2 : r.Contains v = false) :
    r.Add n q v = { reqs := r.reqs ++ [(n, q, v)] } := by
  unfold Requests.Add
  rw [h1, h2]
  simp

/-- An unrequested message whose first vertex is not needed is dropped. -/
theorem ancestorsFirst_unneeded (env : Env) (b : bootstrapper) (nodeID : NodeID)
    (requestID : Nat) (first : List Nat) (rest : List (List Nat)) (v : Vertex)
    (hreq : b.OutstandingRequests.Has nodeID requestID = false)
    (hparse : env.ParseVtx first = some v)
    (hout : b.OutstandingRequests.Contains v.id = false) (hntf : v.id ∉ b.needToFetch) :
    ancestorsFirst env b nodeID requestID (first :: rest) =
      some ({ b with Manager := (b.Manager.ParseVtx env.ParseVtx first).1 }, none) := by
  have h2 := Manager.ParseVtx_snd env.ParseVtx b.Manager first
  rw [hparse] at h2
  simp only [Option.map_some'] at h2
  unfold ancestorsFirst
  rw [Requests.Remove_of_not_Has _ _ _ hreq]
  simp only []
  split
  · rename_i m heq
    rw [heq] at h2
    simp at h2
  · rename_i m vtxID heq
    rw [heq] at h2
    simp only [Option.some.injEq] at h2
    subst h2
    simp only [Bool.false_and, Bool.false_eq_true, if_false, Bool.not_false, Bool.true_and,
      hout, IDSet.Contains, hntf, decide_False, Bool.and_self, if_true, heq]

/-- An unrequested message whose first container does not parse is dropped. -/
theorem ancestorsFirst_unparsed (env : Env) (b : bootstrapper) (nodeID : NodeID)
    (requestID : Nat) (first : List Nat) (rest : List (List Nat))
    (hreq : b.OutstandingRequests.Has nodeID requestID = false)
    (hparse : env.ParseVtx first = none) :
    ancestorsFirst env b nodeID requestID (first :: rest) = some (b, none) := by
  have h2 := Manager.ParseVtx_snd env.ParseVtx b.Manager first
  rw [hparse] at h2
  simp only [Option.map_none'] at h2
  unfold ancestorsFirst
  rw [Requests.Remove_of_not_Has _ _ _ hreq]
  simp only []
  split
  · simp
  · rename_i m vtxID heq
    rw [heq] at h2
    simp at h2

theorem GetAncestorsFailed_unrequested (env : Env) (b : bootstrapper) (nodeID : NodeID)
    (requestID : Nat) (hreq : b.OutstandingRequests.Has nodeID requestID = false) :
    GetAncestorsFailed env b nodeID requestID = (b, none) := by
  unfold GetAncestorsFailed
  rw [Requests.Remove_of_not_Has _ _ _ hreq]
  simp

/-! ### A fetch of one vertex -/

theorem fetchLoop_nil (env : Env) (fuel : Nat) (b : bootstrapper) (h : b.needToFetch = []) :
    fetchLoop env fuel b = (b, none) := by
  cases fuel with
  | zero => rfl
  | succ fuel =>
    unfold fetchLoop
    rw [if_neg]
    simp [IDSet.Len, h]

theorem IDSet.Remove_all_eq (s : IDSet) (x : ID) (h : ∀ y ∈ s, y = x) : IDSet.Remove s x = [] := by
  unfold IDSet.Remove
  rw [List.filter_eq_nil_iff]
  intro y hy
  simp [h y hy]

theorem fetchStep_single (env : Env) (b : bootstrapper) (B : ID) (validatorID : NodeID)
    (hne : 0 < b.needToFetch.length)
    (hntf : ∀ x ∈ b.needToFetch, x = B)
    (hone : b.OutstandingRequests.Contains B = false)
    (hstore : b.Manager.GetVtx B = none)
    (hsample : env.Sample (b.tick + 1) = some validatorID)
    (hfresh : b.OutstandingRequests.Has validatorID ((b.RequestID + 1) % 2 ^ 32) = false) :
    fetchStep env b = (requested b validatorID B, none) := by
  have hpick : b.needToFetch.getD (env.pick b.tick % b.needToFetch.length) 0 = B :=
    hntf _ (IDSet.getD_mem b.needToFetch (env.pick b.tick) hne)
  unfold fetchStep
  simp only [hpick, next_OutstandingRequests, next_Manager, next_tick, next_RequestID, hone,
    hstore, hsample, Bool.false_eq_true, if_false, Option.isSome_none,
    IDSet.Remove_all_eq _ _ hntf, Requests.Add_of_fresh _ _ _ _ hfresh hone]
  rfl

theorem fetch_single (env : Env) (b : bootstrapper) (B : ID) (validatorID : NodeID)
    (hntf : ∀ x ∈ b.needToFetch, x = B)
    (hbound : b.OutstandingRequests.Len < MaxOutstandingGetAncestorsRequests)
    (hone : b.OutstandingRequests.Contains B = false)
    (hstore : b.Manager.GetVtx B = none)
    (hsample : env.Sample (b.tick + 1) = some validatorID)
    (hfresh : b.OutstandingRequests.Has validatorID ((b.RequestID + 1) % 2 ^ 32) = false) :
    fetch env b [B] = checkFinish env (requested b validatorID B) := by
  have hall : ∀ x ∈ IDSet.AddAll b.needToFetch [B], x = B := by
    intro x hx
    rcases (IDSet.mem_AddAll _ _ _).mp hx with hx | hx
    · exact hntf x hx
    · simpa using hx
  have hmem : B ∈ IDSet.AddAll b.needToFetch [B] :=
    (IDSet.mem_AddAll _ _ _).mpr (Or.inr (List.mem_singleton.mpr rfl))
  have hpos : 0 < (IDSet.AddAll b.needToFetch [B]).length := List.length_pos_of_mem hmem
  obtain ⟨k, hk⟩ : ∃ k, (IDSet.AddAll b.needToFetch [B]).length = k + 1 :=
    ⟨(IDSet.AddAll b.needToFetch [B]).length - 1, by omega⟩
  have hstep := fetchStep_single env { b with needToFetch := IDSet.AddAll b.needToFetch [B] }
    B validatorID hpos hall hone hstore hsample hfresh
  have hreq : requested { b with needToFetch := IDSet.AddAll b.needToFetch [B] } validatorID B
      = requested b validatorID B := rfl
  rw [hreq] at hstep
  unfold fetch
  simp only []
  rw [hk]
  unfold fetchLoop
  rw [if_pos (by
    simp only [Bool.and_eq_true, decide_eq_true_eq, IDSet.Len]
    exact ⟨hpos, hbound⟩)]
  rw [hstep]
  simp only []
  rw [fetchLoop_nil env k _ rfl]

/-- The end of bootstrapping pushes no job. -/
theorem checkFinish_jobs (env : Env) (b : bootstrapper) :
    (∀ x, x ∈ (checkFinish env b).1.VtxBlocked.jobs → x ∈ b.VtxBlocked.jobs) ∧
    (∀ x, x ∈ (checkFinish env b).1.TxBlocked.jobs → x ∈ b.TxBlocked.jobs) := by
  have hN : ∀ b : bootstrapper, (checkFinishNotify env b).1.VtxBlocked = b.VtxBlocked ∧
      (checkFinishNotify env b).1.TxBlocked = b.TxBlocked := by
    intro b
    unfold checkFinishNotify
    simp only []
    split
    · simp
    · simp [OnFinished_fst]
  have hR : ∀ (b : bootstrapper) (n : Nat), (checkFinishRetry env b n).1.VtxBlocked = b.VtxBlocked ∧
      (checkFinishRetry env b n).1.TxBlocked = b.TxBlocked := by
    intro b n
    unfold checkFinishRetry
    simp only []
    split
    · simp [Restart_fst]
    · rw [(hN _).1, (hN _).2]; exact ⟨rfl, rfl⟩
  have hV : ∀ b : bootstrapper,
      (∀ x, x ∈ (checkFinishVertices env b).1.VtxBlocked.jobs → x ∈ b.VtxBlocked.jobs) ∧
      (checkFinishVertices env b).1.TxBlocked = b.TxBlocked := by
    intro b
    have hd : ∀ n x, x ∈ (b.VtxBlocked.ExecuteAll n).1.jobs → x ∈ b.VtxBlocked.jobs := by
      intro n x hx
      exact List.mem_of_mem_drop hx
    unfold checkFinishVertices
    simp only []
    split
    · exact ⟨fun x hx => hd _ x (by simpa using hx), by simp⟩
    · split
      · exact ⟨fun x hx => hd _ x (by simpa using hx), by simp⟩
      · rw [(hR _ _).1, (hR _ _).2]
        exact ⟨fun x hx => hd _ x (by simpa using hx), by simp⟩
  have hT : ∀ b : bootstrapper,
      (∀ x, x ∈ (checkFinishTxs env b).1.VtxBlocked.jobs → x ∈ b.VtxBlocked.jobs) ∧
      (∀ x, x ∈ (checkFinishTxs env b).1.TxBlocked.jobs → x ∈ b.TxBlocked.jobs) := by
    intro b
    have hd : ∀ n x, x ∈ (b.TxBlocked.ExecuteAll n).1.jobs → x ∈ b.TxBlocked.jobs := by
      intro n x hx
      exact List.mem_of_mem_drop hx
    unfold checkFinishTxs
    simp only []
    split
    · exact ⟨fun x hx => by simpa using hx, fun x hx => hd _ x (by simpa using hx)⟩
    · split
      · exact ⟨fun x hx => by simpa using hx, fun x hx => hd _ x (by simpa using hx)⟩
      · refine ⟨fun x hx => ?_, fun x hx => ?_⟩
        · have := (hV _).1 x hx
          simpa using this
        · rw [(hV _).2] at hx
          exact hd _ x (by simpa using hx)
  unfold checkFinish
  simp only []
  split
  · exact ⟨fun x hx => hx, fun x hx => hx⟩
  · exact ⟨fun x hx => (hT b.next).1 x hx, fun x hx => (hT b.next).2 x hx⟩

theorem Requests.Remove_found (r : Requests) (n : NodeID) (q : Nat)
    (h : (r.Remove n q).2.2 = true) : (r.Remove n q).1.Len + 1 = r.Len := by
  cases hf : r.reqs.find? (fun e => e.1 == n && e.2.1 == q) with
  | none =>
    unfold Requests.Remove at h
    rw [hf] at h
    simp at h
  | some e => exact (Requests.Remove_of_find r n q e hf).2

/-- A requested message whose first vertex is not the requested one is answered by a
new fetch of the requested vertex. -/
theorem ancestorsFirst_mismatch (env : Env) (b : bootstrapper) (nodeID : NodeID)
    (requestID : Nat) (first : List Nat) (rest : List (List Nat)) (v : Vertex) (B : ID)
    (hout : (b.OutstandingRequests.Remove nodeID requestID).2 = (B, true))
    (hparse : env.ParseVtx first = some v) (hne : v.id ≠ B) :
    ancestorsFirst env b nodeID requestID (first :: rest) =
      some (fetch env
        { b with OutstandingRequests := (b.OutstandingRequests.Remove nodeID requestID).1,
                 Manager := (b.Manager.ParseVtx env.ParseVtx first).1 } [B]) := by
  have h2 := Manager.ParseVtx_snd env.ParseVtx b.Manager first
  rw [hparse] at h2
  simp only [Option.map_some'] at h2
  have hB : (b.OutstandingRequests.Remove nodeID requestID).2.1 = B := by rw [hout]
  have hT : (b.OutstandingRequests.Remove nodeID requestID).2.2 = true := by rw [hout]
  unfold ancestorsFirst
  simp only [hB, hT]
  split
  · rename_i m heq
    rw [heq] at h2
    simp at h2
  · rename_i m vtxID heq
    rw [heq] at h2
    simp only [Option.some.injEq] at h2
    subst h2
    have hb : (B != v.id) = true := by
      simp only [bne_iff_ne, ne_eq]
      exact fun h => hne h.symm
    simp only [hb, Bool.and_self, if_true, heq]

theorem fetchStep_queues (env : Env) (b : bootstrapper) :
    (fetchStep env b).1.VtxBlocked = b.VtxBlocked ∧
    (fetchStep env b).1.TxBlocked = b.TxBlocked := by
  unfold fetchStep
  simp only []
  split
  · simp
  · split
    · simp
    · split <;> simp

theorem fetchLoop_queues (env : Env) (fuel : Nat) (b : bootstrapper) :
    (fetchLoop env fuel b).1.VtxBlocked = b.VtxBlocked ∧
    (fetchLoop env fuel b).1.TxBlocked = b.TxBlocked := by
  induction fuel generalizing b with
  | zero => exact ⟨rfl, rfl⟩
  | succ fuel ih =>
    unfold fetchLoop
    have hs := fetchStep_queues env b
    split
    · split
      · rename_i b1 err heq
        rw [heq] at hs; exact hs
      · rename_i b1 heq
        rw [heq] at hs
        exact ⟨(ih b1).1.trans hs.1, (ih b1).2.trans hs.2⟩
    · exact ⟨rfl, rfl⟩

/-- A call of `fetch` pushes no job: every job of the queues after the call was in the
queues before it. -/
theorem fetch_jobs (env : Env) (b : bootstrapper) (vtxIDs : List ID) :
    (∀ x, x ∈ (fetch env b vtxIDs).1.VtxBlocked.jobs → x ∈ b.VtxBlocked.jobs) ∧
    (∀ x, x ∈ (fetch env b vtxIDs).1.TxBlocked.jobs → x ∈ b.TxBlocked.jobs) := by
  have hq := fetchLoop_queues env (IDSet.AddAll b.needToFetch vtxIDs).length
    { b with needToFetch := IDSet.AddAll b.needToFetch vtxIDs }
  rcases hloop : fetchLoop env (IDSet.AddAll b.needToFetch vtxIDs).length
    { b with needToFetch := IDSet.AddAll b.needToFetch vtxIDs } with ⟨b2, e⟩
  rw [hloop] at hq
  have hv : b2.VtxBlocked = b.VtxBlocked := hq.1
  have ht : b2.TxBlocked = b.TxBlocked := hq.2
  cases e with
  | some err =>
    have hf : fetch env b vtxIDs = (b2, some err) := by
      unfold fetch
      simp only [hloop]
    rw [hf, ← hv, ← ht]
    exact ⟨fun x hx => hx, fun x hx => hx⟩
  | none =>
    have hf : fetch env b vtxIDs = checkFinish env b2 := by
      unfold fetch
      simp only [hloop]
    rw [hf, ← hv, ← ht]
    exact checkFinish_jobs env b2

/-- C4, as the code has it: when (peer, reqID) is outstanding for vertex B,
`AncestorsMaxContainersReceived` is at least 1 and the first container of the Ancestors
message parses to a vertex with another id, then in every such state the handler
returns what `fetch(B)` returns in the state that differs from the one the handler was
called in only in that the entry of (peer, reqID) is removed and the parsed vertex is
in the store, and it pushes no job: none of the message's vertices is processed.  When
moreover B is not in the local store, has no second request in flight, NeedToFetch
holds no other id, a beacon can be sampled, the new request key is not in the table and
the table holds at most MaxOutstanding requests, the handler emits exactly one
SendGetAncestors, which is for B, and leaves the number of outstanding requests as it
was. -/
theorem C4_wrong_first_vertex_refetched (env : Env) (b : bootstrapper) (nodeID : NodeID)
    (requestID : Nat) (first : List Nat) (rest : List (List Nat)) (v : Vertex) (B : ID)
    (hlim : 1 ≤ b.AncestorsMaxContainersReceived)
    (hout : (b.OutstandingRequests.Remove nodeID requestID).2 = (B, true))
    (hparse : env.ParseVtx first = some v) (hne : v.id ≠ B) :
    Ancestors env b nodeID requestID (first :: rest) =
      some (fetch env
        { b with OutstandingRequests := (b.OutstandingRequests.Remove nodeID requestID).1,
                 Manager := (b.Manager.ParseVtx env.ParseVtx first).1 } [B]) ∧
    (∀ b1 r, Ancestors env b nodeID requestID (first :: rest) = some (b1, r) →
      (∀ x, x ∈ b1.VtxBlocked.jobs → x ∈ b.VtxBlocked.jobs) ∧
      (∀ x, x ∈ b1.TxBlocked.jobs → x ∈ b.TxBlocked.jobs)) ∧
    (∀ validatorID : NodeID,
      b.OutstandingRequests.Len ≤ MaxOutstandingGetAncestorsRequests →
      (b.OutstandingRequests.Remove nodeID requestID).1.Contains B = false →
      b.Manager.GetVtx B = none →
      (∀ x ∈ b.needToFetch, x = B) →
      env.Sample (b.tick + 1) = some validatorID →
      (b.OutstandingRequests.Remove nodeID requestID).1.Has validatorID
        ((b.RequestID + 1) % 2 ^ 32) = false →
      ∃ b1 r, Ancestors env b nodeID requestID (first :: rest) = some (b1, r) ∧
        sends b1.trace = sends b.trace ++
          [Event.SendGetAncestors validatorID ((b.RequestID + 1) % 2 ^ 32) B] ∧
        b1.OutstandingRequests.Len = b.OutstandingRequests.Len) := by
  have hA : Ancestors env b nodeID requestID (first :: rest) =
      some (fetch env
        { b with OutstandingRequests := (b.OutstandingRequests.Remove nodeID requestID).1,
                 Manager := (b.Manager.ParseVtx env.ParseVtx first).1 } [B]) := by
    rw [Ancestors_cons env b nodeID requestID first rest hlim,
      ancestorsFirst_mismatch env b nodeID requestID first _ v B hout hparse hne]
  refine ⟨hA, fun b1 r h => ?_, ?_⟩
  · rw [hA] at h
    simp only [Option.some.injEq] at h
    have hj := fetch_jobs env
      { b with OutstandingRequests := (b.OutstandingRequests.Remove nodeID requestID).1,
               Manager := (b.Manager.ParseVtx env.ParseVtx first).1 } [B]
    rw [h] at hj
    exact hj
  intro validatorID hbound hone hstore hntf hsample hfresh
  have hlen := Requests.Remove_found b.OutstandingRequests nodeID requestID (by rw [hout])
  have hfetch := fetch_single env
    { b with OutstandingRequests := (b.OutstandingRequests.Remove nodeID requestID).1,
             Manager := (b.Manager.ParseVtx env.ParseVtx first).1 } B validatorID
    hntf (by
      show (b.OutstandingRequests.Remove nodeID requestID).1.Len < _
      omega) hone
    (by
      show (b.Manager.ParseVtx env.ParseVtx first).1.GetVtx B = none
      rw [Manager.ParseVtx_GetVtx env.ParseVtx b.Manager first B (Or.inr (by
        intro w hw
        rw [hparse] at hw
        simp only [Option.some.injEq] at hw
        rw [← hw]; exact hne))]
      exact hstore) hsample hfresh
  obtain ⟨b2, hb2⟩ : ∃ b2, b2 = requested
      { b with OutstandingRequests := (b.OutstandingRequests.Remove nodeID requestID).1,
               Manager := (b.Manager.ParseVtx env.ParseVtx first).1 } validatorID B := ⟨_, rfl⟩
  rw [← hb2] at hfetch
  have htrace : b2.trace = b.trace ++
      [Event.SendGetAncestors validatorID ((b.RequestID + 1) % 2 ^ 32) B] := by rw [hb2]; rfl
  have hreqs : b2.OutstandingRequests.Len + 0 =
      (b.OutstandingRequests.Remove nodeID requestID).1.Len + 1 := by
    rw [hb2]; simp [requested, Requests.Len]
  obtain ⟨h1, _, _, added, h4, h5⟩ := checkFinish_frame env b2
  refine ⟨(checkFinish env b2).1, (checkFinish env b2).2, ?_, ?_, ?_⟩
  · rw [hA, hfetch]
  · rw [h4, sends_append, h5, List.append_nil, htrace, sends_append]
    rfl
  · rw [h1]
    omega

/-! ### The traversal of process ends -/

theorem weight_mono (l : List Vertex) (jobs : List ID) (x : ID) :
    ((l.filter (fun v => decide (v.id ∉ jobs ++ [x]))).map (fun v => v.parents.length)).sum ≤
    ((l.filter (fun v => decide (v.id ∉ jobs))).map (fun v => v.parents.length)).sum := by
  induction l with
  | nil => simp
  | cons a l ih =>
    simp only [List.filter_cons]
    by_cases h1 : a.id ∈ jobs
    · have h2 : a.id ∈ jobs ++ [x] := List.mem_append_left _ h1
      simp only [h1, h2, not_true_eq_false, decide_False, Bool.false_eq_true, if_false]
      exact ih
    · by_cases h2 : a.id ∈ jobs ++ [x]
      · simp only [h1, h2, not_true_eq_false, not_false_eq_true, decide_False, decide_True,
          Bool.false_eq_true, if_false, if_true, List.map_cons, List.sum_cons]
        omega
      · simp only [h1, h2, not_false_eq_true, decide_True, if_true, List.map_cons,
          List.sum_cons]
        omega

theorem weight_drop (l : List Vertex) (jobs : List ID) (w : Vertex) (hw : w ∈ l)
    (hj : w.id ∉ jobs) :
    ((l.filter (fun v => decide (v.id ∉ jobs ++ [w.id]))).map (fun v => v.parents.length)).sum
      + w.parents.length ≤
    ((l.filter (fun v => decide (v.id ∉ jobs))).map (fun v => v.parents.length)).sum := by
  induction l with
  | nil => simp at hw
  | cons a l ih =>
    rcases List.mem_cons.mp hw with rfl | hw
    · have h2 : w.id ∈ jobs ++ [w.id] := List.mem_append_right _ (List.mem_singleton.mpr rfl)
      have hm := weight_mono l jobs w.id
      simp only [List.filter_cons, hj, h2, not_true_eq_false, not_false_eq_true, decide_False,
        decide_True, Bool.false_eq_true, if_false, if_true, List.map_cons, List.sum_cons]
      omega
    · have := ih hw
      simp only [List.filter_cons]
      by_cases h1 : a.id ∈ jobs
      · have h2 : a.id ∈ jobs ++ [w.id] := List.mem_append_left _ h1
        simp only [h1, h2, not_true_eq_false, decide_False, Bool.false_eq_true, if_false]
        exact this
      · by_cases h2 : a.id ∈ jobs ++ [w.id]
        · simp only [h1, h2, not_true_eq_false, not_false_eq_true, decide_False, decide_True,
            Bool.false_eq_true, if_false, if_true, List.map_cons, List.sum_cons]
          omega
        · simp only [h1, h2, not_false_eq_true, decide_True, if_true, List.map_cons,
            List.sum_cons]
          omega

theorem weight_le_all (l : List Vertex) (jobs : List ID) :
    ((l.filter (fun v => decide (v.id ∉ jobs))).map (fun v => v.parents.length)).sum ≤
    (l.map (fun v => v.parents.length)).sum := by
  induction l with
  | nil => simp
  | cons a l ih =>
    simp only [List.filter_cons]
    split
    · simp only [List.map_cons, List.sum_cons]; omega
    · simp only [List.map_cons, List.sum_cons]; omega

theorem Manager.GetVtx_mem (m : Manager) (x : ID) (w : Vertex) (h : m.GetVtx x = some w) :
    w ∈ m.vtxs ∧ w.id = x := by
  unfold Manager.GetVtx at h
  cases hl : m.lookup x with
  | none => rw [hl] at h; simp at h
  | some u =>
    rw [hl] at h
    simp only [] at h
    split at h
    · simp at h
    · simp only [Option.some.injEq] at h
      subst h
      unfold Manager.lookup at hl
      refine ⟨List.mem_of_find?_eq_some hl, ?_⟩
      have := List.find?_some hl
      simpa using this

theorem heapPop_some (m : Manager) (h : List ID) (hne : 0 < h.length) :
    ∃ best rest, heapPop m h = some (best, rest) ∧ rest.length + 1 ≤ h.length := by
  cases h with
  | nil => simp at hne
  | cons x xs =>
    have hmem : ∀ (l : List ID) (a : ID),
        l.foldl (fun acc y => if heapBefore m y acc then y else acc) a ∈ a :: l := by
      intro l
      induction l with
      | nil => intro a; simp
      | cons y ys ih =>
        intro a
        simp only [List.foldl_cons]
        have := ih (if heapBefore m y a then y else a)
        rcases List.mem_cons.mp this with h1 | h1
        · rw [h1]
          split
          · exact List.mem_cons_of_mem _ (List.mem_cons_self _ _)
          · exact List.mem_cons_self _ _
        · exact List.mem_cons_of_mem _ (List.mem_cons_of_mem _ h1)
    refine ⟨_, _, rfl, ?_⟩
    have := IDSet.length_Remove_lt (x :: xs) _ (hmem xs x)
    omega

theorem heapPush_length (h : List ID) (x : ID) : (heapPush h x).length ≤ h.length + 1 := by
  unfold heapPush IDSet.Add
  split
  · omega
  · simp

theorem processParents_length (vtxHeightSet : IDSet) (parents : List ID) (cache : LRU)
    (toProcess : List ID) :
    (processParents vtxHeightSet parents cache toProcess).2.length
      ≤ toProcess.length + parents.length := by
  induction parents generalizing cache toProcess with
  | nil => simp [processParents]
  | cons p ps ih =>
    unfold processParents
    simp only []
    split
    · split
      · have := ih (cache.Get p).1 (heapPush toProcess p)
        have := heapPush_length toProcess p
        simp only [List.length_cons]
        omega
      · have := ih (cache.Get p).1 toProcess
        simp only [List.length_cons]
        omega
    · have := ih (cache.Get p).1 toProcess
      simp only [List.length_cons]
      omega

theorem processTxs_VtxBlocked (env : Env) (txs : List ID) (b : bootstrapper) :
    (processTxs env txs b).1.VtxBlocked = b.VtxBlocked := by
  induction txs generalizing b with
  | nil => rfl
  | cons v vs ih =>
    unfold processTxs
    split
    · rfl
    · exact (ih _).trans rfl

/-- The case Processing of the traversal loop leaves a measure that is at most the
length of the heap after the pop plus the weight of the store. -/
theorem processVertex_measure (env : Env) (vtxID : ID) (toProcess : List ID)
    (vtxHeightSet : IDSet) (prevHeight : Nat) (b : bootstrapper) (t1 : Traversal)
    (h : processVertex env vtxID toProcess vtxHeightSet prevHeight b = Sum.inl t1) :
    traversalMeasure t1 ≤ toProcess.length + parentsWeight b.Manager b.VtxBlocked.jobs := by
  unfold processVertex at h
  simp only [] at h
  split at h
  · simp at h
  · split at h
    · rename_i hpushed
      simp only [Sum.inl.injEq] at h
      rw [← h]
      have hjobs : ((b.VtxBlocked.RemoveMissingID vtxID).Push vtxID).1.jobs = b.VtxBlocked.jobs := by
        unfold JobsWithMissing.Push at hpushed ⊢
        split
        · rfl
        · rename_i hnot
          rw [if_neg hnot] at hpushed
          simp at hpushed
      simp only [traversalMeasure, next_Manager, next_tick]
      rw [hjobs]
    · rename_i hpushed
      split at h
      · simp at h
      · rename_i vtx hvtx
        have hnot : vtxID ∉ b.VtxBlocked.jobs := by
          intro hin
          apply hpushed
          unfold JobsWithMissing.Push
          have : vtxID ∈ (b.VtxBlocked.RemoveMissingID vtxID).jobs := hin
          rw [if_pos this]
          rfl
        have hjobs : ((b.VtxBlocked.RemoveMissingID vtxID).Push vtxID).1.jobs
            = b.VtxBlocked.jobs ++ [vtxID] := by
          unfold JobsWithMissing.Push
          have : vtxID ∉ (b.VtxBlocked.RemoveMissingID vtxID).jobs := hnot
          rw [if_neg this]
          rfl
        have hg : b.Manager.GetVtx vtxID = some vtx := hvtx
        obtain ⟨hmem, hid⟩ := Manager.GetVtx_mem _ _ _ hg
        have hdrop := weight_drop b.Manager.vtxs b.VtxBlocked.jobs vtx hmem (by rw [hid]; exact hnot)
        rw [hid] at hdrop
        have hfr := processTxs_frame env vtx.txs
          { b.next with needToFetch := IDSet.Remove b.needToFetch vtxID,
                        VtxBlocked := ((b.VtxBlocked.RemoveMissingID vtxID).Push vtxID).1 }
        have hvb := processTxs_VtxBlocked env vtx.txs
          { b.next with needToFetch := IDSet.Remove b.needToFetch vtxID,
                        VtxBlocked := ((b.VtxBlocked.RemoveMissingID vtxID).Push vtxID).1 }
        split at h
        · simp at h
        · rename_i b2 heq
          simp only [bootstrapper.next] at hfr hvb heq
          rw [heq] at hfr hvb
          have hm : b2.Manager = b.Manager := hfr.2.1
          have hv : b2.VtxBlocked.jobs = b.VtxBlocked.jobs ++ [vtxID] := by
            have : b2.VtxBlocked = ((b.VtxBlocked.RemoveMissingID vtxID).Push vtxID).1 := hvb
            rw [this, hjobs]
          have hpl := processParents_length vtxHeightSet vtx.parents b2.processedCache toProcess
          split at h
          · simp only [Sum.inl.injEq] at h
            rw [← h]
            simp only [traversalMeasure, parentsWeight, hm, hv]
            omega
          · simp only [Sum.inl.injEq] at h
            rw [← h]
            simp only [traversalMeasure, parentsWeight, hm, hv]
            omega

/-- Every iteration of the traversal loop that does not end it decreases the measure. -/
theorem processStep_measure (env : Env) (t t1 : Traversal) (hne : 0 < t.toProcess.length)
    (h : processStep env t = Sum.inl t1) : traversalMeasure t1 + 1 ≤ traversalMeasure t := by
  obtain ⟨best, rest, hpop, hlen⟩ := heapPop_some t.b.Manager t.toProcess hne
  unfold processStep at h
  simp only [next_Manager, hpop] at h
  split at h
  · simp at h
  · split at h
    · simp only [Sum.inl.injEq] at h
      rw [← h]
      simp only [traversalMeasure, JobsWithMissing.AddMissingID, next_Manager, next_VtxBlocked]
      omega
    · simp at h
    · simp only [Sum.inl.injEq] at h
      rw [← h]
      simp only [traversalMeasure, next_Manager, next_VtxBlocked]
      omega
    · have := processVertex_measure env best rest t.vtxHeightSet t.prevHeight t.b.next t1 h
      simp only [next_Manager, next_VtxBlocked] at this
      unfold traversalMeasure at this ⊢
      omega

/-- With fuel for as many iterations as the measure, the traversal loop ends. -/
theorem processLoop_returns (env : Env) (fuel : Nat) (t : Traversal)
    (h : traversalMeasure t ≤ fuel) : ∃ r, processLoop env fuel t = some r := by
  induction fuel generalizing t with
  | zero =>
    unfold processLoop
    have : t.toProcess.length = 0 := by
      unfold traversalMeasure at h
      omega
    rw [if_neg (by omega)]
    exact ⟨_, rfl⟩
  | succ fuel ih =>
    unfold processLoop
    split
    · rename_i hne
      cases hs : processStep env t with
      | inr exit => exact ⟨exit, rfl⟩
      | inl t1 =>
        have := processStep_measure env t t1 hne hs
        exact ih t1 (by omega)
    · exact ⟨_, rfl⟩

/-- `process` always returns: the fuel it gives the traversal loop is enough. -/
theorem process_returns (env : Env) (b : bootstrapper) (vtxs : List ID) :
    ∃ r, process env b vtxs = some r := by
  obtain ⟨r, hr⟩ := processLoop_returns env
    (processFuel (processSeed vtxs b []).1 (processSeed vtxs b []).2)
    ⟨(processSeed vtxs b []).2, [], 0, (processSeed vtxs b []).1⟩ (by
      have := weight_le_all (processSeed vtxs b []).1.Manager.vtxs
        (processSeed vtxs b []).1.VtxBlocked.jobs
      unfold traversalMeasure parentsWeight processFuel
      simp only []
      omega)
  unfold process
  simp only [hr]
  rcases r with ⟨b2, e⟩
  cases e with
  | drained => exact ⟨_, rfl⟩
  | halted => exact ⟨_, rfl⟩
  | failed err => exact ⟨_, rfl⟩

/-- `ForceAccepted` always returns. -/
theorem ForceAccepted_returns (env : Env) (b : bootstrapper) (acceptedContainerIDs : List ID) :
    ∃ r, ForceAccepted env b acceptedContainerIDs = some r :=
  process_returns env _ _

theorem runCalls_reachable (env : Env) (calls : List Call) (b b1 : bootstrapper)
    (hb : Reachable env b) (h : runCalls env b calls = some b1) : Reachable env b1 := by
  induction calls generalizing b with
  | nil =>
    simp only [runCalls, Option.some.injEq] at h
    rw [← h]; exact hb
  | cons call calls ih =>
    unfold runCalls at h
    split at h
    · simp at h
    · rename_i b2 r heq
      apply ih b2 _ h
      cases call with
      | Start startReqID =>
        simp only [Call.run, Option.some.injEq] at heq
        have := Reachable.Start startReqID hb
        rw [heq] at this; exact this
      | Clear =>
        simp only [Call.run, Option.some.injEq] at heq
        have := Reachable.Clear hb
        rw [heq] at this; exact this
      | ForceAccepted ids => exact Reachable.ForceAccepted ids hb heq
      | Ancestors nodeID requestID vtxs => exact Reachable.Ancestors nodeID requestID vtxs hb heq
      | GetAncestorsFailed nodeID requestID =>
        simp only [Call.run, Option.some.injEq] at heq
        have := Reachable.GetAncestorsFailed nodeID requestID hb
        rw [heq] at this; exact this
      | Connected nodeID =>
        simp only [Call.run, Option.some.injEq] at heq
        have := Reachable.Connected nodeID hb
        rw [heq] at this; exact this
      | Disconnected nodeID =>
        simp only [Call.run, Option.some.injEq] at heq
        have := Reachable.Disconnected nodeID hb
        rw [heq] at this; exact this
      | Timeout =>
        simp only [Call.run, Option.some.injEq] at heq
        have := Reachable.Timeout hb
        rw [heq] at this; exact this
      | Shutdown =>
        simp only [Call.run, Option.some.injEq] at heq
        have := Reachable.Shutdown hb
        rw [heq] at this; exact this

theorem exampleFullTable_run :
    runCalls exampleEnv (New exampleConfig) [Call.ForceAccepted (List.range' 2 51)] =
      some exampleFullTable := by
  decide

theorem exampleOverlap_run :
    runCalls exampleEnv exampleFullTable [Call.ForceAccepted []] = some exampleOverlap := by
  decide

theorem exampleOneRequest_run :
    runCalls exampleEnv (New exampleConfig) [Call.ForceAccepted [3]] = some exampleOneRequest := by
  decide

theorem exampleFullTable_reachable : Reachable exampleEnv exampleFullTable :=
  runCalls_reachable exampleEnv _ _ _ (Reachable.New exampleConfig) exampleFullTable_run

theorem exampleOverlap_reachable : Reachable exampleEnv exampleOverlap :=
  runCalls_reachable exampleEnv _ _ _ exampleFullTable_reachable exampleOverlap_run

theorem exampleOneRequest_reachable : Reachable exampleEnv exampleOneRequest :=
  runCalls_reachable exampleEnv _ _ _ (Reachable.New exampleConfig) exampleOneRequest_run

/-! ### Claims on the Ancestors handler -/

/-- Witness of C4: in the example state with the request `(77, 1)` for vertex 3
outstanding, a message whose first container parses to vertex 9 makes the handler push
no job and send exactly one request, `(77, 2)` for vertex 3. -/
theorem C4_witness :
    (∀ b1 r, Ancestors exampleEnv exampleOneRequest 77 1 ([9, 5] :: [[1, 0]]) = some (b1, r) →
      (∀ x, x ∈ b1.VtxBlocked.jobs → x ∈ exampleOneRequest.VtxBlocked.jobs) ∧
      (∀ x, x ∈ b1.TxBlocked.jobs → x ∈ exampleOneRequest.TxBlocked.jobs)) ∧
    ∃ b1 r, Ancestors exampleEnv exampleOneRequest 77 1 ([9, 5] :: [[1, 0]]) = some (b1, r) ∧
      sends b1.trace = sends exampleOneRequest.trace ++
        [Event.SendGetAncestors 77 ((exampleOneRequest.RequestID + 1) % 2 ^ 32) 3] ∧
      b1.OutstandingRequests.Len = exampleOneRequest.OutstandingRequests.Len :=
  ⟨(C4_wrong_first_vertex_refetched exampleEnv exampleOneRequest 77 1 [9, 5] [[1, 0]]
      ⟨9, [], 5, [], Status.Processing⟩ 3 (by decide) (by decide) rfl (by decide)).2.1,
    (C4_wrong_first_vertex_refetched exampleEnv exampleOneRequest 77 1 [9, 5] [[1, 0]]
      ⟨9, [], 5, [], Status.Processing⟩ 3 (by decide) (by decide) rfl (by decide)).2.2
      77 (by decide) (by decide) (by decide) (by decide) rfl (by decide)⟩

/-- Counterexample to C4 as stated.  First: after `ForceAccepted([3, 4])` and the
answer `[4, 3]` to the request for vertex 4, the request `(77, 1)` for vertex 3 is still
outstanding while vertex 3 is in the local store; an Ancestors message for `(77, 1)`
whose first container parses to vertex 9 then sends no request at all, and the number
of outstanding requests drops from 1 to 0.  Second: in the example state with a full
table the request `(77, 1)` is for vertex 2 and vertex 52 waits in NeedToFetch; the
same wrong answer makes the handler send exactly one request, but for vertex 52, and
vertex 2 is left in NeedToFetch without a request. -/
theorem C4_counterexample :
    ((runCalls exampleEnv (New exampleConfig)
        [Call.ForceAccepted [3, 4], Call.Ancestors 77 2 [[4, 2, 3], [3, 1, 1]]]).map
        (fun b => ((b.OutstandingRequests.Remove 77 1).2, (b.Manager.GetVtx 3).isSome,
          sends b.trace, b.OutstandingRequests.Len)) =
      some ((3, true), true,
        [Event.SendGetAncestors 77 1 3, Event.SendGetAncestors 77 2 4], 1) ∧
    Option.map (fun v => v.id) (exampleEnv.ParseVtx [9, 5]) = some 9 ∧
    (runCalls exampleEnv (New exampleConfig)
        [Call.ForceAccepted [3, 4], Call.Ancestors 77 2 [[4, 2, 3], [3, 1, 1]],
         Call.Ancestors 77 1 [[9, 5]]]).map
        (fun b => (sends b.trace, b.OutstandingRequests.Len)) =
      some ([Event.SendGetAncestors 77 1 3, Event.SendGetAncestors 77 2 4], 0)) ∧
    ((exampleFullTable.OutstandingRequests.Remove 77 1).2 = (2, true) ∧
    exampleFullTable.needToFetch = [52] ∧
    (Ancestors exampleEnv exampleFullTable 77 1 [[9, 5]]).map
        (fun r => ((sends r.1.trace).drop (sends exampleFullTable.trace).length,
          r.1.needToFetch, r.1.OutstandingRequests.Contains 2, r.2)) =
      some ([Event.SendGetAncestors 77 51 52], [2], false, none)) := by
  refine ⟨by decide, ?_, ?_, ?_⟩ <;> rfl

/-- C6, as the code has it: an Ancestors message whose (peer, reqID) is not in the
outstanding-requests table and whose first vertex id is neither in NeedToFetch nor the
subject of an outstanding request is dropped (AncestorsMaxContainersReceived being at
least 1): the handler returns nil, leaves the outstanding-requests table and
NeedToFetch unchanged, pushes nothing to the job queues and sends no outbound message;
only the store has the parsed vertex. -/
theorem C6_unneeded_Ancestors_dropped (env : Env) (b : bootstrapper) (nodeID : NodeID)
    (requestID : Nat) (first : List Nat) (rest : List (List Nat)) (v : Vertex)
    (hlim : 1 ≤ b.AncestorsMaxContainersReceived)
    (hreq : b.OutstandingRequests.Has nodeID requestID = false)
    (hparse : env.ParseVtx first = some v)
    (hntf : v.id ∉ b.needToFetch)
    (hout : b.OutstandingRequests.Contains v.id = false) :
    ∃ b1, Ancestors env b nodeID requestID (first :: rest) = some (b1, none) ∧
      b1.OutstandingRequests = b.OutstandingRequests ∧ b1.needToFetch = b.needToFetch ∧
      b1.VtxBlocked = b.VtxBlocked ∧ b1.TxBlocked = b.TxBlocked ∧ b1.trace = b.trace := by
  refine ⟨{ b with Manager := (b.Manager.ParseVtx env.ParseVtx first).1 }, ?_, rfl, rfl, rfl,
    rfl, rfl⟩
  rw [Ancestors_cons env b nodeID requestID first rest hlim]
  exact ancestorsFirst_unneeded env b nodeID requestID first _ v hreq hparse hout hntf

/-- Witness of C6: in the example state with fifty outstanding requests, a message
from peer 88 with request id 99 that carries the unneeded vertex 60 is dropped. -/
theorem C6_witness :
    ∃ b1, Ancestors exampleEnv exampleFullTable 88 99 ([60, 4] :: [[61, 3]]) = some (b1, none) ∧
      b1.OutstandingRequests = exampleFullTable.OutstandingRequests ∧
      b1.needToFetch = exampleFullTable.needToFetch ∧
      b1.VtxBlocked = exampleFullTable.VtxBlocked ∧
      b1.TxBlocked = exampleFullTable.TxBlocked ∧ b1.trace = exampleFullTable.trace :=
  C6_unneeded_Ancestors_dropped exampleEnv exampleFullTable 88 99 [60, 4] [[61, 3]]
    ⟨60, [], 4, [], Status.Processing⟩ (by decide) (by decide) rfl (by decide) (by decide)

/-- Counterexample to C6 as stated: after `ForceAccepted([3])` the request `(77, 1)`
for vertex 3 is outstanding and NeedToFetch is empty.  A message from peer 88 with
request id 99, which is not in the table, whose first vertex is 3, is not dropped:
vertex 3 is pushed into the blocked vertex queue and a request for its parent 2 is
sent. -/
theorem C6_counterexample :
    (runCalls exampleEnv (New exampleConfig) [Call.ForceAccepted [3]]).map
        (fun b => (b.OutstandingRequests.Has 88 99, b.needToFetch, b.VtxBlocked.jobs,
          sends b.trace)) =
      some (false, [], [], [Event.SendGetAncestors 77 1 3]) ∧
    Option.map (fun v => v.id) (exampleEnv.ParseVtx [3, 2, 2]) = some 3 ∧
    (runCalls exampleEnv (New exampleConfig)
        [Call.ForceAccepted [3], Call.Ancestors 88 99 [[3, 2, 2]]]).map
        (fun b => (b.VtxBlocked.jobs, sends b.trace, b.OutstandingRequests.Len)) =
      some ([3], [Event.SendGetAncestors 77 1 3, Event.SendGetAncestors 77 2 2], 2) := by
  decide

/-- C8, as the code has it: a response whose (peer, reqID) is not in the
outstanding-requests table is dropped by GetAncestorsFailed always, and by Ancestors
when the container list is empty or (AncestorsMaxContainersReceived being at least 1)
when its first container does not parse or parses to a vertex that is neither in
NeedToFetch nor the subject of an outstanding request.  The handler then returns nil,
leaves the outstanding requests, NeedToFetch and the job queues as they were and sends
nothing. -/
theorem C8_late_response_dropped (env : Env) (b : bootstrapper) (nodeID : NodeID)
    (requestID : Nat) (vtxs : List (List Nat))
    (hreq : b.OutstandingRequests.Has nodeID requestID = false)
    (hdrop : vtxs = [] ∨ (1 ≤ b.AncestorsMaxContainersReceived ∧
      ∃ first rest, vtxs = first :: rest ∧
        (env.ParseVtx first = none ∨
          ∃ v, env.ParseVtx first = some v ∧ v.id ∉ b.needToFetch ∧
            b.OutstandingRequests.Contains v.id = false))) :
    GetAncestorsFailed env b nodeID requestID = (b, none) ∧
    ∃ b1, Ancestors env b nodeID requestID vtxs = some (b1, none) ∧
      b1.OutstandingRequests = b.OutstandingRequests ∧ b1.needToFetch = b.needToFetch ∧
      b1.VtxBlocked = b.VtxBlocked ∧ b1.TxBlocked = b.TxBlocked ∧ b1.trace = b.trace := by
  have hg := GetAncestorsFailed_unrequested env b nodeID requestID hreq
  refine ⟨hg, ?_⟩
  rcases hdrop with rfl | ⟨hlim, first, rest, rfl, hfirst⟩
  · refine ⟨b, ?_, rfl, rfl, rfl, rfl, rfl⟩
    show some (GetAncestorsFailed env b nodeID requestID) = _
    rw [hg]
  · rcases hfirst with hnone | ⟨v, hparse, hntf, hout⟩
    · refine ⟨b, ?_, rfl, rfl, rfl, rfl, rfl⟩
      rw [Ancestors_cons env b nodeID requestID first rest hlim]
      exact ancestorsFirst_unparsed env b nodeID requestID first _ hreq hnone
    · refine ⟨{ b with Manager := (b.Manager.ParseVtx env.ParseVtx first).1 }, ?_, rfl, rfl,
        rfl, rfl, rfl⟩
      rw [Ancestors_cons env b nodeID requestID first rest hlim]
      exact ancestorsFirst_unneeded env b nodeID requestID first _ v hreq hparse hout hntf

/-- Witness of C8: in the example state with the request `(77, 1)` outstanding, the
response for `(77, 2)` whose only container does not parse is dropped. -/
theorem C8_witness :
    GetAncestorsFailed exampleEnv exampleOneRequest 77 2 = (exampleOneRequest, none) ∧
    ∃ b1, Ancestors exampleEnv exampleOneRequest 77 2 [[7]] = some (b1, none) ∧
      b1.OutstandingRequests = exampleOneRequest.OutstandingRequests ∧
      b1.needToFetch = exampleOneRequest.needToFetch ∧
      b1.VtxBlocked = exampleOneRequest.VtxBlocked ∧
      b1.TxBlocked = exampleOneRequest.TxBlocked ∧ b1.trace = exampleOneRequest.trace :=
  C8_late_response_dropped exampleEnv exampleOneRequest 77 2 [[7]] (by decide)
    (Or.inr ⟨by decide, [7], [], rfl, Or.inl rfl⟩)

/-- Counterexample to C8 as stated: after `ForceAccepted([3])` and a wrong answer to
the request `(77, 1)`, vertex 3 is requested again as `(77, 2)` and `(77, 1)` is no
longer in the table.  The late answer to `(77, 1)` that carries vertex 3 is not
dropped: vertex 3 is pushed into the blocked vertex queue and a request for its parent
2 is sent. -/
theorem C8_counterexample :
    (runCalls exampleEnv (New exampleConfig)
        [Call.ForceAccepted [3], Call.Ancestors 77 1 [[9, 5]]]).map
        (fun b => (b.OutstandingRequests.Has 77 1, b.OutstandingRequests.reqs,
          b.VtxBlocked.jobs, sends b.trace)) =
      some (false, [(77, 2, 3)], [],
        [Event.SendGetAncestors 77 1 3, Event.SendGetAncestors 77 2 3]) ∧
    (runCalls exampleEnv (New exampleConfig)
        [Call.ForceAccepted [3], Call.Ancestors 77 1 [[9, 5]],
         Call.Ancestors 77 1 [[3, 2, 2]]]).map
        (fun b => (b.VtxBlocked.jobs, sends b.trace)) =
      some ([3], [Event.SendGetAncestors 77 1 3, Event.SendGetAncestors 77 2 3,
        Event.SendGetAncestors 77 3 2]) := by
  constructor <;> rfl

/-! ### Claims on the invariants of the request tables -/

/-- Witness of C9: the example state reached by `ForceAccepted` with fifty-one unknown
ids is reachable and holds exactly the maximum of fifty requests. -/
theorem C9_witness :
    Reachable exampleEnv exampleFullTable ∧
    exampleFullTable.OutstandingRequests.Len ≤ MaxOutstandingGetAncestorsRequests ∧
    MaxOutstandingGetAncestorsRequests = 50 :=
  ⟨exampleFullTable_reachable,
    C9_outstanding_requests_bounded exampleEnv exampleFullTable exampleFullTable_reachable⟩

/-- C10, as the code has it: fetch creates no overlap between the outstanding requests
and NeedToFetch.  An id that is in NeedToFetch and has an outstanding request when
fetch returns had that request before the call and was in NeedToFetch or among the ids
passed to fetch; and unless fetch failed for lack of validators, the table then holds
the maximum number of requests. -/
theorem C10_fetch_creates_no_overlap (env : Env) (b : bootstrapper) (vtxIDs : List ID) (v : ID)
    (hv : v ∈ (fetch env b vtxIDs).1.needToFetch)
    (hc : (fetch env b vtxIDs).1.OutstandingRequests.Contains v = true) :
    b.OutstandingRequests.Contains v = true ∧ (v ∈ b.needToFetch ∨ v ∈ vtxIDs) ∧
    ((∀ x, (fetch env b vtxIDs).2 ≠ some (Err.noValidators x)) →
      MaxOutstandingGetAncestorsRequests ≤ (fetch env b vtxIDs).1.OutstandingRequests.Len) := by
  have hframe := fetchLoop_frame env (IDSet.AddAll b.needToFetch vtxIDs).length
    { b with needToFetch := IDSet.AddAll b.needToFetch vtxIDs }
  have herr := fetchLoop_error env (IDSet.AddAll b.needToFetch vtxIDs).length
    { b with needToFetch := IDSet.AddAll b.needToFetch vtxIDs }
  have hcomp := fetchLoop_complete env (IDSet.AddAll b.needToFetch vtxIDs).length
    { b with needToFetch := IDSet.AddAll b.needToFetch vtxIDs } (le_refl _)
  rcases hloop : fetchLoop env (IDSet.AddAll b.needToFetch vtxIDs).length
    { b with needToFetch := IDSet.AddAll b.needToFetch vtxIDs } with ⟨b2, e⟩
  rw [hloop] at hframe herr hcomp
  obtain ⟨_, hn, ho, _⟩ := hframe
  cases e with
  | some err =>
    have hf : fetch env b vtxIDs = (b2, some err) := by
      unfold fetch
      simp only [hloop]
    rw [hf] at hv hc ⊢
    refine ⟨ho v hv hc, (IDSet.mem_AddAll _ _ _).mp (hn v hv), ?_⟩
    intro hno
    obtain ⟨x, hx⟩ := herr err rfl
    exact absurd (by rw [hx]) (hno x)
  | none =>
    have hf : fetch env b vtxIDs = checkFinish env b2 := by
      unfold fetch
      simp only [hloop]
    rw [hf] at hv hc ⊢
    obtain ⟨h1, h2, _⟩ := checkFinish_frame env b2
    rw [h2] at hv
    rw [h1] at hc
    refine ⟨ho v hv hc, (IDSet.mem_AddAll _ _ _).mp (hn v hv), ?_⟩
    intro _
    rw [h1]
    rcases hcomp rfl with hnil | hfull
    · have hnil2 : b2.needToFetch = [] := hnil
      rw [hnil2] at hv
      simp at hv
    · exact hfull

/-- Witness of C10: in the example state with a full table, vertex 2 has an outstanding
request and is in NeedToFetch, before and after a call of fetch. -/
theorem C10_witness :
    exampleOverlap.OutstandingRequests.Contains 2 = true ∧
    (2 ∈ exampleOverlap.needToFetch ∨ 2 ∈ ([] : List ID)) ∧
    ((∀ x, (fetch exampleEnv exampleOverlap []).2 ≠ some (Err.noValidators x)) →
      MaxOutstandingGetAncestorsRequests ≤
        (fetch exampleEnv exampleOverlap []).1.OutstandingRequests.Len) :=
  C10_fetch_creates_no_overlap exampleEnv exampleOverlap [] 2 (by decide) (by decide)

theorem runCalls_append (env : Env) (calls1 calls2 : List Call) (b : bootstrapper) :
    runCalls env b (calls1 ++ calls2) =
      (runCalls env b calls1).bind (fun b1 => runCalls env b1 calls2) := by
  induction calls1 generalizing b with
  | nil => rfl
  | cons call calls ih =>
    simp only [List.cons_append, runCalls]
    split
    · rfl
    · exact ih _

/-- Counterexample to C10 as stated: `ForceAccepted` with the fifty-one unknown ids
`2, ..., 52` leaves fifty requests outstanding; a second `ForceAccepted`, with no ids,
puts the missing ids back into NeedToFetch, and as the table is full fetch takes none
out.  In the state reached, vertex 2 has an outstanding request and is in
NeedToFetch. -/
theorem C10_counterexample :
    runCalls exampleEnv (New exampleConfig)
        [Call.ForceAccepted (List.range' 2 51), Call.ForceAccepted []] = some exampleOverlap ∧
    Reachable exampleEnv exampleOverlap ∧
    exampleOverlap.OutstandingRequests.Contains 2 = true ∧ 2 ∈ exampleOverlap.needToFetch := by
  refine ⟨?_, exampleOverlap_reachable, by decide, by decide⟩
  have h := runCalls_append exampleEnv [Call.ForceAccepted (List.range' 2 51)]
    [Call.ForceAccepted []] (New exampleConfig)
  rw [exampleFullTable_run] at h
  exact h.trans exampleOverlap_run

/-! ### Requests are sent only for vertices that are not in the store -/

theorem Manager.Parents_of_stored (m : Manager) (x : ID) (h : m.GetVtx x ≠ none) :
    ∃ ps, m.Parents x = some ps := by
  unfold Manager.Parents
  cases hg : m.GetVtx x with
  | none => exact absurd hg h
  | some w => exact ⟨w.parents, rfl⟩

theorem ancestorsLoop_GetVtx (env : Env) (rest : List (List Nat)) (eligible : IDSet)
    (processVertices : List ID) (b : bootstrapper) (x : ID) (h : b.Manager.GetVtx x ≠ none) :
    (ancestorsLoop env rest eligible processVertices b).1.Manager.GetVtx x
      = b.Manager.GetVtx x := by
  induction rest generalizing eligible processVertices b with
  | nil => rfl
  | cons c cs ih =>
    have hstep := Manager.ParseVtx_GetVtx env.ParseVtx b.Manager c x (Or.inl h)
    unfold ancestorsLoop
    split
    · rfl
    · rename_i m vtxID heq
      rw [heq] at hstep
      simp only [] at hstep ⊢
      split
      · exact hstep
      · split
        · exact hstep
        · rw [ih _ _ _ (by simp only []; rw [hstep]; exact h)]
          exact hstep

/-- The loop of `Ancestors` keeps exactly the followers the spec describes, never fails,
and leaves every follower it parsed in the store. -/
theorem ancestorsLoop_spec (env : Env) (rest : List (List Nat)) (eligible : IDSet)
    (processVertices : List ID) (b : bootstrapper) :
    (ancestorsLoop env rest eligible processVertices b).2 =
      (processVertices ++ eligibleFollowers env.ParseVtx
        (ancestorsLoop env rest eligible processVertices b).1.Manager.parentsOf rest eligible,
       none) ∧
    (∀ c z, rest[(eligibleFollowers env.ParseVtx
        (ancestorsLoop env rest eligible processVertices b).1.Manager.parentsOf rest
          eligible).length]? = some c → env.ParseVtx c = some z →
      (ancestorsLoop env rest eligible processVertices b).1.Manager.GetVtx z.id ≠ none) := by
  induction rest generalizing eligible processVertices b with
  | nil => simp [ancestorsLoop, eligibleFollowers]
  | cons c cs ih =>
    have hsnd := Manager.ParseVtx_snd env.ParseVtx b.Manager c
    cases hp : env.ParseVtx c with
    | none =>
      rw [hp] at hsnd
      have hl : ancestorsLoop env (c :: cs) eligible processVertices b
          = (b, processVertices, none) := by
        unfold ancestorsLoop
        split
        · rfl
        · rename_i m vtxID heq
          rw [heq] at hsnd
          simp at hsnd
      rw [hl]
      simp only [eligibleFollowers, hp, List.append_nil, List.length_nil, true_and]
      intro c1 z hc1 hz
      simp only [List.getElem?_cons_zero, Option.some.injEq] at hc1
      rw [← hc1, hp] at hz
      simp at hz
    | some v =>
      rw [hp] at hsnd
      simp only [Option.map_some'] at hsnd
      have hstored := Manager.ParseVtx_stored env.ParseVtx b.Manager c v hp
      by_cases hel : v.id ∈ eligible
      · obtain ⟨ps, hps⟩ := Manager.Parents_of_stored _ _ hstored
        have hl : ancestorsLoop env (c :: cs) eligible processVertices b =
            ancestorsLoop env cs (IDSet.AddAll (IDSet.Remove eligible v.id) ps)
              (processVertices ++ [v.id])
              { b with Manager := (b.Manager.ParseVtx env.ParseVtx c).1,
                       needToFetch := IDSet.Remove b.needToFetch v.id } := by
          conv_lhs => unfold ancestorsLoop
          split
          · rename_i m heq
            rw [heq] at hsnd
            simp at hsnd
          · rename_i m vtxID heq
            rw [heq] at hsnd hps
            simp only [Option.some.injEq] at hsnd
            subst hsnd
            simp only [IDSet.Contains, hel, decide_True, Bool.not_true, Bool.false_eq_true,
              if_false, hps, heq]
        obtain ⟨ih1, ih2⟩ := ih (IDSet.AddAll (IDSet.Remove eligible v.id) ps)
          (processVertices ++ [v.id])
          { b with Manager := (b.Manager.ParseVtx env.ParseVtx c).1,
                   needToFetch := IDSet.Remove b.needToFetch v.id }
        have hmono := ancestorsLoop_GetVtx env cs (IDSet.AddAll (IDSet.Remove eligible v.id) ps)
          (processVertices ++ [v.id])
          { b with Manager := (b.Manager.ParseVtx env.ParseVtx c).1,
                   needToFetch := IDSet.Remove b.needToFetch v.id } v.id hstored
        rw [← hl] at ih1 ih2 hmono
        have hpar : (ancestorsLoop env (c :: cs) eligible processVertices b).1.Manager.parentsOf
            v.id = ps := by
          unfold Manager.parentsOf Manager.Parents
          rw [hmono]
          unfold Manager.Parents at hps
          rw [hps]
          rfl
        have hef : eligibleFollowers env.ParseVtx
            (ancestorsLoop env (c :: cs) eligible processVertices b).1.Manager.parentsOf
            (c :: cs) eligible =
            v.id :: eligibleFollowers env.ParseVtx
              (ancestorsLoop env (c :: cs) eligible processVertices b).1.Manager.parentsOf cs
              (IDSet.AddAll (IDSet.Remove eligible v.id) ps) := by
          conv_lhs => unfold eligibleFollowers
          simp only [hp, hel, if_true, hpar]
        rw [hef]
        refine ⟨?_, ?_⟩
        · rw [ih1, List.append_assoc]
          rfl
        · intro c1 z hc1 hz
          simp only [List.length_cons, List.getElem?_cons_succ] at hc1
          exact ih2 c1 z hc1 hz
      · have hl : ancestorsLoop env (c :: cs) eligible processVertices b =
            ({ b with Manager := (b.Manager.ParseVtx env.ParseVtx c).1 }, processVertices,
              none) := by
          conv_lhs => unfold ancestorsLoop
          split
          · rename_i m heq
            rw [heq] at hsnd
            simp at hsnd
          · rename_i m vtxID heq
            rw [heq] at hsnd
            simp only [Option.some.injEq] at hsnd
            subst hsnd
            simp only [IDSet.Contains, hel, decide_False, Bool.not_false, if_true, heq]
        rw [hl]
        simp only [eligibleFollowers, hp, hel, if_false, List.append_nil, List.length_nil,
          true_and]
        intro c1 z hc1 hz
        simp only [List.getElem?_cons_zero, Option.some.injEq] at hc1
        rw [← hc1, hp] at hz
        simp only [Option.some.injEq] at hz
        rw [← hz]
        exact hstored

/-- A message whose first vertex is the requested one, or is needed though the message
was not requested, is accepted. -/
theorem ancestorsFirst_accepted (env : Env) (b : bootstrapper) (nodeID : NodeID)
    (requestID : Nat) (first : List Nat) (rest : List (List Nat)) (v : Vertex)
    (hparse : env.ParseVtx first = some v)
    (hacc : ((b.OutstandingRequests.Remove nodeID requestID).2.2 = true ∧
        (b.OutstandingRequests.Remove nodeID requestID).2.1 = v.id) ∨
      ((b.OutstandingRequests.Remove nodeID requestID).2.2 = false ∧
        ((b.OutstandingRequests.Remove nodeID requestID).1.Contains v.id = true ∨
          v.id ∈ b.needToFetch))) :
    ancestorsFirst env b nodeID requestID (first :: rest) =
      ancestorsAccepted env
        { b with OutstandingRequests := (b.OutstandingRequests.Remove nodeID requestID).1,
                 Manager := (b.Manager.ParseVtx env.ParseVtx first).1 } v.id rest := by
  have h2 := Manager.ParseVtx_snd env.ParseVtx b.Manager first
  rw [hparse] at h2
  simp only [Option.map_some'] at h2
  unfold ancestorsFirst
  simp only []
  split
  · rename_i m heq
    rw [heq] at h2
    simp at h2
  · rename_i m vtxID heq
    rw [heq] at h2
    simp only [Option.some.injEq] at h2
    subst h2
    rcases hacc with ⟨ht, hid⟩ | ⟨hf, hneed⟩
    · simp only [ht, hid, bne_self_eq_false, Bool.and_false, Bool.false_eq_true, if_false,
        Bool.not_true, Bool.false_and, heq]
    · rcases hneed with hc | hn
      · simp only [hf, Bool.false_and, Bool.false_eq_true, if_false, Bool.not_false, hc,
          Bool.not_true, Bool.and_false, Bool.true_and, heq]
      · simp only [hf, Bool.false_and, Bool.false_eq_true, if_false, Bool.not_false,
          IDSet.Contains, hn, decide_True, Bool.not_true, Bool.and_false, Bool.true_and, heq]

/-- C12: in a state in which no timeout is awaited, `Timeout` returns
`errUnexpectedTimeout` and the state it leaves is the state it was called in, so that
nothing was restarted, no callback was invoked and no message was sent. -/
theorem C12_unexpected_Timeout_rejected (env : Env) (b : bootstrapper)
    (h : b.awaitingTimeout = false) :
    Timeout env b = (b, some Err.errUnexpectedTimeout) := by
  unfold Timeout
  simp [h]

/-- The theorem `C12_unexpected_Timeout_rejected` on the fresh bootstrapper of the
examples. -/
theorem C12_witness :
    (New exampleConfig).awaitingTimeout = false ∧
    Timeout exampleEnv (New exampleConfig) =
      (New exampleConfig, some Err.errUnexpectedTimeout) :=
  ⟨rfl, C12_unexpected_Timeout_rejected exampleEnv (New exampleConfig) rfl⟩

/-- C13: in a state in which a timeout is awaited, `Timeout` clears the flag; when the
subnet is not bootstrapped it calls `Restart(true)` and nothing else, otherwise it calls
`OnFinished` with the current `RequestID` and nothing else, and it returns the result
of that call.  Any state in which the flag is as this call left it rejects a `Timeout`
as unexpected. -/
theorem C13_awaited_Timeout (env : Env) (b : bootstrapper) (h : b.awaitingTimeout = true) :
    (Timeout env b).1.awaitingTimeout = false ∧
    (env.SubnetIsBootstrapped b.tick = false →
      (Timeout env b).1.trace = b.trace ++ [Event.Restart true] ∧
      (Timeout env b).2 = env.Restart (b.tick + 1)) ∧
    (env.SubnetIsBootstrapped b.tick = true →
      (Timeout env b).1.trace = b.trace ++ [Event.OnFinished b.RequestID] ∧
      (Timeout env b).2 = env.OnFinished (b.tick + 1) b.RequestID) ∧
    (∀ b2 : bootstrapper, b2.awaitingTimeout = (Timeout env b).1.awaitingTimeout →
      Timeout env b2 = (b2, some Err.errUnexpectedTimeout)) := by
  have hflag : (Timeout env b).1.awaitingTimeout = false := by
    unfold Timeout
    cases hs : env.SubnetIsBootstrapped b.tick <;> simp [h, hs, Restart, OnFinished]
  refine ⟨hflag, ?_, ?_, ?_⟩
  · intro hs
    unfold Timeout
    simp [h, hs, Restart]
  · intro hs
    unfold Timeout
    simp [h, hs, OnFinished]
  · intro b2 h2
    rw [hflag] at h2
    unfold Timeout
    simp [h2]

theorem exampleAwaiting_run :
    runCalls exampleEnv (New exampleConfig) [Call.ForceAccepted []] = some exampleAwaiting := by
  decide

/-- The theorem `C13_awaited_Timeout` on the state in which the fresh bootstrapper
awaits a timeout: the subnet is not bootstrapped, so `Timeout` calls `Restart(true)`. -/
theorem C13_witness :
    exampleAwaiting.awaitingTimeout = true ∧
    (Timeout exampleEnv exampleAwaiting).1.awaitingTimeout = false ∧
    (Timeout exampleEnv exampleAwaiting).1.trace =
      exampleAwaiting.trace ++ [Event.Restart true] ∧
    Timeout exampleEnv (Timeout exampleEnv exampleAwaiting).1 =
      ((Timeout exampleEnv exampleAwaiting).1, some Err.errUnexpectedTimeout) :=
  ⟨rfl, (C13_awaited_Timeout exampleEnv exampleAwaiting rfl).1,
    ((C13_awaited_Timeout exampleEnv exampleAwaiting rfl).2.1 rfl).1,
    (C13_awaited_Timeout exampleEnv exampleAwaiting rfl).2.2.2 _ rfl⟩

/-! ### The rounds of checkFinish and the contraction criterion -/

/-- A round of `checkFinish` that is not skipped, in which neither execution fails and
the engine is not halted, executes both queues and then evaluates the retry criterion
on the number of executed vertices, in a state that still holds the count of the
previous round. -/
theorem checkFinish_round (env : Env) (b : bootstrapper)
    (hB : env.IsBootstrapped b.tick = false) (hM : b.VtxBlocked.missing = [])
    (hA : b.awaitingTimeout = false)
    (hT : (env.ExecuteAll (b.tick + 1)).2 = none) (hH1 : env.Halted (b.tick + 2) = false)
    (hV : (env.ExecuteAll (b.tick + 3)).2 = none) (hH2 : env.Halted (b.tick + 4) = false) :
    ∃ b1, checkFinish env b = checkFinishRetry env b1 (executedVts env b) ∧
      b1.trace = b.trace ++ [Event.TxBlockedExecuteAll, Event.VtxBlockedExecuteAll] ∧
      b1.executedStateTransitions = b.executedStateTransitions ∧
      b1.RetryBootstrap = b.RetryBootstrap ∧ b1.RequestID = b.RequestID ∧
      b1.tick = b.tick + 5 := by
  unfold checkFinish checkFinishTxs checkFinishVertices executedVts
  simp [JobsWithMissing.MissingIDs, hB, hM, hA, hT, hH1, hV, hH2]
  refine ⟨_, rfl, ?_, ?_, ?_, ?_, ?_⟩ <;> simp

/-- When the retry criterion holds, `checkFinishRetry` calls `Restart(true)` and
nothing else. -/
theorem checkFinishRetry_restart (env : Env) (b : bootstrapper) (n : Nat)
    (h : 0 < n ∧ n < b.executedStateTransitions / 2 ∧ b.RetryBootstrap = true) :
    (checkFinishRetry env b n).1.trace = b.trace ++ [Event.Restart true] ∧
    (checkFinishRetry env b n).1.executedStateTransitions = n := by
  unfold checkFinishRetry
  simp [h.1, h.2.1, h.2.2, Restart]

/-- When the retry criterion does not hold, `checkFinishRetry` notifies the subnet and
then makes one more call, which is not `Restart`. -/
theorem checkFinishRetry_finish (env : Env) (b : bootstrapper) (n : Nat)
    (h : ¬ (0 < n ∧ n < b.executedStateTransitions / 2 ∧ b.RetryBootstrap = true)) :
    (∃ e, (checkFinishRetry env b n).1.trace = b.trace ++ [Event.SubnetBootstrapped, e]) ∧
    (checkFinishRetry env b n).1.executedStateTransitions = n := by
  unfold checkFinishRetry
  have hc : (decide (n > 0) && decide (n < b.executedStateTransitions / 2)
      && b.RetryBootstrap) = false := by
    cases hr : b.RetryBootstrap
    · simp
    · simp only [Bool.and_true, Bool.and_eq_false_imp, decide_eq_true_eq, decide_eq_false_iff_not]
      intro h0 h1
      exact h ⟨h0, h1, hr⟩
  simp only [hc]
  unfold checkFinishNotify
  cases hs : env.SubnetIsBootstrapped b.tick
  · simp [hs]
  · simp [hs, OnFinished]

/-- C14, amended: a round of `checkFinish` that executes both queues (it is not
skipped, no execution fails, the engine is not halted) restarts bootstrapping exactly
when `RetryBootstrap` is set and the number of vertices it executed is positive and
less than half of the count the previous round stored, which is `math.MaxInt32` on a
freshly constructed bootstrapper; the round stores its own count for the next one. -/
theorem C14_restart_iff_contraction (env : Env) (b : bootstrapper)
    (hB : env.IsBootstrapped b.tick = false) (hM : b.VtxBlocked.missing = [])
    (hA : b.awaitingTimeout = false)
    (hT : (env.ExecuteAll (b.tick + 1)).2 = none) (hH1 : env.Halted (b.tick + 2) = false)
    (hV : (env.ExecuteAll (b.tick + 3)).2 = none) (hH2 : env.Halted (b.tick + 4) = false) :
    ((checkFinish env b).1.trace = b.trace ++ restartRound ↔
      (0 < executedVts env b ∧ executedVts env b < b.executedStateTransitions / 2 ∧
        b.RetryBootstrap = true)) ∧
    (checkFinish env b).1.executedStateTransitions = executedVts env b ∧
    (∀ config, (New config).executedStateTransitions = MaxInt32) := by
  obtain ⟨b1, hb1, htr, hex, hre, -, -⟩ := checkFinish_round env b hB hM hA hT hH1 hV hH2
  rw [hb1]
  by_cases hc : 0 < executedVts env b ∧ executedVts env b < b.executedStateTransitions / 2 ∧
      b.RetryBootstrap = true
  · have hc1 : 0 < executedVts env b ∧ executedVts env b < b1.executedStateTransitions / 2 ∧
        b1.RetryBootstrap = true := by rw [hex, hre]; exact hc
    have h := checkFinishRetry_restart env b1 _ hc1
    refine ⟨⟨fun _ => hc, fun _ => ?_⟩, h.2, fun _ => rfl⟩
    rw [h.1, htr]
    simp [restartRound]
  · have hc1 : ¬ (0 < executedVts env b ∧ executedVts env b < b1.executedStateTransitions / 2 ∧
        b1.RetryBootstrap = true) := by rw [hex, hre]; exact hc
    obtain ⟨⟨e, he⟩, hn⟩ := checkFinishRetry_finish env b1 _ hc1
    refine ⟨⟨fun h => ?_, fun h => absurd h hc⟩, hn, fun _ => rfl⟩
    rw [he, htr] at h
    simp [restartRound] at h

/-- The theorem `C14_restart_iff_contraction` on a second round: the first round
executed 100 vertices of a backlog of 200 and the second executes 60, which is not less
than half of 100, so the second round does not restart. -/
theorem C14_witness :
    executedVts (roundsEnv 100 60) (checkFinish (roundsEnv 100 60) (New (backlogConfig 200))).1
      = 60 ∧
    (checkFinish (roundsEnv 100 60) (New (backlogConfig 200))).1.executedStateTransitions
      = 100 ∧
    (checkFinish (roundsEnv 100 60)
        (checkFinish (roundsEnv 100 60) (New (backlogConfig 200))).1).1.trace ≠
      (checkFinish (roundsEnv 100 60) (New (backlogConfig 200))).1.trace ++ restartRound := by
  refine ⟨by decide, by decide, fun h => ?_⟩
  have hiff := (C14_restart_iff_contraction (roundsEnv 100 60)
    (checkFinish (roundsEnv 100 60) (New (backlogConfig 200))).1
    (by decide) (by decide) (by decide) (by decide) (by decide) (by decide) (by decide)).1
  exact absurd (hiff.mp h) (by decide)

/-- C14 fails as stated: on the freshly constructed bootstrapper with `RetryBootstrap`
set and a backlog of 100 vertices, the first round of `checkFinish` executes 60 vertices
and calls `Restart(true)`, because 60 is compared with half of `math.MaxInt32`. -/
theorem C14_counterexample :
    (New (backlogConfig 100)).RetryBootstrap = true ∧
    (New (backlogConfig 100)).VtxBlocked.jobs.length = 100 ∧
    executedVts (roundsEnv 60 60) (New (backlogConfig 100)) = 60 ∧
    (checkFinish (roundsEnv 60 60) (New (backlogConfig 100))).1.trace =
      [Event.TxBlockedExecuteAll, Event.VtxBlockedExecuteAll, Event.Restart true] ∧
    (checkFinish (roundsEnv 60 60) (New (backlogConfig 100))).1.VtxBlocked.jobs.length = 40 := by
  decide

/-- A round adds one call of `Restart(true)` to the trace when the retry criterion
holds and none otherwise; it stores its count and leaves `RetryBootstrap` alone. -/
theorem checkFinishRetry_restarts (env : Env) (b : bootstrapper) (n : Nat) :
    restarts (checkFinishRetry env b n).1.trace = restarts b.trace +
      (if decide (n > 0) && decide (n < b.executedStateTransitions / 2) && b.RetryBootstrap
        then 1 else 0) ∧
    (checkFinishRetry env b n).1.executedStateTransitions = n ∧
    (checkFinishRetry env b n).1.RetryBootstrap = b.RetryBootstrap := by
  unfold checkFinishRetry
  cases hc : (decide (n > 0) && decide (n < b.executedStateTransitions / 2) && b.RetryBootstrap)
  · simp only [hc, if_false]
    unfold checkFinishNotify
    cases hs : env.SubnetIsBootstrapped b.tick
    · simp [hs, restarts, bootstrapper.emit, bootstrapper.next]
    · simp [hs, OnFinished, restarts, bootstrapper.emit, bootstrapper.next]
  · simp [hc, Restart, restarts, bootstrapper.emit, bootstrapper.next]

/-- The calls of `Restart(true)` that a sequence of rounds adds to the trace are the
rounds at which the retry criterion holds. -/
theorem retryRounds_restarts (env : Env) (counts : List Nat) (b : bootstrapper) :
    restarts (retryRounds env b counts).trace =
      restarts b.trace + criterionRestarts b.RetryBootstrap b.executedStateTransitions counts := by
  induction counts generalizing b with
  | nil => simp [retryRounds, criterionRestarts]
  | cons n later ih =>
    obtain ⟨h1, h2, h3⟩ := checkFinishRetry_restarts env b n
    simp only [retryRounds, criterionRestarts]
    rw [ih, h1, h2, h3]
    omega

/-- The contraction: when no round executes more than the round before it, nor the
first more than `previouslyExecuted`, a positive number `k` of retries needs
`3 * 2 ^ k ≤ previouslyExecuted + 2`. -/
theorem criterionRestarts_contraction (retryBootstrap : Bool) (counts : List Nat) :
    ∀ previouslyExecuted : Nat, List.Chain (fun a b => b ≤ a) previouslyExecuted counts →
      0 < criterionRestarts retryBootstrap previouslyExecuted counts →
      3 * 2 ^ criterionRestarts retryBootstrap previouslyExecuted counts
        ≤ previouslyExecuted + 2 := by
  induction counts with
  | nil => intro p _ h; simp [criterionRestarts] at h
  | cons n later ih =>
    intro p hch hpos
    rw [List.chain_cons] at hch
    obtain ⟨hnp, hrest⟩ := hch
    have ih1 := ih n hrest
    simp only [criterionRestarts] at hpos ⊢
    by_cases hc : (decide (n > 0) && decide (n < p / 2) && retryBootstrap) = true
    · simp only [hc, if_true] at hpos ⊢
      simp only [Bool.and_eq_true, decide_eq_true_eq] at hc
      obtain ⟨⟨h0, hlt⟩, -⟩ := hc
      have h2 : 2 * n + 2 ≤ p := by omega
      rcases Nat.eq_zero_or_pos (criterionRestarts retryBootstrap n later) with hz | hp
      · rw [hz]; simp; omega
      · have := ih1 hp
        rw [Nat.add_comm 1, pow_succ]
        omega
    · rw [if_neg hc, Nat.zero_add] at hpos ⊢
      have := ih1 hpos
      omega

/-- C15, amended: take the rounds of `checkFinish` from a freshly constructed
bootstrapper on, the first of which executes at most `N` vertices, and let no round
execute more vertices than the round before it.  Then the retry criterion restarts
bootstrapping at most `max 1 ⌈log₂ N⌉` times. -/
theorem C15_retries_bounded (env : Env) (config : Config) (N : Nat) (counts : List Nat)
    (hfirst : ∀ executedVts ∈ counts.head?, executedVts ≤ N)
    (hcontract : List.Chain' (fun a b => b ≤ a) counts) :
    restarts (retryRounds env (New config) counts).trace ≤ max 1 (Nat.clog 2 N) := by
  rw [retryRounds_restarts]
  have h0 : restarts (New config).trace = 0 := rfl
  rw [h0, Nat.zero_add]
  cases counts with
  | nil => simp [criterionRestarts]
  | cons n later =>
    have hn : n ≤ N := hfirst n (by simp)
    have hch : List.Chain (fun a b => b ≤ a) n later := hcontract
    simp only [criterionRestarts]
    have hite : (if decide (n > 0) && decide (n < (New config).executedStateTransitions / 2)
        && (New config).RetryBootstrap then 1 else 0) ≤ 1 := by split <;> omega
    rcases Nat.eq_zero_or_pos (criterionRestarts (New config).RetryBootstrap n later) with hz | hp
    · rw [hz]
      exact le_trans (by omega) (le_max_left _ _)
    · have hc := criterionRestarts_contraction (New config).RetryBootstrap later n hch hp
      have h2 : 2 ≤ 2 ^ criterionRestarts (New config).RetryBootstrap n later := by
        calc 2 = 2 ^ 1 := rfl
          _ ≤ _ := Nat.pow_le_pow_right (by omega) hp
      have hlt : 2 ^ criterionRestarts (New config).RetryBootstrap n later < N := by omega
      have := (Nat.pow_lt_iff_lt_clog (by omega : 1 < 2)).mp hlt
      exact le_trans (by omega) (le_max_right _ _)

/-- The theorem `C15_retries_bounded` on the rounds that execute 4 and then 1
vertices: both retry, and `⌈log₂ 4⌉ = 2`. -/
theorem C15_witness :
    restarts (retryRounds exampleEnv (New exampleConfig) [4, 1]).trace = 2 ∧
    restarts (retryRounds exampleEnv (New exampleConfig) [4, 1]).trace
      ≤ max 1 (Nat.clog 2 4) :=
  ⟨by decide, C15_retries_bounded exampleEnv exampleConfig 4 [4, 1] (by decide)
    (by simp)⟩

/-- C15 fails as stated.  With a backlog of one vertex the first round of `checkFinish`
on the fresh bootstrapper executes it and restarts, once more than `⌈log₂ 1⌉ = 0`; and
when later rounds execute more than the rounds before them (4, 1, 4, 1 vertices), the
criterion restarts three times, more than `⌈log₂ 4⌉ = 2`. -/
theorem C15_counterexample :
    (New (backlogConfig 1)).VtxBlocked.jobs.length = 1 ∧
    restarts (checkFinish (roundsEnv 1 1) (New (backlogConfig 1))).1.trace = 1 ∧
    restarts (retryRounds exampleEnv (New exampleConfig) [1]).trace = 1 ∧
    Nat.clog 2 1 = 0 ∧
    restarts (retryRounds exampleEnv (New exampleConfig) [4, 1, 4, 1]).trace = 3 ∧
    Nat.clog 2 4 = 2 := by
  refine ⟨by decide, by decide, by decide, Nat.clog_one_right 2, by decide, ?_⟩
  exact Nat.clog_pow 2 2 (by omega)

/-! ### The iterations of the traversal of process -/

/-- The loop of `process`, given fuel for them, runs through the iterations that do not
end it. -/
theorem processLoop_after (env : Env) (n : Nat) :
    ∀ (t0 t : Traversal), traversalAfter env n t0 = some t →
      ∀ fuel, processLoop env (n + fuel) t0 = processLoop env fuel t := by
  induction n with
  | zero =>
    intro t0 t h fuel
    simp only [traversalAfter, Option.some.injEq] at h
    rw [h, Nat.zero_add]
  | succ n ih =>
    intro t0 t h fuel
    unfold traversalAfter at h
    split at h
    · rename_i hne
      split at h
      · rename_i t1 hs
        have hfuel : n + 1 + fuel = (n + fuel) + 1 := by omega
        rw [hfuel]
        have hone : processLoop env (n + fuel + 1) t0 = processLoop env (n + fuel) t1 := by
          simp only [processLoop, hne, if_true, hs]
        rw [hone]
        exact ih t1 t h fuel
      · simp at h
    · simp at h

/-- The iterations that do not end the loop decrease the measure by one each. -/
theorem traversalAfter_measure (env : Env) (n : Nat) :
    ∀ (t0 t : Traversal), traversalAfter env n t0 = some t →
      traversalMeasure t + n ≤ traversalMeasure t0 := by
  induction n with
  | zero =>
    intro t0 t h
    simp only [traversalAfter, Option.some.injEq] at h
    rw [h]; omega
  | succ n ih =>
    intro t0 t h
    unfold traversalAfter at h
    split at h
    · rename_i hne
      split at h
      · rename_i t1 hs
        have h1 := processStep_measure env t0 t1 hne hs
        have h2 := ih t1 t h
        omega
      · simp at h
    · simp at h

/-- The iterations of the loop leave requests, store, counter and trace alone. -/
theorem traversalAfter_frame (env : Env) (n : Nat) :
    ∀ (t0 t : Traversal), traversalAfter env n t0 = some t → TraversalFrame t0.b t.b := by
  induction n with
  | zero =>
    intro t0 t h
    simp only [traversalAfter, Option.some.injEq] at h
    rw [h]; exact TraversalFrame_refl _
  | succ n ih =>
    intro t0 t h
    unfold traversalAfter at h
    split at h
    · split at h
      · rename_i t1 hs
        have h1 := processStep_frame env t0
        rw [hs] at h1
        exact TraversalFrame_trans h1 (ih t1 t h)
      · simp at h
    · simp at h

/-- The fuel `process` gives its loop covers the measure of the seeded traversal. -/
theorem processStart_fuel (b : bootstrapper) (vtxs : List ID) :
    traversalMeasure (processStart b vtxs) ≤
      processFuel (processStart b vtxs).b (processStart b vtxs).toProcess := by
  have := weight_le_all (processSeed vtxs b []).1.Manager.vtxs
    (processSeed vtxs b []).1.VtxBlocked.jobs
  unfold traversalMeasure parentsWeight processFuel processStart
  simp only []
  omega

/-- When the traversal of `process` reaches, after some iterations, loop variables `t`
with a heap that is not empty, `process` returns what the iteration entered with `t`
and the iterations after it lead to. -/
theorem process_after (env : Env) (b : bootstrapper) (vtxs : List ID) (n : Nat) (t : Traversal)
    (h : traversalAfter env n (processStart b vtxs) = some t) (hne : 0 < t.toProcess.length) :
    ∃ fuel, process env b vtxs =
      match processLoop env (fuel + 1) t with
      | none => none
      | some (b, LoopExit.halted) => some (b, none)
      | some (b, LoopExit.failed err) => some (b, some err)
      | some (b, LoopExit.drained) => some (processCommit env b) := by
  have hm := traversalAfter_measure env n _ _ h
  have hf := processStart_fuel b vtxs
  have hpos : 1 ≤ traversalMeasure t := by unfold traversalMeasure; omega
  obtain ⟨fuel, hfuel⟩ : ∃ fuel, processFuel (processStart b vtxs).b
      (processStart b vtxs).toProcess = n + (fuel + 1) :=
    ⟨processFuel (processStart b vtxs).b (processStart b vtxs).toProcess - n - 1, by omega⟩
  refine ⟨fuel, ?_⟩
  have hl := processLoop_after env n _ _ h (fuel + 1)
  rw [← hfuel] at hl
  unfold process
  simp only []
  unfold processStart at hl
  simp only [] at hl
  rw [hl]

/-! ### Claims on the traversal of process -/

/-- C20: when the traversal of `process` pops, in any of its iterations, a vertex whose
status is Rejected, `process` returns the error that names this vertex, in the state of
that very iteration: nothing was added to the trace since `process` was called, so that
neither queue was committed and nothing was sent, and the outstanding requests and the
request counter are as they were. -/
theorem C20_rejected_vertex_fatal (env : Env) (b : bootstrapper) (vtxs : List ID) (n : Nat)
    (t : Traversal) (vtxID : ID) (rest : List ID)
    (hreach : traversalAfter env n (processStart b vtxs) = some t)
    (hhalt : env.Halted t.b.tick = false)
    (hpop : heapPop t.b.Manager t.toProcess = some (vtxID, rest))
    (hrej : t.b.Manager.Status vtxID = Status.Rejected) :
    process env b vtxs = some (t.b.next, some (Err.previouslyRejected vtxID)) ∧
    t.b.next.trace = b.trace ∧ t.b.next.OutstandingRequests = b.OutstandingRequests ∧
    t.b.next.RequestID = b.RequestID := by
  have hne : 0 < t.toProcess.length := by
    cases hl : t.toProcess with
    | nil => rw [hl] at hpop; simp [heapPop] at hpop
    | cons x xs => simp
  obtain ⟨fuel, hp⟩ := process_after env b vtxs n t hreach hne
  have hstep : processStep env t =
      Sum.inr (t.b.next, LoopExit.failed (Err.previouslyRejected vtxID)) := by
    unfold processStep
    simp only [hhalt, next_Manager, hpop, hrej]
    rfl
  have hloop : processLoop env (fuel + 1) t =
      some (t.b.next, LoopExit.failed (Err.previouslyRejected vtxID)) := by
    simp only [processLoop, hne, if_true, hstep]
  rw [hloop] at hp
  have hf := TraversalFrame_trans (processSeed_frame vtxs b [])
    (traversalAfter_frame env n _ _ hreach)
  refine ⟨hp, ?_, ?_, ?_⟩
  · simpa using hf.2.2.2
  · simpa using hf.1
  · simpa using hf.2.2.1

/-- The theorem `C20_rejected_vertex_fatal` on the store in which vertex `5` was
rejected: `process` for its child `6` pushes `6`, pops `5` in the second iteration and
returns the error. -/
theorem C20_witness :
    process exampleEnv (New rejectedConfig) [6] =
      some ({ New rejectedConfig with
              VtxBlocked := { jobs := [6], missing := [] }
              processedCache := { Size := cacheSize, entries := [6] }
              tick := 3 },
            some (Err.previouslyRejected 5)) := by
  have h := (C20_rejected_vertex_fatal exampleEnv (New rejectedConfig) [6] 1
    { toProcess := [5], vtxHeightSet := [6], prevHeight := 2,
      b := { New rejectedConfig with
             VtxBlocked := { jobs := [6], missing := [] }
             processedCache := { Size := cacheSize, entries := [6] }
             tick := 2 } } 5 [] (by decide) (by decide) (by decide) (by decide)).1
  exact h

/-! ### The first round of checkFinish and the call of OnFinished -/

/-- On a bootstrapper that has not executed vertices yet, the count of the previous
round is `math.MaxInt32`: a round that executes at least one vertex and fewer than
`1073741823` restarts bootstrapping if `RetryBootstrap` is set, and finishes otherwise. -/
theorem checkFinishRetry_first (env : Env) (b : bootstrapper) (n : Nat)
    (h : b.executedStateTransitions = MaxInt32) (h0 : 0 < n) (hn : n < 1073741823) :
    checkFinishRetry env b n =
      if b.RetryBootstrap then Restart env { b with executedStateTransitions := n } true
      else checkFinishNotify env { b with executedStateTransitions := n } := by
  unfold checkFinishRetry
  have h2 : b.executedStateTransitions / 2 = 1073741823 := by rw [h]; rfl
  simp only [h2, gt_iff_lt, h0, hn, decide_True, Bool.true_and]

/-- When the subnet is bootstrapped, the end of `checkFinish` notifies the subnet and
calls `OnFinished` with the current value of the request counter; the result is that
of the callback. -/
theorem checkFinishNotify_finished (env : Env) (b : bootstrapper)
    (h : env.SubnetIsBootstrapped b.tick = true) :
    (checkFinishNotify env b).1.trace =
      b.trace ++ [Event.SubnetBootstrapped, Event.OnFinished b.RequestID] ∧
    (checkFinishNotify env b).1.RequestID = b.RequestID ∧
    (checkFinishNotify env b).2 = env.OnFinished (b.tick + 1) b.RequestID := by
  unfold checkFinishNotify
  simp [h, OnFinished]

/-- The end of `process` when nothing waits in `needToFetch` and the commits succeed:
both commits are recorded and `checkFinish` is called. -/
theorem processCommit_idle (env : Env) (b : bootstrapper) (h1 : env.dbErr b.tick = none)
    (h2 : env.dbErr (b.tick + 1) = none) (hn : b.needToFetch = []) :
    processCommit env b = checkFinish env
      { b with tick := b.tick + 2
               trace := b.trace ++ [Event.TxBlockedCommit, Event.VtxBlockedCommit] } := by
  unfold processCommit
  simp only [h1, next_tick, emit_tick, h2]
  unfold fetch
  simp only [emit_needToFetch, next_needToFetch, hn, IDSet.AddAll, List.foldl_nil,
    List.length_nil, fetchLoop]
  simp [bootstrapper.emit, bootstrapper.next, hn]

/-- The first round of `checkFinish` on a bootstrapper that has not executed vertices
yet, when the round executes both queues and at least one vertex: with
`RetryBootstrap` it calls `Restart(true)` and never `OnFinished`; without, and with a
bootstrapped subnet, it calls `OnFinished` with the current request counter. -/
theorem checkFinish_first_round (env : Env) (b : bootstrapper)
    (hB : env.IsBootstrapped b.tick = false) (hM : b.VtxBlocked.missing = [])
    (hA : b.awaitingTimeout = false)
    (hT : (env.ExecuteAll (b.tick + 1)).2 = none) (hH1 : env.Halted (b.tick + 2) = false)
    (hV : (env.ExecuteAll (b.tick + 3)).2 = none) (hH2 : env.Halted (b.tick + 4) = false)
    (hfresh : b.executedStateTransitions = MaxInt32) (h0 : 0 < executedVts env b)
    (hn : executedVts env b < 1073741823) :
    (b.RetryBootstrap = true →
      (checkFinish env b).1.trace = b.trace ++ restartRound ∧
      (checkFinish env b).1.RequestID = b.RequestID ∧
      (checkFinish env b).2 = env.Restart (b.tick + 5)) ∧
    (b.RetryBootstrap = false → env.SubnetIsBootstrapped (b.tick + 5) = true →
      (checkFinish env b).1.trace = b.trace ++ [Event.TxBlockedExecuteAll,
        Event.VtxBlockedExecuteAll, Event.SubnetBootstrapped, Event.OnFinished b.RequestID] ∧
      (checkFinish env b).1.RequestID = b.RequestID ∧
      (checkFinish env b).2 = env.OnFinished (b.tick + 6) b.RequestID) := by
  obtain ⟨b1, hb1, htr, hex, hre, hid, htick⟩ := checkFinish_round env b hB hM hA hT hH1 hV hH2
  rw [hb1, checkFinishRetry_first env b1 _ (hex.trans hfresh) h0 hn]
  constructor
  · intro hr
    rw [if_pos (hre.trans hr)]
    simp [Restart, htr, hid, htick, restartRound]
  · intro hr hs
    rw [if_neg (by rw [hre, hr]; simp)]
    have hs1 : env.SubnetIsBootstrapped
        ({ b1 with executedStateTransitions := executedVts env b } : bootstrapper).tick = true := by
      show env.SubnetIsBootstrapped b1.tick = true
      rw [htick]; exact hs
    obtain ⟨h1, h2, h3⟩ := checkFinishNotify_finished env _ hs1
    rw [h1, h2, h3]
    simp [htr, hid, htick]

theorem cleanRequested_run (retryBootstrap : Bool) (r : Nat) :
    runCalls finishingEnv (New (cleanConfig retryBootstrap)) [Call.Start r, Call.ForceAccepted [3]] =
      some (cleanRequested retryBootstrap ((r + 1) % 2 ^ 32)) := by
  rfl

theorem cleanRequested_Remove (retryBootstrap : Bool) (q : Nat) :
    (cleanRequested retryBootstrap q).OutstandingRequests.Remove 77 q =
      ({ reqs := [] }, 3, true) := by
  simp [cleanRequested, Requests.Remove]

theorem cleanTraversed_run (retryBootstrap : Bool) (q : Nat) :
    Ancestors finishingEnv (cleanRequested retryBootstrap q) 77 q [[3, 2, 2], [2, 1, 1]] =
      some (processCommit finishingEnv (cleanTraversed retryBootstrap q)) := by
  rw [Ancestors_cons _ _ _ _ _ _ (by show (1 : Int) ≤ 10; decide)]
  rw [ancestorsFirst_accepted finishingEnv _ 77 q [3, 2, 2] _ ⟨3, [2], 2, [], Status.Processing⟩ rfl
    (Or.inl (by rw [cleanRequested_Remove]; exact ⟨rfl, rfl⟩))]
  rw [cleanRequested_Remove]
  rfl

/-- The state in which `checkFinish` is called at the end of the clean bootstrap. -/
theorem cleanCommitted_run (retryBootstrap : Bool) (q : Nat) :
    processCommit finishingEnv (cleanTraversed retryBootstrap q) =
      checkFinish finishingEnv
        { cleanTraversed retryBootstrap q with
          tick := 15
          trace := (cleanTraversed retryBootstrap q).trace ++
            [Event.TxBlockedCommit, Event.VtxBlockedCommit] } :=
  processCommit_idle finishingEnv (cleanTraversed retryBootstrap q) rfl rfl rfl

/-- The clean bootstrap ends with the first round of `checkFinish`, which executes the
two vertices: the trace it leaves and its request counter. -/
theorem cleanAnswered (retryBootstrap : Bool) (q : Nat) :
    ∃ b r, Ancestors finishingEnv (cleanRequested retryBootstrap q) 77 q
        [[3, 2, 2], [2, 1, 1]] = some (b, r) ∧ b.RequestID = q ∧
      b.trace = (cleanRequested retryBootstrap q).trace ++ cleanExecuted ++
        (if retryBootstrap then [Event.Restart true]
         else [Event.SubnetBootstrapped, Event.OnFinished q]) := by
  rw [cleanTraversed_run, cleanCommitted_run]
  have h := checkFinish_first_round finishingEnv
    { cleanTraversed retryBootstrap q with
      tick := 15
      trace := (cleanTraversed retryBootstrap q).trace ++
        [Event.TxBlockedCommit, Event.VtxBlockedCommit] }
    rfl rfl rfl rfl rfl rfl rfl rfl (by show 0 < 2; decide) (by show 2 < 1073741823; decide)
  refine ⟨_, _, congrArg some Prod.mk.eta.symm, ?_, ?_⟩
  · cases retryBootstrap
    · exact (h.2 rfl rfl).2.1
    · exact (h.1 rfl).2.1
  · cases retryBootstrap
    · exact (h.2 rfl rfl).1.trans rfl
    · exact (h.1 rfl).1.trans rfl

/-- C16, amended: in the clean bootstrap of three vertices with a bootstrapped subnet
(`Start(r)`, `ForceAccepted([B])`, the one request answered with B and A), the calls
made are, whatever `r` is, those listed here.  With `RetryBootstrap` off, `OnFinished`
is called with the current value of the request counter, which is `r + 1` (modulo
`2 ^ 32`): the `r` of `Start` incremented by `fetch` for the one request it sent.  With
`RetryBootstrap` on, the first round restarts bootstrapping and `OnFinished` is not
called. -/
theorem C16_OnFinished_current_RequestID (r : Nat) :
    (∃ b, runCalls finishingEnv (New (cleanConfig false)) (cleanCalls r) = some b ∧
      b.RequestID = (r + 1) % 2 ^ 32 ∧
      b.trace = [Event.CtxSetState, Event.VMSetState, Event.Startup, Event.TxBlockedCommit,
        Event.VtxBlockedCommit, Event.SendGetAncestors 77 ((r + 1) % 2 ^ 32) 3,
        Event.TxBlockedCommit, Event.VtxBlockedCommit, Event.TxBlockedExecuteAll,
        Event.VtxBlockedExecuteAll, Event.SubnetBootstrapped,
        Event.OnFinished ((r + 1) % 2 ^ 32)]) ∧
    (∃ b, runCalls finishingEnv (New (cleanConfig true)) (cleanCalls r) = some b ∧
      b.RequestID = (r + 1) % 2 ^ 32 ∧
      b.trace = [Event.CtxSetState, Event.VMSetState, Event.Startup, Event.TxBlockedCommit,
        Event.VtxBlockedCommit, Event.SendGetAncestors 77 ((r + 1) % 2 ^ 32) 3,
        Event.TxBlockedCommit, Event.VtxBlockedCommit, Event.TxBlockedExecuteAll,
        Event.VtxBlockedExecuteAll, Event.Restart true]) := by
  have hrun : ∀ retryBootstrap, ∃ b,
      runCalls finishingEnv (New (cleanConfig retryBootstrap)) (cleanCalls r) = some b ∧
      b.RequestID = (r + 1) % 2 ^ 32 ∧
      b.trace = (cleanRequested retryBootstrap ((r + 1) % 2 ^ 32)).trace ++ cleanExecuted ++
        (if retryBootstrap then [Event.Restart true]
         else [Event.SubnetBootstrapped, Event.OnFinished ((r + 1) % 2 ^ 32)]) := by
    intro retryBootstrap
    obtain ⟨b, res, hb, hid, htr⟩ := cleanAnswered retryBootstrap ((r + 1) % 2 ^ 32)
    refine ⟨b, ?_, hid, htr⟩
    have hsplit : cleanCalls r = [Call.Start r, Call.ForceAccepted [3]] ++
        [Call.Ancestors 77 ((r + 1) % 2 ^ 32) [[3, 2, 2], [2, 1, 1]]] := rfl
    rw [hsplit, runCalls_append, cleanRequested_run]
    simp only [Option.some_bind, runCalls, Call.run, hb]
  refine ⟨?_, ?_⟩
  · obtain ⟨b, hb, hid, htr⟩ := hrun false
    exact ⟨b, hb, hid, htr.trans rfl⟩
  · obtain ⟨b, hb, hid, htr⟩ := hrun true
    exact ⟨b, hb, hid, htr.trans rfl⟩

/-- C16 fails as stated: in the clean bootstrap with `Start(7)`, the request is sent
with the id `8`; with `RetryBootstrap` off `OnFinished` is called with `8` and not with
`7`, and with `RetryBootstrap` on it is not called, bootstrapping being restarted. -/
theorem C16_counterexample :
    (runCalls finishingEnv (New (cleanConfig false)) (cleanCalls 7)).map (fun b => b.trace) =
      some [Event.CtxSetState, Event.VMSetState, Event.Startup, Event.TxBlockedCommit,
        Event.VtxBlockedCommit, Event.SendGetAncestors 77 8 3,
        Event.TxBlockedCommit, Event.VtxBlockedCommit, Event.TxBlockedExecuteAll,
        Event.VtxBlockedExecuteAll, Event.SubnetBootstrapped, Event.OnFinished 8] ∧
    (runCalls finishingEnv (New exampleConfig) (cleanCalls 7)).map (fun b => b.trace) =
      some [Event.CtxSetState, Event.VMSetState, Event.Startup, Event.TxBlockedCommit,
        Event.VtxBlockedCommit, Event.SendGetAncestors 77 8 3,
        Event.TxBlockedCommit, Event.VtxBlockedCommit, Event.TxBlockedExecuteAll,
        Event.VtxBlockedExecuteAll, Event.Restart true] := by
  decide

/-! ### The request counter and the request ids of the outstanding requests -/

theorem CounterFrame_refl (b : bootstrapper) : CounterFrame b b :=
  ⟨[], by simp, fun _ => ⟨by simp [sends], fun e he => Or.inl he⟩⟩

theorem CounterFrame_trans {a b c : bootstrapper} (h1 : CounterFrame a b)
    (h2 : CounterFrame b c) : CounterFrame a c := by
  obtain ⟨add1, ht1, hc1⟩ := h1
  obtain ⟨add2, ht2, hc2⟩ := h2
  refine ⟨add1 ++ add2, by rw [ht2, ht1, List.append_assoc], ?_⟩
  rw [sends_append, List.length_append]
  intro hw
  obtain ⟨hid1, hr1⟩ := hc1 (by omega)
  obtain ⟨hid2, hr2⟩ := hc2 (by omega)
  refine ⟨by omega, fun e he => ?_⟩
  rcases hr2 e he with h | h
  · rcases hr1 e h with h' | h'
    · exact Or.inl h'
    · exact Or.inr ⟨h'.1, by omega⟩
  · exact Or.inr ⟨by omega, h.2⟩

/-- A step that sends nothing, keeps the request counter and adds no outstanding
request. -/
theorem CounterFrame_of_noSend {b b1 : bootstrapper} (added : List Event)
    (ht : b1.trace = b.trace ++ added) (hs : sends added = [])
    (hid : b1.RequestID = b.RequestID)
    (hr : ∀ e ∈ b1.OutstandingRequests.reqs, e ∈ b.OutstandingRequests.reqs) :
    CounterFrame b b1 :=
  ⟨added, ht, fun _ => ⟨by rw [hs, hid]; rfl, fun e he => Or.inl (hr e he)⟩⟩

theorem CounterFrame_of_noChange {b b1 : bootstrapper} (h : NoRequestChange b b1) :
    CounterFrame b b1 := by
  obtain ⟨hr, -, hid, added, ht, hs⟩ := h
  exact CounterFrame_of_noSend added ht hs hid (fun e he => by rw [hr] at he; exact he)

theorem CounterFrame_of_traversal {b b1 : bootstrapper} (h : TraversalFrame b b1) :
    CounterFrame b b1 := by
  obtain ⟨hr, -, hid, ht⟩ := h
  exact CounterFrame_of_noSend [] (by rw [ht]; simp) rfl hid
    (fun e he => by rw [hr] at he; exact he)

theorem Requests.mem_reqs_Add (r : Requests) (n : NodeID) (q : Nat) (v : ID)
    (e : NodeID × Nat × ID) (h : e ∈ (r.Add n q v).reqs) : e ∈ r.reqs ∨ e = (n, q, v) := by
  unfold Requests.Add at h
  split at h
  · exact Or.inl h
  · simpa using h

theorem Requests.mem_reqs_Remove (r : Requests) (n : NodeID) (q : Nat)
    (e : NodeID × Nat × ID) (h : e ∈ (r.Remove n q).1.reqs) : e ∈ r.reqs := by
  unfold Requests.Remove at h
  split at h
  · exact List.mem_of_mem_erase h
  · exact h

theorem fetchStep_counter (env : Env) (b : bootstrapper) :
    CounterFrame b (fetchStep env b).1 := by
  unfold fetchStep
  simp only []
  split
  · exact CounterFrame_of_noSend [] (by simp) rfl (by simp) (fun e he => by simpa using he)
  · split
    · exact CounterFrame_of_noSend [] (by simp) rfl (by simp) (fun e he => by simpa using he)
    · split
      · exact CounterFrame_of_noSend [] (by simp) rfl (by simp) (fun e he => by simpa using he)
      · refine ⟨[_], rfl, ?_⟩
        intro hw
        have hw1 : b.RequestID + 1 < 2 ^ 32 := hw
        have hmod : (b.RequestID + 1) % 2 ^ 32 = b.RequestID + 1 := Nat.mod_eq_of_lt hw1
        refine ⟨hmod, fun e he => ?_⟩
        rcases Requests.mem_reqs_Add _ _ _ _ e he with h | h
        · exact Or.inl h
        · right
          rw [h]
          show b.RequestID < (b.RequestID + 1) % 2 ^ 32 ∧
            (b.RequestID + 1) % 2 ^ 32 ≤ (b.RequestID + 1) % 2 ^ 32
          omega

theorem fetchLoop_counter (env : Env) (fuel : Nat) (b : bootstrapper) :
    CounterFrame b (fetchLoop env fuel b).1 := by
  induction fuel generalizing b with
  | zero => exact CounterFrame_refl b
  | succ fuel ih =>
    unfold fetchLoop
    split
    · have hs := fetchStep_counter env b
      split
      · rename_i b1 err heq
        rw [heq] at hs
        exact hs
      · rename_i b1 heq
        rw [heq] at hs
        exact CounterFrame_trans hs (ih b1)
    · exact CounterFrame_refl b

theorem fetch_counter (env : Env) (b : bootstrapper) (vtxIDs : List ID) :
    CounterFrame b (fetch env b vtxIDs).1 := by
  unfold fetch
  simp only []
  have hl := fetchLoop_counter env (IDSet.AddAll b.needToFetch vtxIDs).length
    { b with needToFetch := IDSet.AddAll b.needToFetch vtxIDs }
  have h0 : CounterFrame b { b with needToFetch := IDSet.AddAll b.needToFetch vtxIDs } :=
    CounterFrame_of_noSend [] (by simp) rfl rfl (fun e he => he)
  split
  · rename_i b1 err heq
    rw [heq] at hl
    exact CounterFrame_trans h0 hl
  · rename_i b1 heq
    rw [heq] at hl
    exact CounterFrame_trans h0 (CounterFrame_trans hl
      (CounterFrame_of_noChange (checkFinish_frame env b1)))

theorem processCommit_counter (env : Env) (b : bootstrapper) :
    CounterFrame b (processCommit env b).1 := by
  unfold processCommit
  split
  · exact CounterFrame_of_noSend [] (by simp) rfl (by simp) (fun e he => by simpa using he)
  · simp only []
    split
    · exact CounterFrame_of_noSend [Event.TxBlockedCommit] (by simp [bootstrapper.emit])
        rfl (by simp) (fun e he => by simpa using he)
    · refine CounterFrame_trans ?_ (fetch_counter env _ [])
      exact CounterFrame_of_noSend [Event.TxBlockedCommit, Event.VtxBlockedCommit]
        (by simp [bootstrapper.emit]) rfl (by simp) (fun e he => by simpa using he)

theorem process_counter (env : Env) (b b1 : bootstrapper) (vtxs : List ID) (r : Option Err)
    (hp : process env b vtxs = some (b1, r)) : CounterFrame b b1 := by
  obtain ⟨b2, hf, hc⟩ := process_cases env b b1 vtxs r hp
  have h2 := CounterFrame_of_traversal hf
  rcases hc with ⟨h1, _⟩ | ⟨_, h1, _⟩ | h1
  · rw [h1]; exact h2
  · rw [h1]; exact h2
  · have := processCommit_counter env b2
    rw [← h1] at this
    exact CounterFrame_trans h2 this

theorem ForceAccepted_counter (env : Env) (b b1 : bootstrapper) (ids : List ID)
    (r : Option Err) (hp : ForceAccepted env b ids = some (b1, r)) : CounterFrame b b1 := by
  unfold ForceAccepted at hp
  simp only [] at hp
  exact CounterFrame_trans (CounterFrame_of_traversal (forceAcceptedLoop_frame _ b []))
    (process_counter env _ b1 _ r hp)

theorem removed_counter (b : bootstrapper) (nodeID : NodeID) (requestID : Nat) :
    CounterFrame b
      { b with OutstandingRequests := (b.OutstandingRequests.Remove nodeID requestID).1 } :=
  CounterFrame_of_noSend [] (by simp) rfl rfl (fun e he => Requests.mem_reqs_Remove _ _ _ e he)

theorem GetAncestorsFailed_counter (env : Env) (b : bootstrapper) (nodeID : NodeID)
    (requestID : Nat) : CounterFrame b (GetAncestorsFailed env b nodeID requestID).1 := by
  unfold GetAncestorsFailed
  simp only []
  split
  · exact removed_counter b nodeID requestID
  · exact CounterFrame_trans (removed_counter b nodeID requestID) (fetch_counter env _ _)

theorem ancestorsAccepted_counter (env : Env) (b b1 : bootstrapper) (vtxID : ID)
    (rest : List (List Nat)) (r : Option Err)
    (hp : ancestorsAccepted env b vtxID rest = some (b1, r)) : CounterFrame b b1 := by
  unfold ancestorsAccepted at hp
  simp only [] at hp
  split at hp
  · simp only [Option.some.injEq, Prod.mk.injEq] at hp
    rw [← hp.1]
    exact CounterFrame_of_noSend [] (by simp) rfl rfl (fun e he => he)
  · rename_i parents _
    have hl := ancestorsLoop_frame env rest (IDSet.AddAll [] parents) [vtxID]
      { b with needToFetch := IDSet.Remove b.needToFetch vtxID }
    split at hp
    · rename_i b2 pv err heq
      rw [heq] at hl
      simp only [Option.some.injEq, Prod.mk.injEq] at hp
      rw [← hp.1]
      exact CounterFrame_of_noSend [] (by rw [hl.2.2]; simp) rfl hl.2.1
        (fun e he => by rw [hl.1] at he; exact he)
    · rename_i b2 pv heq
      rw [heq] at hl
      refine CounterFrame_trans ?_ (process_counter env b2 b1 pv r hp)
      exact CounterFrame_of_noSend [] (by rw [hl.2.2]; simp) rfl hl.2.1
        (fun e he => by rw [hl.1] at he; exact he)

theorem ancestorsFirst_counter (env : Env) (b b1 : bootstrapper) (nodeID : NodeID)
    (requestID : Nat) (vtxs : List (List Nat)) (r : Option Err)
    (hp : ancestorsFirst env b nodeID requestID vtxs = some (b1, r)) : CounterFrame b b1 := by
  have hr := removed_counter b nodeID requestID
  unfold ancestorsFirst at hp
  simp only [] at hp
  split at hp
  · simp only [Option.some.injEq, Prod.mk.injEq] at hp
    rw [← hp.1]; exact hr
  · split at hp
    · split at hp
      · simp only [Option.some.injEq, Prod.mk.injEq] at hp
        rw [← hp.1]; exact hr
      · simp only [Option.some.injEq] at hp
        have := fetch_counter env
          { b with OutstandingRequests := (b.OutstandingRequests.Remove nodeID requestID).1 }
          [(b.OutstandingRequests.Remove nodeID requestID).2.1]
        rw [hp] at this
        exact CounterFrame_trans hr this
    · rename_i manager vtxID hparse
      have hm : CounterFrame b
          { b with OutstandingRequests := (b.OutstandingRequests.Remove nodeID requestID).1,
                   Manager := manager } :=
        CounterFrame_of_noSend [] (by simp) rfl rfl
          (fun e he => Requests.mem_reqs_Remove _ _ _ e he)
      split at hp
      · simp only [Option.some.injEq] at hp
        have := fetch_counter env
          { b with OutstandingRequests := (b.OutstandingRequests.Remove nodeID requestID).1,
                   Manager := manager }
          [(b.OutstandingRequests.Remove nodeID requestID).2.1]
        rw [hp] at this
        exact CounterFrame_trans hm this
      · split at hp
        · simp only [Option.some.injEq, Prod.mk.injEq] at hp
          rw [← hp.1]; exact hm
        · exact CounterFrame_trans hm (ancestorsAccepted_counter env _ b1 _ _ r hp)

theorem Ancestors_counter (env : Env) (b b1 : bootstrapper) (nodeID : NodeID)
    (requestID : Nat) (vtxs : List (List Nat)) (r : Option Err)
    (hp : Ancestors env b nodeID requestID vtxs = some (b1, r)) : CounterFrame b b1 := by
  unfold Ancestors at hp
  split at hp
  · simp only [Option.some.injEq] at hp
    have := GetAncestorsFailed_counter env b nodeID requestID
    rw [hp] at this
    exact this
  · split at hp
    · simp only [Option.some.injEq, Prod.mk.injEq] at hp
      rw [← hp.1]; exact CounterFrame_refl b
    · exact ancestorsFirst_counter env b b1 nodeID requestID _ r hp

theorem Clear_counter (env : Env) (b : bootstrapper) : CounterFrame b (Clear env b).1 := by
  unfold Clear
  split
  · exact CounterFrame_of_noSend [] (by simp) rfl (by simp) (fun e he => by simpa using he)
  · simp only []
    split
    · exact CounterFrame_of_noSend [] (by simp) rfl (by simp) (fun e he => by simpa using he)
    · split
      · exact CounterFrame_of_noSend [] (by simp) rfl (by simp) (fun e he => by simpa using he)
      · split
        · exact CounterFrame_of_noSend [Event.VtxBlockedCommit] (by simp [bootstrapper.emit])
            rfl (by simp) (fun e he => by simpa using he)
        · exact CounterFrame_of_noSend [Event.VtxBlockedCommit, Event.TxBlockedCommit]
            (by simp [bootstrapper.emit]) rfl (by simp) (fun e he => by simpa using he)

theorem Connected_counter (env : Env) (b : bootstrapper) (nodeID : NodeID) :
    CounterFrame b (Connected env b nodeID).1 := by
  unfold Connected
  split
  · exact CounterFrame_of_noSend [Event.VMConnected nodeID] (by simp [bootstrapper.emit])
      rfl (by simp) (fun e he => by simpa using he)
  · simp only []
    split
    · exact CounterFrame_of_noSend [Event.VMConnected nodeID, Event.TrackerConnected nodeID]
        (by simp [bootstrapper.emit]) rfl (by simp) (fun e he => by simpa using he)
    · split
      · exact CounterFrame_of_noSend [Event.VMConnected nodeID, Event.TrackerConnected nodeID]
          (by simp [bootstrapper.emit]) rfl (by simp) (fun e he => by simpa using he)
      · split
        · exact CounterFrame_of_noSend
            [Event.VMConnected nodeID, Event.TrackerConnected nodeID]
            (by simp [bootstrapper.emit]) rfl (by simp) (fun e he => by simpa using he)
        · exact CounterFrame_of_noSend
            [Event.VMConnected nodeID, Event.TrackerConnected nodeID, Event.Startup]
            (by simp [Startup_fst, bootstrapper.emit]) rfl (by simp [Startup_fst])
            (fun e he => by simpa [Startup_fst] using he)

theorem Disconnected_counter (env : Env) (b : bootstrapper) (nodeID : NodeID) :
    CounterFrame b (Disconnected env b nodeID).1 := by
  unfold Disconnected
  split
  · exact CounterFrame_of_noSend [Event.VMDisconnected nodeID] (by simp [bootstrapper.emit])
      rfl (by simp) (fun e he => by simpa using he)
  · exact CounterFrame_of_noSend
      [Event.VMDisconnected nodeID, Event.TrackerDisconnected nodeID]
      (by simp [bootstrapper.emit]) rfl (by simp) (fun e he => by simpa using he)

theorem Timeout_counter (env : Env) (b : bootstrapper) :
    CounterFrame b (Timeout env b).1 := by
  unfold Timeout
  split
  · exact CounterFrame_refl b
  · simp only []
    split
    · exact CounterFrame_of_noSend [Event.Restart true]
        (by simp [Restart_fst, bootstrapper.emit]) rfl (by simp [Restart_fst])
        (fun e he => by simpa [Restart_fst] using he)
    · exact CounterFrame_of_noSend [Event.OnFinished b.RequestID]
        (by simp [OnFinished_fst, bootstrapper.emit]) rfl (by simp [OnFinished_fst])
        (fun e he => by simpa [OnFinished_fst] using he)

theorem Shutdown_counter (env : Env) (b : bootstrapper) :
    CounterFrame b (Shutdown env b).1 := by
  unfold Shutdown
  exact CounterFrame_of_noSend [Event.VMShutdown] (by simp [bootstrapper.emit])
    rfl (by simp) (fun e he => by simpa using he)

/-- Every call of a handler other than `Start` moves the request counter and the
outstanding requests as `CounterFrame` says. -/
theorem Call_counter (env : Env) (b b1 : bootstrapper) (call : Call) (r : Option Err)
    (hs : call.isStart = false) (h : call.run env b = some (b1, r)) : CounterFrame b b1 := by
  cases call with
  | Start startReqID => simp [Call.isStart] at hs
  | Clear =>
    simp only [Call.run, Option.some.injEq] at h
    have := Clear_counter env b
    rw [h] at this; exact this
  | ForceAccepted ids => exact ForceAccepted_counter env b b1 ids r h
  | Ancestors nodeID requestID vtxs => exact Ancestors_counter env b b1 nodeID requestID vtxs r h
  | GetAncestorsFailed nodeID requestID =>
    simp only [Call.run, Option.some.injEq] at h
    have := GetAncestorsFailed_counter env b nodeID requestID
    rw [h] at this; exact this
  | Connected nodeID =>
    simp only [Call.run, Option.some.injEq] at h
    have := Connected_counter env b nodeID
    rw [h] at this; exact this
  | Disconnected nodeID =>
    simp only [Call.run, Option.some.injEq] at h
    have := Disconnected_counter env b nodeID
    rw [h] at this; exact this
  | Timeout =>
    simp only [Call.run, Option.some.injEq] at h
    have := Timeout_counter env b
    rw [h] at this; exact this
  | Shutdown =>
    simp only [Call.run, Option.some.injEq] at h
    have := Shutdown_counter env b
    rw [h] at this; exact this

theorem runCalls_counter (env : Env) (calls : List Call) (b b1 : bootstrapper)
    (hs : ∀ call ∈ calls, call.isStart = false) (h : runCalls env b calls = some b1) :
    CounterFrame b b1 := by
  induction calls generalizing b with
  | nil =>
    simp only [runCalls, Option.some.injEq] at h
    rw [← h]; exact CounterFrame_refl b
  | cons call calls ih =>
    unfold runCalls at h
    split at h
    · simp at h
    · rename_i b2 r heq
      exact CounterFrame_trans (Call_counter env b b2 call r (hs call (by simp)) heq)
        (ih b2 (fun c hc => hs c (by simp [hc])) h)

/-- C11, amended: take a state in which no outstanding request has a request id
greater than the request counter (the fresh bootstrapper, or the state a call of
`Start` leaves when no request is outstanding), and any sequence of handler calls
without a call of `Start`.  As long as the 32-bit counter does not wrap, that is, the
counter plus the number of requests sent in these calls stays below `2 ^ 32`, the
counter has grown by the number of requests sent and no outstanding request has a
request id greater than it. -/
theorem C11_request_ids_bounded (env : Env) (calls : List Call) (b0 b : bootstrapper)
    (hrun : runCalls env b0 calls = some b)
    (hstart : ∀ call ∈ calls, call.isStart = false)
    (hinv : RequestIDsBounded b0)
    (hwrap : b0.RequestID + ((sends b.trace).length - (sends b0.trace).length) < 2 ^ 32) :
    RequestIDsBounded b ∧
    b.RequestID = b0.RequestID + ((sends b.trace).length - (sends b0.trace).length) := by
  obtain ⟨added, ht, hc⟩ := runCalls_counter env calls b0 b hstart hrun
  have hlen : (sends b.trace).length - (sends b0.trace).length = (sends added).length := by
    rw [ht, sends_append, List.length_append]
    omega
  rw [hlen] at hwrap ⊢
  obtain ⟨hid, hr⟩ := hc hwrap
  refine ⟨fun e he => ?_, hid⟩
  rcases hr e he with h | h
  · have := hinv e h
    omega
  · exact h.2

/-- The theorem `C11_request_ids_bounded` on the fresh bootstrapper of the examples and
the call `ForceAccepted([3])`, which sends the request `1`. -/
theorem C11_witness :
    RequestIDsBounded exampleOneRequest ∧ exampleOneRequest.RequestID = 1 :=
  C11_request_ids_bounded exampleEnv [Call.ForceAccepted [3]] (New exampleConfig)
    exampleOneRequest (by decide) (by decide) (fun e he => by simp [New] at he) (by decide)

/-- C11 fails as stated.  `Start` overwrites the counter: after `ForceAccepted([3])`
sent the request `1`, `Start(0)` leaves this request outstanding with the counter at
`0`.  And the counter wraps: from the counter `2 ^ 32 - 2`, `ForceAccepted([3, 4])`
sends the requests `2 ^ 32 - 1` and `0`, and leaves the counter at `0`. -/
theorem C11_counterexample :
    (∃ b, Reachable exampleEnv b ∧ b.OutstandingRequests.reqs = [(77, 1, 3)] ∧
      b.RequestID = 0 ∧ ¬ RequestIDsBounded b) ∧
    (∃ b, Reachable exampleEnv b ∧
      b.OutstandingRequests.reqs = [(77, 4294967295, 3), (77, 0, 4)] ∧
      b.RequestID = 0 ∧ ¬ RequestIDsBounded b) := by
  constructor
  · obtain ⟨b, hb⟩ : ∃ b, runCalls exampleEnv (New exampleConfig)
        [Call.ForceAccepted [3], Call.Start 0] = some b := ⟨_, rfl⟩
    have h1 : b.OutstandingRequests.reqs = [(77, 1, 3)] := by
      have : (runCalls exampleEnv (New exampleConfig)
        [Call.ForceAccepted [3], Call.Start 0]).map (fun b => b.OutstandingRequests.reqs)
          = some [(77, 1, 3)] := by decide
      rw [hb] at this
      simpa using this
    have h2 : b.RequestID = 0 := by
      have : (runCalls exampleEnv (New exampleConfig)
        [Call.ForceAccepted [3], Call.Start 0]).map (fun b => b.RequestID) = some 0 := by
        decide
      rw [hb] at this
      simpa using this
    refine ⟨b, runCalls_reachable exampleEnv _ _ b (Reachable.New exampleConfig) hb, h1, h2, ?_⟩
    intro h
    have := h (77, 1, 3) (by rw [h1]; simp)
    rw [h2] at this
    simp at this
  · obtain ⟨b, hb⟩ : ∃ b, runCalls exampleEnv
        (New { exampleConfig with RequestID := 4294967294 })
        [Call.ForceAccepted [3, 4]] = some b := ⟨_, rfl⟩
    have h1 : b.OutstandingRequests.reqs = [(77, 4294967295, 3), (77, 0, 4)] := by
      have : (runCalls exampleEnv (New { exampleConfig with RequestID := 4294967294 })
        [Call.ForceAccepted [3, 4]]).map (fun b => b.OutstandingRequests.reqs)
          = some [(77, 4294967295, 3), (77, 0, 4)] := by decide
      rw [hb] at this
      simpa using this
    have h2 : b.RequestID = 0 := by
      have : (runCalls exampleEnv (New { exampleConfig with RequestID := 4294967294 })
        [Call.ForceAccepted [3, 4]]).map (fun b => b.RequestID) = some 0 := by
        decide
      rw [hb] at this
      simpa using this
    refine ⟨b, runCalls_reachable exampleEnv _ _ b (Reachable.New _) hb, h1, h2, ?_⟩
    intro h
    have := h (77, 4294967295, 3) (by rw [h1]; simp)
    rw [h2] at this
    simp at this

/-! ### What an iteration of the traversal does -/

/-- The pop of the heap returns one of its entries and removes it. -/
theorem heapPop_mem (m : Manager) (h : List ID) (v : ID) (rest : List ID)
    (hp : heapPop m h = some (v, rest)) : v ∈ h ∧ rest = IDSet.Remove h v := by
  cases h with
  | nil => simp [heapPop] at hp
  | cons x xs =>
    have hmem : ∀ (l : List ID) (a : ID),
        l.foldl (fun acc y => if heapBefore m y acc then y else acc) a ∈ a :: l := by
      intro l
      induction l with
      | nil => intro a; simp
      | cons y ys ih =>
        intro a
        simp only [List.foldl_cons]
        have := ih (if heapBefore m y a then y else a)
        rcases List.mem_cons.mp this with h1 | h1
        · rw [h1]
          split
          · exact List.mem_cons_of_mem _ (List.mem_cons_self _ _)
          · exact List.mem_cons_self _ _
        · exact List.mem_cons_of_mem _ (List.mem_cons_of_mem _ h1)
    simp only [heapPop, Option.some.injEq, Prod.mk.injEq] at hp
    obtain ⟨h1, h2⟩ := hp
    rw [h1] at h2
    exact ⟨h1 ▸ hmem xs x, h2.symm⟩

theorem processTxs_fields (env : Env) (txs : List ID) (b : bootstrapper) :
    (processTxs env txs b).1.VtxBlocked = b.VtxBlocked ∧
    (processTxs env txs b).1.needToFetch = b.needToFetch ∧
    (processTxs env txs b).1.processedCache = b.processedCache ∧
    (processTxs env txs b).1.Manager = b.Manager := by
  induction txs generalizing b with
  | nil => exact ⟨rfl, rfl, rfl, rfl⟩
  | cons v vs ih =>
    unfold processTxs
    split
    · exact ⟨rfl, rfl, rfl, rfl⟩
    · obtain ⟨h1, h2, h3, h4⟩ := ih { b.next with TxBlocked := (b.TxBlocked.Push v).1 }
      exact ⟨h1.trans rfl, h2.trans rfl, h3.trans rfl, h4.trans rfl⟩

theorem LRU.Get_entries (c : LRU) (key x : ID) :
    x ∈ (c.Get key).1.entries ↔ x ∈ c.entries := by
  unfold LRU.Get
  split
  · rename_i hk
    simp only [List.mem_cons, List.mem_filter, bne_iff_ne, ne_eq]
    constructor
    · rintro (h | h)
      · rw [h]; exact hk
      · exact h.1
    · intro h
      by_cases hx : x = key
      · exact Or.inl hx
      · exact Or.inr ⟨h, hx⟩
  · rfl

theorem LRU.Get_hit (c : LRU) (key : ID) : (c.Get key).2 = true ↔ key ∈ c.entries := by
  unfold LRU.Get
  split
  · rename_i hk; simp [hk]
  · rename_i hk; simp [hk]

theorem LRU.Put_entries (c : LRU) (key x : ID) (h : x ∈ (c.Put key).entries) :
    x ∈ c.entries ∨ x = key := by
  unfold LRU.Put at h
  have h1 := List.mem_of_mem_take h
  simp only [List.mem_cons, List.mem_filter] at h1
  rcases h1 with h1 | h1
  · exact Or.inr h1
  · exact Or.inl h1.1

theorem heapPush_mem (h : List ID) (x y : ID) : y ∈ heapPush h x ↔ y ∈ h ∨ y = x := by
  unfold heapPush
  exact IDSet.mem_Add h x y

/-- The loop over the parents: the heap keeps its entries and gains parents only, every
parent is in the cache, was seen at this height or is on the heap afterwards, and the
cache keeps its entries. -/
theorem processParents_effect (vtxHeightSet : IDSet) (parents : List ID) (cache : LRU)
    (toProcess : List ID) :
    (∀ x ∈ toProcess, x ∈ (processParents vtxHeightSet parents cache toProcess).2) ∧
    (∀ p ∈ parents, p ∈ cache.entries ∨ p ∈ vtxHeightSet ∨
      p ∈ (processParents vtxHeightSet parents cache toProcess).2) ∧
    (∀ x, x ∈ (processParents vtxHeightSet parents cache toProcess).1.entries ↔
      x ∈ cache.entries) := by
  induction parents generalizing cache toProcess with
  | nil => simp [processParents]
  | cons p ps ih =>
    unfold processParents
    simp only []
    have hget := LRU.Get_entries cache p
    have hhit := LRU.Get_hit cache p
    split
    · rename_i hmiss
      split
      · rename_i hseen
        obtain ⟨h1, h2, h3⟩ := ih (cache.Get p).1 (heapPush toProcess p)
        refine ⟨fun x hx => h1 x ((heapPush_mem _ _ _).mpr (Or.inl hx)), ?_, ?_⟩
        · intro q hq
          rcases List.mem_cons.mp hq with hq | hq
          · rw [hq]
            exact Or.inr (Or.inr (h1 p ((heapPush_mem _ _ _).mpr (Or.inr rfl))))
          · rcases h2 q hq with h | h | h
            · exact Or.inl ((hget q).mp h)
            · exact Or.inr (Or.inl h)
            · exact Or.inr (Or.inr h)
        · intro x; rw [h3 x, hget x]
      · rename_i hseen
        obtain ⟨h1, h2, h3⟩ := ih (cache.Get p).1 toProcess
        refine ⟨h1, ?_, ?_⟩
        · intro q hq
          rcases List.mem_cons.mp hq with hq | hq
          · rw [hq]
            right; left
            simpa [IDSet.Contains] using hseen
          · rcases h2 q hq with h | h | h
            · exact Or.inl ((hget q).mp h)
            · exact Or.inr (Or.inl h)
            · exact Or.inr (Or.inr h)
        · intro x; rw [h3 x, hget x]
    · rename_i hmiss
      obtain ⟨h1, h2, h3⟩ := ih (cache.Get p).1 toProcess
      refine ⟨h1, ?_, ?_⟩
      · intro q hq
        rcases List.mem_cons.mp hq with hq | hq
        · rw [hq]
          left
          apply hhit.mp
          simpa using hmiss
        · rcases h2 q hq with h | h | h
          · exact Or.inl ((hget q).mp h)
          · exact Or.inr (Or.inl h)
          · exact Or.inr (Or.inr h)
      · intro x; rw [h3 x, hget x]

/-- The case Processing of an iteration, when it does not end the loop. -/
theorem processVertex_effect (env : Env) (v : ID) (rest : List ID) (hs : IDSet) (ph : Nat)
    (b : bootstrapper) (t1 : Traversal)
    (h : processVertex env v rest hs ph b = Sum.inl t1) :
    t1.b.Manager = b.Manager ∧
    (∀ x ∈ rest, x ∈ t1.toProcess) ∧
    (∀ x ∈ b.VtxBlocked.jobs, x ∈ t1.b.VtxBlocked.jobs) ∧
    (∀ x ∈ t1.b.VtxBlocked.jobs, x ∈ b.VtxBlocked.jobs ∨ x = v) ∧
    (∀ x ∈ t1.b.needToFetch, x ∈ b.needToFetch) ∧
    (v ∈ t1.b.VtxBlocked.jobs ∧ v ∉ t1.b.needToFetch) ∧
    (∀ x ∈ b.VtxBlocked.missing, x ≠ v → x ∈ t1.b.VtxBlocked.missing) ∧
    (v ∉ b.VtxBlocked.jobs →
      ∀ vtx, b.Manager.GetVtx v = some vtx → ∀ p ∈ vtx.parents,
        p ∈ b.processedCache.entries ∨ p ∈ hs ∨ p ∈ t1.toProcess) ∧
    (∀ x ∈ t1.vtxHeightSet, x ∈ hs ∨ x = v) ∧
    (∀ x ∈ t1.b.processedCache.entries, x ∈ b.processedCache.entries ∨ x = v) ∧
    (∀ x ∈ t1.b.VtxBlocked.missing, x ∈ b.VtxBlocked.missing) ∧
    v ∉ t1.b.VtxBlocked.missing := by
  have hmiss1 : ∀ x ∈ (b.VtxBlocked.RemoveMissingID v).missing, x ∈ b.VtxBlocked.missing :=
    fun x hx => ((IDSet.mem_Remove _ _ _).mp hx).1
  have hmiss2 : v ∉ (b.VtxBlocked.RemoveMissingID v).missing :=
    fun hx => ((IDSet.mem_Remove _ _ _).mp hx).2 rfl
  have hntf : ∀ x ∈ IDSet.Remove b.needToFetch v, x ∈ b.needToFetch :=
    fun x hx => ((IDSet.mem_Remove _ _ _).mp hx).1
  have hnotin : v ∉ IDSet.Remove b.needToFetch v :=
    fun hx => ((IDSet.mem_Remove _ _ _).mp hx).2 rfl
  have hmiss : ∀ x ∈ b.VtxBlocked.missing, x ≠ v →
      x ∈ (b.VtxBlocked.RemoveMissingID v).missing :=
    fun x hx hne => (IDSet.mem_Remove _ _ _).mpr ⟨hx, hne⟩
  unfold processVertex at h
  simp only [] at h
  split at h
  · simp at h
  · split at h
    · rename_i hpushed
      have hin : v ∈ b.VtxBlocked.jobs := by
        by_contra hnot
        unfold JobsWithMissing.Push at hpushed
        have : v ∉ (b.VtxBlocked.RemoveMissingID v).jobs := hnot
        rw [if_neg this] at hpushed
        simp at hpushed
      have hq : ((b.VtxBlocked.RemoveMissingID v).Push v).1 = b.VtxBlocked.RemoveMissingID v := by
        unfold JobsWithMissing.Push
        have : v ∈ (b.VtxBlocked.RemoveMissingID v).jobs := hin
        rw [if_pos this]
      simp only [Sum.inl.injEq] at h
      rw [← h]
      refine ⟨rfl, fun x hx => hx, ?_, ?_, hntf, ⟨?_, hnotin⟩, ?_,
        fun hnot => absurd hin hnot, fun x hx => Or.inl hx, fun x hx => Or.inl hx, ?_, ?_⟩
      · intro x hx
        show x ∈ ((b.VtxBlocked.RemoveMissingID v).Push v).1.jobs
        rw [hq]; exact hx
      · intro x hx
        have hx1 : x ∈ ((b.VtxBlocked.RemoveMissingID v).Push v).1.jobs := hx
        rw [hq] at hx1
        exact Or.inl hx1
      · show v ∈ ((b.VtxBlocked.RemoveMissingID v).Push v).1.jobs
        rw [hq]; exact hin
      · intro x hx hne
        show x ∈ ((b.VtxBlocked.RemoveMissingID v).Push v).1.missing
        rw [hq]; exact hmiss x hx hne
      · intro x hx
        have hx1 : x ∈ ((b.VtxBlocked.RemoveMissingID v).Push v).1.missing := hx
        rw [hq] at hx1
        exact hmiss1 x hx1
      · intro hx
        have hx1 : v ∈ ((b.VtxBlocked.RemoveMissingID v).Push v).1.missing := hx
        rw [hq] at hx1
        exact hmiss2 hx1
    · rename_i hpushed
      split at h
      · simp at h
      · rename_i vtx hvtx
        have hnot : v ∉ b.VtxBlocked.jobs := by
          intro hin
          apply hpushed
          unfold JobsWithMissing.Push
          have : v ∈ (b.VtxBlocked.RemoveMissingID v).jobs := hin
          rw [if_pos this]
          rfl
        have hq : ((b.VtxBlocked.RemoveMissingID v).Push v).1 =
            { b.VtxBlocked.RemoveMissingID v with jobs := b.VtxBlocked.jobs ++ [v] } := by
          unfold JobsWithMissing.Push
          have : v ∉ (b.VtxBlocked.RemoveMissingID v).jobs := hnot
          rw [if_neg this]
          rfl
        have hg : b.Manager.GetVtx v = some vtx := hvtx
        obtain ⟨hf1, hf2, hf3, hf4⟩ := processTxs_fields env vtx.txs
          { b.next with needToFetch := IDSet.Remove b.needToFetch v,
                        VtxBlocked := ((b.VtxBlocked.RemoveMissingID v).Push v).1 }
        split at h
        · simp at h
        · rename_i b2 heq
          simp only [bootstrapper.next] at hf1 hf2 hf3 hf4 heq
          rw [heq] at hf1 hf2 hf3 hf4
          simp only [] at hf1 hf2 hf3 hf4
          rw [hq] at hf1
          obtain ⟨hp1, hp2, hp3⟩ := processParents_effect hs vtx.parents b2.processedCache rest
          have hjobs1 : ∀ x ∈ b.VtxBlocked.jobs, x ∈ b2.VtxBlocked.jobs := by
            intro x hx; rw [hf1]; exact List.mem_append_left _ hx
          have hjobs2 : ∀ x ∈ b2.VtxBlocked.jobs, x ∈ b.VtxBlocked.jobs ∨ x = v := by
            intro x hx; rw [hf1] at hx
            simpa using hx
          have hv : v ∈ b2.VtxBlocked.jobs := by rw [hf1]; simp
          have hn2 : ∀ x ∈ b2.needToFetch, x ∈ b.needToFetch := by
            intro x hx; rw [hf2] at hx; exact hntf x hx
          have hn3 : v ∉ b2.needToFetch := by rw [hf2]; exact hnotin
          have hm2 : ∀ x ∈ b.VtxBlocked.missing, x ≠ v → x ∈ b2.VtxBlocked.missing := by
            intro x hx hne; rw [hf1]; exact hmiss x hx hne
          have hm3 : ∀ x ∈ b2.VtxBlocked.missing, x ∈ b.VtxBlocked.missing := by
            intro x hx; rw [hf1] at hx; exact hmiss1 x hx
          have hm4 : v ∉ b2.VtxBlocked.missing := by
            intro hx; rw [hf1] at hx; exact hmiss2 hx
          have hpar : v ∉ b.VtxBlocked.jobs →
              ∀ vtx1, b.Manager.GetVtx v = some vtx1 → ∀ p ∈ vtx1.parents,
                p ∈ b.processedCache.entries ∨ p ∈ hs ∨
                  p ∈ (processParents hs vtx.parents b2.processedCache rest).2 := by
            intro _ vtx1 hg1 p hp
            rw [hg] at hg1
            simp only [Option.some.injEq] at hg1
            rw [← hg1] at hp
            rcases hp2 p hp with h1 | h1 | h1
            · rw [hf3] at h1; exact Or.inl h1
            · exact Or.inr (Or.inl h1)
            · exact Or.inr (Or.inr h1)
          have hcache : ∀ x ∈ (if vtx.height % stripeDistance < stripeWidth then
              (processParents hs vtx.parents b2.processedCache rest).1.Put v
              else (processParents hs vtx.parents b2.processedCache rest).1).entries,
              x ∈ b.processedCache.entries ∨ x = v := by
            intro x hx
            split at hx
            · rcases LRU.Put_entries _ _ _ hx with h1 | h1
              · left; have := (hp3 x).mp h1; rw [hf3] at this; exact this
              · exact Or.inr h1
            · left; have := (hp3 x).mp hx; rw [hf3] at this; exact this
          split at h
          · simp only [Sum.inl.injEq] at h
            rw [← h]
            refine ⟨hf4, hp1, hjobs1, hjobs2, hn2, ⟨hv, hn3⟩, hm2, hpar, ?_, hcache, hm3, hm4⟩
            intro x hx
            exact (IDSet.mem_Add _ _ _).mp hx
          · simp only [Sum.inl.injEq] at h
            rw [← h]
            refine ⟨hf4, hp1, hjobs1, hjobs2, hn2, ⟨hv, hn3⟩, hm2, hpar, ?_, hcache, hm3, hm4⟩
            intro x hx
            right
            simpa using hx

/-- An iteration of the traversal loop that does not end the loop pops an entry of the
heap and does what `TraversalStep` says. -/
theorem processStep_effect (env : Env) (t t1 : Traversal)
    (h : processStep env t = Sum.inl t1) : ∃ v, v ∈ t.toProcess ∧ TraversalStep t t1 v := by
  unfold processStep at h
  simp only [next_Manager] at h
  split at h
  · simp at h
  · split at h
    · simp at h
    · rename_i v rest hpop
      obtain ⟨hv, hrest⟩ := heapPop_mem _ _ _ _ hpop
      have hkeep : ∀ x ∈ t.toProcess, x ≠ v → x ∈ rest := by
        intro x hx hne
        rw [hrest]
        exact (IDSet.mem_Remove _ _ _).mpr ⟨hx, hne⟩
      refine ⟨v, hv, ?_⟩
      split at h
      · rename_i hst
        simp only [Sum.inl.injEq] at h
        rw [← h]
        refine ⟨rfl, by rw [hst]; simp, hkeep, fun x hx => hx, fun x hx => Or.inl hx, ?_,
          fun hp => by rw [hst] at hp; simp at hp, ?_, ?_, fun hnot hin => absurd hin hnot,
          fun x hx => Or.inl hx, fun x hx => Or.inl hx, ?_,
          fun hp => by rw [hst] at hp; simp at hp⟩
        · intro x hx
          rcases (IDSet.mem_Add _ _ _).mp hx with h1 | h1
          · exact Or.inl h1
          · exact Or.inr ⟨h1, hst⟩
        · intro _
          exact (IDSet.mem_Add _ _ _).mpr (Or.inr rfl)
        · intro x hx _
          exact (IDSet.mem_Add _ _ _).mpr (Or.inl hx)
        · intro x hx
          rcases (IDSet.mem_Add _ _ _).mp hx with h1 | h1
          · exact Or.inl h1
          · exact Or.inr ⟨h1, hst⟩
      · simp at h
      · rename_i hst
        simp only [Sum.inl.injEq] at h
        rw [← h]
        exact ⟨rfl, by rw [hst]; simp, hkeep, fun x hx => hx, fun x hx => Or.inl hx,
          fun x hx => Or.inl hx, fun hp => by rw [hst] at hp; simp at hp,
          fun hp => by rw [hst] at hp; simp at hp, fun x hx _ => hx,
          fun hnot hin => absurd hin hnot, fun x hx => Or.inl hx, fun x hx => Or.inl hx,
          fun x hx => Or.inl hx, fun hp => by rw [hst] at hp; simp at hp⟩
      · rename_i hst
        obtain ⟨e1, e2, e3, e4, e5, e6, e7, e8, e9, e10, e11, e12⟩ :=
          processVertex_effect env v rest t.vtxHeightSet t.prevHeight t.b.next t1 h
        refine ⟨e1, by rw [hst]; simp, fun x hx hne => e2 x (hkeep x hx hne), e3, e4,
          fun x hx => Or.inl (e5 x hx), fun _ => e6,
          fun hp => by rw [hst] at hp; simp at hp, e7, fun hnot _ => e8 hnot, ?_, ?_,
          fun x hx => Or.inl (e11 x hx), fun _ => e12⟩
        · intro x hx
          rcases e9 x hx with h1 | h1
          · exact Or.inl h1
          · exact Or.inr ⟨h1, e6.1⟩
        · intro x hx
          rcases e10 x hx with h1 | h1
          · exact Or.inl h1
          · exact Or.inr ⟨h1, e6.1⟩

/-- An iteration entered with a heap that is not empty never reports a drained heap,
and it reports a halt only when the halt probe was true. -/
theorem processStep_exit (env : Env) (t : Traversal) (b : bootstrapper) (e : LoopExit)
    (hne : 0 < t.toProcess.length) (hs : processStep env t = Sum.inr (b, e)) :
    e ≠ LoopExit.drained ∧ (e = LoopExit.halted → env.Halted t.b.tick = true) := by
  unfold processStep at hs
  simp only [next_Manager] at hs
  obtain ⟨best, rest, hpop, -⟩ := heapPop_some t.b.Manager t.toProcess hne
  rw [hpop] at hs
  simp only [] at hs
  split at hs
  · rename_i hh
    simp only [Sum.inr.injEq, Prod.mk.injEq] at hs
    rw [← hs.2]
    exact ⟨by simp, fun _ => hh⟩
  · split at hs
    · simp at hs
    · simp only [Sum.inr.injEq, Prod.mk.injEq] at hs
      rw [← hs.2]
      exact ⟨by simp, by simp⟩
    · simp at hs
    · unfold processVertex at hs
      simp only [] at hs
      split at hs
      · simp only [Sum.inr.injEq, Prod.mk.injEq] at hs
        rw [← hs.2]
        exact ⟨by simp, by simp⟩
      · split at hs
        · simp at hs
        · split at hs
          · simp only [Sum.inr.injEq, Prod.mk.injEq] at hs
            rw [← hs.2]
            exact ⟨by simp, by simp⟩
          · split at hs
            · simp only [Sum.inr.injEq, Prod.mk.injEq] at hs
              rw [← hs.2]
              exact ⟨by simp, by simp⟩
            · split at hs <;> simp at hs

/-- A property of the loop variables that every iteration keeps holds for the loop
variables with which the loop ends: those that drained the heap, or those of the
iteration that ended the loop. -/
theorem processLoop_invariant (env : Env) (P : Traversal → Prop)
    (hstep : ∀ t t1, P t → 0 < t.toProcess.length → processStep env t = Sum.inl t1 → P t1)
    (fuel : Nat) :
    ∀ (t : Traversal) (b : bootstrapper) (e : LoopExit), P t →
      processLoop env fuel t = some (b, e) →
      ∃ t1, P t1 ∧ ((t1.toProcess = [] ∧ t1.b = b ∧ e = LoopExit.drained) ∨
        (0 < t1.toProcess.length ∧ processStep env t1 = Sum.inr (b, e))) := by
  induction fuel with
  | zero =>
    intro t b e hP h
    unfold processLoop at h
    split at h
    · simp at h
    · rename_i hlen
      simp only [Option.some.injEq, Prod.mk.injEq] at h
      exact ⟨t, hP, Or.inl ⟨List.eq_nil_of_length_eq_zero (by omega), h.1, h.2.symm⟩⟩
  | succ fuel ih =>
    intro t b e hP h
    unfold processLoop at h
    split at h
    · rename_i hne
      split at h
      · rename_i exit hs
        simp only [Option.some.injEq] at h
        rw [h] at hs
        exact ⟨t, hP, Or.inr ⟨hne, hs⟩⟩
      · rename_i t1 hs
        exact ih t1 b e (hstep t t1 hP hne hs) h
    · rename_i hlen
      simp only [Option.some.injEq, Prod.mk.injEq] at h
      exact ⟨t, hP, Or.inl ⟨List.eq_nil_of_length_eq_zero (by omega), h.1, h.2.symm⟩⟩

/-- When the engine is never halted and `process` returns without an error, its
traversal has drained the heap: `process` returns what the commits and `fetch` return
in the state the traversal leaves, and a property that every iteration keeps holds in
that state. -/
theorem process_drained (env : Env) (P : Traversal → Prop)
    (hstep : ∀ t t1, P t → 0 < t.toProcess.length → processStep env t = Sum.inl t1 → P t1)
    (b b1 : bootstrapper) (vtxs : List ID) (hstart : P (processStart b vtxs))
    (hhalt : ∀ tick, env.Halted tick = false)
    (hret : process env b vtxs = some (b1, none)) :
    ∃ t1, P t1 ∧ t1.toProcess = [] ∧ (b1, none) = processCommit env t1.b := by
  unfold process at hret
  simp only [] at hret
  split at hret
  · simp at hret
  · rename_i b2 heq
    obtain ⟨t1, -, h1 | h1⟩ := processLoop_invariant env P hstep _ _ _ _ hstart heq
    · simp at h1
    · have := (processStep_exit env t1 _ _ h1.1 h1.2).2 rfl
      rw [hhalt] at this
      simp at this
  · simp at hret
  · rename_i b2 heq
    obtain ⟨t1, hP, h1 | h1⟩ := processLoop_invariant env P hstep _ _ _ _ hstart heq
    · simp only [Option.some.injEq] at hret
      exact ⟨t1, hP, h1.1, by rw [h1.2.1]; exact hret.symm⟩
    · exact absurd rfl (processStep_exit env t1 _ _ h1.1 h1.2).1

/-! ### The seeding of the heap, the store and the end of process -/

/-- The first loop of `process`: store, jobs, `needToFetch` and the blocked transactions
are left alone, the cache keeps its entries, the heap gains the given vertices that are
not in the cache and nothing else, and only markers of given vertices are removed. -/
theorem processSeed_effect (vtxs : List ID) :
    ∀ (b : bootstrapper) (acc : List ID),
      (processSeed vtxs b acc).1.Manager = b.Manager ∧
      (processSeed vtxs b acc).1.VtxBlocked.jobs = b.VtxBlocked.jobs ∧
      (processSeed vtxs b acc).1.needToFetch = b.needToFetch ∧
      (processSeed vtxs b acc).1.TxBlocked = b.TxBlocked ∧
      (∀ x, x ∈ (processSeed vtxs b acc).1.processedCache.entries ↔
        x ∈ b.processedCache.entries) ∧
      (∀ x ∈ acc, x ∈ (processSeed vtxs b acc).2) ∧
      (∀ x ∈ vtxs, x ∉ b.processedCache.entries → x ∈ (processSeed vtxs b acc).2) ∧
      (∀ x ∈ (processSeed vtxs b acc).2, x ∈ acc ∨ x ∈ vtxs) ∧
      (∀ x ∈ (processSeed vtxs b acc).1.VtxBlocked.missing, x ∈ b.VtxBlocked.missing) ∧
      (∀ x ∈ b.VtxBlocked.missing, x ∉ vtxs →
        x ∈ (processSeed vtxs b acc).1.VtxBlocked.missing) := by
  induction vtxs with
  | nil =>
    intro b acc
    simp [processSeed]
  | cons v vs ih =>
    intro b acc
    unfold processSeed
    simp only []
    have hget := LRU.Get_entries b.processedCache v
    have hhit := LRU.Get_hit b.processedCache v
    split
    · rename_i hmiss
      have hvn : v ∉ b.processedCache.entries := by
        intro hin
        rw [hhit.mpr hin] at hmiss
        simp at hmiss
      obtain ⟨h1, h2, h3, h4, h5, h6, h7, h8, h9, h10⟩ :=
        ih { b with processedCache := (b.processedCache.Get v).1 } (heapPush acc v)
      refine ⟨h1, h2, h3, h4, fun x => (h5 x).trans (hget x),
        fun x hx => h6 x ((heapPush_mem _ _ _).mpr (Or.inl hx)), ?_, ?_, h9, ?_⟩
      · intro x hx hxc
        rcases List.mem_cons.mp hx with hx | hx
        · rw [hx]; exact h6 v ((heapPush_mem _ _ _).mpr (Or.inr rfl))
        · exact h7 x hx (fun hc => hxc ((hget x).mp hc))
      · intro x hx
        rcases h8 x hx with h | h
        · rcases (heapPush_mem _ _ _).mp h with h | h
          · exact Or.inl h
          · exact Or.inr (by rw [h]; simp)
        · exact Or.inr (List.mem_cons_of_mem _ h)
      · intro x hx hnv
        exact h10 x hx (fun hc => hnv (List.mem_cons_of_mem _ hc))
    · rename_i hmiss
      have hvin : v ∈ b.processedCache.entries := by
        apply hhit.mp
        simpa using hmiss
      obtain ⟨h1, h2, h3, h4, h5, h6, h7, h8, h9, h10⟩ :=
        ih { b with processedCache := (b.processedCache.Get v).1,
                    VtxBlocked := b.VtxBlocked.RemoveMissingID v } acc
      refine ⟨h1, h2, h3, h4, fun x => (h5 x).trans (hget x), h6, ?_, ?_, ?_, ?_⟩
      · intro x hx hxc
        rcases List.mem_cons.mp hx with hx | hx
        · rw [hx] at hxc; exact absurd hvin hxc
        · exact h7 x hx (fun hc => hxc ((hget x).mp hc))
      · intro x hx
        rcases h8 x hx with h | h
        · exact Or.inl h
        · exact Or.inr (List.mem_cons_of_mem _ h)
      · intro x hx
        exact ((IDSet.mem_Remove _ _ _).mp (h9 x hx)).1
      · intro x hx hnv
        apply h10 x _ (fun hc => hnv (List.mem_cons_of_mem _ hc))
        exact (IDSet.mem_Remove _ _ _).mpr ⟨hx, fun hc => hnv (by rw [hc]; simp)⟩

/-- The loop of `Ancestors` over the followers leaves the queues and the cache alone and
only takes ids out of `needToFetch`. -/
theorem ancestorsLoop_fields (env : Env) (rest : List (List Nat)) :
    ∀ (eligible : IDSet) (processVertices : List ID) (b : bootstrapper),
      (ancestorsLoop env rest eligible processVertices b).1.VtxBlocked = b.VtxBlocked ∧
      (ancestorsLoop env rest eligible processVertices b).1.TxBlocked = b.TxBlocked ∧
      (ancestorsLoop env rest eligible processVertices b).1.processedCache
        = b.processedCache ∧
      (∀ x ∈ (ancestorsLoop env rest eligible processVertices b).1.needToFetch,
        x ∈ b.needToFetch) := by
  induction rest with
  | nil => intro eligible pv b; exact ⟨rfl, rfl, rfl, fun x hx => hx⟩
  | cons c cs ih =>
    intro eligible pv b
    unfold ancestorsLoop
    split
    · exact ⟨rfl, rfl, rfl, fun x hx => hx⟩
    · simp only []
      split
      · exact ⟨rfl, rfl, rfl, fun x hx => hx⟩
      · split
        · exact ⟨rfl, rfl, rfl, fun x hx => hx⟩
        · exact ⟨(ih _ _ _).1.trans rfl, (ih _ _ _).2.1.trans rfl, (ih _ _ _).2.2.1.trans rfl,
            fun x hx => ((IDSet.mem_Remove _ _ _).mp ((ih _ _ _).2.2.2 x hx)).1⟩

/-- The end of `process` only takes ids out of `needToFetch`. -/
theorem processCommit_needToFetch (env : Env) (b : bootstrapper) :
    ∀ x ∈ (processCommit env b).1.needToFetch, x ∈ b.needToFetch := by
  intro x hx
  unfold processCommit at hx
  split at hx
  · exact hx
  · simp only [] at hx
    split at hx
    · exact hx
    · unfold fetch at hx
      simp only [] at hx
      have hl := (fetchLoop_frame env
        (IDSet.AddAll ((b.next.emit Event.TxBlockedCommit).next.emit
          Event.VtxBlockedCommit).needToFetch []).length
        { (b.next.emit Event.TxBlockedCommit).next.emit Event.VtxBlockedCommit with
          needToFetch := IDSet.AddAll ((b.next.emit Event.TxBlockedCommit).next.emit
            Event.VtxBlockedCommit).needToFetch [] }).2.1
      split at hx
      · rename_i b1 err heq
        rw [heq] at hl
        exact hl x hx
      · rename_i b1 heq
        rw [heq] at hl
        have hc := (checkFinish_frame env b1).2.1
        rw [hc] at hx
        exact hl x hx

/-- The status of a vertex the store returns. -/
theorem Manager.Status_of_GetVtx (m : Manager) (x : ID) (w : Vertex)
    (h : m.GetVtx x = some w) : m.Status x = w.status := by
  unfold Manager.GetVtx at h
  unfold Manager.Status
  split at h
  · rename_i v hv
    split at h
    · simp at h
    · simp only [Option.some.injEq] at h
      rw [h]
  · simp at h

/-- A vertex whose status is not Unknown is returned by the store. -/
theorem Manager.GetVtx_of_Status (m : Manager) (x : ID) (h : m.Status x ≠ Status.Unknown) :
    ∃ w, m.GetVtx x = some w ∧ w.status = m.Status x := by
  unfold Manager.Status at h ⊢
  unfold Manager.GetVtx
  split
  · rename_i v hv
    rw [hv] at h
    simp only [] at h
    rw [if_neg h]
    exact ⟨v, rfl, rfl⟩
  · rename_i hv
    rw [hv] at h
    simp at h

/-- A vertex that is parsed while the store does not have it is stored as Processing. -/
theorem Manager.ParseVtx_fresh (parser : List Nat → Option Vertex) (m : Manager)
    (vtxBytes : List Nat) (v : Vertex) (hp : parser vtxBytes = some v)
    (hs : m.GetVtx v.id = none) :
    (m.ParseVtx parser vtxBytes).1.Status v.id = Status.Processing := by
  have hu : m.Status v.id = Status.Unknown := by
    by_contra hne
    obtain ⟨w, hw, -⟩ := Manager.GetVtx_of_Status m v.id hne
    rw [hw] at hs
    simp at hs
  unfold Manager.ParseVtx
  rw [hp]
  simp only [hu, if_true]
  unfold Manager.Status
  rw [Manager.lookup_cons]
  simp

/-! ### A requested vertex that is answered -/

/-- Every iteration of the traversal keeps this: a vertex that is Processing is on the
heap, or it has its job in the blocked vertex queue and is not in `needToFetch`. -/
theorem queued_step (env : Env) (v : ID) (t t1 : Traversal)
    (hP : t.b.Manager.Status v = Status.Processing ∧
      (v ∈ t.toProcess ∨ (v ∈ t.b.VtxBlocked.jobs ∧ v ∉ t.b.needToFetch)))
    (hs : processStep env t = Sum.inl t1) :
    t1.b.Manager.Status v = Status.Processing ∧
      (v ∈ t1.toProcess ∨ (v ∈ t1.b.VtxBlocked.jobs ∧ v ∉ t1.b.needToFetch)) := by
  obtain ⟨u, -, e1, -, e3, e4, -, e6, e7, -, -, -, -, -⟩ := processStep_effect env t t1 hs
  obtain ⟨hst, hq⟩ := hP
  refine ⟨by rw [e1]; exact hst, ?_⟩
  have hkeep : v ∈ t.b.VtxBlocked.jobs ∧ v ∉ t.b.needToFetch →
      v ∈ t1.b.VtxBlocked.jobs ∧ v ∉ t1.b.needToFetch := by
    rintro ⟨hj, hn⟩
    refine ⟨e4 v hj, fun hin => ?_⟩
    rcases e6 v hin with h | ⟨h, hu⟩
    · exact hn h
    · rw [← h, hst] at hu
      simp at hu
  rcases hq with hh | hq
  · by_cases huv : v = u
    · right
      rw [huv] at hst ⊢
      exact e7 hst
    · exact Or.inl (e3 v hh huv)
  · exact Or.inr (hkeep hq)

/-- C17, amended: let a request for the vertex `v` be outstanding, let `v` not be in the
store nor in the processed cache, and let the matching `Ancestors` message arrive whose
first container parses to `v`.  If the engine is not halted and the handler returns
without an error, then `v` is not in `needToFetch` when it returns, and the traversal of
`process` has left a state in which the job of `v` is in the blocked vertex queue and
`v` is not in `needToFetch`; the handler returns what the commits and `fetch` return in
that state, where `checkFinish` may execute the job and so take it out of the queue. -/
theorem C17_requested_vertex_queued (env : Env) (b b1 : bootstrapper) (nodeID : NodeID)
    (requestID : Nat) (first : List Nat) (rest : List (List Nat)) (vtx : Vertex)
    (hreq : (b.OutstandingRequests.Remove nodeID requestID).2 = (vtx.id, true))
    (hparse : env.ParseVtx first = some vtx)
    (hstore : b.Manager.GetVtx vtx.id = none)
    (hcache : vtx.id ∉ b.processedCache.entries)
    (hhalt : ∀ tick, env.Halted tick = false)
    (hret : Ancestors env b nodeID requestID (first :: rest) = some (b1, none)) :
    vtx.id ∉ b1.needToFetch ∧
    ∃ bT, (b1, none) = processCommit env bT ∧ vtx.id ∈ bT.VtxBlocked.jobs ∧
      vtx.id ∉ bT.needToFetch := by
  have hlimit : 1 ≤ b.AncestorsMaxContainersReceived := by
    by_contra hl
    unfold Ancestors at hret
    rw [if_neg (by simp)] at hret
    unfold truncateContainers at hret
    have hlen : ((first :: rest).length : Int) > b.AncestorsMaxContainersReceived := by
      simp only [List.length_cons, Nat.cast_add, Nat.cast_one]
      omega
    rw [if_pos hlen] at hret
    split at hret
    · simp at hret
    · rename_i vtxs hv
      split at hv
      · simp at hv
      · simp only [Option.some.injEq] at hv
        have h0 : b.AncestorsMaxContainersReceived.toNat = 0 := by omega
        rw [h0] at hv
        simp only [List.take_zero] at hv
        rw [← hv] at hret
        unfold ancestorsFirst at hret
        simp at hret
  have hreq1 : (b.OutstandingRequests.Remove nodeID requestID).2.2 = true := by rw [hreq]
  have hreq2 : (b.OutstandingRequests.Remove nodeID requestID).2.1 = vtx.id := by rw [hreq]
  rw [Ancestors_cons env b nodeID requestID first rest hlimit,
    ancestorsFirst_accepted env b nodeID requestID first _ vtx hparse
      (Or.inl ⟨hreq1, hreq2⟩)] at hret
  have hstatus := Manager.ParseVtx_fresh env.ParseVtx b.Manager first vtx hparse hstore
  unfold ancestorsAccepted at hret
  simp only [] at hret
  split at hret
  · simp at hret
  · rename_i parents hparents
    have hfields := ancestorsLoop_fields env
      (rest.take (b.AncestorsMaxContainersReceived.toNat - 1)) (IDSet.AddAll [] parents)
      [vtx.id]
      { b with OutstandingRequests := (b.OutstandingRequests.Remove nodeID requestID).1,
               Manager := (b.Manager.ParseVtx env.ParseVtx first).1,
               needToFetch := IDSet.Remove b.needToFetch vtx.id }
    have hspec := (ancestorsLoop_spec env
      (rest.take (b.AncestorsMaxContainersReceived.toNat - 1)) (IDSet.AddAll [] parents)
      [vtx.id]
      { b with OutstandingRequests := (b.OutstandingRequests.Remove nodeID requestID).1,
               Manager := (b.Manager.ParseVtx env.ParseVtx first).1,
               needToFetch := IDSet.Remove b.needToFetch vtx.id }).1
    have hget := ancestorsLoop_GetVtx env
      (rest.take (b.AncestorsMaxContainersReceived.toNat - 1)) (IDSet.AddAll [] parents)
      [vtx.id]
      { b with OutstandingRequests := (b.OutstandingRequests.Remove nodeID requestID).1,
               Manager := (b.Manager.ParseVtx env.ParseVtx first).1,
               needToFetch := IDSet.Remove b.needToFetch vtx.id } vtx.id
      (Manager.ParseVtx_stored env.ParseVtx b.Manager first vtx hparse)
    split at hret
    · simp at hret
    · rename_i b2 pv heq
      rw [heq] at hfields hspec hget
      simp only [] at hfields hspec hget
      obtain ⟨hf1, -, hf3, hf4⟩ := hfields
      simp only [Prod.mk.injEq, and_true] at hspec
      have hst2 : b2.Manager.Status vtx.id = Status.Processing := by
        obtain ⟨w, hw, hws⟩ := Manager.GetVtx_of_Status _ vtx.id
          (by rw [hstatus]; simp : (b.Manager.ParseVtx env.ParseVtx first).1.Status vtx.id
            ≠ Status.Unknown)
        rw [hw] at hget
        rw [Manager.Status_of_GetVtx _ _ _ hget, hws, hstatus]
      obtain ⟨s1, -, -, -, s5, -, s7, -, -, -⟩ := processSeed_effect pv b2 []
      have hstart : (processStart b2 pv).b.Manager.Status vtx.id = Status.Processing ∧
          (vtx.id ∈ (processStart b2 pv).toProcess ∨
            (vtx.id ∈ (processStart b2 pv).b.VtxBlocked.jobs ∧
              vtx.id ∉ (processStart b2 pv).b.needToFetch)) := by
        refine ⟨?_, Or.inl ?_⟩
        · show (processSeed pv b2 []).1.Manager.Status vtx.id = Status.Processing
          rw [s1]; exact hst2
        · show vtx.id ∈ (processSeed pv b2 []).2
          apply s7 vtx.id (by rw [hspec]; simp)
          rw [hf3]; exact hcache
      obtain ⟨t1, hP, hnil, hcommit⟩ := process_drained env
        (fun t => t.b.Manager.Status vtx.id = Status.Processing ∧
          (vtx.id ∈ t.toProcess ∨
            (vtx.id ∈ t.b.VtxBlocked.jobs ∧ vtx.id ∉ t.b.needToFetch)))
        (fun t t1 hP _ hs => queued_step env vtx.id t t1 hP hs) b2 b1 pv hstart hhalt hret
      have hq : vtx.id ∈ t1.b.VtxBlocked.jobs ∧ vtx.id ∉ t1.b.needToFetch := by
        rcases hP.2 with h | h
        · rw [hnil] at h; simp at h
        · exact h
      refine ⟨fun hin => hq.2 ?_, t1.b, hcommit, hq.1, hq.2⟩
      have := processCommit_needToFetch env t1.b vtx.id
      rw [← hcommit] at this
      exact this hin

/-- The theorem `C17_requested_vertex_queued` on the state in which vertex `3` is
requested: the answer with the container of `3` leaves the job of `3` in the queue. -/
theorem C17_witness :
    3 ∉ exampleAnswered.needToFetch ∧
    ∃ bT, (exampleAnswered, (none : Option Err)) = processCommit exampleEnv bT ∧
      3 ∈ bT.VtxBlocked.jobs ∧ 3 ∉ bT.needToFetch :=
  C17_requested_vertex_queued exampleEnv exampleOneRequest exampleAnswered 77 1 [3, 2, 2] []
    ⟨3, [2], 2, [], Status.Processing⟩ (by decide) (by decide) (by decide) (by decide)
    (fun _ => rfl) (by decide)

/-- C17 fails as stated.  In the state in which vertex `3` is requested, the answer
whose first container parses to `3`, with the accepted parent `1`, ends in a
`checkFinish` that executes the queue: the job of `3` is no longer in the blocked vertex
queue when the handler returns.  And when the engine is halted, `process` returns before
it pushes the job of `3`. -/
theorem C17_counterexample :
    exampleOneRequest.OutstandingRequests.reqs = [(77, 1, 3)] ∧
    (exampleEnv.ParseVtx [3, 2, 1]).map (fun v => v.id) = some 3 ∧
    (Ancestors exampleEnv exampleOneRequest 77 1 [[3, 2, 1]]).map
      (fun r => (r.1.VtxBlocked.jobs, r.1.needToFetch, r.2)) = some ([], [], none) ∧
    (Ancestors { exampleEnv with Halted := fun _ => true } exampleOneRequest 77 1
      [[3, 2, 2]]).map
      (fun r => (r.1.VtxBlocked.jobs, r.1.needToFetch, r.2)) = some ([], [], none) := by
  decide

/-! ### The parents of the vertices that process pushes -/

/-- Every iteration of the traversal of `process` called in the state `b` keeps this:
the store is that of `b`, the ids seen at the current height have their jobs in the
queue, the entries of the processed cache are those of `b` or have their jobs in the
queue, and each parent of a vertex pushed since the call is on the heap, has its job in
the queue, is Unknown and marked missing, is Accepted, or was in the processed cache of
`b`. -/
theorem parents_step (env : Env) (b : bootstrapper) (t t1 : Traversal)
    (hP : t.b.Manager = b.Manager ∧
      (∀ x ∈ t.vtxHeightSet, x ∈ t.b.VtxBlocked.jobs) ∧
      (∀ x ∈ t.b.processedCache.entries,
        x ∈ b.processedCache.entries ∨ x ∈ t.b.VtxBlocked.jobs) ∧
      (∀ v ∈ t.b.VtxBlocked.jobs, v ∉ b.VtxBlocked.jobs →
        ∀ vtx, b.Manager.GetVtx v = some vtx → ∀ p ∈ vtx.parents,
          p ∈ t.toProcess ∨ p ∈ t.b.VtxBlocked.jobs ∨
          (p ∈ t.b.VtxBlocked.missing ∧ b.Manager.Status p = Status.Unknown) ∨
          b.Manager.Status p = Status.Accepted ∨ p ∈ b.processedCache.entries))
    (hs : processStep env t = Sum.inl t1) :
    t1.b.Manager = b.Manager ∧
      (∀ x ∈ t1.vtxHeightSet, x ∈ t1.b.VtxBlocked.jobs) ∧
      (∀ x ∈ t1.b.processedCache.entries,
        x ∈ b.processedCache.entries ∨ x ∈ t1.b.VtxBlocked.jobs) ∧
      (∀ v ∈ t1.b.VtxBlocked.jobs, v ∉ b.VtxBlocked.jobs →
        ∀ vtx, b.Manager.GetVtx v = some vtx → ∀ p ∈ vtx.parents,
          p ∈ t1.toProcess ∨ p ∈ t1.b.VtxBlocked.jobs ∨
          (p ∈ t1.b.VtxBlocked.missing ∧ b.Manager.Status p = Status.Unknown) ∨
          b.Manager.Status p = Status.Accepted ∨ p ∈ b.processedCache.entries) := by
  obtain ⟨u, -, e1, e2, e3, e4, e5, -, e7, e8, e9, e10, e11, e12, -, -⟩ :=
    processStep_effect env t t1 hs
  obtain ⟨hm, hhs, hc, hpar⟩ := hP
  rw [hm] at e2 e7 e8 e10
  refine ⟨e1.trans hm, ?_, ?_, ?_⟩
  · intro x hx
    rcases e11 x hx with h | ⟨h, hj⟩
    · exact e4 x (hhs x h)
    · rw [h]; exact hj
  · intro x hx
    rcases e12 x hx with h | ⟨h, hj⟩
    · rcases hc x h with h1 | h1
      · exact Or.inl h1
      · exact Or.inr (e4 x h1)
    · rw [h]; exact Or.inr hj
  · intro v hv hnew vtx hg p hp
    by_cases hold : v ∈ t.b.VtxBlocked.jobs
    · rcases hpar v hold hnew vtx hg p hp with h | h | h | h | h
      · by_cases hpu : p = u
        · rw [hpu]
          cases hst : b.Manager.Status u with
          | Unknown => exact Or.inr (Or.inr (Or.inl ⟨e8 hst, rfl⟩))
          | Processing => exact Or.inr (Or.inl (e7 hst).1)
          | Accepted => exact Or.inr (Or.inr (Or.inr (Or.inl rfl)))
          | Rejected => exact absurd hst e2
        · exact Or.inl (e3 p h hpu)
      · exact Or.inr (Or.inl (e4 p h))
      · by_cases hpu : p = u
        · rw [hpu] at h ⊢
          exact Or.inr (Or.inr (Or.inl ⟨e8 h.2, h.2⟩))
        · exact Or.inr (Or.inr (Or.inl ⟨e9 p h.1 hpu, h.2⟩))
      · exact Or.inr (Or.inr (Or.inr (Or.inl h)))
      · exact Or.inr (Or.inr (Or.inr (Or.inr h)))
    · have hvu : v = u := by
        rcases e5 v hv with h | h
        · exact absurd h hold
        · exact h
      rw [hvu] at hold hv hg
      rcases e10 hold hv vtx hg p hp with h | h | h
      · rcases hc p h with h1 | h1
        · exact Or.inr (Or.inr (Or.inr (Or.inr h1)))
        · exact Or.inr (Or.inl (e4 p h1))
      · exact Or.inr (Or.inl (e4 p (hhs p h)))
      · exact Or.inl h

/-- C19, amended: when the engine is not halted and `process` returns without an error,
its traversal has drained the heap and `process` returns what the commits and `fetch`
return in the state the traversal leaves.  In that state every vertex that `process`
pushed into the blocked vertex queue has, for each of its parents, the job of that
parent in the queue (pushed before the call, or in this call before or after the
vertex), or the id of that parent recorded in `MissingIDs`, or that parent Accepted in
the store, or that parent in the processed cache as it was when `process` was called. -/
theorem C19_parents_of_pushed (env : Env) (b b1 : bootstrapper) (vtxs : List ID)
    (hhalt : ∀ tick, env.Halted tick = false)
    (hret : process env b vtxs = some (b1, none)) :
    ∃ bT, (b1, none) = processCommit env bT ∧ bT.Manager = b.Manager ∧
      ∀ v ∈ bT.VtxBlocked.jobs, v ∉ b.VtxBlocked.jobs →
        ∀ vtx, b.Manager.GetVtx v = some vtx → ∀ p ∈ vtx.parents,
          p ∈ bT.VtxBlocked.jobs ∨ p ∈ bT.VtxBlocked.missing ∨
          b.Manager.Status p = Status.Accepted ∨ p ∈ b.processedCache.entries := by
  obtain ⟨s1, s2, -, -, s5, -, -, -, -, -⟩ := processSeed_effect vtxs b []
  obtain ⟨t1, hP, hnil, hcommit⟩ := process_drained env
    (fun t => t.b.Manager = b.Manager ∧
      (∀ x ∈ t.vtxHeightSet, x ∈ t.b.VtxBlocked.jobs) ∧
      (∀ x ∈ t.b.processedCache.entries,
        x ∈ b.processedCache.entries ∨ x ∈ t.b.VtxBlocked.jobs) ∧
      (∀ v ∈ t.b.VtxBlocked.jobs, v ∉ b.VtxBlocked.jobs →
        ∀ vtx, b.Manager.GetVtx v = some vtx → ∀ p ∈ vtx.parents,
          p ∈ t.toProcess ∨ p ∈ t.b.VtxBlocked.jobs ∨
          (p ∈ t.b.VtxBlocked.missing ∧ b.Manager.Status p = Status.Unknown) ∨
          b.Manager.Status p = Status.Accepted ∨ p ∈ b.processedCache.entries))
    (fun t t1 hP _ hs => parents_step env b t t1 hP hs) b b1 vtxs
    ⟨s1, fun x hx => by simp [processStart] at hx,
      fun x hx => Or.inl ((s5 x).mp hx),
      fun v hv hnew => absurd (by rw [← s2]; exact hv) hnew⟩ hhalt hret
  refine ⟨t1.b, hcommit, hP.1, ?_⟩
  intro v hv hnew vtx hg p hp
  rcases hP.2.2.2 v hv hnew vtx hg p hp with h | h | h | h | h
  · rw [hnil] at h; simp at h
  · exact Or.inl h
  · exact Or.inr (Or.inl h.1)
  · exact Or.inr (Or.inr (Or.inl h))
  · exact Or.inr (Or.inr (Or.inr h))

/-! ### Vertices that process has nothing left to do for -/

theorem IDSet.Remove_of_not_mem (s : IDSet) (x : ID) (h : x ∉ s) : IDSet.Remove s x = s := by
  unfold IDSet.Remove
  rw [List.filter_eq_self]
  intro y hy
  simp only [bne_iff_ne, ne_eq]
  intro hyx
  exact h (hyx ▸ hy)

theorem Settled_mono {b b1 : bootstrapper} {v : ID} (hv : b1.VtxBlocked = b.VtxBlocked)
    (hm : b1.Manager = b.Manager) (hn : ∀ x ∈ b1.needToFetch, x ∈ b.needToFetch)
    (h : Settled b v) : Settled b1 v := by
  obtain ⟨h1, h2, h3⟩ := h
  refine ⟨by rw [hv]; exact h1, fun hx => h2 (hn v hx), ?_⟩
  rw [hv, hm]; exact h3

/-- The record the store keeps for an id after jobs were executed. -/
theorem Manager.lookup_Accept (m : Manager) (ids : List ID) (x : ID) :
    (m.Accept ids).lookup x =
      (m.lookup x).map (fun v => if v.id ∈ ids then { v with status := Status.Accepted } else v) := by
  unfold Manager.Accept Manager.lookup
  simp only []
  induction m.vtxs with
  | nil => rfl
  | cons w ws ih =>
    simp only [List.map_cons, List.find?_cons]
    have hid : (if w.id ∈ ids then { w with status := Status.Accepted } else w).id = w.id := by
      split <;> rfl
    rw [hid]
    cases hw : (w.id == x)
    · simp only []
      exact ih
    · rfl

/-- The status of a vertex after jobs were executed: Accepted if it was Accepted or its
job was executed, otherwise what it was. -/
theorem Manager.Status_Accept (m : Manager) (ids : List ID) (x : ID) :
    (m.Status x = Status.Accepted → (m.Accept ids).Status x = Status.Accepted) ∧
    (m.Status x = Status.Processing →
      (x ∈ ids → (m.Accept ids).Status x = Status.Accepted) ∧
      (x ∉ ids → (m.Accept ids).Status x = Status.Processing)) := by
  unfold Manager.Status
  rw [Manager.lookup_Accept]
  cases hl : m.lookup x with
  | none => simp
  | some w =>
    have hwid : w.id = x := by
      unfold Manager.lookup at hl
      have := List.find?_some hl
      simpa using this
    simp only [Option.map_some']
    refine ⟨fun h => ?_, fun h => ⟨fun hin => ?_, fun hnot => ?_⟩⟩
    · split
      · rfl
      · exact h
    · rw [if_pos (by rw [hwid]; exact hin)]
    · rw [if_neg (by rw [hwid]; exact hnot)]
      exact h

/-- The execution of the blocked vertex queue keeps a settled vertex settled: its job
stays in the queue, or it was executed and the vertex is Accepted. -/
theorem Settled_executed (b : bootstrapper) (n : Nat) (v : ID) (h : Settled b v) :
    Settled { b with VtxBlocked := (b.VtxBlocked.ExecuteAll n).1,
                     Manager := b.Manager.Accept (b.VtxBlocked.ExecuteAll n).2 } v := by
  obtain ⟨h1, h2, h3⟩ := h
  obtain ⟨ha, hp⟩ := Manager.Status_Accept b.Manager (b.VtxBlocked.ExecuteAll n).2 v
  refine ⟨h1, h2, ?_⟩
  rcases h3 with h3 | ⟨h3, hj⟩
  · exact Or.inl (ha h3)
  · by_cases hin : v ∈ (b.VtxBlocked.ExecuteAll n).2
    · exact Or.inl ((hp h3).1 hin)
    · refine Or.inr ⟨(hp h3).2 hin, ?_⟩
      have hsplit : v ∈ b.VtxBlocked.jobs.take n ++ b.VtxBlocked.jobs.drop n := by
        rw [List.take_append_drop]; exact hj
      rcases List.mem_append.mp hsplit with h | h
      · exact absurd h hin
      · exact h

theorem checkFinishNotify_fields (env : Env) (b : bootstrapper) :
    (checkFinishNotify env b).1.VtxBlocked = b.VtxBlocked ∧
    (checkFinishNotify env b).1.Manager = b.Manager ∧
    (checkFinishNotify env b).1.needToFetch = b.needToFetch := by
  unfold checkFinishNotify
  simp only []
  split
  · simp
  · simp [OnFinished_fst]

theorem checkFinishRetry_fields (env : Env) (b : bootstrapper) (n : Nat) :
    (checkFinishRetry env b n).1.VtxBlocked = b.VtxBlocked ∧
    (checkFinishRetry env b n).1.Manager = b.Manager ∧
    (checkFinishRetry env b n).1.needToFetch = b.needToFetch := by
  unfold checkFinishRetry
  simp only []
  split
  · simp [Restart_fst]
  · exact checkFinishNotify_fields env _

theorem checkFinishVertices_settled (env : Env) (b : bootstrapper) (v : ID)
    (h : Settled b v) : Settled (checkFinishVertices env b).1 v := by
  have he := Settled_executed b (env.ExecuteAll b.tick).1 v h
  unfold checkFinishVertices
  simp only []
  split
  · exact Settled_mono (by simp) (by simp) (fun x hx => by simpa using hx) he
  · split
    · exact Settled_mono (by simp) (by simp) (fun x hx => by simpa using hx) he
    · obtain ⟨f1, f2, f3⟩ := checkFinishRetry_fields env
        (({ b with VtxBlocked := (b.VtxBlocked.ExecuteAll (env.ExecuteAll b.tick).1).1,
                   Manager := b.Manager.Accept
                    (b.VtxBlocked.ExecuteAll (env.ExecuteAll b.tick).1).2 }.emit
          Event.VtxBlockedExecuteAll).next.next)
        (b.VtxBlocked.ExecuteAll (env.ExecuteAll b.tick).1).2.length
      exact Settled_mono (f1.trans (by simp)) (f2.trans (by simp))
        (fun x hx => by rw [f3] at hx; simpa using hx) he

theorem checkFinishTxs_settled (env : Env) (b : bootstrapper) (v : ID)
    (h : Settled b v) : Settled (checkFinishTxs env b).1 v := by
  unfold checkFinishTxs
  simp only []
  split
  · exact Settled_mono (by simp) (by simp) (fun x hx => by simpa using hx) h
  · split
    · exact Settled_mono (by simp) (by simp) (fun x hx => by simpa using hx) h
    · apply checkFinishVertices_settled
      exact Settled_mono (by simp) (by simp) (fun x hx => by simpa using hx) h

theorem checkFinish_settled (env : Env) (b : bootstrapper) (v : ID)
    (h : Settled b v) : Settled (checkFinish env b).1 v := by
  unfold checkFinish
  simp only []
  split
  · exact Settled_mono (by simp) (by simp) (fun x hx => by simpa using hx) h
  · apply checkFinishTxs_settled
    exact Settled_mono (by simp) (by simp) (fun x hx => by simpa using hx) h

theorem fetchStep_VtxBlocked (env : Env) (b : bootstrapper) :
    (fetchStep env b).1.VtxBlocked = b.VtxBlocked := by
  unfold fetchStep
  simp only []
  split
  · simp
  · split
    · simp
    · split <;> simp

theorem fetchLoop_VtxBlocked (env : Env) (fuel : Nat) (b : bootstrapper) :
    (fetchLoop env fuel b).1.VtxBlocked = b.VtxBlocked := by
  induction fuel generalizing b with
  | zero => rfl
  | succ fuel ih =>
    unfold fetchLoop
    split
    · have hs := fetchStep_VtxBlocked env b
      split
      · rename_i b1 err heq
        rw [heq] at hs
        exact hs
      · rename_i b1 heq
        rw [heq] at hs
        exact (ih b1).trans hs
    · rfl

theorem fetch_settled (env : Env) (b : bootstrapper) (v : ID) (h : Settled b v) :
    Settled (fetch env b []).1 v := by
  unfold fetch
  simp only []
  have hl := fetchLoop_frame env (IDSet.AddAll b.needToFetch []).length
    { b with needToFetch := IDSet.AddAll b.needToFetch [] }
  have hv := fetchLoop_VtxBlocked env (IDSet.AddAll b.needToFetch []).length
    { b with needToFetch := IDSet.AddAll b.needToFetch [] }
  split
  · rename_i b1 err heq
    rw [heq] at hl hv
    exact Settled_mono hv hl.1 (fun x hx => hl.2.1 x hx) h
  · rename_i b1 heq
    rw [heq] at hl hv
    exact checkFinish_settled env b1 v
      (Settled_mono hv hl.1 (fun x hx => hl.2.1 x hx) h)

theorem processCommit_settled (env : Env) (b : bootstrapper) (v : ID) (h : Settled b v) :
    Settled (processCommit env b).1 v := by
  unfold processCommit
  split
  · exact Settled_mono (by simp) (by simp) (fun x hx => by simpa using hx) h
  · simp only []
    split
    · exact Settled_mono (by simp) (by simp) (fun x hx => by simpa using hx) h
    · apply fetch_settled
      exact Settled_mono (by simp) (by simp) (fun x hx => by simpa using hx) h

/-- Every iteration of the traversal keeps this: a vertex that is Processing is on the
heap, or it has its job in the queue and is neither in `needToFetch` nor marked
missing. -/
theorem settles_step (env : Env) (v : ID) (t t1 : Traversal)
    (hP : t.b.Manager.Status v = Status.Processing ∧
      (v ∈ t.toProcess ∨ Settled t.b v))
    (hs : processStep env t = Sum.inl t1) :
    t1.b.Manager.Status v = Status.Processing ∧ (v ∈ t1.toProcess ∨ Settled t1.b v) := by
  obtain ⟨u, -, e1, -, e3, e4, -, e6, e7, -, -, -, -, -, e13, e14⟩ :=
    processStep_effect env t t1 hs
  obtain ⟨hst, hq⟩ := hP
  have hst1 : t1.b.Manager.Status v = Status.Processing := by rw [e1]; exact hst
  refine ⟨hst1, ?_⟩
  rcases hq with hh | ⟨hm, hn, hj⟩
  · by_cases huv : v = u
    · right
      rw [huv] at hst hst1 ⊢
      exact ⟨e14 hst, (e7 hst).2, Or.inr ⟨hst1, (e7 hst).1⟩⟩
    · exact Or.inl (e3 v hh huv)
  · right
    refine ⟨fun hin => ?_, fun hin => ?_, Or.inr ⟨hst1, ?_⟩⟩
    · rcases e13 v hin with h | ⟨h, hu⟩
      · exact hm h
      · rw [← h, hst] at hu; simp at hu
    · rcases e6 v hin with h | ⟨h, hu⟩
      · exact hn h
      · rw [← h, hst] at hu; simp at hu
    · rcases hj with hj | hj
      · rw [hst] at hj; simp at hj
      · exact e4 v hj.2

/-- An iteration of the traversal that finds only settled vertices on the heap changes
neither queue, nor `needToFetch`, the outstanding requests, the store or the processed
cache, and puts nothing on the heap. -/
theorem processStep_idle (env : Env) (t t1 : Traversal)
    (hset : ∀ u ∈ t.toProcess, Settled t.b u)
    (hs : processStep env t = Sum.inl t1) :
    SameQueues t.b t1.b ∧ t1.b.processedCache = t.b.processedCache ∧
      ∀ x ∈ t1.toProcess, x ∈ t.toProcess := by
  unfold processStep at hs
  simp only [next_Manager] at hs
  split at hs
  · simp at hs
  · split at hs
    · simp at hs
    · rename_i u rest hpop
      obtain ⟨hu, hrest⟩ := heapPop_mem _ _ _ _ hpop
      have hsub : ∀ x ∈ rest, x ∈ t.toProcess := by
        intro x hx
        rw [hrest] at hx
        exact ((IDSet.mem_Remove _ _ _).mp hx).1
      obtain ⟨hm, hn, hj⟩ := hset u hu
      split at hs
      · rename_i hst
        rcases hj with hj | hj
        · rw [hst] at hj; simp at hj
        · rw [hst] at hj; simp at hj
      · simp at hs
      · simp only [Sum.inl.injEq] at hs
        rw [← hs]
        exact ⟨⟨rfl, rfl, rfl, rfl, rfl, fun x => Iff.rfl⟩, rfl, hsub⟩
      · rename_i hst
        have hin : u ∈ t.b.VtxBlocked.jobs := by
          rcases hj with hj | hj
          · rw [hst] at hj; simp at hj
          · exact hj.2
        have hrm : t.b.VtxBlocked.RemoveMissingID u = t.b.VtxBlocked := by
          unfold JobsWithMissing.RemoveMissingID
          rw [IDSet.Remove_of_not_mem _ _ hm]
        have hrn : IDSet.Remove t.b.needToFetch u = t.b.needToFetch :=
          IDSet.Remove_of_not_mem _ _ hn
        have hpush : (t.b.VtxBlocked.Push u) = (t.b.VtxBlocked, false) := by
          unfold JobsWithMissing.Push
          rw [if_pos hin]
        unfold processVertex at hs
        simp only [next_VtxBlocked, next_needToFetch, next_tick, hrm, hrn, hpush] at hs
        split at hs
        · simp at hs
        · simp only [Bool.not_false, if_true, Sum.inl.injEq] at hs
          rw [← hs]
          exact ⟨⟨rfl, rfl, rfl, rfl, rfl, fun x => Iff.rfl⟩, rfl, hsub⟩

theorem SameQueues_trans {a b c : bootstrapper} (h1 : SameQueues a b) (h2 : SameQueues b c) :
    SameQueues a c :=
  ⟨h2.1.trans h1.1, h2.2.1.trans h1.2.1, h2.2.2.1.trans h1.2.2.1,
    h2.2.2.2.1.trans h1.2.2.2.1, h2.2.2.2.2.1.trans h1.2.2.2.2.1,
    fun x => (h2.2.2.2.2.2 x).trans (h1.2.2.2.2.2 x)⟩

theorem Settled_of_SameQueues {b b1 : bootstrapper} {v : ID} (h : SameQueues b b1)
    (hs : Settled b v) : Settled b1 v :=
  Settled_mono h.1 h.2.2.2.2.1 (fun x hx => by rw [h.2.2.1] at hx; exact hx) hs

/-- The first loop of `process` on vertices that are not marked missing only reorders
the processed cache. -/
theorem processSeed_idle (vtxs : List ID) :
    ∀ (b : bootstrapper) (acc : List ID), (∀ v ∈ vtxs, v ∉ b.VtxBlocked.missing) →
      SameQueues b (processSeed vtxs b acc).1 := by
  induction vtxs with
  | nil =>
    intro b acc _
    exact ⟨rfl, rfl, rfl, rfl, rfl, fun x => Iff.rfl⟩
  | cons v vs ih =>
    intro b acc h
    have hget := LRU.Get_entries b.processedCache v
    unfold processSeed
    simp only []
    split
    · have h1 : SameQueues b { b with processedCache := (b.processedCache.Get v).1 } :=
        ⟨rfl, rfl, rfl, rfl, rfl, hget⟩
      exact SameQueues_trans h1 (ih _ _ (fun x hx => h x (List.mem_cons_of_mem _ hx)))
    · have hrm : b.VtxBlocked.RemoveMissingID v = b.VtxBlocked := by
        unfold JobsWithMissing.RemoveMissingID
        rw [IDSet.Remove_of_not_mem _ _ (h v (List.mem_cons_self _ _))]
      have h1 : SameQueues b { b with processedCache := (b.processedCache.Get v).1,
                                      VtxBlocked := b.VtxBlocked.RemoveMissingID v } :=
        ⟨hrm, rfl, rfl, rfl, rfl, hget⟩
      refine SameQueues_trans h1 (ih _ _ ?_)
      intro x hx
      show x ∉ (b.VtxBlocked.RemoveMissingID v).missing
      rw [hrm]
      exact h x (List.mem_cons_of_mem _ hx)

/-- When every given vertex is settled, the engine is not halted and `process` returns
without an error, the traversal of `process` changes nothing: `process` returns what the
commits and `fetch` return in a state with the same queues, `needToFetch`, outstanding
requests, store and cached ids. -/
theorem process_settled (env : Env) (b b1 : bootstrapper) (vtxs : List ID)
    (hset : ∀ v ∈ vtxs, Settled b v) (hhalt : ∀ tick, env.Halted tick = false)
    (hret : process env b vtxs = some (b1, none)) :
    ∃ bT, (b1, none) = processCommit env bT ∧ SameQueues b bT := by
  have hseed := processSeed_idle vtxs b [] (fun v hv => (hset v hv).1)
  obtain ⟨-, -, -, -, -, -, -, s8, -, -⟩ := processSeed_effect vtxs b []
  obtain ⟨t1, hP, -, hcommit⟩ := process_drained env
    (fun t => SameQueues b t.b ∧ ∀ x ∈ t.toProcess, x ∈ vtxs)
    (fun t t1 hP _ hs => by
      obtain ⟨hq, hsub⟩ := hP
      obtain ⟨i1, -, i3⟩ := processStep_idle env t t1
        (fun u hu => Settled_of_SameQueues hq (hset u (hsub u hu))) hs
      exact ⟨SameQueues_trans hq i1, fun x hx => hsub x (i3 x hx)⟩)
    b b1 vtxs
    ⟨hseed, fun x hx => by
      rcases s8 x hx with h | h
      · simp at h
      · exact h⟩ hhalt hret
  exact ⟨t1.b, hcommit, hP.1⟩

/-! ### Two calls of process -/

/-- C18, amended: call `process` with vertices that are Processing and not in the
processed cache, and then once more with the same vertices, the engine not being halted
and both calls returning without an error.  The traversal of the second call changes
nothing: the second call returns what the commits and `fetch` return in a state that has
the job queues, missing ids, `needToFetch`, outstanding requests, store and cached ids
that the first call left.  (That `fetch` ends in `checkFinish`, which can execute the
queues, flush the processed cache or restart once more.) -/
theorem C18_second_process_traversal_idle (env : Env) (b b1 b2 : bootstrapper)
    (vtxs : List ID)
    (hproc : ∀ v ∈ vtxs, b.Manager.Status v = Status.Processing)
    (hcache : ∀ v ∈ vtxs, v ∉ b.processedCache.entries)
    (hhalt : ∀ tick, env.Halted tick = false)
    (hfirst : process env b vtxs = some (b1, none))
    (hsecond : process env b1 vtxs = some (b2, none)) :
    ∃ bT, (b2, none) = processCommit env bT ∧ SameQueues b1 bT := by
  obtain ⟨s1, -, -, -, s5, -, s7, -, -, -⟩ := processSeed_effect vtxs b []
  obtain ⟨t1, hP, hnil, hcommit⟩ := process_drained env
    (fun t => ∀ v ∈ vtxs, t.b.Manager.Status v = Status.Processing ∧
      (v ∈ t.toProcess ∨ Settled t.b v))
    (fun t t1 hP _ hs v hv => settles_step env v t t1 (hP v hv) hs)
    b b1 vtxs
    (fun v hv => ⟨by
        show (processSeed vtxs b []).1.Manager.Status v = Status.Processing
        rw [s1]; exact hproc v hv,
      Or.inl (s7 v hv (hcache v hv))⟩) hhalt hfirst
  have hset : ∀ v ∈ vtxs, Settled b1 v := by
    intro v hv
    have h1 : Settled t1.b v := by
      rcases (hP v hv).2 with h | h
      · rw [hnil] at h; simp at h
      · exact h
    have h2 := processCommit_settled env t1.b v h1
    rw [← hcommit] at h2
    exact h2
  exact process_settled env b1 b2 vtxs hset hhalt hsecond

/-- The theorem `C18_second_process_traversal_idle` on the chain of the examples: the
second call of `process` for vertex `3` only commits the queues again. -/
theorem C18_witness :
    ∃ bT, (({ exampleChained with
              processedCache := { Size := cacheSize, entries := [3, 2] }
              tick := 14
              trace := exampleChained.trace ++
                [Event.TxBlockedCommit, Event.VtxBlockedCommit] } : bootstrapper),
            (none : Option Err)) = processCommit exampleEnv bT ∧
      SameQueues exampleChained bT :=
  C18_second_process_traversal_idle exampleEnv (New chainConfig) exampleChained _ [3]
    (by decide) (by decide) (fun _ => rfl) (by decide) (by decide)

/-- C18 fails as stated: for the vertex `3` above the accepted genesis vertex, the first
call of `process` executes the queue and restarts, leaving `3` in the processed cache;
the second call of `process` with the same vertex ends in a `checkFinish` that flushes
the processed cache.  The state after two calls is not the state after one. -/
theorem C18_counterexample :
    (process exampleEnv (New singleConfig) [3]).map (fun r => (queuesView r.1, r.2)) =
      some (({ jobs := [], missing := [] }, { jobs := [] }, [], { reqs := [] }, [3]), none) ∧
    ((process exampleEnv (New singleConfig) [3]).bind
        (fun r => process exampleEnv r.1 [3])).map (fun r => (queuesView r.1, r.2)) =
      some (({ jobs := [], missing := [] }, { jobs := [] }, [], { reqs := [] }, []), none) := by
  constructor <;> rfl

/-! ### The parents of the pushed vertices, on the chain of the examples -/

/-- The theorem `C19_parents_of_pushed` on the chain of the examples, for the call of
`process` for vertex `3`. -/
theorem C19_witness :
    ∃ bT, (exampleChained, (none : Option Err)) = processCommit exampleEnv bT ∧
      bT.Manager = (New chainConfig).Manager ∧
      ∀ v ∈ bT.VtxBlocked.jobs, v ∉ (New chainConfig).VtxBlocked.jobs →
        ∀ vtx, (New chainConfig).Manager.GetVtx v = some vtx → ∀ p ∈ vtx.parents,
          p ∈ bT.VtxBlocked.jobs ∨ p ∈ bT.VtxBlocked.missing ∨
          (New chainConfig).Manager.Status p = Status.Accepted ∨
          p ∈ (New chainConfig).processedCache.entries :=
  C19_parents_of_pushed exampleEnv (New chainConfig) exampleChained [3] (fun _ => rfl)
    (by decide)

/-- C19 fails as stated: `process` for vertex `3` of the chain returns without an error
with the jobs of `3` and then `2` in the queue and `9` in `MissingIDs`.  The parent `2`
of the pushed vertex `3` was pushed after `3`, not before, and is not in `MissingIDs`;
the parent `1` of the pushed vertex `2` is Accepted, so it was not pushed and is not in
`MissingIDs` either. -/
theorem C19_counterexample :
    (process exampleEnv (New chainConfig) [3]).map
      (fun r => (r.1.VtxBlocked.jobs, r.1.VtxBlocked.missing, r.2)) =
      some ([3, 2], [9], none) ∧
    (New chainConfig).VtxBlocked.jobs = [] ∧
    (New chainConfig).Manager.Parents 3 = some [2] ∧
    (New chainConfig).Manager.Parents 2 = some [1, 9] ∧
    pushedBefore [3, 2] 2 3 = false ∧ 2 ∉ [9] ∧
    pushedBefore [3, 2] 1 2 = false ∧ 1 ∉ [9] := by
  decide

/-! ### The iterations of the loop of fetch -/

/-- The loop of `fetch`, given fuel for them, runs through the iterations that do not
end it. -/
theorem fetchLoop_after (env : Env) (n : Nat) :
    ∀ (b0 t : bootstrapper), fetchAfter env n b0 = some t →
      ∀ fuel, fetchLoop env (n + fuel) b0 = fetchLoop env fuel t := by
  induction n with
  | zero =>
    intro b0 t h fuel
    simp only [fetchAfter, Option.some.injEq] at h
    rw [h, Nat.zero_add]
  | succ n ih =>
    intro b0 t h fuel
    unfold fetchAfter at h
    split at h
    · rename_i hc
      split at h
      · rename_i b1 hs
        have hfuel : n + 1 + fuel = (n + fuel) + 1 := by omega
        rw [hfuel]
        have hone : fetchLoop env (n + fuel + 1) b0 = fetchLoop env (n + fuel) b1 := by
          simp only [fetchLoop, hc, if_true, hs]
        rw [hone]
        exact ih b1 t h fuel
      · simp at h
    · simp at h

/-- Every iteration of the loop of `fetch` takes an id out of `needToFetch`. -/
theorem fetchAfter_needToFetch (env : Env) (n : Nat) :
    ∀ (b0 t : bootstrapper), fetchAfter env n b0 = some t →
      t.needToFetch.length + n ≤ b0.needToFetch.length := by
  induction n with
  | zero =>
    intro b0 t h
    simp only [fetchAfter, Option.some.injEq] at h
    rw [h]; omega
  | succ n ih =>
    intro b0 t h
    unfold fetchAfter at h
    split at h
    · rename_i hc
      simp only [Bool.and_eq_true, decide_eq_true_eq, IDSet.Len] at hc
      have hlt := fetchStep_needToFetch env b0 hc.1
      split at h
      · rename_i b1 hs
        rw [hs] at hlt
        have h2 := ih b1 t h
        simp only [] at hlt
        omega
      · simp at h
    · simp at h

/-- An iteration of the loop of `fetch` in which the id taken has no outstanding
request, is not in the store, and no validator can be sampled. -/
theorem fetchStep_noValidators (env : Env) (t : bootstrapper)
    (hnew : t.OutstandingRequests.Contains (fetchPick env t) = false)
    (hstore : t.Manager.GetVtx (fetchPick env t) = none)
    (hsample : env.Sample (t.tick + 1) = none) :
    fetchStep env t =
      ({ t with needToFetch := IDSet.Remove t.needToFetch (fetchPick env t),
                tick := t.tick + 2 },
        some (Err.noValidators (fetchPick env t))) := by
  unfold fetchPick at hnew hstore
  unfold fetchStep fetchPick
  simp only [bootstrapper.next, hnew, hstore, hsample, Bool.false_eq_true, if_false,
    Option.isSome_none]

/-- C21: when the loop of `fetch` reaches, after some iterations, a state `t` in which
it goes on (an id is left in `needToFetch` and the table is not full), the id it takes
has no outstanding request and is not in the store, and sampling a beacon fails, then
`fetch` returns the "no validators" error for that id in a state that differs from `t`
only in that the id has left `needToFetch` and the environment has answered twice (the
pick and the sample): no `GetAncestors` was sent, the request counter and the
outstanding requests are those of `t`, the id has no outstanding request, and
`checkFinish`, whose first step is to ask whether the chain is bootstrapped, was not
run. -/
theorem C21_fetch_fails_without_beacon (env : Env) (b : bootstrapper) (vtxIDs : List ID)
    (n : Nat) (t : bootstrapper)
    (hreach : fetchAfter env n (fetchStart b vtxIDs) = some t)
    (hne : 0 < t.needToFetch.Len)
    (hroom : t.OutstandingRequests.Len < MaxOutstandingGetAncestorsRequests)
    (hnew : t.OutstandingRequests.Contains (fetchPick env t) = false)
    (hstore : t.Manager.GetVtx (fetchPick env t) = none)
    (hsample : env.Sample (t.tick + 1) = none) :
    fetch env b vtxIDs =
      ({ t with needToFetch := IDSet.Remove t.needToFetch (fetchPick env t),
                tick := t.tick + 2 },
        some (Err.noValidators (fetchPick env t))) ∧
    (fetch env b vtxIDs).1.trace = t.trace ∧
    (fetch env b vtxIDs).1.RequestID = t.RequestID ∧
    (fetch env b vtxIDs).1.OutstandingRequests = t.OutstandingRequests ∧
    (fetch env b vtxIDs).1.OutstandingRequests.Contains (fetchPick env t) = false ∧
    (fetch env b vtxIDs).1.tick = t.tick + 2 := by
  have hlen := fetchAfter_needToFetch env n _ _ hreach
  have hpos : 1 ≤ t.needToFetch.length := hne
  obtain ⟨fuel, hfuel⟩ : ∃ fuel, (fetchStart b vtxIDs).needToFetch.length = n + (fuel + 1) :=
    ⟨(fetchStart b vtxIDs).needToFetch.length - n - 1, by omega⟩
  have hl := fetchLoop_after env n _ _ hreach (fuel + 1)
  rw [← hfuel] at hl
  have hstep := fetchStep_noValidators env t hnew hstore hsample
  have hloop : fetchLoop env (fuel + 1) t =
      ({ t with needToFetch := IDSet.Remove t.needToFetch (fetchPick env t),
                tick := t.tick + 2 },
        some (Err.noValidators (fetchPick env t))) := by
    have hc : (decide (t.needToFetch.Len > 0) &&
        decide (t.OutstandingRequests.Len < MaxOutstandingGetAncestorsRequests)) = true := by
      simp [hne, hroom]
    simp only [fetchLoop, hc, if_true, hstep]
  have hfetch : fetch env b vtxIDs =
      ({ t with needToFetch := IDSet.Remove t.needToFetch (fetchPick env t),
                tick := t.tick + 2 },
        some (Err.noValidators (fetchPick env t))) := by
    unfold fetch
    unfold fetchStart at hl
    simp only [] at hl ⊢
    rw [hl, hloop]
  rw [hfetch]
  exact ⟨rfl, rfl, rfl, rfl, hnew, rfl⟩

/-- The theorem `C21_fetch_fails_without_beacon` on the fresh bootstrapper of the
examples with an empty beacon set: `fetch` of the unknown vertex `3` fails in its first
iteration. -/
theorem C21_witness :
    fetch noBeaconsEnv (New exampleConfig) [3] =
      ({ New exampleConfig with tick := 2 }, some (Err.noValidators 3)) :=
  (C21_fetch_fails_without_beacon noBeaconsEnv (New exampleConfig) [3] 0
    (fetchStart (New exampleConfig) [3]) rfl (by decide) (by decide) (by decide) (by decide)
    rfl).1

/-! ### Claims on the truncation of an Ancestors message -/

/-- C22 for a limit of at least 1: when `AncestorsMaxContainersReceived` is at least 1,
on a message with
more containers than that limit the handler `Ancestors` returns the same result and
leaves the same state as on the first `AncestorsMaxContainersReceived` containers of
the message alone; hence whatever containers follow these, the outcome is the same: no
container beyond the limit is parsed or processed. -/
theorem C22_Ancestors_truncated (env : Env) (b : bootstrapper) (nodeID : NodeID)
    (requestID : Nat) (vtxs : List (List Nat))
    (hlimit : 1 ≤ b.AncestorsMaxContainersReceived)
    (hmore : b.AncestorsMaxContainersReceived < vtxs.length) :
    Ancestors env b nodeID requestID vtxs =
      Ancestors env b nodeID requestID (firstContainers b vtxs) ∧
    ∀ beyond, Ancestors env b nodeID requestID (firstContainers b vtxs ++ beyond) =
      Ancestors env b nodeID requestID (firstContainers b vtxs) := by
  have key : ∀ ws : List (List Nat), b.AncestorsMaxContainersReceived.toNat ≤ ws.length →
      Ancestors env b nodeID requestID ws =
        ancestorsFirst env b nodeID requestID
          (ws.take b.AncestorsMaxContainersReceived.toNat) := by
    intro ws hws
    cases ws with
    | nil => simp at hws; omega
    | cons first rest =>
      rw [Ancestors_cons env b nodeID requestID first rest hlimit]
      obtain ⟨k, hk⟩ : ∃ k, b.AncestorsMaxContainersReceived.toNat = k + 1 :=
        ⟨b.AncestorsMaxContainersReceived.toNat - 1, by omega⟩
      rw [hk]
      simp
  have hlen : (firstContainers b vtxs).length = b.AncestorsMaxContainersReceived.toNat := by
    unfold firstContainers
    rw [List.length_take]
    omega
  have hfirst : Ancestors env b nodeID requestID (firstContainers b vtxs) =
      ancestorsFirst env b nodeID requestID (firstContainers b vtxs) := by
    rw [key _ (by omega)]
    rw [List.take_of_length_le (by omega)]
  refine ⟨?_, fun beyond => ?_⟩
  · rw [hfirst, key vtxs (by omega)]
    rfl
  · rw [hfirst, key _ (by rw [List.length_append]; omega)]
    rw [List.take_append_of_le_length (by omega), List.take_of_length_le (by omega)]

/-- The theorem `C22_Ancestors_truncated` on a bootstrapper that reads at most two
containers of a message: the answer to the request for vertex `3` with the containers
of `3`, of its parent `2` and of the parent `4` of that is handled as the answer with
the first two containers. -/
theorem C22_witness :
    Ancestors exampleEnv { exampleOneRequest with AncestorsMaxContainersReceived := 2 } 77 1
        [[3, 2, 2], [2, 1, 4], [4, 0]] =
      Ancestors exampleEnv { exampleOneRequest with AncestorsMaxContainersReceived := 2 } 77 1
        [[3, 2, 2], [2, 1, 4]] :=
  (C22_Ancestors_truncated exampleEnv
    { exampleOneRequest with AncestorsMaxContainersReceived := 2 } 77 1
    [[3, 2, 2], [2, 1, 4], [4, 0]] (by decide) (by decide)).1

/-- C22 at the failing input: with `AncestorsMaxContainersReceived` set to `0`, a message
of one container has more containers than the limit and its first `0` containers are
the empty message.  On the message the truncation leaves no container and reading the
first one fails with a run-time panic, whereas on the empty message, which the handler
tests for before it truncates, it is `GetAncestorsFailed` and returns no error: the
handler does not behave on the message as on its first `0` containers. -/
theorem C22_zero_limit_index_panic :
    zeroLimit.AncestorsMaxContainersReceived < ([[3, 2, 2]] : List (List Nat)).length ∧
    firstContainers zeroLimit [[3, 2, 2]] = [] ∧
    Ancestors exampleEnv zeroLimit 77 1 [[3, 2, 2]] = some (zeroLimit, some Err.runtimePanic) ∧
    Ancestors exampleEnv zeroLimit 77 1 (firstContainers zeroLimit [[3, 2, 2]]) =
      some (zeroLimit, none) := by
  refine ⟨by decide, rfl, rfl, rfl⟩

/-! ### Claims on checkFinish -/

/-- C29: whenever the chain reports that it is bootstrapped, or `MissingIDs` is not
empty, or a timeout is awaited, `checkFinish` returns nil and the state it leaves is the
state it was called in, but for the count of the answers of the environment (the chain
was asked whether it is bootstrapped): no call to a collaborator was made (no execution
of a queue, no notification of the subnet, no timeout registered, no call of
`OnFinished`, no `Restart`), and the queues, the processed cache, the executed count and
the awaiting-timeout flag are unchanged. -/
theorem C29_checkFinish_skipped (env : Env) (b : bootstrapper)
    (h : env.IsBootstrapped b.tick = true ∨ b.VtxBlocked.MissingIDs ≠ [] ∨
      b.awaitingTimeout = true) :
    checkFinish env b = ({ b with tick := b.tick + 1 }, none) ∧
    (checkFinish env b).1.trace = b.trace ∧
    (checkFinish env b).1.VtxBlocked = b.VtxBlocked ∧
    (checkFinish env b).1.TxBlocked = b.TxBlocked ∧
    (checkFinish env b).1.Manager = b.Manager ∧
    (checkFinish env b).1.processedCache = b.processedCache ∧
    (checkFinish env b).1.executedStateTransitions = b.executedStateTransitions ∧
    (checkFinish env b).1.awaitingTimeout = b.awaitingTimeout := by
  have hc : (env.IsBootstrapped b.tick || decide (b.VtxBlocked.MissingIDs.length > 0)
      || b.next.awaitingTimeout) = true := by
    rcases h with h | h | h
    · simp [h]
    · have : 0 < b.VtxBlocked.MissingIDs.length := List.length_pos.mpr h
      simp [this]
    · simp [bootstrapper.next, h]
  have he : checkFinish env b = ({ b with tick := b.tick + 1 }, none) := by
    unfold checkFinish
    simp only [hc, if_true]
    rfl
  rw [he]
  exact ⟨rfl, rfl, rfl, rfl, rfl, rfl, rfl, rfl⟩

/-- The theorem `C29_checkFinish_skipped` in the three cases: the chain of the examples
reports bootstrapped, a vertex is missing (`exampleOneRequest`), a timeout is awaited
(`exampleAwaiting`). -/
theorem C29_witness :
    checkFinish { exampleEnv with IsBootstrapped := fun _ => true } (New exampleConfig) =
      ({ New exampleConfig with tick := 1 }, none) ∧
    checkFinish exampleEnv exampleOneRequest = ({ exampleOneRequest with tick := 6 }, none) ∧
    checkFinish exampleEnv exampleAwaiting = ({ exampleAwaiting with tick := 9 }, none) :=
  ⟨(C29_checkFinish_skipped { exampleEnv with IsBootstrapped := fun _ => true }
      (New exampleConfig) (Or.inl rfl)).1,
   (C29_checkFinish_skipped exampleEnv exampleOneRequest (Or.inr (Or.inl (by decide)))).1,
   (C29_checkFinish_skipped exampleEnv exampleAwaiting (Or.inr (Or.inr rfl))).1⟩

/-- A round of `checkFinish` that is not skipped, in which neither execution fails and
the engine is not halted: the state in which the retry criterion is evaluated has the
flags, the counter and the processed cache of the state `checkFinish` was called in. -/
theorem checkFinish_executes (env : Env) (b : bootstrapper)
    (hB : env.IsBootstrapped b.tick = false) (hM : b.VtxBlocked.missing = [])
    (hA : b.awaitingTimeout = false)
    (hT : (env.ExecuteAll (b.tick + 1)).2 = none) (hH1 : env.Halted (b.tick + 2) = false)
    (hV : (env.ExecuteAll (b.tick + 3)).2 = none) (hH2 : env.Halted (b.tick + 4) = false) :
    ∃ b1, checkFinish env b = checkFinishRetry env b1 (executedVts env b) ∧
      b1.trace = b.trace ++ [Event.TxBlockedExecuteAll, Event.VtxBlockedExecuteAll] ∧
      b1.executedStateTransitions = b.executedStateTransitions ∧
      b1.RetryBootstrap = b.RetryBootstrap ∧ b1.RequestID = b.RequestID ∧
      b1.tick = b.tick + 5 ∧ b1.awaitingTimeout = false ∧
      b1.processedCache = b.processedCache := by
  unfold checkFinish checkFinishTxs checkFinishVertices executedVts
  simp [JobsWithMissing.MissingIDs, hB, hM, hA, hT, hH1, hV, hH2]
  refine ⟨_, rfl, ?_, ?_, ?_, ?_, ?_, ?_, ?_⟩ <;> simp [hA]

/-- C30: when `checkFinish` is not skipped, executes both queues (neither execution
fails and the engine is not halted) and the retry criterion does not hold, it notifies
the subnet and flushes the processed cache, and then: if the subnet is not bootstrapped,
it registers a timeout of `bootstrappingDelay` (10 seconds), sets the awaiting-timeout
flag and returns nil, and `OnFinished` is not called; otherwise it calls `OnFinished`
with the request counter and returns what the callback returns, no timeout is registered
and the flag is left as it was.  The calls made to the collaborators are exactly the
ones listed. -/
theorem C30_checkFinish_finishes (env : Env) (b : bootstrapper)
    (hB : env.IsBootstrapped b.tick = false) (hM : b.VtxBlocked.missing = [])
    (hA : b.awaitingTimeout = false)
    (hT : (env.ExecuteAll (b.tick + 1)).2 = none) (hH1 : env.Halted (b.tick + 2) = false)
    (hV : (env.ExecuteAll (b.tick + 3)).2 = none) (hH2 : env.Halted (b.tick + 4) = false)
    (hno : ¬ (0 < executedVts env b ∧ executedVts env b < b.executedStateTransitions / 2 ∧
      b.RetryBootstrap = true)) :
    (checkFinish env b).1.processedCache.entries = [] ∧
    (checkFinish env b).1.RequestID = b.RequestID ∧
    (env.SubnetIsBootstrapped (b.tick + 5) = false →
      (checkFinish env b).2 = none ∧
      (checkFinish env b).1.awaitingTimeout = true ∧
      (checkFinish env b).1.trace = b.trace ++
        [Event.TxBlockedExecuteAll, Event.VtxBlockedExecuteAll, Event.SubnetBootstrapped,
         Event.RegisterTimeout 10]) ∧
    (env.SubnetIsBootstrapped (b.tick + 5) = true →
      (checkFinish env b).2 = env.OnFinished (b.tick + 6) b.RequestID ∧
      (checkFinish env b).1.awaitingTimeout = false ∧
      (checkFinish env b).1.trace = b.trace ++
        [Event.TxBlockedExecuteAll, Event.VtxBlockedExecuteAll, Event.SubnetBootstrapped,
         Event.OnFinished b.RequestID]) := by
  obtain ⟨b1, hb1, htr, hex, hre, hrq, htick, hA1, -⟩ :=
    checkFinish_executes env b hB hM hA hT hH1 hV hH2
  have hc : (decide (executedVts env b > 0) &&
      decide (executedVts env b < b1.executedStateTransitions / 2) && b1.RetryBootstrap) = false := by
    rw [hex, hre]
    cases hr : b.RetryBootstrap
    · simp
    · simp only [Bool.and_true, Bool.and_eq_false_imp, decide_eq_true_eq, decide_eq_false_iff_not]
      intro h0 h1
      exact hno ⟨h0, h1, hr⟩
  rw [hb1]
  unfold checkFinishRetry
  simp only [hc]
  unfold checkFinishNotify
  simp only [bootstrapper.emit, bootstrapper.next, htick]
  refine ⟨?_, ?_, ?_, ?_⟩
  · cases hs : env.SubnetIsBootstrapped (b.tick + 5) <;>
      simp [hs, OnFinished, LRU.Flush, bootstrapper.emit, bootstrapper.next]
  · cases hs : env.SubnetIsBootstrapped (b.tick + 5) <;>
      simp [hs, OnFinished, LRU.Flush, bootstrapper.emit, bootstrapper.next, hrq]
  · intro hs
    simp [hs, htr, bootstrappingDelay]
  · intro hs
    simp [hs, htr, OnFinished, bootstrapper.emit, bootstrapper.next, hrq, htick, hA1]

/-- The theorem `C30_checkFinish_finishes` on the fresh bootstrapper of the examples,
whose queues are empty: with the subnet not bootstrapped a timeout of 10 seconds is
registered and awaited, with the subnet bootstrapped `OnFinished` is called with the
request counter `0`. -/
theorem C30_witness :
    (checkFinish exampleEnv (New exampleConfig)).1.trace =
      [Event.TxBlockedExecuteAll, Event.VtxBlockedExecuteAll, Event.SubnetBootstrapped,
       Event.RegisterTimeout 10] ∧
    (checkFinish exampleEnv (New exampleConfig)).1.awaitingTimeout = true ∧
    (checkFinish finishingEnv (New exampleConfig)).1.trace =
      [Event.TxBlockedExecuteAll, Event.VtxBlockedExecuteAll, Event.SubnetBootstrapped,
       Event.OnFinished 0] ∧
    (checkFinish finishingEnv (New exampleConfig)).1.awaitingTimeout = false :=
  ⟨((C30_checkFinish_finishes exampleEnv (New exampleConfig) rfl rfl rfl rfl rfl rfl rfl
      (by decide)).2.2.1 rfl).2.2,
   ((C30_checkFinish_finishes exampleEnv (New exampleConfig) rfl rfl rfl rfl rfl rfl rfl
      (by decide)).2.2.1 rfl).2.1,
   ((C30_checkFinish_finishes finishingEnv (New exampleConfig) rfl rfl rfl rfl rfl rfl rfl
      (by decide)).2.2.2 rfl).2.2,
   ((C30_checkFinish_finishes finishingEnv (New exampleConfig) rfl rfl rfl rfl rfl rfl rfl
      (by decide)).2.2.2 rfl).2.1⟩

/-! ### The loop of ForceAccepted over the pending ids -/

/-- The loop of `ForceAccepted` changes nothing but the missing ids and `needToFetch`. -/
theorem forceAcceptedLoop_fields (pending : List ID) (b : bootstrapper) (toProcess : List ID) :
    (forceAcceptedLoop pending b toProcess).1 =
      { b with
        VtxBlocked := { b.VtxBlocked with
          missing := (forceAcceptedLoop pending b toProcess).1.VtxBlocked.missing }
        needToFetch := (forceAcceptedLoop pending b toProcess).1.needToFetch } := by
  induction pending generalizing b toProcess with
  | nil => rfl
  | cons v vs ih =>
    unfold forceAcceptedLoop
    split
    · split
      · rw [ih]; rfl
      · exact ih _ _
    · rw [ih]; rfl

/-- The vertices the loop of `ForceAccepted` hands to `process`: the pending ids whose
vertex is in the store and not Accepted, in their order. -/
theorem forceAcceptedLoop_toProcess (pending : List ID) (b : bootstrapper)
    (toProcess : List ID) :
    (forceAcceptedLoop pending b toProcess).2 =
      toProcess ++ pending.filter b.Manager.presentUnaccepted := by
  induction pending generalizing b toProcess with
  | nil => simp [forceAcceptedLoop]
  | cons v vs ih =>
    unfold forceAcceptedLoop
    split
    · rename_i vtx hv
      split
      · rename_i hacc
        rw [ih]
        have : b.Manager.presentUnaccepted v = false := by
          simp [Manager.presentUnaccepted, hv, hacc]
        simp [List.filter_cons, this]
      · rename_i hacc
        rw [ih]
        have : b.Manager.presentUnaccepted v = true := by
          simp [Manager.presentUnaccepted, hv, hacc]
        simp [List.filter_cons, this]
    · rename_i hv
      rw [ih]
      have : b.Manager.presentUnaccepted v = false := by
        simp [Manager.presentUnaccepted, hv]
      simp [List.filter_cons, this]

/-- The missing ids after the loop of `ForceAccepted`: the ids that were marked missing
and are not pending ids whose vertex is stored as Accepted, and the pending ids whose
vertex is not in the store. -/
theorem forceAcceptedLoop_missing (pending : List ID) (b : bootstrapper) (toProcess : List ID)
    (x : ID) :
    x ∈ (forceAcceptedLoop pending b toProcess).1.VtxBlocked.missing ↔
      (x ∈ b.VtxBlocked.missing ∧ ¬ (x ∈ pending ∧ b.Manager.presentAccepted x = true)) ∨
      (x ∈ pending ∧ b.Manager.GetVtx x = none) := by
  induction pending generalizing b toProcess with
  | nil => simp [forceAcceptedLoop]
  | cons v vs ih =>
    unfold forceAcceptedLoop
    split
    · rename_i vtx hv
      split
      · rename_i hacc
        have hpa : b.Manager.presentAccepted v = true := by
          simp [Manager.presentAccepted, hv, hacc]
        rw [ih]
        simp only [JobsWithMissing.RemoveMissingID, IDSet.mem_Remove, List.mem_cons]
        constructor
        · rintro (⟨⟨hm, hne⟩, hn⟩ | ⟨hm, hn⟩)
          · left
            refine ⟨hm, ?_⟩
            rintro ⟨hx | hx, hp⟩
            · exact hne hx
            · exact hn ⟨hx, hp⟩
          · right; exact ⟨Or.inr hm, hn⟩
        · rintro (⟨hm, hn⟩ | ⟨hx | hx, hn⟩)
          · left
            refine ⟨⟨hm, ?_⟩, ?_⟩
            · intro hx; exact hn ⟨Or.inl hx, hx ▸ hpa⟩
            · rintro ⟨hx, hp⟩; exact hn ⟨Or.inr hx, hp⟩
          · rw [hx, hv] at hn; simp at hn
          · right; exact ⟨hx, hn⟩
      · rename_i hacc
        have hpa : b.Manager.presentAccepted v = false := by
          simp [Manager.presentAccepted, hv, hacc]
        rw [ih]
        simp only [List.mem_cons]
        constructor
        · rintro (⟨hm, hn⟩ | ⟨hm, hn⟩)
          · left
            refine ⟨hm, ?_⟩
            rintro ⟨hx | hx, hp⟩
            · rw [hx, hpa] at hp; simp at hp
            · exact hn ⟨hx, hp⟩
          · right; exact ⟨Or.inr hm, hn⟩
        · rintro (⟨hm, hn⟩ | ⟨hx | hx, hn⟩)
          · left
            exact ⟨hm, fun ⟨hx, hp⟩ => hn ⟨Or.inr hx, hp⟩⟩
          · rw [hx, hv] at hn; simp at hn
          · right; exact ⟨hx, hn⟩
    · rename_i hv
      have hpa : b.Manager.presentAccepted v = false := by
        simp [Manager.presentAccepted, hv]
      rw [ih]
      simp only [JobsWithMissing.AddMissingID, IDSet.mem_Add, List.mem_cons]
      constructor
      · rintro (⟨hm | hm, hn⟩ | ⟨hm, hn⟩)
        · left
          refine ⟨hm, ?_⟩
          rintro ⟨hx | hx, hp⟩
          · rw [hx, hpa] at hp; simp at hp
          · exact hn ⟨hx, hp⟩
        · right; exact ⟨Or.inl hm, hm ▸ hv⟩
        · right; exact ⟨Or.inr hm, hn⟩
      · rintro (⟨hm, hn⟩ | ⟨hx | hx, hn⟩)
        · left
          exact ⟨Or.inl hm, fun ⟨hx, hp⟩ => hn ⟨Or.inr hx, hp⟩⟩
        · left
          refine ⟨Or.inr hx, ?_⟩
          rintro ⟨-, hp⟩
          rw [hx, hpa] at hp; simp at hp
        · right; exact ⟨hx, hn⟩

/-- The ids in `needToFetch` after the loop of `ForceAccepted`: those that were in it
and the pending ids whose vertex is not in the store. -/
theorem forceAcceptedLoop_needToFetch (pending : List ID) (b : bootstrapper)
    (toProcess : List ID) (x : ID) :
    x ∈ (forceAcceptedLoop pending b toProcess).1.needToFetch ↔
      x ∈ b.needToFetch ∨ (x ∈ pending ∧ b.Manager.GetVtx x = none) := by
  induction pending generalizing b toProcess with
  | nil => simp [forceAcceptedLoop]
  | cons v vs ih =>
    unfold forceAcceptedLoop
    split
    · rename_i vtx hv
      have hnone : ∀ y, y = v → b.Manager.GetVtx y ≠ none := by
        intro y hy; rw [hy, hv]; simp
      split
      · rw [ih]
        simp only [List.mem_cons]
        constructor
        · rintro (h | ⟨hx, hn⟩)
          · exact Or.inl h
          · exact Or.inr ⟨Or.inr hx, hn⟩
        · rintro (h | ⟨hx | hx, hn⟩)
          · exact Or.inl h
          · exact absurd hn (hnone x hx)
          · exact Or.inr ⟨hx, hn⟩
      · rw [ih]
        simp only [List.mem_cons]
        constructor
        · rintro (h | ⟨hx, hn⟩)
          · exact Or.inl h
          · exact Or.inr ⟨Or.inr hx, hn⟩
        · rintro (h | ⟨hx | hx, hn⟩)
          · exact Or.inl h
          · exact absurd hn (hnone x hx)
          · exact Or.inr ⟨hx, hn⟩
    · rename_i hv
      rw [ih]
      simp only [IDSet.mem_Add, List.mem_cons]
      constructor
      · rintro ((h | h) | ⟨hx, hn⟩)
        · exact Or.inl h
        · exact Or.inr ⟨Or.inl h, h ▸ hv⟩
        · exact Or.inr ⟨Or.inr hx, hn⟩
      · rintro (h | ⟨hx | hx, hn⟩)
        · exact Or.inl (Or.inl h)
        · exact Or.inl (Or.inr hx)
        · exact Or.inr ⟨hx, hn⟩

/-! ### Claims on ForceAccepted -/

/-- C26, amended: `ForceAccepted(ids)` goes through the persisted `MissingIDs` followed
by `ids` and returns what `process` returns when called with those of them whose vertex
is in the local store and not Accepted, in that order, in a state that differs from the
one `ForceAccepted` was called in only in the missing ids and in `needToFetch`: marked
missing are the ids that were and are not among those whose vertex is stored as
Accepted, together with every id gone through whose vertex is not in the store; in
`needToFetch` are the ids that were in it together with every id gone through whose
vertex is not in the store. -/
theorem C26_ForceAccepted_pending (env : Env) (b : bootstrapper) (ids : List ID) :
    ∃ b1,
      ForceAccepted env b ids =
        process env b1 ((b.VtxBlocked.MissingIDs ++ ids).filter b.Manager.presentUnaccepted) ∧
      (∃ r, ForceAccepted env b ids = some r) ∧
      b1 = { b with VtxBlocked := { b.VtxBlocked with missing := b1.VtxBlocked.missing }
                    needToFetch := b1.needToFetch } ∧
      (∀ x, x ∈ b1.VtxBlocked.missing ↔
        (x ∈ b.VtxBlocked.missing ∧ b.Manager.presentAccepted x = false) ∨
        (x ∈ b.VtxBlocked.MissingIDs ++ ids ∧ b.Manager.GetVtx x = none)) ∧
      (∀ x, x ∈ b1.needToFetch ↔
        x ∈ b.needToFetch ∨ (x ∈ b.VtxBlocked.MissingIDs ++ ids ∧ b.Manager.GetVtx x = none)) := by
  refine ⟨(forceAcceptedLoop (b.VtxBlocked.MissingIDs ++ ids) b []).1, ?_,
    ForceAccepted_returns env b ids, forceAcceptedLoop_fields _ b [], fun x => ?_,
    fun x => forceAcceptedLoop_needToFetch _ b [] x⟩
  · unfold ForceAccepted
    simp only []
    rw [forceAcceptedLoop_toProcess]
    rfl
  · rw [forceAcceptedLoop_missing]
    constructor
    · rintro (⟨hm, hn⟩ | h)
      · left
        refine ⟨hm, ?_⟩
        cases hp : b.Manager.presentAccepted x
        · rfl
        · exact absurd ⟨List.mem_append_left _ hm, hp⟩ hn
      · exact Or.inr h
    · rintro (⟨hm, hn⟩ | h)
      · left
        exact ⟨hm, fun ⟨_, hp⟩ => by rw [hn] at hp; simp at hp⟩
      · exact Or.inr h

/-- C26 fails as stated: the genesis vertex `1` is in the local store of the fresh
bootstrapper of the examples, with the status Accepted, and `ForceAccepted([1])` calls
`process` with no vertex.  With a halted engine the difference shows: `process` without
vertices commits the queues and runs `fetch`, whereas `process` called with the vertex
`1` returns at the halt probe of its first iteration. -/
theorem C26_counterexample :
    (New exampleConfig).Manager.GetVtx 1 = some ⟨1, [], 0, [], Status.Accepted⟩ ∧
    (forceAcceptedLoop ((New exampleConfig).VtxBlocked.MissingIDs ++ [1])
      (New exampleConfig) []).2 = [] ∧
    ForceAccepted haltedEnv (New exampleConfig) [1] = process haltedEnv (New exampleConfig) [] ∧
    ((ForceAccepted haltedEnv (New exampleConfig) [1]).map (fun r => r.1.trace)) =
      some [Event.TxBlockedCommit, Event.VtxBlockedCommit, Event.TxBlockedExecuteAll] ∧
    ((process haltedEnv (New exampleConfig) [1]).map (fun r => r.1.trace)) = some [] := by
  refine ⟨rfl, rfl, rfl, rfl, rfl⟩

/-! ### The handlers and the flag started -/

theorem checkFinishNotify_started (env : Env) (b : bootstrapper) :
    (checkFinishNotify env b).1.started = b.started := by
  unfold checkFinishNotify
  simp only []
  split
  · simp
  · simp [OnFinished_fst]

theorem checkFinishRetry_started (env : Env) (b : bootstrapper) (n : Nat) :
    (checkFinishRetry env b n).1.started = b.started := by
  unfold checkFinishRetry
  simp only []
  split
  · simp [Restart_fst]
  · exact checkFinishNotify_started env _

theorem checkFinishVertices_started (env : Env) (b : bootstrapper) :
    (checkFinishVertices env b).1.started = b.started := by
  unfold checkFinishVertices
  simp only []
  split
  · simp
  · split
    · simp
    · exact (checkFinishRetry_started env _ _).trans (by simp)

theorem checkFinishTxs_started (env : Env) (b : bootstrapper) :
    (checkFinishTxs env b).1.started = b.started := by
  unfold checkFinishTxs
  simp only []
  split
  · simp
  · split
    · simp
    · exact (checkFinishVertices_started env _).trans (by simp)

theorem checkFinish_started (env : Env) (b : bootstrapper) :
    (checkFinish env b).1.started = b.started := by
  unfold checkFinish
  simp only []
  split
  · simp
  · exact (checkFinishTxs_started env _).trans (by simp)

theorem fetchStep_started (env : Env) (b : bootstrapper) :
    (fetchStep env b).1.started = b.started := by
  unfold fetchStep
  simp only []
  split
  · simp
  · split
    · simp
    · split <;> simp

theorem fetchLoop_started (env : Env) (fuel : Nat) (b : bootstrapper) :
    (fetchLoop env fuel b).1.started = b.started := by
  induction fuel generalizing b with
  | zero => rfl
  | succ fuel ih =>
    unfold fetchLoop
    have hs := fetchStep_started env b
    split
    · split
      · rename_i b1 err heq
        rw [heq] at hs; exact hs
      · rename_i b1 heq
        rw [heq] at hs
        exact (ih b1).trans hs
    · rfl

theorem fetch_started (env : Env) (b : bootstrapper) (vtxIDs : List ID) :
    (fetch env b vtxIDs).1.started = b.started := by
  unfold fetch
  simp only []
  have hl := fetchLoop_started env (IDSet.AddAll b.needToFetch vtxIDs).length
    { b with needToFetch := IDSet.AddAll b.needToFetch vtxIDs }
  split
  · rename_i b1 err heq
    rw [heq] at hl; exact hl
  · rename_i b1 heq
    rw [heq] at hl
    exact (checkFinish_started env b1).trans hl

theorem processSeed_started (vtxs : List ID) (b : bootstrapper) (toProcess : List ID) :
    (processSeed vtxs b toProcess).1.started = b.started := by
  induction vtxs generalizing b toProcess with
  | nil => rfl
  | cons v vs ih =>
    unfold processSeed
    simp only []
    split
    · exact (ih _ _).trans rfl
    · exact (ih _ _).trans rfl

theorem processTxs_started (env : Env) (txs : List ID) (b : bootstrapper) :
    (processTxs env txs b).1.started = b.started := by
  induction txs generalizing b with
  | nil => rfl
  | cons v vs ih =>
    unfold processTxs
    split
    · rfl
    · exact (ih _).trans rfl

theorem processVertex_started (env : Env) (vtxID : ID) (toProcess : List ID)
    (vtxHeightSet : IDSet) (prevHeight : Nat) (b : bootstrapper) :
    (stepState (processVertex env vtxID toProcess vtxHeightSet prevHeight b)).started
      = b.started := by
  unfold processVertex
  simp only []
  split
  · rfl
  · split
    · rfl
    · split
      · rfl
      · rename_i vtx hvtx
        split
        · rename_i b1 err heq
          have h := processTxs_started env vtx.txs
            { b.next with needToFetch := IDSet.Remove b.needToFetch vtxID,
                          VtxBlocked := ((b.VtxBlocked.RemoveMissingID vtxID).Push vtxID).1 }
          simp only [bootstrapper.next] at h heq
          rw [heq] at h
          exact h
        · rename_i b1 heq
          have h := processTxs_started env vtx.txs
            { b.next with needToFetch := IDSet.Remove b.needToFetch vtxID,
                          VtxBlocked := ((b.VtxBlocked.RemoveMissingID vtxID).Push vtxID).1 }
          simp only [bootstrapper.next] at h heq
          rw [heq] at h
          split
          · exact h
          · exact h

theorem processStep_started (env : Env) (t : Traversal) :
    (stepState (processStep env t)).started = t.b.started := by
  unfold processStep
  simp only []
  split
  · rfl
  · split
    · rfl
    · split
      · rfl
      · rfl
      · rfl
      · exact (processVertex_started env _ _ _ _ _).trans rfl

theorem processLoop_started (env : Env) (fuel : Nat) (t : Traversal) (b1 : bootstrapper)
    (e : LoopExit) (h : processLoop env fuel t = some (b1, e)) : b1.started = t.b.started := by
  induction fuel generalizing t with
  | zero =>
    unfold processLoop at h
    split at h
    · exact absurd h (by simp)
    · simp only [Option.some.injEq, Prod.mk.injEq] at h
      rw [← h.1]
  | succ fuel ih =>
    unfold processLoop at h
    split at h
    · have hs := processStep_started env t
      split at h
      · rename_i exit heq
        rw [heq] at hs
        simp only [Option.some.injEq] at h
        rw [h] at hs
        exact hs
      · rename_i t1 heq
        rw [heq] at hs
        exact (ih t1 h).trans hs
    · simp only [Option.some.injEq, Prod.mk.injEq] at h
      rw [← h.1]

theorem processCommit_started (env : Env) (b : bootstrapper) :
    (processCommit env b).1.started = b.started := by
  unfold processCommit
  split
  · rfl
  · simp only []
    split
    · rfl
    · exact (fetch_started env _ []).trans rfl

theorem process_started (env : Env) (b b1 : bootstrapper) (vtxs : List ID) (r : Option Err)
    (hp : process env b vtxs = some (b1, r)) : b1.started = b.started := by
  unfold process at hp
  simp only [] at hp
  have hseed := processSeed_started vtxs b []
  split at hp
  · simp at hp
  · rename_i b2 heq
    have hloop := processLoop_started env _ _ _ _ heq
    simp only [Option.some.injEq, Prod.mk.injEq] at hp
    rw [← hp.1]; exact hloop.trans hseed
  · rename_i b2 err heq
    have hloop := processLoop_started env _ _ _ _ heq
    simp only [Option.some.injEq, Prod.mk.injEq] at hp
    rw [← hp.1]; exact hloop.trans hseed
  · rename_i b2 heq
    have hloop := processLoop_started env _ _ _ _ heq
    simp only [Option.some.injEq] at hp
    have hc := processCommit_started env b2
    rw [hp] at hc
    exact hc.trans (hloop.trans hseed)

theorem forceAcceptedLoop_started (pending : List ID) (b : bootstrapper) (toProcess : List ID) :
    (forceAcceptedLoop pending b toProcess).1.started = b.started := by
  induction pending generalizing b toProcess with
  | nil => rfl
  | cons v vs ih =>
    unfold forceAcceptedLoop
    split
    · split
      · exact (ih _ _).trans rfl
      · exact ih _ _
    · exact (ih _ _).trans rfl

theorem ForceAccepted_started (env : Env) (b b1 : bootstrapper) (ids : List ID)
    (r : Option Err) (hp : ForceAccepted env b ids = some (b1, r)) : b1.started = b.started := by
  unfold ForceAccepted at hp
  simp only [] at hp
  exact (process_started env _ b1 _ r hp).trans (forceAcceptedLoop_started _ b [])

theorem GetAncestorsFailed_started (env : Env) (b : bootstrapper) (nodeID : NodeID)
    (requestID : Nat) : (GetAncestorsFailed env b nodeID requestID).1.started = b.started := by
  unfold GetAncestorsFailed
  simp only []
  split
  · rfl
  · exact (fetch_started env _ _).trans rfl

theorem ancestorsLoop_started (env : Env) (rest : List (List Nat)) :
    ∀ (eligible : IDSet) (processVertices : List ID) (b : bootstrapper),
      (ancestorsLoop env rest eligible processVertices b).1.started = b.started := by
  induction rest with
  | nil => intro eligible pv b; rfl
  | cons c cs ih =>
    intro eligible pv b
    unfold ancestorsLoop
    split
    · rfl
    · simp only []
      split
      · rfl
      · split
        · rfl
        · exact (ih _ _ _).trans rfl

theorem ancestorsAccepted_started (env : Env) (b b1 : bootstrapper) (vtxID : ID)
    (rest : List (List Nat)) (r : Option Err)
    (hp : ancestorsAccepted env b vtxID rest = some (b1, r)) : b1.started = b.started := by
  unfold ancestorsAccepted at hp
  simp only [] at hp
  split at hp
  · simp only [Option.some.injEq, Prod.mk.injEq] at hp
    rw [← hp.1]
  · rename_i parents _
    have hl := ancestorsLoop_started env rest (IDSet.AddAll [] parents) [vtxID]
      { b with needToFetch := IDSet.Remove b.needToFetch vtxID }
    split at hp
    · rename_i b2 pv err heq
      rw [heq] at hl
      simp only [Option.some.injEq, Prod.mk.injEq] at hp
      rw [← hp.1]
      exact hl
    · rename_i b2 pv heq
      rw [heq] at hl
      exact (process_started env b2 b1 pv r hp).trans hl

theorem ancestorsFirst_started (env : Env) (b b1 : bootstrapper) (nodeID : NodeID)
    (requestID : Nat) (vtxs : List (List Nat)) (r : Option Err)
    (hp : ancestorsFirst env b nodeID requestID vtxs = some (b1, r)) :
    b1.started = b.started := by
  unfold ancestorsFirst at hp
  simp only [] at hp
  split at hp
  · simp only [Option.some.injEq, Prod.mk.injEq] at hp
    rw [← hp.1]
  · split at hp
    · split at hp
      · simp only [Option.some.injEq, Prod.mk.injEq] at hp
        rw [← hp.1]
      · simp only [Option.some.injEq] at hp
        have := fetch_started env
          { b with OutstandingRequests := (b.OutstandingRequests.Remove nodeID requestID).1 }
          [(b.OutstandingRequests.Remove nodeID requestID).2.1]
        rw [hp] at this
        exact this
    · rename_i manager vtxID hparse
      split at hp
      · simp only [Option.some.injEq] at hp
        have := fetch_started env
          { b with OutstandingRequests := (b.OutstandingRequests.Remove nodeID requestID).1,
                   Manager := manager }
          [(b.OutstandingRequests.Remove nodeID requestID).2.1]
        rw [hp] at this
        exact this
      · split at hp
        · simp only [Option.some.injEq, Prod.mk.injEq] at hp
          rw [← hp.1]
        · exact (ancestorsAccepted_started env _ b1 _ _ r hp).trans rfl

theorem Ancestors_started (env : Env) (b b1 : bootstrapper) (nodeID : NodeID)
    (requestID : Nat) (vtxs : List (List Nat)) (r : Option Err)
    (hp : Ancestors env b nodeID requestID vtxs = some (b1, r)) : b1.started = b.started := by
  unfold Ancestors at hp
  split at hp
  · simp only [Option.some.injEq] at hp
    have := GetAncestorsFailed_started env b nodeID requestID
    rw [hp] at this
    exact this
  · split at hp
    · simp only [Option.some.injEq, Prod.mk.injEq] at hp
      rw [← hp.1]
    · exact ancestorsFirst_started env b b1 nodeID requestID _ r hp

theorem Clear_started (env : Env) (b : bootstrapper) : (Clear env b).1.started = b.started := by
  unfold Clear
  split
  · simp
  · simp only []
    split
    · simp
    · split
      · simp
      · split <;> simp

theorem Disconnected_started (env : Env) (b : bootstrapper) (nodeID : NodeID) :
    (Disconnected env b nodeID).1.started = b.started := by
  unfold Disconnected
  split <;> simp

theorem Timeout_started (env : Env) (b : bootstrapper) :
    (Timeout env b).1.started = b.started := by
  unfold Timeout
  split
  · simp
  · simp only []
    split
    · simp [Restart_fst]
    · simp [OnFinished_fst]

theorem Start_started (env : Env) (b : bootstrapper) (startReqID : Nat)
    (h : b.started = true) : (Start env b startReqID).1.started = true := by
  unfold Start
  simp only []
  split
  · simpa using h
  · split
    · simpa using h
    · simp [Startup_fst]

/-- What `Connected` does.  It calls `Startup` exactly when forwarding the connection to
the VM and to the startup tracker both succeeded, `started` is false and the tracker
reports that bootstrapping should start; it has then set `started`, the calls it made
are the two forwards and `Startup`, and it returns what `Startup` returns.  Otherwise it
does not call `Startup` and leaves `started` as it is. -/
theorem Connected_cases (env : Env) (b : bootstrapper) (nodeID : NodeID) :
    (env.vmErr b.tick = none ∧ env.vmErr (b.tick + 1) = none ∧ b.started = false ∧
        env.ShouldStart (b.tick + 2) = true ∧
      (Connected env b nodeID).1.trace = b.trace ++
        [Event.VMConnected nodeID, Event.TrackerConnected nodeID, Event.Startup] ∧
      (Connected env b nodeID).1.started = true ∧
      (Connected env b nodeID).2 = env.Startup (b.tick + 3)) ∨
    (¬ (env.vmErr b.tick = none ∧ env.vmErr (b.tick + 1) = none ∧ b.started = false ∧
        env.ShouldStart (b.tick + 2) = true) ∧
      (∃ added, (Connected env b nodeID).1.trace = b.trace ++ added ∧ startups added = 0) ∧
      (Connected env b nodeID).1.started = b.started) := by
  cases h1 : env.vmErr b.tick with
  | some err =>
    right
    refine ⟨by simp, ⟨[Event.VMConnected nodeID], ?_, by simp [startups]⟩, ?_⟩ <;>
      simp [Connected, h1, bootstrapper.emit, bootstrapper.next]
  | none =>
    cases h2 : env.vmErr (b.tick + 1) with
    | some err =>
      right
      refine ⟨by simp, ⟨[Event.VMConnected nodeID, Event.TrackerConnected nodeID], ?_,
        by simp [startups]⟩, ?_⟩ <;>
        simp [Connected, h1, h2, bootstrapper.emit, bootstrapper.next]
    | none =>
      cases h3 : b.started with
      | true =>
        right
        refine ⟨by simp, ⟨[Event.VMConnected nodeID, Event.TrackerConnected nodeID], ?_,
          by simp [startups]⟩, ?_⟩ <;>
          simp [Connected, h1, h2, h3, bootstrapper.emit, bootstrapper.next]
      | false =>
        cases h4 : env.ShouldStart (b.tick + 2) with
        | false =>
          right
          refine ⟨by simp, ⟨[Event.VMConnected nodeID, Event.TrackerConnected nodeID], ?_,
            by simp [startups]⟩, ?_⟩ <;>
            simp [Connected, h1, h2, h3, h4, bootstrapper.emit, bootstrapper.next]
        | true =>
          left
          refine ⟨rfl, rfl, rfl, rfl, ?_, ?_, ?_⟩ <;>
            simp [Connected, h1, h2, h3, h4, Startup, bootstrapper.emit, bootstrapper.next]

theorem Shutdown_started (env : Env) (b : bootstrapper) :
    (Shutdown env b).1.started = b.started := by
  simp [Shutdown]

/-- No handler clears the flag `started`. -/
theorem Call_started (env : Env) (b b1 : bootstrapper) (call : Call) (r : Option Err)
    (hrun : call.run env b = some (b1, r)) (h : b.started = true) : b1.started = true := by
  cases call with
  | Start startReqID =>
    simp only [Call.run, Option.some.injEq] at hrun
    have := Start_started env b startReqID h
    rw [hrun] at this
    exact this
  | Clear =>
    simp only [Call.run, Option.some.injEq] at hrun
    have := Clear_started env b
    rw [hrun] at this
    exact this.trans h
  | ForceAccepted ids => exact (ForceAccepted_started env b b1 ids r hrun).trans h
  | Ancestors nodeID requestID vtxs =>
    exact (Ancestors_started env b b1 nodeID requestID vtxs r hrun).trans h
  | GetAncestorsFailed nodeID requestID =>
    simp only [Call.run, Option.some.injEq] at hrun
    have := GetAncestorsFailed_started env b nodeID requestID
    rw [hrun] at this
    exact this.trans h
  | Connected nodeID =>
    simp only [Call.run, Option.some.injEq] at hrun
    rcases Connected_cases env b nodeID with ⟨-, -, -, -, -, hs, -⟩ | ⟨-, -, hs⟩
    · rw [hrun] at hs; exact hs
    · rw [hrun] at hs; exact hs.trans h
  | Disconnected nodeID =>
    simp only [Call.run, Option.some.injEq] at hrun
    have := Disconnected_started env b nodeID
    rw [hrun] at this
    exact this.trans h
  | Timeout =>
    simp only [Call.run, Option.some.injEq] at hrun
    have := Timeout_started env b
    rw [hrun] at this
    exact this.trans h
  | Shutdown =>
    simp only [Call.run, Option.some.injEq] at hrun
    have := Shutdown_started env b
    rw [hrun] at this
    exact this.trans h

theorem startups_append (xs ys : List Event) : startups (xs ++ ys) = startups xs + startups ys := by
  simp [startups]

/-- Over any sequence of handler calls, the calls of `Connected` call `Startup` at most
once, and not at all when `started` is set at the beginning. -/
theorem startupsByConnected_le (env : Env) (calls : List Call) :
    ∀ b : bootstrapper, startupsByConnected env b calls ≤ if b.started = true then 0 else 1 := by
  induction calls with
  | nil => intro b; simp [startupsByConnected]
  | cons call calls ih =>
    intro b
    unfold startupsByConnected
    cases hrun : call.run env b with
    | none => simp
    | some res =>
      obtain ⟨b1, r⟩ := res
      simp only []
      have hih := ih b1
      have hmono := Call_started env b b1 call r hrun
      cases call with
      | Connected nodeID =>
        simp only [Call.run, Option.some.injEq] at hrun
        simp only [Call.isConnected, if_true]
        rcases Connected_cases env b nodeID with ⟨-, -, hb, -, ht, hs, -⟩ | ⟨-, ⟨added, ht, ha⟩, hs⟩
        · rw [hrun] at ht hs
          simp only [] at ht hs
          rw [hs] at hih
          rw [ht, startups_append, hb]
          simp only [if_true] at hih
          simp [startups] at hih ⊢
          omega
        · rw [hrun] at ht hs
          simp only [] at ht hs
          rw [hs] at hih
          rw [ht, startups_append, ha]
          simp only [Nat.add_zero, Nat.sub_self, Nat.zero_add]
          exact hih
      | Start _ | Clear | ForceAccepted _ | Ancestors _ _ _ | GetAncestorsFailed _ _
      | Disconnected _ | Timeout | Shutdown =>
        simp only [Call.isConnected, Bool.false_eq_true, if_false, Nat.zero_add]
        cases hb : b.started with
        | true =>
          rw [hmono hb] at hih
          simpa using hih
        | false =>
          refine le_trans hih ?_
          split <;> simp

/-- C27: `Connected` calls `Startup` exactly when forwarding the connection to the VM
and to the startup tracker both succeeded, `started` is false and the tracker reports
that bootstrapping should start; it then has set `started`, has made the two forwards
and the call of `Startup` and no other call, and returns what `Startup` returns; in
every other case it does not call `Startup`.  Hence over any sequence of handler calls,
a sequence of calls of `Connected` in particular, the calls of `Connected` call
`Startup` at most once, and never when `started` is already set. -/
theorem C27_Connected_starts_once (env : Env) (b : bootstrapper) (nodeID : NodeID)
    (calls : List Call) :
    (startups (Connected env b nodeID).1.trace = startups b.trace + 1 ↔
      (env.vmErr b.tick = none ∧ env.vmErr (b.tick + 1) = none ∧ b.started = false ∧
        env.ShouldStart (b.tick + 2) = true)) ∧
    (startups (Connected env b nodeID).1.trace ≠ startups b.trace + 1 →
      startups (Connected env b nodeID).1.trace = startups b.trace ∧
      (Connected env b nodeID).1.started = b.started) ∧
    (startups (Connected env b nodeID).1.trace = startups b.trace + 1 →
      (Connected env b nodeID).1.started = true ∧
      (Connected env b nodeID).1.trace = b.trace ++
        [Event.VMConnected nodeID, Event.TrackerConnected nodeID, Event.Startup] ∧
      (Connected env b nodeID).2 = env.Startup (b.tick + 3)) ∧
    startupsByConnected env b calls ≤ 1 ∧
    (b.started = true → startupsByConnected env b calls = 0) := by
  have hle := startupsByConnected_le env calls b
  have hone : startups [Event.VMConnected nodeID, Event.TrackerConnected nodeID, Event.Startup]
      = 1 := by simp [startups]
  refine ⟨?_, ?_, ?_, ?_, ?_⟩
  · rcases Connected_cases env b nodeID with ⟨h1, h2, h3, h4, ht, -, -⟩ | ⟨hn, ⟨added, ht, ha⟩, -⟩
    · rw [ht, startups_append, hone]
      exact ⟨fun _ => ⟨h1, h2, h3, h4⟩, fun _ => rfl⟩
    · rw [ht, startups_append, ha]
      exact ⟨fun h => absurd h (by omega), fun h => absurd h hn⟩
  · rcases Connected_cases env b nodeID with ⟨-, -, -, -, ht, -, -⟩ | ⟨-, ⟨added, ht, ha⟩, hs⟩
    · rw [ht, startups_append, hone]
      intro h; exact absurd rfl h
    · rw [ht, startups_append, ha]
      intro _; exact ⟨rfl, hs⟩
  · rcases Connected_cases env b nodeID with ⟨-, -, -, -, ht, hs, hr⟩ | ⟨-, ⟨added, ht, ha⟩, -⟩
    · intro _; exact ⟨hs, ht, hr⟩
    · rw [ht, startups_append, ha]
      intro h; omega
  · refine le_trans hle ?_
    split <;> simp
  · intro hb
    rw [hb] at hle
    simpa using hle

/-- The theorem `C27_Connected_starts_once` on the fresh bootstrapper of the examples,
where the tracker reports at once that bootstrapping should start: the first of two
calls of `Connected` calls `Startup`, the second does not. -/
theorem C27_witness :
    (Connected exampleEnv (New exampleConfig) 5).1.trace =
      [Event.VMConnected 5, Event.TrackerConnected 5, Event.Startup] ∧
    startups (Connected exampleEnv (Connected exampleEnv (New exampleConfig) 5).1 6).1.trace = 1 ∧
    startupsByConnected exampleEnv (New exampleConfig) [Call.Connected 5, Call.Connected 6] = 1 :=
  ⟨(((C27_Connected_starts_once exampleEnv (New exampleConfig) 5 []).2.2.1) (by decide)).2.1,
   by decide, by decide⟩

/-! ### Claims on a halted traversal and on the failure of fetch -/

/-- C33: when the traversal of `process` begins an iteration (the heap is not empty
after some iterations that did not end the loop) and the halt probe is true, `process`
returns nil in the state of that very moment, the answer of the probe apart: nothing
was added to the trace since `process` was called, so that neither queue was committed
and no request was sent, the outstanding requests and the request counter are what they
were, and `fetch` and with it `checkFinish` were not run. -/
theorem C33_halted_traversal_returns (env : Env) (b : bootstrapper) (vtxs : List ID) (n : Nat)
    (t : Traversal)
    (hreach : traversalAfter env n (processStart b vtxs) = some t)
    (hne : 0 < t.toProcess.length)
    (hhalt : env.Halted t.b.tick = true) :
    process env b vtxs = some ({ t.b with tick := t.b.tick + 1 }, none) ∧
    t.b.trace = b.trace ∧ t.b.OutstandingRequests = b.OutstandingRequests ∧
    t.b.RequestID = b.RequestID ∧ t.b.Manager = b.Manager := by
  obtain ⟨fuel, hp⟩ := process_after env b vtxs n t hreach hne
  have hstep : processStep env t = Sum.inr (t.b.next, LoopExit.halted) := by
    unfold processStep
    simp only [hhalt, if_true]
  have hloop : processLoop env (fuel + 1) t = some (t.b.next, LoopExit.halted) := by
    simp only [processLoop, hne, if_true, hstep]
  rw [hloop] at hp
  have hf := TraversalFrame_trans (processSeed_frame vtxs b [])
    (traversalAfter_frame env n _ _ hreach)
  refine ⟨hp, ?_, ?_, ?_, ?_⟩
  · simpa [processStart] using hf.2.2.2
  · simpa [processStart] using hf.1
  · simpa [processStart] using hf.2.2.1
  · simpa [processStart] using hf.2.1

/-- The theorem `C33_halted_traversal_returns` on the store in which vertex `6` has the
parent `5`, with an engine that is halted from the third answer on: `process` for `6`
pushes the job of `6` in its first iteration, finds the engine halted at the start of
the second and returns nil; the trace is empty, so that the pushed job is not
committed. -/
theorem C33_witness :
    process (haltingEnv 2) (New rejectedConfig) [6] =
      some ({ New rejectedConfig with
              VtxBlocked := { jobs := [6], missing := [] }
              processedCache := { Size := cacheSize, entries := [6] }
              tick := 3 },
            none) :=
  (C33_halted_traversal_returns (haltingEnv 2) (New rejectedConfig) [6] 1
    { toProcess := [5], vtxHeightSet := [6], prevHeight := 2,
      b := { New rejectedConfig with
             VtxBlocked := { jobs := [6], missing := [] }
             processedCache := { Size := cacheSize, entries := [6] }
             tick := 2 } } (by decide) (by decide) (by decide)).1

/-- Whatever is outstanding when an iteration of the loop of `fetch` begins is
outstanding after it. -/
theorem fetchStep_keeps (env : Env) (b : bootstrapper) (e : NodeID × Nat × ID)
    (h : e ∈ b.OutstandingRequests.reqs) : e ∈ (fetchStep env b).1.OutstandingRequests.reqs := by
  unfold fetchStep
  simp only []
  split
  · exact h
  · split
    · exact h
    · split
      · exact h
      · simp only [bootstrapper.emit, bootstrapper.next]
        unfold Requests.Add
        split
        · exact h
        · exact List.mem_append_left _ h

/-- The iterations of the loop of `fetch` take no request out of the table. -/
theorem fetchAfter_keeps (env : Env) (n : Nat) :
    ∀ (b0 t : bootstrapper), fetchAfter env n b0 = some t →
      ∀ e ∈ b0.OutstandingRequests.reqs, e ∈ t.OutstandingRequests.reqs := by
  induction n with
  | zero =>
    intro b0 t h e he
    simp only [fetchAfter, Option.some.injEq] at h
    rw [← h]; exact he
  | succ n ih =>
    intro b0 t h e he
    unfold fetchAfter at h
    split at h
    · have hs := fetchStep_keeps env b0 e he
      split at h
      · rename_i b1 heq
        rw [heq] at hs
        exact ih b1 t h e hs
      · simp at h
    · simp at h

/-- The state after `n` iterations of the loop of `fetch` is reached from the state
after `k ≤ n` of them by the other `n - k` iterations. -/
theorem fetchAfter_split (env : Env) (k : Nat) :
    ∀ (n : Nat) (b0 tk t : bootstrapper), k ≤ n → fetchAfter env k b0 = some tk →
      fetchAfter env n b0 = some t → fetchAfter env (n - k) tk = some t := by
  induction k with
  | zero =>
    intro n b0 tk t _ hk hn
    simp only [fetchAfter, Option.some.injEq] at hk
    rw [← hk]; exact hn
  | succ k ih =>
    intro n b0 tk t hle hk hn
    obtain ⟨m, hm⟩ : ∃ m, n = m + 1 := ⟨n - 1, by omega⟩
    subst hm
    unfold fetchAfter at hk hn
    split at hk
    · rename_i hc
      rw [if_pos hc] at hn
      split at hk
      · rename_i b1 heq
        rw [heq] at hn
        simp only [] at hn
        have := ih m b1 tk t (by omega) hk hn
        rw [Nat.add_sub_add_right]
        exact this
      · simp at hk
    · simp at hk

/-- When the loop of `fetch` reaches a state in which it goes on with an id that has no
request and is not stored, and no validator can be sampled, `fetch` returns what that
iteration returns. -/
theorem fetch_after_noValidators (env : Env) (b : bootstrapper) (vtxIDs : List ID)
    (n : Nat) (t : bootstrapper)
    (hreach : fetchAfter env n (fetchStart b vtxIDs) = some t)
    (hne : 0 < t.needToFetch.Len)
    (hroom : t.OutstandingRequests.Len < MaxOutstandingGetAncestorsRequests)
    (hnew : t.OutstandingRequests.Contains (fetchPick env t) = false)
    (hstore : t.Manager.GetVtx (fetchPick env t) = none)
    (hsample : env.Sample (t.tick + 1) = none) :
    fetch env b vtxIDs =
      ({ t with needToFetch := IDSet.Remove t.needToFetch (fetchPick env t),
                tick := t.tick + 2 },
        some (Err.noValidators (fetchPick env t))) := by
  have hlen := fetchAfter_needToFetch env n _ _ hreach
  have hpos : 1 ≤ t.needToFetch.length := hne
  obtain ⟨fuel, hfuel⟩ : ∃ fuel, (fetchStart b vtxIDs).needToFetch.length = n + (fuel + 1) :=
    ⟨(fetchStart b vtxIDs).needToFetch.length - n - 1, by omega⟩
  have hl := fetchLoop_after env n _ _ hreach (fuel + 1)
  rw [← hfuel] at hl
  have hstep := fetchStep_noValidators env t hnew hstore hsample
  have hloop : fetchLoop env (fuel + 1) t =
      ({ t with needToFetch := IDSet.Remove t.needToFetch (fetchPick env t),
                tick := t.tick + 2 },
        some (Err.noValidators (fetchPick env t))) := by
    have hc : (decide (t.needToFetch.Len > 0) &&
        decide (t.OutstandingRequests.Len < MaxOutstandingGetAncestorsRequests)) = true := by
      simp [hne, hroom]
    simp only [fetchLoop, hc, if_true, hstep]
  unfold fetch
  unfold fetchStart at hl
  simp only [] at hl ⊢
  rw [hl, hloop]

/-- C36: when the loop of `fetch` reaches, after `n` iterations, a state `t` in which it
goes on, the id it takes has no outstanding request and is not in the store, and
sampling a beacon fails, `fetch` returns the error and does not undo what it did: the id
was in `NeedToFetch` at the start of the iteration and is in neither `NeedToFetch` nor
the outstanding requests when `fetch` returns, whereas every request that was
outstanding after any of the earlier iterations of this call (after `k ≤ n` of them) is
still outstanding, the `GetAncestors` messages sent stay sent and the request counter
keeps the value the earlier iterations gave it. -/
theorem C36_fetch_failure_keeps_requests (env : Env) (b : bootstrapper) (vtxIDs : List ID)
    (n k : Nat) (t tk : bootstrapper)
    (hreach : fetchAfter env n (fetchStart b vtxIDs) = some t)
    (hne : 0 < t.needToFetch.Len)
    (hroom : t.OutstandingRequests.Len < MaxOutstandingGetAncestorsRequests)
    (hnew : t.OutstandingRequests.Contains (fetchPick env t) = false)
    (hstore : t.Manager.GetVtx (fetchPick env t) = none)
    (hsample : env.Sample (t.tick + 1) = none)
    (hk : k ≤ n) (hearlier : fetchAfter env k (fetchStart b vtxIDs) = some tk) :
    (fetch env b vtxIDs).2 = some (Err.noValidators (fetchPick env t)) ∧
    fetchPick env t ∈ t.needToFetch ∧
    fetchPick env t ∉ (fetch env b vtxIDs).1.needToFetch ∧
    (fetch env b vtxIDs).1.OutstandingRequests.Contains (fetchPick env t) = false ∧
    (∀ e ∈ tk.OutstandingRequests.reqs, e ∈ (fetch env b vtxIDs).1.OutstandingRequests.reqs) ∧
    (fetch env b vtxIDs).1.trace = t.trace ∧
    (fetch env b vtxIDs).1.RequestID = t.RequestID := by
  rw [fetch_after_noValidators env b vtxIDs n t hreach hne hroom hnew hstore hsample]
  refine ⟨rfl, IDSet.getD_mem t.needToFetch (env.pick t.tick) hne, ?_, hnew, ?_, rfl, rfl⟩
  · intro h
    exact ((IDSet.mem_Remove _ _ _).mp h).2 rfl
  · exact fetchAfter_keeps env (n - k) tk t (fetchAfter_split env k n _ tk t hk hearlier hreach)

/-- The theorem `C36_fetch_failure_keeps_requests` on the fresh bootstrapper of the
examples, with a beacon set that can be sampled only once: `fetch` for the unknown
vertices `3` and `4` requests `3`, fails for `4` and returns the error; `4` is in
neither set, the request for `3` is outstanding and the counter is `1`. -/
theorem C36_witness :
    fetch (beaconsUntilEnv 2) (New exampleConfig) [3, 4] =
      ({ New exampleConfig with
          RequestID := 1
          OutstandingRequests := { reqs := [(77, 1, 3)] }
          tick := 4
          trace := [Event.SendGetAncestors 77 1 3] },
        some (Err.noValidators 4)) ∧
    (77, 1, 3) ∈ (fetch (beaconsUntilEnv 2) (New exampleConfig) [3, 4]).1.OutstandingRequests.reqs :=
  ⟨fetch_after_noValidators (beaconsUntilEnv 2) (New exampleConfig) [3, 4] 1
      { New exampleConfig with
          needToFetch := [4]
          RequestID := 1
          OutstandingRequests := { reqs := [(77, 1, 3)] }
          tick := 2
          trace := [Event.SendGetAncestors 77 1 3] }
      (by decide) (by decide) (by decide) (by decide) (by decide) (by decide),
   (C36_fetch_failure_keeps_requests (beaconsUntilEnv 2) (New exampleConfig) [3, 4] 1 1
      { New exampleConfig with
          needToFetch := [4]
          RequestID := 1
          OutstandingRequests := { reqs := [(77, 1, 3)] }
          tick := 2
          trace := [Event.SendGetAncestors 77 1 3] }
      { New exampleConfig with
          needToFetch := [4]
          RequestID := 1
          OutstandingRequests := { reqs := [(77, 1, 3)] }
          tick := 2
          trace := [Event.SendGetAncestors 77 1 3] }
      (by decide) (by decide) (by decide) (by decide) (by decide) (by decide) (le_refl 1)
      (by decide)).2.2.2.2.1 (77, 1, 3) (by decide)⟩

/-! ### The first container and the followers of an Ancestors message -/

theorem Requests.Remove_of_Has (r : Requests) (n : NodeID) (q : Nat) (h : r.Has n q = true) :
    ∃ e, e ∈ r.reqs ∧ e.1 = n ∧ e.2.1 = q ∧
      r.Remove n q = ({ reqs := r.reqs.erase e }, e.2.2, true) := by
  unfold Requests.Has at h
  cases hf : r.reqs.find? (fun e => e.1 == n && e.2.1 == q) with
  | none =>
    rw [List.find?_eq_none] at hf
    rw [List.any_eq_true] at h
    obtain ⟨x, hx, hp⟩ := h
    exact absurd hp (hf x hx)
  | some e =>
    have hm := List.mem_of_find?_eq_some hf
    have hp := List.find?_some hf
    simp only [Bool.and_eq_true, beq_iff_eq] at hp
    exact ⟨e, hm, hp.1, hp.2, (Requests.Remove_of_find r n q e hf).1⟩

/-- A requested message whose first container does not parse is answered by a new fetch
of the requested vertex. -/
theorem ancestorsFirst_unparsed_requested (env : Env) (b : bootstrapper) (nodeID : NodeID)
    (requestID : Nat) (first : List Nat) (rest : List (List Nat))
    (hreq : (b.OutstandingRequests.Remove nodeID requestID).2.2 = true)
    (hparse : env.ParseVtx first = none) :
    ancestorsFirst env b nodeID requestID (first :: rest) =
      some (fetch env
        { b with OutstandingRequests := (b.OutstandingRequests.Remove nodeID requestID).1 }
        [(b.OutstandingRequests.Remove nodeID requestID).2.1]) := by
  have h2 := Manager.ParseVtx_snd env.ParseVtx b.Manager first
  rw [hparse] at h2
  simp only [Option.map_none'] at h2
  unfold ancestorsFirst
  simp only []
  split
  · simp [hreq]
  · rename_i m vtxID heq
    rw [heq] at h2
    simp at h2

/-- C31: when the handler `Ancestors` reads `first` as the first container of a message
(the list the truncation leaves begins with it) and `first` does not parse, no container
of the message is processed.  If `(nodeID, requestID)` was outstanding, its entry is
taken out of the table and the handler returns what `fetch` of the requested vertex
returns in the state that differs from the one the handler was called in only in that
entry.  If it was not outstanding, the handler returns nil and leaves the state as it
was: the outstanding requests and `NeedToFetch` are unchanged and nothing was sent. -/
theorem C31_unparsed_first_container (env : Env) (b : bootstrapper) (nodeID : NodeID)
    (requestID : Nat) (first : List Nat) (rest kept : List (List Nat))
    (hread : truncateContainers b.AncestorsMaxContainersReceived (first :: rest)
      = some (first :: kept))
    (hparse : env.ParseVtx first = none) :
    (b.OutstandingRequests.Has nodeID requestID = true →
      ∃ e, e ∈ b.OutstandingRequests.reqs ∧ e.1 = nodeID ∧ e.2.1 = requestID ∧
        Ancestors env b nodeID requestID (first :: rest) =
          some (fetch env { b with OutstandingRequests := { reqs := b.OutstandingRequests.reqs.erase e } }
            [e.2.2])) ∧
    (b.OutstandingRequests.Has nodeID requestID = false →
      Ancestors env b nodeID requestID (first :: rest) = some (b, none)) := by
  have hA : Ancestors env b nodeID requestID (first :: rest) =
      ancestorsFirst env b nodeID requestID (first :: kept) := by
    unfold Ancestors
    rw [if_neg (by simp), hread]
  rw [hA]
  refine ⟨fun hhas => ?_, fun hhas => ancestorsFirst_unparsed env b nodeID requestID first kept
    hhas hparse⟩
  obtain ⟨e, hm, h1, h2, hrem⟩ := Requests.Remove_of_Has _ _ _ hhas
  refine ⟨e, hm, h1, h2, ?_⟩
  rw [ancestorsFirst_unparsed_requested env b nodeID requestID first kept
    (by rw [hrem]) hparse, hrem]

/-- The theorem `C31_unparsed_first_container` on the state of the examples in which the
request `(77, 1)` for vertex `3` is outstanding, with a message whose first container
has five numbers and does not parse: from the validator that was asked, the message
leads to a new request, `(77, 2)`, for vertex `3`; from another peer it is dropped. -/
theorem C31_witness :
    (Ancestors exampleEnv exampleOneRequest 77 1 [[1, 2, 3, 4, 5], [2, 1, 1]]).map
        (fun r => (r.1.OutstandingRequests.reqs, sends r.1.trace, r.1.VtxBlocked.jobs, r.2)) =
      some ([(77, 2, 3)], [Event.SendGetAncestors 77 1 3, Event.SendGetAncestors 77 2 3], [],
        none) ∧
    Ancestors exampleEnv exampleOneRequest 88 1 [[1, 2, 3, 4, 5], [2, 1, 1]] =
      some (exampleOneRequest, none) := by
  have h := C31_unparsed_first_container exampleEnv exampleOneRequest 77 1 [1, 2, 3, 4, 5]
    [[2, 1, 1]] [[2, 1, 1]] (by decide) rfl
  have h' := C31_unparsed_first_container exampleEnv exampleOneRequest 88 1 [1, 2, 3, 4, 5]
    [[2, 1, 1]] [[2, 1, 1]] (by decide) rfl
  refine ⟨?_, h'.2 (by decide)⟩
  obtain ⟨e, hm, h1, h2, he⟩ := h.1 (by decide)
  have hE : e = (77, 1, 3) := by
    have : e ∈ [((77 : NodeID), (1 : Nat), (3 : ID))] := hm
    simpa using this
  subst hE
  rw [he]
  decide

theorem checkFinishNotify_quiet (env : Env) (h : env.quiet) (b : bootstrapper) :
    (checkFinishNotify env b).2 ≠ some Err.runtimePanic := by
  unfold checkFinishNotify
  simp only []
  split
  · simp
  · exact (h _).2.2.2 _

theorem checkFinishRetry_quiet (env : Env) (h : env.quiet) (b : bootstrapper) (n : Nat) :
    (checkFinishRetry env b n).2 ≠ some Err.runtimePanic := by
  unfold checkFinishRetry
  simp only []
  split
  · exact (h _).2.2.1
  · exact checkFinishNotify_quiet env h _

theorem checkFinishVertices_quiet (env : Env) (h : env.quiet) (b : bootstrapper) :
    (checkFinishVertices env b).2 ≠ some Err.runtimePanic := by
  unfold checkFinishVertices
  simp only []
  split
  · rename_i err heq
    have := (h b.tick).2.1
    rw [heq] at this
    exact this
  · split
    · simp
    · exact checkFinishRetry_quiet env h _ _

theorem checkFinishTxs_quiet (env : Env) (h : env.quiet) (b : bootstrapper) :
    (checkFinishTxs env b).2 ≠ some Err.runtimePanic := by
  unfold checkFinishTxs
  simp only []
  split
  · rename_i err heq
    have := (h b.tick).2.1
    rw [heq] at this
    exact this
  · split
    · simp
    · exact checkFinishVertices_quiet env h _

theorem checkFinish_quiet (env : Env) (h : env.quiet) (b : bootstrapper) :
    (checkFinish env b).2 ≠ some Err.runtimePanic := by
  unfold checkFinish
  simp only []
  split
  · simp
  · exact checkFinishTxs_quiet env h _

theorem fetch_quiet (env : Env) (h : env.quiet) (b : bootstrapper) (vtxIDs : List ID) :
    (fetch env b vtxIDs).2 ≠ some Err.runtimePanic := by
  unfold fetch
  simp only []
  have herr := fetchLoop_error env (IDSet.AddAll b.needToFetch vtxIDs).length
    { b with needToFetch := IDSet.AddAll b.needToFetch vtxIDs }
  split
  · rename_i b1 err heq
    rw [heq] at herr
    obtain ⟨v, hv⟩ := herr err rfl
    rw [hv]
    simp
  · exact checkFinish_quiet env h _

theorem processTxs_quiet (env : Env) (h : env.quiet) (txs : List ID) (b : bootstrapper) :
    (processTxs env txs b).2 ≠ some Err.runtimePanic := by
  induction txs generalizing b with
  | nil => simp [processTxs]
  | cons v vs ih =>
    unfold processTxs
    split
    · rename_i err heq
      have := (h b.tick).1
      rw [heq] at this
      exact this
    · exact ih _

theorem processVertex_quiet (env : Env) (h : env.quiet) (vtxID : ID) (toProcess : List ID)
    (vtxHeightSet : IDSet) (prevHeight : Nat) (b b1 : bootstrapper) (err : Err)
    (hs : processVertex env vtxID toProcess vtxHeightSet prevHeight b
      = Sum.inr (b1, LoopExit.failed err)) : err ≠ Err.runtimePanic := by
  unfold processVertex at hs
  simp only [] at hs
  split at hs
  · rename_i e heq
    simp only [Sum.inr.injEq, Prod.mk.injEq, LoopExit.failed.injEq] at hs
    have := (h b.tick).1
    rw [heq, hs.2] at this
    simpa using this
  · split at hs
    · simp at hs
    · split at hs
      · simp only [Sum.inr.injEq, Prod.mk.injEq, LoopExit.failed.injEq] at hs
        rw [← hs.2]; simp
      · rename_i vtx hvtx
        split at hs
        · rename_i b2 e heq
          simp only [Sum.inr.injEq, Prod.mk.injEq, LoopExit.failed.injEq] at hs
          have := processTxs_quiet env h vtx.txs
            { b.next with needToFetch := IDSet.Remove b.needToFetch vtxID,
                          VtxBlocked := ((b.VtxBlocked.RemoveMissingID vtxID).Push vtxID).1 }
          simp only [bootstrapper.next] at this heq
          rw [heq, hs.2] at this
          simpa using this
        · split at hs <;> simp at hs

theorem processStep_quiet (env : Env) (h : env.quiet) (t : Traversal) (b1 : bootstrapper)
    (err : Err) (hs : processStep env t = Sum.inr (b1, LoopExit.failed err)) :
    err ≠ Err.runtimePanic := by
  unfold processStep at hs
  simp only [] at hs
  split at hs
  · simp at hs
  · split at hs
    · simp at hs
    · split at hs
      · simp at hs
      · simp only [Sum.inr.injEq, Prod.mk.injEq, LoopExit.failed.injEq] at hs
        rw [← hs.2]; simp
      · simp at hs
      · exact processVertex_quiet env h _ _ _ _ _ b1 err hs

theorem processLoop_quiet (env : Env) (h : env.quiet) (fuel : Nat) (t : Traversal)
    (b1 : bootstrapper) (err : Err)
    (hl : processLoop env fuel t = some (b1, LoopExit.failed err)) :
    err ≠ Err.runtimePanic := by
  induction fuel generalizing t with
  | zero =>
    unfold processLoop at hl
    split at hl <;> simp at hl
  | succ fuel ih =>
    unfold processLoop at hl
    split at hl
    · split at hl
      · rename_i exit heq
        simp only [Option.some.injEq] at hl
        rw [hl] at heq
        exact processStep_quiet env h t b1 err heq
      · rename_i t1 heq
        exact ih t1 hl
    · simp at hl

theorem processCommit_quiet (env : Env) (h : env.quiet) (b : bootstrapper) :
    (processCommit env b).2 ≠ some Err.runtimePanic := by
  unfold processCommit
  split
  · rename_i err heq
    have := (h b.tick).1
    rw [heq] at this
    exact this
  · simp only []
    split
    · rename_i err heq
      have := (h (b.next.emit Event.TxBlockedCommit).tick).1
      rw [heq] at this
      exact this
    · exact fetch_quiet env h _ _

theorem process_quiet (env : Env) (h : env.quiet) (b b1 : bootstrapper) (vtxs : List ID)
    (r : Option Err) (hp : process env b vtxs = some (b1, r)) : r ≠ some Err.runtimePanic := by
  unfold process at hp
  simp only [] at hp
  split at hp
  · simp at hp
  · simp only [Option.some.injEq, Prod.mk.injEq] at hp
    rw [← hp.2]; simp
  · rename_i b2 err heq
    simp only [Option.some.injEq, Prod.mk.injEq] at hp
    rw [← hp.2]
    have := processLoop_quiet env h _ _ b2 err heq
    simpa using this
  · rename_i b2 heq
    simp only [Option.some.injEq] at hp
    have := processCommit_quiet env h b2
    rw [hp] at this
    exact this

theorem ancestorsAccepted_quiet (env : Env) (h : env.quiet) (b b1 : bootstrapper) (vtxID : ID)
    (rest : List (List Nat)) (r : Option Err)
    (hp : ancestorsAccepted env b vtxID rest = some (b1, r)) : r ≠ some Err.runtimePanic := by
  unfold ancestorsAccepted at hp
  simp only [] at hp
  split at hp
  · simp only [Option.some.injEq, Prod.mk.injEq] at hp
    rw [← hp.2]; simp
  · rename_i parents _
    have hl := (ancestorsLoop_spec env rest (IDSet.AddAll [] parents) [vtxID]
      { b with needToFetch := IDSet.Remove b.needToFetch vtxID }).1
    split at hp
    · rename_i b2 pv err heq
      rw [heq] at hl
      simp at hl
    · exact process_quiet env h _ b1 _ r hp

theorem ancestorsFirst_quiet (env : Env) (h : env.quiet) (b b1 : bootstrapper)
    (nodeID : NodeID) (requestID : Nat) (first : List Nat) (rest : List (List Nat))
    (r : Option Err)
    (hp : ancestorsFirst env b nodeID requestID (first :: rest) = some (b1, r)) :
    r ≠ some Err.runtimePanic := by
  unfold ancestorsFirst at hp
  simp only [] at hp
  split at hp
  · split at hp
    · simp only [Option.some.injEq, Prod.mk.injEq] at hp
      rw [← hp.2]; simp
    · simp only [Option.some.injEq] at hp
      have := fetch_quiet env h
        { b with OutstandingRequests := (b.OutstandingRequests.Remove nodeID requestID).1 }
        [(b.OutstandingRequests.Remove nodeID requestID).2.1]
      rw [hp] at this
      exact this
  · rename_i manager vtxID hparse
    split at hp
    · simp only [Option.some.injEq] at hp
      have := fetch_quiet env h
        { b with OutstandingRequests := (b.OutstandingRequests.Remove nodeID requestID).1,
                 Manager := manager }
        [(b.OutstandingRequests.Remove nodeID requestID).2.1]
      rw [hp] at this
      exact this
    · split at hp
      · simp only [Option.some.injEq, Prod.mk.injEq] at hp
        rw [← hp.2]; simp
      · exact ancestorsAccepted_quiet env h _ b1 _ _ r hp

theorem GetAncestorsFailed_quiet (env : Env) (h : env.quiet) (b : bootstrapper)
    (nodeID : NodeID) (requestID : Nat) :
    (GetAncestorsFailed env b nodeID requestID).2 ≠ some Err.runtimePanic := by
  unfold GetAncestorsFailed
  simp only []
  split
  · simp
  · exact fetch_quiet env h _ _

/-! ### Claims on the reading of the first container -/

/-- C34: provided `AncestorsMaxContainersReceived` is at least 1, for every container
list: on the empty list the handler `Ancestors` reads no container (it is
`GetAncestorsFailed`); on a list that is not empty the truncation leaves the first
`AncestorsMaxContainersReceived` containers, a list that begins with the first container
of the message, and that is the list the first container is read from; and the handler
returns the value that stands for a run-time panic only if a collaborator answered with
it, so that it indexes nothing out of range.  Whenever the truncation leaves a list, it
is the message or its first `AncestorsMaxContainersReceived` containers.  With a limit
of `0` the truncation leaves the empty list of every message that is not empty, and the
handler, having taken the request out of the table, fails on reading the first
container. -/
theorem C34_first_container_in_range (env : Env) (b : bootstrapper) (nodeID : NodeID)
    (requestID : Nat) (first : List Nat) (rest : List (List Nat)) (vtxs : List (List Nat)) :
    (1 ≤ b.AncestorsMaxContainersReceived →
      Ancestors env b nodeID requestID [] = some (GetAncestorsFailed env b nodeID requestID) ∧
      truncateContainers b.AncestorsMaxContainersReceived (first :: rest) =
        some (first :: rest.take (b.AncestorsMaxContainersReceived.toNat - 1)) ∧
      first :: rest.take (b.AncestorsMaxContainersReceived.toNat - 1) =
        firstContainers b (first :: rest) ∧
      Ancestors env b nodeID requestID (first :: rest) =
        ancestorsFirst env b nodeID requestID
          (first :: rest.take (b.AncestorsMaxContainersReceived.toNat - 1)) ∧
      (env.quiet → ∀ b1 r, Ancestors env b nodeID requestID vtxs = some (b1, r) →
        r ≠ some Err.runtimePanic)) ∧
    (∀ left, truncateContainers b.AncestorsMaxContainersReceived vtxs = some left →
      left = vtxs ∨ left = firstContainers b vtxs) ∧
    (b.AncestorsMaxContainersReceived = 0 →
      truncateContainers b.AncestorsMaxContainersReceived (first :: rest) = some [] ∧
      Ancestors env b nodeID requestID (first :: rest) =
        some ({ b with OutstandingRequests :=
                  (b.OutstandingRequests.Remove nodeID requestID).1 },
          some Err.runtimePanic)) := by
  refine ⟨fun hlim => ⟨rfl, truncateContainers_cons _ _ _ hlim, ?_,
    Ancestors_cons env b nodeID requestID first rest hlim, ?_⟩, ?_, ?_⟩
  · unfold firstContainers
    obtain ⟨k, hk⟩ : ∃ k, b.AncestorsMaxContainersReceived.toNat = k + 1 :=
      ⟨b.AncestorsMaxContainersReceived.toNat - 1, by omega⟩
    rw [hk]
    simp
  · intro hq b1 r hres
    cases vtxs with
    | nil =>
      have : Ancestors env b nodeID requestID [] =
          some (GetAncestorsFailed env b nodeID requestID) := rfl
      rw [this] at hres
      simp only [Option.some.injEq] at hres
      have h2 := GetAncestorsFailed_quiet env hq b nodeID requestID
      rw [hres] at h2
      exact h2
    | cons c cs =>
      rw [Ancestors_cons env b nodeID requestID c cs hlim] at hres
      exact ancestorsFirst_quiet env hq b b1 nodeID requestID c _ r hres
  · intro left hleft
    unfold truncateContainers at hleft
    split at hleft
    · split at hleft
      · simp at hleft
      · simp only [Option.some.injEq] at hleft
        right; rw [← hleft]; rfl
    · simp only [Option.some.injEq] at hleft
      left; exact hleft.symm
  · intro h0
    have ht : truncateContainers b.AncestorsMaxContainersReceived (first :: rest) = some [] := by
      unfold truncateContainers
      rw [h0]
      simp
    refine ⟨ht, ?_⟩
    unfold Ancestors
    rw [if_neg (by simp), ht]
    rfl

/-- The theorem `C34_first_container_in_range` on two states.  In the example state,
which reads at most ten containers, the message of the containers of the vertices `3` and
`2` is read in full, its first container is taken, and the handler, whose collaborators
do not panic, does not return a run-time panic.  In the state that reads no container
the same message is emptied and taking its first container is a run-time panic. -/
theorem C34_witness :
    (truncateContainers exampleOneRequest.AncestorsMaxContainersReceived [[3, 2, 2], [2, 1, 1]] =
        some [[3, 2, 2], [2, 1, 1]] ∧
      Ancestors exampleEnv exampleOneRequest 77 1 [[3, 2, 2], [2, 1, 1]] =
        ancestorsFirst exampleEnv exampleOneRequest 77 1 [[3, 2, 2], [2, 1, 1]] ∧
      ∀ b1 r, Ancestors exampleEnv exampleOneRequest 77 1 [[3, 2, 2], [2, 1, 1]] = some (b1, r) →
        r ≠ some Err.runtimePanic) ∧
    (truncateContainers zeroLimit.AncestorsMaxContainersReceived [[3, 2, 2], [2, 1, 1]] = some [] ∧
      Ancestors exampleEnv zeroLimit 77 1 [[3, 2, 2], [2, 1, 1]] =
        some ({ zeroLimit with
                OutstandingRequests := (zeroLimit.OutstandingRequests.Remove 77 1).1 },
              some Err.runtimePanic)) := by
  have hq : exampleEnv.quiet := fun tick =>
    ⟨by simp [exampleEnv], by simp [exampleEnv], by simp [exampleEnv],
      fun _ => by simp [exampleEnv]⟩
  have h1 := (C34_first_container_in_range exampleEnv exampleOneRequest 77 1 [3, 2, 2]
    [[2, 1, 1]] [[3, 2, 2], [2, 1, 1]]).1 (by decide)
  have h2 := (C34_first_container_in_range exampleEnv zeroLimit 77 1 [3, 2, 2]
    [[2, 1, 1]] []).2.2 rfl
  exact ⟨⟨h1.2.1, h1.2.2.2.1, h1.2.2.2.2 hq⟩, h2⟩

/-! ### The traversal of process and the processed cache -/

theorem LRU.Put_head (c : LRU) (key : ID) (h : 0 < c.Size) :
    (c.Put key).entries.head? = some key ∧ key ∈ (c.Put key).entries := by
  unfold LRU.Put
  obtain ⟨k, hk⟩ : ∃ k, c.Size = k + 1 := ⟨c.Size - 1, by omega⟩
  simp only [hk, List.take_succ_cons, List.head?_cons, List.mem_cons, true_or, and_self]

theorem processParents_Size (vtxHeightSet : IDSet) (parents : List ID) (cache : LRU)
    (toProcess : List ID) :
    (processParents vtxHeightSet parents cache toProcess).1.Size = cache.Size := by
  induction parents generalizing cache toProcess with
  | nil => rfl
  | cons p ps ih =>
    have hg : (cache.Get p).1.Size = cache.Size := by
      unfold LRU.Get
      split <;> rfl
    unfold processParents
    simp only []
    split
    · split
      · rw [ih]; exact hg
      · rw [ih]; exact hg
    · rw [ih]; exact hg

/-- The case `choices.Processing` of an iteration that does not end the loop: what it
does to the processed cache. -/
theorem processVertex_cache (env : Env) (v : ID) (rest : List ID) (hs : IDSet) (ph : Nat)
    (b : bootstrapper) (t1 : Traversal)
    (h : processVertex env v rest hs ph b = Sum.inl t1) :
    (v ∈ b.VtxBlocked.jobs → t1.b.processedCache = b.processedCache) ∧
    (v ∉ b.VtxBlocked.jobs →
      ∃ vtx walked, b.Manager.GetVtx v = some vtx ∧
        (∀ x, x ∈ walked.entries ↔ x ∈ b.processedCache.entries) ∧
        walked.Size = b.processedCache.Size ∧
        t1.b.processedCache =
          if vtx.height % stripeDistance < stripeWidth then walked.Put v else walked) := by
  unfold processVertex at h
  simp only [] at h
  split at h
  · simp at h
  · split at h
    · rename_i hpushed
      have hin : v ∈ b.VtxBlocked.jobs := by
        by_contra hnot
        unfold JobsWithMissing.Push at hpushed
        have : v ∉ (b.VtxBlocked.RemoveMissingID v).jobs := hnot
        rw [if_neg this] at hpushed
        simp at hpushed
      simp only [Sum.inl.injEq] at h
      rw [← h]
      exact ⟨fun _ => rfl, fun hnot => absurd hin hnot⟩
    · rename_i hpushed
      split at h
      · simp at h
      · rename_i vtx hvtx
        have hnot : v ∉ b.VtxBlocked.jobs := by
          intro hin
          apply hpushed
          unfold JobsWithMissing.Push
          have : v ∈ (b.VtxBlocked.RemoveMissingID v).jobs := hin
          rw [if_pos this]
          rfl
        have hg : b.Manager.GetVtx v = some vtx := hvtx
        obtain ⟨-, -, hf3, -⟩ := processTxs_fields env vtx.txs
          { b.next with needToFetch := IDSet.Remove b.needToFetch v,
                        VtxBlocked := ((b.VtxBlocked.RemoveMissingID v).Push v).1 }
        split at h
        · simp at h
        · rename_i b2 heq
          simp only [bootstrapper.next] at hf3 heq
          rw [heq] at hf3
          simp only [] at hf3
          obtain ⟨-, -, hp3⟩ := processParents_effect hs vtx.parents b2.processedCache rest
          have hsz := processParents_Size hs vtx.parents b2.processedCache rest
          rw [hf3] at hp3 hsz
          refine ⟨fun hin => absurd hin hnot, fun _ => ⟨vtx, _, hg, hp3, hsz, ?_⟩⟩
          split at h
          · simp only [Sum.inl.injEq] at h
            rw [← h, hf3]
          · simp only [Sum.inl.injEq] at h
            rw [← h, hf3]

/-- The case `choices.Processing` of an iteration that ends the loop leaves the
processed cache as it is. -/
theorem processVertex_exit_cache (env : Env) (v : ID) (rest : List ID) (hs : IDSet) (ph : Nat)
    (b b2 : bootstrapper) (e : LoopExit)
    (h : processVertex env v rest hs ph b = Sum.inr (b2, e)) :
    b2.processedCache = b.processedCache := by
  unfold processVertex at h
  simp only [] at h
  split at h
  · simp only [Sum.inr.injEq, Prod.mk.injEq] at h
    rw [← h.1]; rfl
  · split at h
    · simp at h
    · split at h
      · simp only [Sum.inr.injEq, Prod.mk.injEq] at h
        rw [← h.1]; rfl
      · rename_i vtx hvtx
        obtain ⟨-, -, hf3, -⟩ := processTxs_fields env vtx.txs
          { b.next with needToFetch := IDSet.Remove b.needToFetch v,
                        VtxBlocked := ((b.VtxBlocked.RemoveMissingID v).Push v).1 }
        split at h
        · rename_i b3 err heq
          simp only [bootstrapper.next] at hf3 heq
          rw [heq] at hf3
          simp only [Sum.inr.injEq, Prod.mk.injEq] at h
          rw [← h.1]
          exact hf3
        · split at h <;> simp at h

/-- An iteration of the traversal loop that does not end the loop pops a vertex and
does to the processed cache what `CacheStep` says. -/
theorem processStep_cache (env : Env) (t t1 : Traversal)
    (h : processStep env t = Sum.inl t1) :
    ∃ v rest, env.Halted t.b.tick = false ∧
      heapPop t.b.Manager t.toProcess = some (v, rest) ∧ CacheStep t t1 v := by
  unfold processStep at h
  simp only [next_Manager] at h
  split at h
  · simp at h
  · rename_i hh
    split at h
    · simp at h
    · rename_i v rest hpop
      refine ⟨v, rest, by simpa using hh, hpop, ?_⟩
      unfold CacheStep
      split at h
      · rename_i hst
        simp only [Sum.inl.injEq] at h
        rw [← h]
        exact ⟨fun _ => rfl, fun hp => by rw [hst] at hp; cases hp⟩
      · simp at h
      · rename_i hst
        simp only [Sum.inl.injEq] at h
        rw [← h]
        exact ⟨fun _ => rfl, fun hp => by rw [hst] at hp; cases hp⟩
      · rename_i hst
        obtain ⟨h1, h2⟩ := processVertex_cache env v rest t.vtxHeightSet t.prevHeight t.b.next t1 h
        refine ⟨fun hc => ?_, fun _ hn => h2 hn⟩
        rcases hc with hc | hc
        · exact absurd hst hc
        · exact h1 hc

/-- An iteration of the traversal loop that ends the loop leaves the processed cache as
it is. -/
theorem processStep_exit_cache (env : Env) (t : Traversal) (b2 : bootstrapper) (e : LoopExit)
    (h : processStep env t = Sum.inr (b2, e)) : b2.processedCache = t.b.processedCache := by
  unfold processStep at h
  simp only [next_Manager] at h
  split at h
  · simp only [Sum.inr.injEq, Prod.mk.injEq] at h
    rw [← h.1]; rfl
  · split at h
    · simp only [Sum.inr.injEq, Prod.mk.injEq] at h
      rw [← h.1]; rfl
    · split at h
      · simp at h
      · simp only [Sum.inr.injEq, Prod.mk.injEq] at h
        rw [← h.1]; rfl
      · simp at h
      · exact (processVertex_exit_cache env _ _ _ _ _ b2 e h).trans rfl

/-- What `CacheStep` means for the ids in the cache: an id that is in the cache after
the iteration was in it before or is the popped vertex, which then is Processing, has a
new job and is on a stripe; and when the cache has room for an entry, the popped vertex
is in the cache after the iteration if it is Processing, has a new job and is on a
stripe. -/
theorem CacheStep_entries (t t1 : Traversal) (v : ID) (h : CacheStep t t1 v) :
    (∀ x ∈ t1.b.processedCache.entries, x ∈ t.b.processedCache.entries ∨
      (x = v ∧ t.b.Manager.Status v = Status.Processing ∧ v ∉ t.b.VtxBlocked.jobs ∧
        ∃ vtx, t.b.Manager.GetVtx v = some vtx ∧ onStripe vtx.height)) ∧
    (0 < t.b.processedCache.Size → t.b.Manager.Status v = Status.Processing →
      v ∉ t.b.VtxBlocked.jobs →
      (∃ vtx, t.b.Manager.GetVtx v = some vtx ∧ onStripe vtx.height) →
      t1.b.processedCache.entries.head? = some v ∧ v ∈ t1.b.processedCache.entries) := by
  obtain ⟨h1, h2⟩ := h
  constructor
  · intro x hx
    by_cases hc : t.b.Manager.Status v ≠ Status.Processing ∨ v ∈ t.b.VtxBlocked.jobs
    · rw [h1 hc] at hx
      exact Or.inl hx
    · simp only [not_or, not_not] at hc
      obtain ⟨vtx, walked, hg, hw, -, hcache⟩ := h2 hc.1 hc.2
      rw [hcache] at hx
      split at hx
      · rename_i hstripe
        rcases LRU.Put_entries _ _ _ hx with hx1 | hx1
        · exact Or.inl ((hw x).mp hx1)
        · exact Or.inr ⟨hx1, hc.1, hc.2, vtx, hg, hstripe⟩
      · exact Or.inl ((hw x).mp hx)
  · intro hsize hst hnew ⟨vtx, hg, hstripe⟩
    obtain ⟨vtx1, walked, hg1, -, hsz, hcache⟩ := h2 hst hnew
    rw [hg] at hg1
    simp only [Option.some.injEq] at hg1
    rw [← hg1] at hcache
    have hstripe1 : vtx.height % stripeDistance < stripeWidth := hstripe
    rw [hcache, if_pos hstripe1]
    exact LRU.Put_head walked v (by rw [hsz]; exact hsize)

/-! ### The end of process and the processed cache -/

theorem checkFinishNotify_cache (env : Env) (b : bootstrapper) :
    ∀ x ∈ (checkFinishNotify env b).1.processedCache.entries, x ∈ b.processedCache.entries := by
  unfold checkFinishNotify
  simp only []
  split
  · simp [LRU.Flush]
  · simp [OnFinished_fst, LRU.Flush]

theorem checkFinishRetry_cache (env : Env) (b : bootstrapper) (n : Nat) :
    ∀ x ∈ (checkFinishRetry env b n).1.processedCache.entries, x ∈ b.processedCache.entries := by
  unfold checkFinishRetry
  simp only []
  split
  · simp [Restart_fst]
  · exact checkFinishNotify_cache env _

theorem checkFinishVertices_cache (env : Env) (b : bootstrapper) :
    ∀ x ∈ (checkFinishVertices env b).1.processedCache.entries, x ∈ b.processedCache.entries := by
  unfold checkFinishVertices
  simp only []
  split
  · simp
  · split
    · simp
    · intro x hx
      have := checkFinishRetry_cache env _ _ x hx
      simpa using this

theorem checkFinishTxs_cache (env : Env) (b : bootstrapper) :
    ∀ x ∈ (checkFinishTxs env b).1.processedCache.entries, x ∈ b.processedCache.entries := by
  unfold checkFinishTxs
  simp only []
  split
  · simp
  · split
    · simp
    · intro x hx
      have := checkFinishVertices_cache env _ x hx
      simpa using this

theorem checkFinish_cache (env : Env) (b : bootstrapper) :
    ∀ x ∈ (checkFinish env b).1.processedCache.entries, x ∈ b.processedCache.entries := by
  unfold checkFinish
  simp only []
  split
  · simp
  · intro x hx
    have := checkFinishTxs_cache env _ x hx
    simpa using this

theorem fetchStep_cache (env : Env) (b : bootstrapper) :
    (fetchStep env b).1.processedCache = b.processedCache := by
  unfold fetchStep
  simp only []
  split
  · simp
  · split
    · simp
    · split <;> simp

theorem fetchLoop_cache (env : Env) (fuel : Nat) (b : bootstrapper) :
    (fetchLoop env fuel b).1.processedCache = b.processedCache := by
  induction fuel generalizing b with
  | zero => rfl
  | succ fuel ih =>
    unfold fetchLoop
    have hs := fetchStep_cache env b
    split
    · split
      · rename_i b1 err heq
        rw [heq] at hs; exact hs
      · rename_i b1 heq
        rw [heq] at hs
        exact (ih b1).trans hs
    · rfl

theorem fetch_cache (env : Env) (b : bootstrapper) (vtxIDs : List ID) :
    ∀ x ∈ (fetch env b vtxIDs).1.processedCache.entries, x ∈ b.processedCache.entries := by
  unfold fetch
  simp only []
  have hl := fetchLoop_cache env (IDSet.AddAll b.needToFetch vtxIDs).length
    { b with needToFetch := IDSet.AddAll b.needToFetch vtxIDs }
  split
  · rename_i b1 err heq
    rw [heq] at hl
    intro x hx
    have hl1 : b1.processedCache = b.processedCache := hl
    rw [← hl1]; exact hx
  · rename_i b1 heq
    rw [heq] at hl
    intro x hx
    have hl1 : b1.processedCache = b.processedCache := hl
    rw [← hl1]
    exact checkFinish_cache env b1 x hx

theorem processCommit_cache (env : Env) (b : bootstrapper) :
    ∀ x ∈ (processCommit env b).1.processedCache.entries, x ∈ b.processedCache.entries := by
  unfold processCommit
  split
  · intro x hx; exact hx
  · simp only []
    split
    · intro x hx; exact hx
    · intro x hx
      have := fetch_cache env _ [] x hx
      simpa using this

/-- Whatever is in the processed cache when `process` returns was in it when `process`
was called, or is a vertex that was Processing, had no job in the blocked vertex queue,
and has a height on a stripe. -/
theorem process_cache (env : Env) (b b1 : bootstrapper) (vtxs : List ID) (r : Option Err)
    (hp : process env b vtxs = some (b1, r)) :
    ∀ x ∈ b1.processedCache.entries, CacheOrigin b x := by
  have hstart : CacheInvariant b
      ⟨(processSeed vtxs b []).2, [], 0, (processSeed vtxs b []).1⟩ := by
    obtain ⟨e1, e2, -, -, e5, -⟩ := processSeed_effect vtxs b []
    refine ⟨e1, fun x hx => ?_, fun x hx => Or.inl ((e5 x).mp hx)⟩
    show x ∈ (processSeed vtxs b []).1.VtxBlocked.jobs
    rw [e2]; exact hx
  have hstep : ∀ t t1, CacheInvariant b t → 0 < t.toProcess.length →
      processStep env t = Sum.inl t1 → CacheInvariant b t1 := by
    intro t t1 ⟨hm, hj, hc⟩ _ hs
    obtain ⟨v, -, hT⟩ := processStep_effect env t t1 hs
    obtain ⟨e1, -, -, e4, -⟩ := hT
    obtain ⟨v1, rest, -, -, hcs⟩ := processStep_cache env t t1 hs
    refine ⟨e1.trans hm, fun x hx => e4 x (hj x hx), fun x hx => ?_⟩
    rcases (CacheStep_entries t t1 v1 hcs).1 x hx with h1 | ⟨hx1, hst, hnew, vtx, hg, hstripe⟩
    · exact hc x h1
    · right
      rw [hx1]
      rw [hm] at hst hg
      exact ⟨hst, fun hin => hnew (hj v1 hin), vtx, hg, hstripe⟩
  have hexit : ∀ (b2 : bootstrapper) (e : LoopExit),
      processLoop env (processFuel (processSeed vtxs b []).1 (processSeed vtxs b []).2)
        ⟨(processSeed vtxs b []).2, [], 0, (processSeed vtxs b []).1⟩ = some (b2, e) →
      ∀ x ∈ b2.processedCache.entries, CacheOrigin b x := by
    intro b2 e heq x hx
    obtain ⟨t1, hP, h1 | h1⟩ := processLoop_invariant env (CacheInvariant b) hstep
      (processFuel (processSeed vtxs b []).1 (processSeed vtxs b []).2)
      ⟨(processSeed vtxs b []).2, [], 0, (processSeed vtxs b []).1⟩ b2 e hstart heq
    · rw [← h1.2.1] at hx
      exact hP.2.2 x hx
    · rw [processStep_exit_cache env t1 b2 e h1.2] at hx
      exact hP.2.2 x hx
  unfold process at hp
  simp only [] at hp
  split at hp
  · simp at hp
  · rename_i b2 heq
    simp only [Option.some.injEq, Prod.mk.injEq] at hp
    rw [← hp.1]
    exact hexit b2 _ heq
  · rename_i b2 err heq
    simp only [Option.some.injEq, Prod.mk.injEq] at hp
    rw [← hp.1]
    exact hexit b2 _ heq
  · rename_i b2 heq
    simp only [Option.some.injEq] at hp
    intro x hx
    have hc := processCommit_cache env b2 x (by rw [hp]; exact hx)
    exact hexit b2 _ heq x hc

/-! ### Claims on the processed cache -/

/-- C32, amended: an iteration of the traversal loop of `process` that ends the loop
(the engine is halted, the popped vertex was rejected, or a write to a queue fails, as
when a transaction of the vertex cannot be pushed) leaves the processed cache as it is.
An iteration that does not end the loop pops a vertex `v`, changes the cache as
`CacheStep` says, puts no other id into the cache, and, `v` not being in the cache and
the cache having room for an entry, has put `v`
into the cache if and only if `v` had the status Processing, its job was new in the
blocked vertex queue and its height `h` satisfies `h mod 2000 < 5`.  Hence an id that is
in the cache when `process` returns and was not when `process` was called is that of a
vertex that was Processing, had no job in the queue and is at such a height: vertices at
any other height are never inserted. -/
theorem C32_cache_put_on_stripe (env : Env) (t t1 : Traversal) (b b1 : bootstrapper)
    (vtxs : List ID) (r : Option Err) :
    (∀ b2 e, processStep env t = Sum.inr (b2, e) → b2.processedCache = t.b.processedCache) ∧
    (processStep env t = Sum.inl t1 →
      ∃ v rest, env.Halted t.b.tick = false ∧
        heapPop t.b.Manager t.toProcess = some (v, rest) ∧ CacheStep t t1 v ∧
        (∀ x ∈ t1.b.processedCache.entries, x ∈ t.b.processedCache.entries ∨ x = v) ∧
        (v ∉ t.b.processedCache.entries → 0 < t.b.processedCache.Size →
          (v ∈ t1.b.processedCache.entries ↔
            (t.b.Manager.Status v = Status.Processing ∧ v ∉ t.b.VtxBlocked.jobs ∧
              ∃ vtx, t.b.Manager.GetVtx v = some vtx ∧ vtx.height % 2000 < 5)))) ∧
    (process env b vtxs = some (b1, r) →
      ∀ x ∈ b1.processedCache.entries, x ∉ b.processedCache.entries →
        b.Manager.Status x = Status.Processing ∧ x ∉ b.VtxBlocked.jobs ∧
          ∃ vtx, b.Manager.GetVtx x = some vtx ∧ vtx.height % 2000 < 5) := by
  refine ⟨fun b2 e h => processStep_exit_cache env t b2 e h, fun h => ?_, fun h x hx hn => ?_⟩
  · obtain ⟨v, rest, hh, hpop, hcs⟩ := processStep_cache env t t1 h
    obtain ⟨h1, h2⟩ := CacheStep_entries t t1 v hcs
    refine ⟨v, rest, hh, hpop, hcs, fun x hx => ?_, fun hnot hsize => ⟨fun hin => ?_, fun hc => ?_⟩⟩
    · rcases h1 x hx with h3 | h3
      · exact Or.inl h3
      · exact Or.inr h3.1
    · rcases h1 v hin with h3 | h3
      · exact absurd h3 hnot
      · exact ⟨h3.2.1, h3.2.2.1, h3.2.2.2⟩
    · exact (h2 hsize hc.1 hc.2.1 hc.2.2).2
  · rcases process_cache env b b1 vtxs r h x hx with h3 | h3
    · exact absurd h3 hn
    · exact h3

/-- The theorem `C32_cache_put_on_stripe` on the first iteration of `process` for the
vertex `3`: at height `2` the vertex is put into the cache, at height `7` it is not. -/
theorem C32_witness :
    (stepState (processStep exampleEnv (processStart (New singleConfig) [3]))
      ).processedCache.entries = [3] ∧
    3 ∉ (stepState (processStep exampleEnv (processStart (New offStripeConfig) [3]))
      ).processedCache.entries := by
  refine ⟨by decide, ?_⟩
  obtain ⟨t1, ht1⟩ : ∃ t1, processStep exampleEnv (processStart (New offStripeConfig) [3])
      = Sum.inl t1 := ⟨_, rfl⟩
  obtain ⟨v, rest, -, hpop, -, -, hiff⟩ := (C32_cache_put_on_stripe exampleEnv
    (processStart (New offStripeConfig) [3]) t1 (New offStripeConfig) (New offStripeConfig) []
    none).2.1 ht1
  have hv : heapPop (processStart (New offStripeConfig) [3]).b.Manager
      (processStart (New offStripeConfig) [3]).toProcess = some (3, []) := by decide
  rw [hv] at hpop
  simp only [Option.some.injEq, Prod.mk.injEq] at hpop
  rw [← hpop.1] at hiff
  rw [ht1]
  intro hin
  have := (hiff (by decide) (by decide)).mp hin
  obtain ⟨-, -, vtx, hg, hlt⟩ := this
  have hg3 : (processStart (New offStripeConfig) [3]).b.Manager.GetVtx 3
      = some ⟨3, [1], 7, [], Status.Processing⟩ := by decide
  rw [hg3] at hg
  simp only [Option.some.injEq] at hg
  rw [← hg] at hlt
  exact absurd hlt (by decide)

/-- C32 fails as stated: vertex `3` of the store is Processing, has no job in the
blocked vertex queue and is at height `2`, and `2 mod 2000 < 5`.  `process` for this
vertex pushes its job, and the push of its transaction `7` fails; `process` returns the
error, the job of `3` is new in the queue, and `3` was not put into the processed
cache. -/
theorem C32_counterexample :
    (New txConfig).Manager.GetVtx 3 = some ⟨3, [1], 2, [7], Status.Processing⟩ ∧
    3 ∉ (New txConfig).VtxBlocked.jobs ∧ 2 % 2000 < 5 ∧
    process (failingWriteEnv 2) (New txConfig) [3] =
      some ({ New txConfig with
              VtxBlocked := { jobs := [3], missing := [] }
              tick := 3 },
            some (Err.external 1)) ∧
    (New txConfig).processedCache.entries = [] := by
  refine ⟨by decide, by decide, by decide, by decide, rfl⟩

end bootstrap

/-! ## Theorems: linearization shims -/

namespace chains

/-! ### Claims on the linearization shims -/

/-- C23: `initializeOnLinearizeVM.Linearize(ctx, stop)` stores `stop` as the stop vertex
of the paired shim and leaves the rest of that shim alone, sets `Metrics` of the
captured `snow.Context` to the captured gatherer and leaves the captured parameters
alone, makes one call to the VM to initialize, `Initialize` with the context of the
call and the captured `snow.Context` (whose `Metrics` is by then the gatherer), database
manager, genesis, upgrade and config bytes, `toEngine` channel, fxs and `appSender`, and
returns the error of that call. -/
theorem C23_Linearize_initializes (vm : initializeOnLinearizeVM) (ctx : Nat) (stop : ID) :
    (vm.Linearize ctx stop).1.vmToLinearize = { vm.vmToLinearize with stopVertexID := stop } ∧
    (vm.Linearize ctx stop).1.ctx = { vm.ctx with Metrics := vm.registerer } ∧
    (vm.Linearize ctx stop).1.calls = vm.calls ++
      [VMCall.Initialize ⟨ctx, { vm.ctx with Metrics := vm.registerer }, vm.dbManager,
        vm.genesisBytes, vm.upgradeBytes, vm.configBytes, vm.toEngine, vm.fxs, vm.appSender⟩] ∧
    (vm.Linearize ctx stop).2 = vm.vmToInitialize.Initialize vm.calls.length
      ⟨ctx, { vm.ctx with Metrics := vm.registerer }, vm.dbManager,
        vm.genesisBytes, vm.upgradeBytes, vm.configBytes, vm.toEngine, vm.fxs, vm.appSender⟩ ∧
    (vm.Linearize ctx stop).1 =
      { vm with vmToLinearize := (vm.Linearize ctx stop).1.vmToLinearize
                ctx := (vm.Linearize ctx stop).1.ctx
                calls := (vm.Linearize ctx stop).1.calls } :=
  ⟨rfl, rfl, rfl, rfl, rfl⟩

/-- The theorem `C23_Linearize_initializes` on the shims of the examples: the VM to
initialize finds the gatherer `8` in the context it is given, and the paired shim holds
the stop vertex `42`. -/
theorem C23_witness :
    (exampleShims.Linearize 11 42).2 = some (Err.external 8) ∧
    (exampleShims.Linearize 11 42).1.vmToLinearize.stopVertexID = 42 ∧
    (exampleShims.Linearize 11 42).1.calls =
      [VMCall.Initialize ⟨11, ⟨1, 8⟩, 2, [3], [4], [5], 6, [7], 9⟩] :=
  ⟨(C23_Linearize_initializes exampleShims 11 42).2.2.2.1,
   congrArg linearizeOnInitializeVM.stopVertexID (C23_Linearize_initializes exampleShims 11 42).1,
   (C23_Linearize_initializes exampleShims 11 42).2.2.1⟩

/-- C24: after `initializeOnLinearizeVM.Linearize(ctx, s)` has run, a call of
`Initialize` of the paired shim, whatever its arguments, makes one call to the wrapped
VM, `Linearize` with the context of the call, the stop vertex `s` and the `toEngine`
channel it was given, and returns the error of that call; a second choice of the
`snow.Context`, database manager, genesis, upgrade and config bytes, fxs and
`appSender` gives the same result and the same state. -/
theorem C24_Initialize_linearizes (vm : initializeOnLinearizeVM) (ctx : Nat) (s : ID)
    (args other : InitializeArgs) :
    ((vm.Linearize ctx s).1.vmToLinearize.Initialize args.ctx args.chainCtx args.dbManager
        args.genesisBytes args.upgradeBytes args.configBytes args.toEngine args.fxs
        args.appSender).2 =
      vm.vmToLinearize.LinearizableVMWithEngine.Linearize vm.vmToLinearize.calls.length
        args.ctx s args.toEngine ∧
    ((vm.Linearize ctx s).1.vmToLinearize.Initialize args.ctx args.chainCtx args.dbManager
        args.genesisBytes args.upgradeBytes args.configBytes args.toEngine args.fxs
        args.appSender).1 =
      { vm.vmToLinearize with
        stopVertexID := s
        calls := vm.vmToLinearize.calls ++ [VMCall.Linearize args.ctx s args.toEngine] } ∧
    (vm.Linearize ctx s).1.vmToLinearize.Initialize args.ctx other.chainCtx other.dbManager
        other.genesisBytes other.upgradeBytes other.configBytes args.toEngine other.fxs
        other.appSender =
      (vm.Linearize ctx s).1.vmToLinearize.Initialize args.ctx args.chainCtx args.dbManager
        args.genesisBytes args.upgradeBytes args.configBytes args.toEngine args.fxs
        args.appSender :=
  ⟨rfl, rfl, rfl⟩

/-- The theorem `C24_Initialize_linearizes` on the shims of the examples, after
`Linearize` with the stop vertex `42`: `Initialize` of the paired shim, given the
context `12` and the channel `13`, calls `Linearize` of the wrapped VM with the stop
vertex `42`, which that VM returns as its error code. -/
theorem C24_witness :
    ((exampleShims.Linearize 11 42).1.vmToLinearize.Initialize 12 ⟨0, 0⟩ 0 [] [] [] 13 [] 0).2 =
      some (Err.external 42) ∧
    ((exampleShims.Linearize 11 42).1.vmToLinearize.Initialize 12 ⟨0, 0⟩ 0 [] [] [] 13 [] 0).1.calls =
      [VMCall.Linearize 12 42 13] :=
  ⟨(C24_Initialize_linearizes exampleShims 11 42 ⟨12, ⟨0, 0⟩, 0, [], [], [], 13, [], 0⟩
      ⟨12, ⟨0, 0⟩, 0, [], [], [], 13, [], 0⟩).1,
   congrArg linearizeOnInitializeVM.calls
     (C24_Initialize_linearizes exampleShims 11 42 ⟨12, ⟨0, 0⟩, 0, [], [], [], 13, [], 0⟩
      ⟨12, ⟨0, 0⟩, 0, [], [], [], 13, [], 0⟩).2.1⟩

/-- No method of the shim changes the wrapped VM or its view as a height-indexed VM. -/
theorem ShimCall.run_hVM (vm : linearizeOnInitializeVM) (call : ShimCall) :
    (call.run vm).hVM = vm.hVM ∧
    (call.run vm).LinearizableVMWithEngine = vm.LinearizableVMWithEngine := by
  cases call with
  | Initialize args => exact ⟨rfl, rfl⟩
  | VerifyHeightIndex ctx =>
    simp only [ShimCall.run, linearizeOnInitializeVM.VerifyHeightIndex]
    split <;> exact ⟨rfl, rfl⟩
  | GetBlockIDAtHeight ctx height =>
    simp only [ShimCall.run, linearizeOnInitializeVM.GetBlockIDAtHeight]
    split <;> exact ⟨rfl, rfl⟩
  | stop stopVertexID => exact ⟨rfl, rfl⟩

theorem runShim_hVM (calls : List ShimCall) (vm : linearizeOnInitializeVM) :
    (runShim vm calls).hVM = vm.hVM := by
  induction calls generalizing vm with
  | nil => rfl
  | cons call calls ih =>
    show (runShim (call.run vm) calls).hVM = vm.hVM
    rw [ih, (ShimCall.run_hVM vm call).1]

/-- With a height-indexed VM behind it, the shim hands both calls on. -/
theorem heightIndex_delegated (s : linearizeOnInitializeVM) (hVM : HeightIndexedChainVM)
    (h : s.hVM = some hVM) (ctx height : Nat) :
    s.VerifyHeightIndex ctx =
      ({ s with calls := s.calls ++ [VMCall.VerifyHeightIndex ctx] },
        hVM.VerifyHeightIndex s.calls.length ctx) ∧
    s.GetBlockIDAtHeight ctx height =
      ({ s with calls := s.calls ++ [VMCall.GetBlockIDAtHeight ctx height] },
        hVM.GetBlockIDAtHeight s.calls.length ctx height) := by
  unfold linearizeOnInitializeVM.VerifyHeightIndex linearizeOnInitializeVM.GetBlockIDAtHeight
  constructor
  · split
    · rename_i heq; rw [h] at heq; cases heq
    · rename_i h1 heq
      rw [h] at heq
      cases heq
      rfl
  · split
    · rename_i heq; rw [h] at heq; cases heq
    · rename_i h1 heq
      rw [h] at heq
      cases heq
      rfl

/-- Without a height-indexed VM behind it, the shim answers both calls itself. -/
theorem heightIndex_missing (s : linearizeOnInitializeVM) (h : s.hVM = none)
    (ctx height : Nat) :
    s.VerifyHeightIndex ctx = (s, some Err.ErrHeightIndexedVMNotImplemented) ∧
    s.GetBlockIDAtHeight ctx height = (s, 0, some Err.ErrHeightIndexedVMNotImplemented) := by
  unfold linearizeOnInitializeVM.VerifyHeightIndex linearizeOnInitializeVM.GetBlockIDAtHeight
  constructor
  · split
    · rfl
    · rename_i h1 heq; rw [h] at heq; cases heq
  · split
    · rfl
    · rename_i h1 heq; rw [h] at heq; cases heq

/-- C25: for the shim `NewLinearizeOnInitializeVM(vm)` builds, after any calls of its
methods and assignments of the stop vertex: if `vm` implements the height index,
`VerifyHeightIndex` and `GetBlockIDAtHeight` each make one call to `vm`, the method of
the same name with the same arguments, and return what that call returns; otherwise
they make no call, `VerifyHeightIndex` returns `ErrHeightIndexedVMNotImplemented` and
`GetBlockIDAtHeight` returns the empty id with the same error, for every height. -/
theorem C25_height_index_delegated (vm : LinearizableVMWithEngine) (calls : List ShimCall)
    (ctx height : Nat) :
    (∀ hVM, vm.heightIndexed = some hVM →
      (runShim (NewLinearizeOnInitializeVM vm) calls).VerifyHeightIndex ctx =
        ({ runShim (NewLinearizeOnInitializeVM vm) calls with
            calls := (runShim (NewLinearizeOnInitializeVM vm) calls).calls ++
              [VMCall.VerifyHeightIndex ctx] },
          hVM.VerifyHeightIndex (runShim (NewLinearizeOnInitializeVM vm) calls).calls.length
            ctx) ∧
      (runShim (NewLinearizeOnInitializeVM vm) calls).GetBlockIDAtHeight ctx height =
        ({ runShim (NewLinearizeOnInitializeVM vm) calls with
            calls := (runShim (NewLinearizeOnInitializeVM vm) calls).calls ++
              [VMCall.GetBlockIDAtHeight ctx height] },
          hVM.GetBlockIDAtHeight (runShim (NewLinearizeOnInitializeVM vm) calls).calls.length
            ctx height)) ∧
    (vm.heightIndexed = none →
      (runShim (NewLinearizeOnInitializeVM vm) calls).VerifyHeightIndex ctx =
        (runShim (NewLinearizeOnInitializeVM vm) calls,
          some Err.ErrHeightIndexedVMNotImplemented) ∧
      (runShim (NewLinearizeOnInitializeVM vm) calls).GetBlockIDAtHeight ctx height =
        (runShim (NewLinearizeOnInitializeVM vm) calls, 0,
          some Err.ErrHeightIndexedVMNotImplemented)) := by
  have h : (runShim (NewLinearizeOnInitializeVM vm) calls).hVM = vm.heightIndexed :=
    runShim_hVM calls _
  refine ⟨fun hVM hv => ?_, fun hv => ?_⟩
  · rw [hv] at h
    exact heightIndex_delegated _ hVM h ctx height
  · rw [hv] at h
    exact heightIndex_missing _ h ctx height

/-- The theorem `C25_height_index_delegated` on the VMs of the examples, after the stop
vertex was assigned and `VerifyHeightIndex` was called once: the indexed VM is asked and
its answers are returned, the other VM is not asked. -/
theorem C25_witness :
    ((runShim (NewLinearizeOnInitializeVM exampleIndexedVM)
        [ShimCall.stop 4, ShimCall.VerifyHeightIndex 1]).VerifyHeightIndex 7).2 =
      some (Err.external 7) ∧
    ((runShim (NewLinearizeOnInitializeVM exampleIndexedVM)
        [ShimCall.stop 4, ShimCall.VerifyHeightIndex 1]).GetBlockIDAtHeight 7 5).2 =
      (105, none) ∧
    ((runShim (NewLinearizeOnInitializeVM examplePlainVM)
        [ShimCall.stop 4, ShimCall.VerifyHeightIndex 1]).VerifyHeightIndex 7).2 =
      some Err.ErrHeightIndexedVMNotImplemented ∧
    ((runShim (NewLinearizeOnInitializeVM examplePlainVM)
        [ShimCall.stop 4, ShimCall.VerifyHeightIndex 1]).GetBlockIDAtHeight 7 5).2 =
      (0, some Err.ErrHeightIndexedVMNotImplemented) :=
  ⟨congrArg Prod.snd ((C25_height_index_delegated exampleIndexedVM
      [ShimCall.stop 4, ShimCall.VerifyHeightIndex 1] 7 5).1 _ rfl).1,
   congrArg Prod.snd ((C25_height_index_delegated exampleIndexedVM
      [ShimCall.stop 4, ShimCall.VerifyHeightIndex 1] 7 5).1 _ rfl).2,
   congrArg Prod.snd ((C25_height_index_delegated examplePlainVM
      [ShimCall.stop 4, ShimCall.VerifyHeightIndex 1] 7 5).2 rfl).1,
   congrArg Prod.snd ((C25_height_index_delegated examplePlainVM
      [ShimCall.stop 4, ShimCall.VerifyHeightIndex 1] 7 5).2 rfl).2⟩

end chains

/-! ## Theorems: beacon set -/

namespace beacon

/-! ### The beacon set -/

/-- The model of the beacon set passes the test `TestSet`: every assertion of the test
holds, in the order of the test. -/
theorem TestSet_replay :
    (Set.IDsArg testIDString NewSet = "" ∧ NewSet.IPsArg = "" ∧ NewSet.Len = 0) ∧
    (NewSet.Add (testBeacon 0)).2 = none ∧
    (Set.IDsArg testIDString testSet1 = "NodeID-111111111111111111116DBWJs" ∧
      testSet1.IPsArg = "0.0.0.0:0" ∧ testSet1.Len = 1) ∧
    (testSet1.Add (testBeacon 0)).2 = some Err.errDuplicateID ∧
    (Set.IDsArg testIDString testSet2 = "NodeID-111111111111111111116DBWJs" ∧
      testSet2.IPsArg = "0.0.0.0:0" ∧ testSet2.Len = 1) ∧
    (testSet2.Add (testBeacon 1)).2 = none ∧
    (Set.IDsArg testIDString testSet3 =
        "NodeID-111111111111111111116DBWJs,NodeID-6HgC8KRBEhXYbF4riJyJFLSHt37UNuRt" ∧
      testSet3.IPsArg = "0.0.0.0:0,0.0.0.0:1" ∧ testSet3.Len = 2) ∧
    (testSet3.Add (testBeacon 2)).2 = none ∧
    (Set.IDsArg testIDString testSet4 =
        "NodeID-111111111111111111116DBWJs,NodeID-6HgC8KRBEhXYbF4riJyJFLSHt37UNuRt,NodeID-BaMPFdqMUQ46BV8iRcwbVfsam55kMqcp" ∧
      testSet4.IPsArg = "0.0.0.0:0,0.0.0.0:1,0.0.0.0:2" ∧ testSet4.Len = 3) ∧
    (testSet4.RemoveByID (testBeacon 0).ID).2 = none ∧
    (Set.IDsArg testIDString testSet5 =
        "NodeID-BaMPFdqMUQ46BV8iRcwbVfsam55kMqcp,NodeID-6HgC8KRBEhXYbF4riJyJFLSHt37UNuRt" ∧
      testSet5.IPsArg = "0.0.0.0:2,0.0.0.0:1" ∧ testSet5.Len = 2) ∧
    (testSet5.RemoveByIP (testBeacon 1).IP).2 = none ∧
    (Set.IDsArg testIDString testSet6 = "NodeID-BaMPFdqMUQ46BV8iRcwbVfsam55kMqcp" ∧
      testSet6.IPsArg = "0.0.0.0:2" ∧ testSet6.Len = 1) := by
  decide

/-- C28: adding to a beacon set a beacon whose node id is already in the set fails with
`errDuplicateID` and leaves the set as it is, so that its length, the list of its node
ids and the list of its addresses are what they were before the call. -/
theorem C28_duplicate_Add_rejected (idString : NodeID → String) (s : Set) (b : Beacon)
    (h : ∃ x ∈ s.beacons, x.ID = b.ID) :
    (s.Add b).2 = some Err.errDuplicateID ∧
    (s.Add b).1 = s ∧
    (s.Add b).1.Len = s.Len ∧
    Set.IDsArg idString (s.Add b).1 = Set.IDsArg idString s ∧
    (s.Add b).1.IPsArg = s.IPsArg := by
  have hany : s.beacons.any (fun x => x.ID == b.ID) = true := by
    obtain ⟨x, hx, he⟩ := h
    rw [List.any_eq_true]
    exact ⟨x, hx, by simp [he]⟩
  have hadd : s.Add b = (s, some Err.errDuplicateID) := by
    unfold Set.Add
    rw [if_pos hany]
  rw [hadd]
  exact ⟨rfl, rfl, rfl, rfl, rfl⟩

/-- The theorem `C28_duplicate_Add_rejected` on the set of the test `TestSet` that
holds the beacon `b0`, to which `b0` is added again. -/
theorem C28_witness :
    (testSet1.Add (testBeacon 0)).2 = some Err.errDuplicateID ∧
    (testSet1.Add (testBeacon 0)).1.Len = 1 ∧
    Set.IDsArg testIDString (testSet1.Add (testBeacon 0)).1 =
      "NodeID-111111111111111111116DBWJs" ∧
    (testSet1.Add (testBeacon 0)).1.IPsArg = "0.0.0.0:0" :=
  ⟨(C28_duplicate_Add_rejected testIDString testSet1 (testBeacon 0)
      ⟨testBeacon 0, by decide, rfl⟩).1,
   (C28_duplicate_Add_rejected testIDString testSet1 (testBeacon 0)
      ⟨testBeacon 0, by decide, rfl⟩).2.2.1,
   (C28_duplicate_Add_rejected testIDString testSet1 (testBeacon 0)
      ⟨testBeacon 0, by decide, rfl⟩).2.2.2.1.trans (by decide),
   (C28_duplicate_Add_rejected testIDString testSet1 (testBeacon 0)
      ⟨testBeacon 0, by decide, rfl⟩).2.2.2.2.trans (by decide)⟩

end beacon
